import Mathlib

/-!
# sl_ow: the rollout simulator and the action selector

A shallow embedding of `game.go` (the board, `Game.SimulateGame`,
`Game.PublicCopy`, `Game.invalidatePlayer`, `Game.checkEndGame`), of
`action.go` / `player.go` (the action and direction constants,
`IsValidAction`) and of the collector and the selector that are written inline
in `main` (`main.go`).

Conventions of the embedding

* Go `int` is `Int`; the `int8(i)` conversion that stamps a cell is `toInt8`.
* A Go map is an association list; a `for k := range m` loop visits the entries
  in list order, so every statement that holds for all lists holds for every
  iteration order.
* A run-time panic (nil player, index out of range, call of a nil function
  value) is `none`; the unbounded `for` loop of `SimulateGame` takes fuel and
  reports `Outcome.outOfFuel` when the fuel is used up.
* The policies (`BadRandomAI`, `SuperRandomAI`) are not part of the embedded
  files; `SimulateGame` takes the answers as a parameter
  `ai round id board`, the answer that player `id` gives in round `round`
  when it is shown `board`.
* The speed of a player is a 64-bit Go `int`: `Speed++` and `Speed--` wrap around
  (`wrapInt`).
* A `float64` value is the number of its IEEE 754 bit pattern (`F64`); conversions and
  quotients round to the nearest value, ties to even.
-/

namespace SlOw

/-! ## Constants (`game.go`, `action.go`, `player.go`) -/

/-- FieldMaxSize contains the maximum size of the field. -/
def FieldMaxSize : Int := 80
/-- HolesEachStep holds after how many steps a hole might occur. -/
def HolesEachStep : Int := 6
/-- HoleSpeed contains the minimum speed needed for a hole. -/
def HoleSpeed : Int := 3
/-- MaxSpeed holds the maximum speed. -/
def MaxSpeed : Int := 10

def ActionTurnLeft : String := "turn_left"
def ActionTurnRight : String := "turn_right"
def ActionSlower : String := "slow_down"
def ActionFaster : String := "speed_up"
def ActionNOOP : String := "change_nothing"

/-- IsValidAction returns whether a string is a valid action. -/
def IsValidAction (a : String) : Bool :=
  a == ActionTurnLeft || a == ActionTurnRight || a == ActionSlower || a == ActionFaster
    || a == ActionNOOP

def DirectionUp : String := "up"
def DirectionDown : String := "down"
def DirectionLeft : String := "left"
def DirectionRight : String := "right"

/-! ## Data model -/

/-- Player of `player.go`; the `ai` field is the policy parameter of `SimulateGame`. -/
structure Player where
  X : Int
  Y : Int
  Direction : String
  Speed : Int
  Active : Bool
  Name : String
  stepCounter : Int
deriving DecidableEq, Repr

/-- Game of `game.go`. `Players` is the Go map `map[int]*Player`. -/
structure Game where
  Width : Int
  Height : Int
  Cells : List (List Int)
  Players : List (Int × Player)
  You : Int
  Running : Bool
  Deadline : String
  playerAnswer : List String
deriving DecidableEq, Repr

/-- The record that `SimulateGame` sends to the result channel. -/
structure Result where
  action : String
  win : Bool
  survived : Int
  survivdedOpponent : Int
  round : Int
deriving DecidableEq, Repr

/-- How a run of the simulator ends. -/
inductive Outcome (α : Type) where
  | done (a : α)
  | panicked
  | outOfFuel
deriving DecidableEq, Repr

/-- The answers of the policies: `ai round id board`. -/
abbrev Policy := Int → Int → Game → String

/-! ## Primitive accesses -/

/-- The conversion `int8(i)`. -/
def toInt8 (i : Int) : Int := (i + 128) % 256 - 128

/-- Map access `g.Players[k]`: `none` is the nil pointer. -/
def getPlayer : List (Int × Player) → Int → Option Player
  | [], _ => none
  | (i, p) :: rest, k => if i = k then some p else getPlayer rest k

/-- Read of `g.Cells[y][x]`; `none` is an index out of range. -/
def getCell (cells : List (List Int)) (y x : Int) : Option Int :=
  if y < 0 ∨ x < 0 then none
  else
    match cells[y.toNat]? with
    | none => none
    | some row => row[x.toNat]?

/-- Write `g.Cells[y][x] = v`; `none` is an index out of range. -/
def setCell (cells : List (List Int)) (y x : Int) (v : Int) : Option (List (List Int)) :=
  if y < 0 ∨ x < 0 then none
  else
    match cells[y.toNat]? with
    | none => none
    | some row =>
      if x.toNat < row.length then some (cells.set y.toNat (row.set x.toNat v)) else none

/-- Effect of `g.invalidatePlayer(i)` on the record of player `i`. -/
def invalidatePlayer (p : Player) : Player := { p with Active := false }

/-- PublicCopy returns a copy of the game with all private fields set to zero
(`stepCounter` is copied as well). The cells are copied row by row, as in the branch
for `internalCellsFlat == nil`. -/
def Game.PublicCopy (g : Game) : Game :=
  { Width := g.Width
    Height := g.Height
    Cells := g.Cells
    Players := g.Players.map (fun kp =>
      (kp.1, { X := kp.2.X, Y := kp.2.Y, Direction := kp.2.Direction, Speed := kp.2.Speed,
               Active := kp.2.Active, Name := kp.2.Name, stepCounter := kp.2.stepCounter }))
    You := g.You
    Running := g.Running
    Deadline := g.Deadline
    playerAnswer := [] }

/-- Number of active players. -/
def numberActive : List (Int × Player) → Nat
  | [] => 0
  | (_, p) :: rest => (if p.Active then 1 else 0) + numberActive rest

/-- checkEndGame of `game.go`. -/
def Game.checkEndGame (g : Game) : Bool := decide (numberActive g.Players ≤ 1)

/-! ## One round of `SimulateGame` -/

/-- The loop over the opponents at the start of a round (lines 91-99):
the first key different from `you` ends the loop, and the counter grows there
iff `g.Players[g.You].Active`. -/
def countOpponent (you : Int) (youActive : Bool) : List (Int × Player) → Int → Int
  | [], opp => opp
  | (i, _) :: rest, opp =>
    if i = you then countOpponent you youActive rest opp
    else if youActive then opp + 1
    else countOpponent you youActive rest opp

/-- The answer stored in `g.playerAnswer[i]` (lines 101-128). -/
def answerFor (ai : Policy) (next : String) (g : Game) (first : Bool) (round : Int) (i : Nat) :
    Option String :=
  if (i : Int) + 1 = g.You ∧ first = true then some next
  else
    match getPlayer g.Players ((i : Int) + 1) with
    | none => none
    | some p =>
      if p.Active then some (ai round ((i : Int) + 1) { g.PublicCopy with You := (i : Int) + 1 })
      else some ""

/-- The loop `for i := range g.playerAnswer` over the indices `is`. -/
def collectAnswers (ai : Policy) (next : String) (g : Game) (first : Bool) (round : Int) :
    List Nat → Option (List String)
  | [] => some []
  | i :: rest =>
    match answerFor ai next g first round i with
    | none => none
    | some a =>
      match collectAnswers ai next g first round rest with
      | none => none
      | some as => some (a :: as)

/-- Read of `g.playerAnswer[i-1]`. -/
def getAnswer (answers : List String) (i : Int) : Option String :=
  if i - 1 < 0 then none else answers[(i - 1).toNat]?

def turnLeft (d : String) : String :=
  if d = DirectionLeft then DirectionDown
  else if d = DirectionRight then DirectionUp
  else if d = DirectionUp then DirectionLeft
  else if d = DirectionDown then DirectionRight
  else d

def turnRight (d : String) : String :=
  if d = DirectionLeft then DirectionUp
  else if d = DirectionRight then DirectionDown
  else if d = DirectionUp then DirectionRight
  else if d = DirectionDown then DirectionLeft
  else d

/-- The value of a Go `int` (64 bits, two's complement) that holds the result `i` of an
addition or subtraction: the result wraps around at `2^63`. -/
def wrapInt (i : Int) : Int :=
  (i + 9223372036854775808) % 18446744073709551616 - 9223372036854775808

/-- The largest value of a Go `int`, `2^63 - 1`. -/
def maxInt : Int := 9223372036854775807

/-- The `switch g.playerAnswer[i-1]` of "Process Actions" (lines 134-173); `Speed++` and
`Speed--` are operations on a Go `int`. -/
def processAction (a : String) (p : Player) : Player :=
  if a = "" then invalidatePlayer p
  else if a = ActionTurnLeft then { p with Direction := turnLeft p.Direction }
  else if a = ActionTurnRight then { p with Direction := turnRight p.Direction }
  else if a = ActionFaster then
    let p1 := { p with Speed := wrapInt (p.Speed + 1) }
    if p1.Speed > MaxSpeed then invalidatePlayer p1 else p1
  else if a = ActionSlower then
    let p1 := { p with Speed := wrapInt (p.Speed - 1) }
    if p1.Speed < 1 then invalidatePlayer p1 else p1
  else if a = ActionNOOP then p
  else invalidatePlayer p

/-- The loop "Process Actions" over the players. -/
def processActions (answers : List String) : List (Int × Player) → Option (List (Int × Player))
  | [] => some []
  | (i, p) :: rest =>
    match getAnswer answers i with
    | none => none
    | some a =>
      match processActions answers rest with
      | none => none
      | some rest1 => some ((i, processAction a p) :: rest1)

/-- The function value `dostep` applied to `(x, y)`; `none` is the nil function. -/
def dostep (d : String) (x y : Int) : Option (Int × Int) :=
  if d = DirectionUp then some (x, y - 1)
  else if d = DirectionDown then some (x, y + 1)
  else if d = DirectionLeft then some (x - 1, y)
  else if d = DirectionRight then some (x + 1, y)
  else none

/-- The function value `dostepback` applied to `(x, y)`; `none` is the nil function. -/
def dostepback (d : String) (x y : Int) : Option (Int × Int) :=
  if d = DirectionUp then some (x, y + 1)
  else if d = DirectionDown then some (x, y - 1)
  else if d = DirectionLeft then some (x + 1, y)
  else if d = DirectionRight then some (x - 1, y)
  else none

/-- The hole test of lines 201 and 234. -/
def isHole (p : Player) (s : Int) : Bool :=
  decide (p.Speed ≥ HoleSpeed) && decide (Int.tmod p.stepCounter HolesEachStep = 0)
    && decide (s ≠ 0) && decide (s ≠ p.Speed - 1)

/-- The loop `for s := 0; s < Speed; s++` of "Do Movement" (lines 195-209), with
`n` iterations left. -/
def moveLoop (width height : Int) (i : Int) :
    Nat → Int → List (List Int) → Player → Option (List (List Int) × Player)
  | 0, _, cells, p => some (cells, p)
  | n + 1, s, cells, p =>
    match dostep p.Direction p.X p.Y with
    | none => none
    | some (x, y) =>
      let p1 := { p with X := x, Y := y }
      if p1.X < 0 ∨ p1.X ≥ width ∨ p1.Y < 0 ∨ p1.Y ≥ height then
        some (cells, invalidatePlayer p1)
      else if isHole p1 s then moveLoop width height i n (s + 1) cells p1
      else
        match getCell cells p1.Y p1.X with
        | none => none
        | some v =>
          match setCell cells p1.Y p1.X (if v ≠ 0 then -1 else toInt8 i) with
          | none => none
          | some cells1 => moveLoop width height i n (s + 1) cells1 p1

/-- The body of "Do Movement" for one player (lines 178-209). -/
def movePlayer (width height : Int) (i : Int) (cells : List (List Int)) (p : Player) :
    Option (List (List Int) × Player) :=
  if p.Active = false then some (cells, p)
  else
    let p1 := { p with stepCounter := p.stepCounter + 1 }
    moveLoop width height i p1.Speed.toNat 0 cells p1

/-- The loop "Do Movement" over the players. -/
def doMovement (width height : Int) :
    List (List Int) → List (Int × Player) → Option (List (List Int) × List (Int × Player))
  | cells, [] => some (cells, [])
  | cells, (i, p) :: rest =>
    match movePlayer width height i cells p with
    | none => none
    | some (cells1, p1) =>
      match doMovement width height cells1 rest with
      | none => none
      | some (cells2, rest1) => some (cells2, (i, p1) :: rest1)

/-- The loop `for s := 0; s < Speed; s++` of "Check crash" (lines 231-242), with
`n` iterations left, at the cell `(backX, backY)`. -/
def crashLoop (cells : List (List Int)) (p : Player) : Nat → Int → Int → Int → Option Player
  | 0, _, _, _ => some p
  | n + 1, s, backX, backY =>
    match getCell cells backY backX with
    | none => none
    | some v =>
      if v = -1 ∧ isHole p s = false then some (invalidatePlayer p)
      else
        match dostepback p.Direction backX backY with
        | none => none
        | some (x, y) => crashLoop cells p n (s + 1) x y

/-- The body of "Check crash" for one player (lines 214-242). -/
def crashPlayer (cells : List (List Int)) (p : Player) : Option Player :=
  if p.Active = false then some p
  else crashLoop cells p p.Speed.toNat 0 p.X p.Y

/-- The loop "Check crash" over the players. -/
def checkCrash (cells : List (List Int)) : List (Int × Player) → Option (List (Int × Player))
  | [] => some []
  | (i, p) :: rest =>
    match crashPlayer cells p with
    | none => none
    | some p1 =>
      match checkCrash cells rest with
      | none => none
      | some rest1 => some ((i, p1) :: rest1)

/-- The loop that looks for the winner (lines 246-256), entered with `winner`. -/
def findWinner : List (Int × Player) → Int → Int
  | [], winner => winner
  | (i, p) :: rest, winner =>
    if p.Active then
      if winner = -1 then findWinner rest i else -1
    else findWinner rest winner

/-- The flag `playerAlive` (lines 259-264). -/
def playerAlive : List (Int × Player) → Bool
  | [] => false
  | (_, p) :: rest => p.Active || playerAlive rest

/-- The local variables of `SimulateGame` together with the board. -/
structure LoopState where
  g : Game
  first : Bool
  round : Int
  survived : Int
  survivedOpponent : Int
  winner : Int
deriving DecidableEq, Repr

/-- The board after the phases "collect actions" and "Process Actions" of a round
that starts in `st` (lines 100-174). -/
def afterActions (ai : Policy) (next : String) (st : LoopState) : Option Game :=
  match collectAnswers ai next st.g st.first (st.round + 1) (List.range st.g.Players.length) with
  | none => none
  | some answers =>
    match processActions answers st.g.Players with
    | none => none
    | some ps => some { st.g with playerAnswer := answers, Players := ps }

/-- The board after "Do Movement" and "Check crash" (lines 176-243). -/
def moveAndCrash (g : Game) : Option Game :=
  match doMovement g.Width g.Height g.Cells g.Players with
  | none => none
  | some (cells, ps) =>
    match checkCrash cells ps with
    | none => none
    | some ps1 => some { g with Cells := cells, Players := ps1 }

/-- One pass through the body of the loop `mainGame` (lines 87-264), without the
final `break`. -/
def roundBody (ai : Policy) (next : String) (st : LoopState) : Option LoopState :=
  match getPlayer st.g.Players st.g.You with
  | none => none
  | some you =>
    let survived := if you.Active then st.survived + 1 else st.survived
    let survivedOpponent := countOpponent st.g.You you.Active st.g.Players st.survivedOpponent
    match afterActions ai next st with
    | none => none
    | some g1 =>
      match moveAndCrash g1 with
      | none => none
      | some g2 =>
        some { g := g2
               first := false
               round := st.round + 1
               survived := survived
               survivedOpponent := survivedOpponent
               winner := if st.winner = -1 then findWinner g2.Players st.winner else st.winner }

/-- The loop `mainGame`: rounds are played until no player is alive. -/
def mainGame (ai : Policy) (next : String) : Nat → LoopState → Outcome LoopState
  | 0, _ => Outcome.outOfFuel
  | fuel + 1, st =>
    match roundBody ai next st with
    | none => Outcome.panicked
    | some st1 => if playerAlive st1.g.Players then mainGame ai next fuel st1 else Outcome.done st1

/-- The locals at the entry of the loop (lines 80-84). -/
def initState (g : Game) : LoopState :=
  { g := g, first := true, round := 0, survived := -1, survivedOpponent := -1, winner := -1 }

/-- The record sent after the loop (lines 270-282). -/
def finish (next : String) (st : LoopState) : Result × Game :=
  ({ action := next
     win := decide (st.winner = st.g.You)
     survived := if st.winner = st.g.You then st.round else st.survived
     survivdedOpponent := st.survivedOpponent
     round := st.round },
   { st.g with Running := false })

/-- The record with which `SimulateGame` cuts off (lines 56-62 and 66-72). -/
def cutoffResult (next : String) : Result :=
  { action := next, win := false, survived := 0, survivdedOpponent := 0, round := 0 }

/-- Evaluation of `g.Players[g.You].Speed == v`; `none` is the nil pointer. -/
def youSpeedIs (g : Game) (v : Int) : Option Bool :=
  match getPlayer g.Players g.You with
  | none => none
  | some you => some (decide (you.Speed = v))

/-- Lines 76-282 of `SimulateGame`: the loop and the record sent after it. -/
def playRounds (fuel : Nat) (ai : Policy) (g : Game) (next : String) : Outcome (Result × Game) :=
  match mainGame ai next fuel (initState g) with
  | Outcome.done st => Outcome.done (finish next st)
  | Outcome.panicked => Outcome.panicked
  | Outcome.outOfFuel => Outcome.outOfFuel

/-- SimulateGame simulates a full run of the game; the value is the record sent to
the channel and the board as the call leaves it. -/
def SimulateGame (fuel : Nat) (ai : Policy) (g : Game) (next : String) :
    Outcome (Result × Game) :=
  match (if next = ActionSlower then youSpeedIs g 1 else some false) with
  | none => Outcome.panicked
  | some true => Outcome.done (cutoffResult next, g)
  | some false =>
    match (if next = ActionFaster then youSpeedIs g MaxSpeed else some false) with
    | none => Outcome.panicked
    | some true => Outcome.done (cutoffResult next, g)
    | some false => playRounds fuel ai g next

/-! ## The collector and the selector (`main.go`, lines 289-374) -/

/-- The value type of the map `GameData.Collect`. `Run` and `Won` are counters that
start at zero and only grow; `SurvivedList` is read by the display only and is left
out. -/
structure Stats where
  Run : Nat
  Won : Nat
  Survived : Int
  SurvivdedOpponent : Int
  Round : Int
  LongestOpponent : Int
deriving DecidableEq, Repr

/-- The fields of `GameData` that the collector and the selector use. -/
structure GameData where
  Collect : List (String × Stats)
  LongestWin : Int
  LongestWinAction : String
  Longest : Int
  LongestAction : String
  Action : String
  Reason : String
deriving DecidableEq, Repr

def zeroStats : Stats :=
  { Run := 0, Won := 0, Survived := 0, SurvivdedOpponent := 0, Round := 0, LongestOpponent := 0 }

/-- Map read `data.Collect[a]`: the zero value when the key is missing. -/
def getStats : List (String × Stats) → String → Stats
  | [], _ => zeroStats
  | (k, d) :: rest, a => if k = a then d else getStats rest a

/-- Map write `data.Collect[a] = d`. -/
def setStats : List (String × Stats) → String → Stats → List (String × Stats)
  | [], a, d => [(a, d)]
  | (k, d0) :: rest, a, d => if k = a then (k, d) :: rest else (k, d0) :: setStats rest a d

/-- The `GameData` of a turn before the first record arrives (lines 253-272). -/
def newData : GameData :=
  { Collect := [], LongestWin := 0, LongestWinAction := "", Longest := 0, LongestAction := "",
    Action := "nothing", Reason := "" }

/-- The collector's work on one record `r` (lines 293-313). -/
def collectResult (data : GameData) (r : Result) : GameData :=
  let d := getStats data.Collect r.action
  let d := { d with Run := d.Run + 1 }
  let d := if r.win then { d with Won := d.Won + 1 } else d
  let data :=
    if r.win = true ∧ r.survived > data.LongestWin then
      { data with LongestWin := r.survived, LongestWinAction := r.action }
    else data
  let data :=
    if r.survived > data.Longest then
      { data with Longest := r.survived, LongestAction := r.action }
    else data
  let d :=
    if r.survivdedOpponent > d.LongestOpponent then
      { d with LongestOpponent := r.survivdedOpponent }
    else d
  let d := { d with Survived := d.Survived + r.survived,
                    SurvivdedOpponent := d.SurvivdedOpponent + r.survivdedOpponent,
                    Round := d.Round + r.round }
  { data with Collect := setStats data.Collect r.action d }

/-- The collector: the records `rs` are those received before the deadline, in the
order of their arrival. -/
def collector (rs : List Result) : GameData := rs.foldl collectResult newData

/-! ### The type `float64`

The selector compares quotients of `float64` values. A finite `float64` value is
modelled by its IEEE 754 bit pattern read as a number: the value `x ≥ 0` with exponent
field `E` and fraction field `F` is the number `E * 2^52 + F`, and `-x` is the negative
of that number. The order of these numbers is the order of the values. Conversions and
quotients round to the nearest value, ties to the even fraction. Infinities and NaN are
not modelled: they arise neither from a Go `int` nor from the quotient of two such
conversions with a divisor other than 0. -/

/-- A finite `float64` value: the number of its bit pattern, with the sign in front. -/
abbrev F64 := Int

/-- The number of binary digits of `n`, with `fuel` steps (`n` steps are enough). -/
def bitLen : Nat → Nat → Nat
  | 0, _ => 0
  | fuel + 1, n => if n = 0 then 0 else bitLen fuel (n / 2) + 1

/-- The integer nearest to `n / d`; of two integers equally near, the even one. -/
def roundHalfEven (n d : Nat) : Nat :=
  if 2 * (n % d) > d ∨ (2 * (n % d) = d ∧ (n / d) % 2 = 1) then n / d + 1 else n / d

/-- The integer `e` with `2^e ≤ n / d < 2^(e+1)`, for `n, d > 0`. -/
def ilog2 (n d : Nat) : Int :=
  let k : Int := (bitLen n n : Int) - (bitLen d d : Int)
  if d * 2 ^ k.toNat ≤ n * 2 ^ (-k).toNat then k else k - 1

/-- The bit pattern of the `float64` value nearest to `n / d` (`d > 0`): below `2^-1022`
the values are the multiples of `2^-1074`; from there on a value has the exponent field
`e + 1023` for `2^e ≤ n / d < 2^(e+1)` and 53 significant bits. -/
def f64bits (n d : Nat) : Nat :=
  if n = 0 then 0
  else if ilog2 n d < -1022 then roundHalfEven (n * 2 ^ 1074) d
  else
    (ilog2 n d + 1022).toNat * 2 ^ 52 +
      roundHalfEven (n * 2 ^ (52 - ilog2 n d).toNat) (d * 2 ^ (ilog2 n d - 52).toNat)

/-- The value of a bit pattern, as a numerator and a denominator. -/
def f64val (b : Nat) : Nat × Nat :=
  if b / 2 ^ 52 ≤ 1 then (b, 2 ^ 1074)
  else ((2 ^ 52 + b % 2 ^ 52) * 2 ^ (b / 2 ^ 52 - 1075), 2 ^ (1075 - b / 2 ^ 52))

/-- The `float64` value nearest to the fraction `n / d` (`d > 0`); the value of a decimal
constant such as `0.85`, which is `85 / 100`. -/
def float64Const (n : Int) (d : Nat) : F64 :=
  if n < 0 then -((f64bits n.natAbs d : Nat) : Int) else ((f64bits n.natAbs d : Nat) : Int)

/-- The conversion `float64(i)` of a Go `int`. -/
def float64 (i : Int) : F64 := float64Const i 1

/-- The quotient `a / b` of two `float64` values, for `b` other than 0. -/
def f64div (a b : F64) : F64 :=
  if (a < 0 ∧ 0 < b) ∨ (0 < a ∧ b < 0) then
    -((f64bits ((f64val a.natAbs).1 * (f64val b.natAbs).2)
        ((f64val a.natAbs).2 * (f64val b.natAbs).1) : Nat) : Int)
  else
    ((f64bits ((f64val a.natAbs).1 * (f64val b.natAbs).2)
        ((f64val a.natAbs).2 * (f64val b.natAbs).1) : Nat) : Int)

/-- The loop of the win-rate rule (lines 332-343) over the entries `it`. -/
def winLoop : List (String × Stats) → GameData → F64 → GameData
  | [], data, _ => data
  | (k, d) :: rest, data, best =>
    if d.Run = 0 then winLoop rest data best
    else
      let winchance : F64 := f64div (float64 d.Won) (float64 d.Run)
      if winchance > float64Const 85 100 ∧ winchance > best then
        winLoop rest { data with Reason := "win > 85%", Action := k } winchance
      else winLoop rest data best

/-- The win-rate rule (lines 329-344); `it` is the order in which the map is visited. -/
def winRule (it : List (String × Stats)) (data : GameData) : GameData :=
  if data.Action = "nothing" then winLoop it data 0 else data

/-- The loop of the average-survival rule (lines 349-360) over the entries `it`. -/
def averageLoop : List (String × Stats) → GameData → F64 → GameData
  | [], data, _ => data
  | (k, d) :: rest, data, best =>
    if d.Run = 0 then averageLoop rest data best
    else
      let averageLength : F64 := f64div (float64 d.Survived) (float64 d.Run)
      if averageLength > best ∧ f64div (float64 d.Won) (float64 d.Run) > float64Const 1 10 then
        averageLoop rest { data with Action := k, Reason := "average length" } averageLength
      else averageLoop rest data best

/-- The average-survival rule (lines 346-361). -/
def averageRule (it : List (String × Stats)) (data : GameData) : GameData :=
  if data.Action = "nothing" then averageLoop it data 0 else data

/-- The longest-path rule (lines 363-369). -/
def longestRule (data : GameData) : GameData :=
  if data.Action = "nothing" then
    if data.LongestAction ≠ "" then
      { data with Action := data.LongestAction, Reason := "longest path" }
    else data
  else data

/-- The fallback (lines 371-374). -/
def fallbackRule (data : GameData) : GameData :=
  if data.Action = "nothing" then { data with Action := ActionNOOP, Reason := "fallback" }
  else data

/-- The selector (lines 329-374). The two loops over `data.Collect` visit the map in
the orders `it1` and `it2`. -/
def selector (it1 it2 : List (String × Stats)) (data : GameData) : GameData :=
  fallbackRule (longestRule (averageRule it2 (winRule it1 data)))

/-! ## Notions used to state the properties -/

/-- The locals and the board after `k` passes through the loop body. -/
def roundsFrom (ai : Policy) (next : String) : Nat → LoopState → Option LoopState
  | 0, st => some st
  | k + 1, st =>
    match roundsFrom ai next k st with
    | none => none
    | some s => roundBody ai next s

/-- The state at the end of round `k` of the rollout on `g` (at the start of round
`k + 1`). -/
def stateAfter (ai : Policy) (next : String) (g : Game) (k : Nat) : Option LoopState :=
  roundsFrom ai next k (initState g)

/-- Round `n` is the first round of the rollout at whose end no player is active, and
`st` is the state at its end. -/
def EndsAt (ai : Policy) (next : String) (g : Game) (n : Nat) (st : LoopState) : Prop :=
  1 ≤ n ∧ stateAfter ai next g n = some st ∧ playerAlive st.g.Players = false ∧
  ∀ k s, 1 ≤ k → k < n → stateAfter ai next g k = some s → playerAlive s.g.Players = true

/-- The test of the early cut-offs (lines 55 and 65). -/
def cutsOff (g : Game) (next : String) : Bool :=
  match getPlayer g.Players g.You with
  | none => false
  | some you =>
    (next == ActionSlower && you.Speed == 1) || (next == ActionFaster && you.Speed == MaxSpeed)

/-- The self-player is active on the board of `st`. -/
def selfActive (st : LoopState) : Bool :=
  match getPlayer st.g.Players st.g.You with
  | none => false
  | some you => you.Active

/-- Some player other than the self-player is active on the board of `st`. -/
def opponentActive (st : LoopState) : Bool :=
  st.g.Players.any (fun kp => decide (kp.1 ≠ st.g.You) && kp.2.Active)

/-- Some key of the player map is not the self-player's. -/
def hasOtherPlayer (st : LoopState) : Bool :=
  st.g.Players.any (fun kp => decide (kp.1 ≠ st.g.You))

/-- The number of rounds among `1..n` at whose start `test` holds. -/
def roundsWhere (ai : Policy) (next : String) (g : Game) (test : LoopState → Bool) (n : Nat) : Nat :=
  ((List.range n).filter (fun k =>
    match stateAfter ai next g k with
    | none => false
    | some s => test s)).length

/-- The unit step of a direction, `none` for a string that is no direction. -/
def dirVec (d : String) : Option (Int × Int) :=
  if d = DirectionUp then some (0, -1)
  else if d = DirectionDown then some (0, 1)
  else if d = DirectionLeft then some (-1, 0)
  else if d = DirectionRight then some (1, 0)
  else none

/-- The player `p` (as it stands after "Process Actions") enters the cell `(cx, cy)`
with step `s` of its move in this round: it is active, `s < Speed`, the cell is the
`(s+1)`-th cell ahead, the steps `0..s` all stay on the board, and step `s` is not a
hole step. -/
def EntersAt (width height : Int) (p : Player) (s : Nat) (cx cy : Int) : Prop :=
  ∃ dx dy, dirVec p.Direction = some (dx, dy) ∧ p.Active = true ∧ (s : Int) < p.Speed ∧
    cx = p.X + ((s : Int) + 1) * dx ∧ cy = p.Y + ((s : Int) + 1) * dy ∧
    (∀ t : Nat, t ≤ s →
      0 ≤ p.X + ((t : Int) + 1) * dx ∧ p.X + ((t : Int) + 1) * dx < width ∧
      0 ≤ p.Y + ((t : Int) + 1) * dy ∧ p.Y + ((t : Int) + 1) * dy < height) ∧
    isHole { p with stepCounter := p.stepCounter + 1 } s = false

/-- No cell is re-opened or re-stamped: a cell of `c` that is not empty holds the same
value or `-1` in `c1`. -/
def CellsKept (c c1 : List (List Int)) : Prop :=
  ∀ y x v, getCell c y x = some v → ∃ v1, getCell c1 y x = some v1 ∧ (v ≠ 0 → v1 = v ∨ v1 = -1)

/-! ## Boards of the scenarios -/

/-- The win rate of an action as the selector computes it:
`float64(d.Won) / float64(d.Run)`. -/
def winRate (d : Stats) : F64 := f64div (float64 d.Won) (float64 d.Run)

/-- The mean survival of an action as the selector computes it:
`float64(d.Survived) / float64(d.Run)`. -/
def meanSurvival (d : Stats) : F64 := f64div (float64 d.Survived) (float64 d.Run)

/-- The win rate `won/run` of the specification, an exact fraction. -/
def exactWinRate (d : Stats) : ℚ := (d.Won : ℚ) / (d.Run : ℚ)

/-- The mean survival `survived/run` of the specification, an exact fraction. -/
def exactMeanSurvival (d : Stats) : ℚ := (d.Survived : ℚ) / (d.Run : ℚ)

/-- The aggregate of an action with the given run count, win count and summed
survival. -/
def mkStats (run won : Nat) (survived : Int) : Stats :=
  { Run := run, Won := won, Survived := survived, SurvivdedOpponent := 0, Round := 0,
    LongestOpponent := 0 }

/-- Scenario "selector tier 1". -/
def tierOneCollect : List (String × Stats) :=
  [(ActionNOOP, mkStats 100 90 0), (ActionTurnLeft, mkStats 100 95 0),
   (ActionTurnRight, mkStats 100 10 0)]

/-- Scenario "selector tier 2": `change_nothing` has mean 40 and win rate 0.12,
`turn_left` has mean 50 and win rate 0.05. -/
def tierTwoCollect : List (String × Stats) :=
  [(ActionNOOP, mkStats 100 12 4000), (ActionTurnLeft, mkStats 100 5 5000)]


/-- The policy that answers `change_nothing` in every round. -/
def aiNoop : Policy := fun _ _ _ => ActionNOOP

def mkPlayer (x y : Int) (d : String) (speed stepCounter : Int) : Player :=
  { X := x, Y := y, Direction := d, Speed := speed, Active := true, Name := "",
    stepCounter := stepCounter }

/-- Scenario "trivial win": 5x1, empty, one player at (0,0) facing right. -/
def trivialBoard : Game :=
  { Width := 5, Height := 1, Cells := [[0, 0, 0, 0, 0]],
    Players := [(1, mkPlayer 0 0 DirectionRight 1 0)], You := 1,
    Running := true, Deadline := "", playerAnswer := [] }

/-- Scenario "head-on tie": 5x1, A at (0,0) facing right, B at (4,0) facing left. -/
def headOnBoard : Game :=
  { Width := 5, Height := 1, Cells := [[1, 0, 0, 0, 2]],
    Players := [(1, mkPlayer 0 0 DirectionRight 1 0), (2, mkPlayer 4 0 DirectionLeft 1 0)],
    You := 1, Running := true, Deadline := "", playerAnswer := [] }

/-- A 5x2 board on which the self-player (player 1) faces the left edge and player 2
has four free cells ahead. -/
def selfLeavesBoard : Game :=
  { Width := 5, Height := 2, Cells := [[1, 0, 0, 0, 0], [2, 0, 0, 0, 0]],
    Players := [(1, mkPlayer 0 0 DirectionLeft 1 0), (2, mkPlayer 0 1 DirectionRight 1 0)],
    You := 1, Running := true, Deadline := "", playerAnswer := [] }

/-! ## Notions used to state the movement claims -/

/-- The value that a step writes into a cell that holds `v` (lines 204-208). -/
def stampValue (i v : Int) : Int := if v ≠ 0 then -1 else toInt8 i

/-- The cell `(x, y)` lies on the board. -/
def InBoard (width height x y : Int) : Prop := 0 ≤ x ∧ x < width ∧ 0 ≤ y ∧ y < height

/-- The lengths of the rows. -/
def shape (cells : List (List Int)) : List Nat := cells.map List.length

/-- The cells are `height` rows of `width` cells. -/
def CellsSized (width height : Int) (cells : List (List Int)) : Prop :=
  0 ≤ width ∧ 0 ≤ height ∧ shape cells = List.replicate height.toNat width.toNat

/-- Step `t` of the remaining `n` steps of `p` (which stands at the cell before them and
moves by `(dx, dy)`; the loop index of the next step is `s`) is made on the board,
enters `(x, y)` and is no hole step: the step loop stamps `(x, y)`. -/
def StampsCell (w h : Int) (p : Player) (dx dy : Int) (s : Int) (n : Nat) (x y : Int) : Prop :=
  ∃ t : Nat, t < n ∧ x = p.X + ((t : Int) + 1) * dx ∧ y = p.Y + ((t : Int) + 1) * dy ∧
    (∀ u : Nat, u ≤ t →
      InBoard w h (p.X + ((u : Int) + 1) * dx) (p.Y + ((u : Int) + 1) * dy)) ∧
    isHole p (s + t) = false

/-- Step `t` (counted from 0) of a move at speed `speed` in a round in which the step
counter, after its increment, is `counter`, is a hole step. -/
def HoleIndex (speed counter t : Int) : Prop :=
  speed ≥ 3 ∧ counter % 6 = 0 ∧ 1 ≤ t ∧ t ≤ speed - 2

/-- Scenario "hole jump": 9x1, cells 2..6 occupied, A at (0,0) facing right with speed 7
and step counter 5. -/
def holeBoard : Game :=
  { Width := 9, Height := 1, Cells := [[0, 0, 2, 2, 2, 2, 2, 0, 0]],
    Players := [(1, mkPlayer 0 0 DirectionRight 7 5)], You := 1,
    Running := true, Deadline := "", playerAnswer := [] }

/-- The largest key of the player map (0 for the empty map). -/
def maxPlayerId (ps : List (Int × Player)) : Int := (ps.map Prod.fst).foldr max 0

/-- Every cell holds `-1` or a value of `0..m`. -/
def CellsInRange (m : Int) (cells : List (List Int)) : Prop :=
  ∀ row ∈ cells, ∀ v ∈ row, v = -1 ∨ (0 ≤ v ∧ v ≤ m)

/-- The number of empty cells. -/
def emptyCells (cells : List (List Int)) : Nat := (cells.map (fun row => row.count 0)).sum

/-- The keys of the player map are the ids `1..len(players)`: every key lies in that
range and every id of that range is a key. -/
def ContiguousIds (ps : List (Int × Player)) : Prop :=
  (∀ kp ∈ ps, 1 ≤ kp.1 ∧ kp.1 ≤ ps.length) ∧
    ∀ j ∈ List.range ps.length, (getPlayer ps ((j : Int) + 1)).isSome = true

/-- A board with the player ids 1 and 3: 5x2, player 1 at (0,0) and player 3 at (0,1),
both facing right. -/
def gapBoard : Game :=
  { Width := 5, Height := 2, Cells := [[1, 0, 0, 0, 0], [3, 0, 0, 0, 0]],
    Players := [(1, mkPlayer 0 0 DirectionRight 1 0), (3, mkPlayer 0 1 DirectionRight 1 0)],
    You := 1, Running := true, Deadline := "", playerAnswer := [] }

/-- Every active player has one of the four directions and a speed of at least 1 and
below `maxInt`, the largest Go `int`. -/
def PlayersReady (ps : List (Int × Player)) : Prop :=
  ∀ kp ∈ ps, kp.2.Active = true →
    (dirVec kp.2.Direction).isSome = true ∧ 1 ≤ kp.2.Speed ∧ kp.2.Speed < maxInt

/-- The invariants of the data model on which `SimulateGame` relies: the cells are
`Height` rows of `Width` cells, the player ids are `1..n` with `n ≤ 127`, `You` is one of
them, and every active player has a direction and a speed of at least 1 and below
`maxInt`. -/
def ValidBoard (g : Game) : Prop :=
  CellsSized g.Width g.Height g.Cells ∧ ContiguousIds g.Players ∧ g.Players.length ≤ 127 ∧
    (getPlayer g.Players g.You).isSome = true ∧ PlayersReady g.Players

/-! ## The flood fill `freeSpaceConnected` (`game.go`, lines 355-405) -/

/-- Read of `g.freeCountingSlice[cell]`; `none` is an index out of range. -/
def getFlag (vis : List Bool) (cell : Int) : Option Bool :=
  if cell < 0 then none else vis[cell.toNat]?

/-- The recursion `freeSpaceConnectedInternal`; `vis` is `g.freeCountingSlice`, the
value is the new count and the slice as the call leaves it. The fuel bounds the depth
of the recursion. -/
def freeSpaceConnectedInternal (g : Game) :
    Nat → List Bool → Int → Int → Int → Int → Outcome (Int × List Bool)
  | 0, _, _, _, _, _ => Outcome.outOfFuel
  | fuel + 1, vis, x, y, cutoff, current =>
    if cutoff ≠ -1 ∧ current > cutoff then Outcome.done (current, vis)
    else if x < 0 ∨ x ≥ g.Width ∨ y < 0 ∨ y ≥ g.Height then Outcome.done (current, vis)
    else
      match getFlag vis (y * g.Width + x) with
      | none => Outcome.panicked
      | some true => Outcome.done (current, vis)
      | some false =>
        match getCell g.Cells y x with
        | none => Outcome.panicked
        | some v =>
          if v ≠ 0 then Outcome.done (current, vis.set (y * g.Width + x).toNat true)
          else
            match freeSpaceConnectedInternal g fuel (vis.set (y * g.Width + x).toNat true)
                (x - 1) y cutoff (current + 1) with
            | Outcome.panicked => Outcome.panicked
            | Outcome.outOfFuel => Outcome.outOfFuel
            | Outcome.done r1 =>
              match freeSpaceConnectedInternal g fuel r1.2 (x + 1) y cutoff r1.1 with
              | Outcome.panicked => Outcome.panicked
              | Outcome.outOfFuel => Outcome.outOfFuel
              | Outcome.done r2 =>
                match freeSpaceConnectedInternal g fuel r2.2 x (y - 1) cutoff r2.1 with
                | Outcome.panicked => Outcome.panicked
                | Outcome.outOfFuel => Outcome.outOfFuel
                | Outcome.done r3 => freeSpaceConnectedInternal g fuel r3.2 x (y + 1) cutoff r3.1

/-- The slice with which `freeSpaceConnected` starts (lines 359-365): a new slice of
`Height*Width` flags when the field is nil (`none`: a negative length), the old slice
with every flag cleared otherwise. -/
def clearedSlice (g : Game) (slice : Option (List Bool)) : Option (List Bool) :=
  match slice with
  | none =>
    if g.Height * g.Width < 0 then none
    else some (List.replicate (g.Height * g.Width).toNat false)
  | some s => some (List.replicate s.length false)

/-- The method `freeSpaceConnected`; `slice` is the field `g.freeCountingSlice` at the
call, the value is the count and the field as the call leaves it. -/
def freeSpaceConnected (fuel : Nat) (g : Game) (slice : Option (List Bool))
    (x y cutoff : Int) : Outcome (Int × List Bool) :=
  match clearedSlice g slice with
  | none => Outcome.panicked
  | some vis0 =>
    match freeSpaceConnectedInternal g fuel vis0 x y cutoff 0 with
    | Outcome.panicked => Outcome.panicked
    | Outcome.outOfFuel => Outcome.outOfFuel
    | Outcome.done r0 =>
      match freeSpaceConnectedInternal g fuel r0.2 (x - 1) y cutoff r0.1 with
      | Outcome.panicked => Outcome.panicked
      | Outcome.outOfFuel => Outcome.outOfFuel
      | Outcome.done r1 =>
        match freeSpaceConnectedInternal g fuel r1.2 (x + 1) y cutoff r1.1 with
        | Outcome.panicked => Outcome.panicked
        | Outcome.outOfFuel => Outcome.outOfFuel
        | Outcome.done r2 =>
          match freeSpaceConnectedInternal g fuel r2.2 x (y - 1) cutoff r2.1 with
          | Outcome.panicked => Outcome.panicked
          | Outcome.outOfFuel => Outcome.outOfFuel
          | Outcome.done r3 => freeSpaceConnectedInternal g fuel r3.2 x (y + 1) cutoff r3.1

/-- The cell `c = (x, y)` is on the board and empty. -/
def FreeCell (g : Game) (c : Int × Int) : Prop :=
  InBoard g.Width g.Height c.1 c.2 ∧ getCell g.Cells c.2 c.1 = some 0

/-- The cells `a` and `b` are 4-adjacent. -/
def Adjacent (a b : Int × Int) : Prop :=
  (b.2 = a.2 ∧ (b.1 = a.1 - 1 ∨ b.1 = a.1 + 1)) ∨ (b.1 = a.1 ∧ (b.2 = a.2 - 1 ∨ b.2 = a.2 + 1))

/-- The start cell and its four neighbours, in the order of the five calls. -/
def seedCells (x y : Int) : List (Int × Int) :=
  [(x, y), (x - 1, y), (x + 1, y), (x, y - 1), (x, y + 1)]

/-- The cell `c` is empty and is the start cell or one of its four neighbours, or is
joined to such an empty cell by a path of 4-adjacent empty cells. -/
def Counted (g : Game) (x y : Int) (c : Int × Int) : Prop :=
  ∃ s ∈ seedCells x y, FreeCell g s ∧
    Relation.ReflTransGen (fun u v => Adjacent u v ∧ FreeCell g v) s c

/-- A 4x3 board with a wall in column 2: three empty cells on its left (the cell (0,0)
is occupied), three on its right. -/
def wallBoard : Game :=
  { Width := 4, Height := 3, Cells := [[1, 0, 2, 0], [0, 0, 2, 0], [2, 2, 2, 0]],
    Players := [(1, mkPlayer 0 0 DirectionRight 1 0)], You := 1,
    Running := true, Deadline := "", playerAnswer := [] }

/-- The cell `c` is on the board and its flag in the slice is set. -/
def Marked (g : Game) (vis : List Bool) (c : Int × Int) : Prop :=
  InBoard g.Width g.Height c.1 c.2 ∧ getFlag vis (c.2 * g.Width + c.1) = some true

instance instDecidableInBoard (w h x y : Int) : Decidable (InBoard w h x y) := by
  unfold InBoard
  infer_instance

instance instDecidableMarked (g : Game) (vis : List Bool) (c : Int × Int) :
    Decidable (Marked g vis c) := by
  unfold Marked
  infer_instance

instance instDecidableFreeCell (g : Game) (c : Int × Int) : Decidable (FreeCell g c) := by
  unfold FreeCell
  infer_instance

/-- The empty cells of the board whose flag is set. -/
def markedFree (g : Game) (vis : List Bool) : Finset (Int × Int) :=
  ((Finset.Ico 0 g.Width) ×ˢ (Finset.Ico 0 g.Height)).filter
    (fun c => Marked g vis c ∧ FreeCell g c)

/-- Calls of `freeSpaceConnectedInternal` on the cells `cs`, one after the other, each
started with the count and the slice that the call before it left. -/
def runCalls (g : Game) (fuel : Nat) (cutoff : Int) :
    List (Int × Int) → Int × List Bool → Outcome (Int × List Bool)
  | [], s => Outcome.done s
  | c :: rest, s =>
    match freeSpaceConnectedInternal g fuel s.2 c.1 c.2 cutoff s.1 with
    | Outcome.panicked => Outcome.panicked
    | Outcome.outOfFuel => Outcome.outOfFuel
    | Outcome.done r => runCalls g fuel cutoff rest r

/-- The four neighbours of a cell, in the order of the recursive calls. -/
def neighbourCells (x y : Int) : List (Int × Int) :=
  [(x - 1, y), (x + 1, y), (x, y - 1), (x, y + 1)]

/-- There is a path of 4-adjacent cells from `a` to `c` on which every cell except
possibly `c` is empty. -/
def Conn (g : Game) (a c : Int × Int) : Prop :=
  Relation.ReflTransGen (fun u v => FreeCell g u ∧ Adjacent u v) a c

/-- What calls on the cells `seeds` that start in `s = (count, slice)` and end in `r`
have done: the slice keeps its length and its set flags, the seeds on the board are
marked, every newly marked cell is joined to a seed, every newly marked empty cell has
its neighbours marked, and the count has grown by the number of newly marked empty
cells. -/
def CallPost (g : Game) (seeds : List (Int × Int)) (s r : Int × List Bool) : Prop :=
  r.2.length = s.2.length ∧
  (∀ c, Marked g s.2 c → Marked g r.2 c) ∧
  (∀ a ∈ seeds, InBoard g.Width g.Height a.1 a.2 → Marked g r.2 a) ∧
  (∀ c, Marked g r.2 c → ¬ Marked g s.2 c → ∃ a ∈ seeds, Conn g a c) ∧
  (∀ u, Marked g r.2 u → ¬ Marked g s.2 u → FreeCell g u →
    ∀ v, Adjacent u v → InBoard g.Width g.Height v.1 v.2 → Marked g r.2 v) ∧
  r.1 = s.1 + ((markedFree g r.2).card : Int) - ((markedFree g s.2).card : Int)

/-! ## The loops over the player map, visited in any order -/

/-- The order in which the loops `for i := range g.Players` visit the map:
`σ round k ps` is the order of loop `k` of round `round` over the map `ps` (loop 0: the
opponents, 1: "Process Actions", 2: "Do Movement", 3: "Check crash", 4: the winner,
5: the flag `playerAlive`). -/
abbrev Schedule := Int → Nat → List (Int × Player) → List (Int × Player)

/-- The board after the phases "collect actions" and "Process Actions" (lines 100-174),
the map visited in the order of `σ`. -/
def afterActionsOrd (σ : Schedule) (ai : Policy) (next : String) (st : LoopState) :
    Option Game :=
  match collectAnswers ai next st.g st.first (st.round + 1) (List.range st.g.Players.length) with
  | none => none
  | some answers =>
    match processActions answers (σ (st.round + 1) 1 st.g.Players) with
    | none => none
    | some ps => some { st.g with playerAnswer := answers, Players := ps }

/-- The board after "Do Movement" and "Check crash" (lines 176-243), the map visited in
the order of `σ`. -/
def moveAndCrashOrd (σ : Schedule) (round : Int) (g : Game) : Option Game :=
  match doMovement g.Width g.Height g.Cells (σ round 2 g.Players) with
  | none => none
  | some (cells, ps) =>
    match checkCrash cells (σ round 3 ps) with
    | none => none
    | some ps1 => some { g with Cells := cells, Players := ps1 }

/-- One pass through the body of the loop `mainGame` (lines 87-264), the map visited in
the order of `σ`. -/
def roundBodyOrd (σ : Schedule) (ai : Policy) (next : String) (st : LoopState) :
    Option LoopState :=
  match getPlayer st.g.Players st.g.You with
  | none => none
  | some you =>
    let survived := if you.Active then st.survived + 1 else st.survived
    let survivedOpponent :=
      countOpponent st.g.You you.Active (σ (st.round + 1) 0 st.g.Players) st.survivedOpponent
    match afterActionsOrd σ ai next st with
    | none => none
    | some g1 =>
      match moveAndCrashOrd σ (st.round + 1) g1 with
      | none => none
      | some g2 =>
        some { g := g2
               first := false
               round := st.round + 1
               survived := survived
               survivedOpponent := survivedOpponent
               winner := if st.winner = -1
                 then findWinner (σ (st.round + 1) 4 g2.Players) st.winner else st.winner }

/-- The loop `mainGame`, the map visited in the order of `σ`. -/
def mainGameOrd (σ : Schedule) (ai : Policy) (next : String) :
    Nat → LoopState → Outcome LoopState
  | 0, _ => Outcome.outOfFuel
  | fuel + 1, st =>
    match roundBodyOrd σ ai next st with
    | none => Outcome.panicked
    | some st1 =>
      if playerAlive (σ st1.round 5 st1.g.Players) then mainGameOrd σ ai next fuel st1
      else Outcome.done st1

/-- Lines 76-282 of `SimulateGame`, the map visited in the order of `σ`. -/
def playRoundsOrd (σ : Schedule) (fuel : Nat) (ai : Policy) (g : Game) (next : String) :
    Outcome (Result × Game) :=
  match mainGameOrd σ ai next fuel (initState g) with
  | Outcome.done st => Outcome.done (finish next st)
  | Outcome.panicked => Outcome.panicked
  | Outcome.outOfFuel => Outcome.outOfFuel

/-- The method `SimulateGame`, the map visited in the order of `σ`. -/
def SimulateGameOrd (σ : Schedule) (fuel : Nat) (ai : Policy) (g : Game) (next : String) :
    Outcome (Result × Game) :=
  match (if next = ActionSlower then youSpeedIs g 1 else some false) with
  | none => Outcome.panicked
  | some true => Outcome.done (cutoffResult next, g)
  | some false =>
    match (if next = ActionFaster then youSpeedIs g MaxSpeed else some false) with
    | none => Outcome.panicked
    | some true => Outcome.done (cutoffResult next, g)
    | some false => playRoundsOrd σ fuel ai g next

/-- The boards `g` and `g1` are the same board: all fields are equal, and the player
maps hold the same entries (as lists, one is a permutation of the other). -/
def SameBoard (g g1 : Game) : Prop :=
  g1 = { g with Players := g1.Players } ∧ g.Players.Perm g1.Players

/-- The answers of the policy do not depend on the order in which the player map of the
board is stored. -/
def PolicyOrderFree (ai : Policy) : Prop :=
  ∀ (round i : Int) (b b1 : Game), SameBoard b b1 → ai round i b = ai round i b1

/-- Two runs end in the same way: both fail, both run out of fuel, or both send the
same record and leave the same board. -/
def SameOutcome : Outcome (Result × Game) → Outcome (Result × Game) → Prop
  | Outcome.done a, Outcome.done b => a.1 = b.1 ∧ SameBoard a.2 b.2
  | Outcome.panicked, Outcome.panicked => True
  | Outcome.outOfFuel, Outcome.outOfFuel => True
  | _, _ => False

/-- The schedule that visits every map in reverse order. -/
def reverseSchedule : Schedule := fun _ _ ps => ps.reverse

/-- The move of the player `p` in "Do Movement" stamps the cell `(x, y)`: the player is
active and one of its steps, made on the board and no hole step, enters the cell. -/
def MoveStamps (w h : Int) (p : Player) (x y : Int) : Prop :=
  p.Active = true ∧ ∃ dx dy, dirVec p.Direction = some (dx, dy) ∧
    StampsCell w h { p with stepCounter := p.stepCounter + 1 } dx dy 0 p.Speed.toNat x y

/-- The states `st` and `st1` of the loop are the same: the locals are equal and the
boards are the same board. -/
def SameState (st st1 : LoopState) : Prop :=
  st1 = { st with g := st1.g } ∧ SameBoard st.g st1.g

/-- A schedule visits every entry of the map once. -/
def FairSchedule (σ : Schedule) : Prop :=
  ∀ (round : Int) (k : Nat) (ps : List (Int × Player)), (σ round k ps).Perm ps

/-! ## `PublicCopy` and `PopulateInternalCellsFlat` on the storage
(`game.go`, lines 303-341 and 407-422)

The board of the rollout is a value; here the struct `Game` is taken with its
references: a slice `[]int8` is a window of a backing array, `g.Players[k]` is a pointer
to a struct `Player`, and the store holds the backing arrays and the structs. -/

/-- A slice `[]int8`: the window of `len` cells at offset `off` of the backing array
`arr`. -/
structure SliceRef where
  arr : Nat
  off : Nat
  len : Nat
deriving DecidableEq, Repr

/-- A struct `Player` in memory: the fields of `Player` and the field `ai` (the name of
the policy attached to the player, `none` for nil). -/
structure PlayerRec where
  fields : Player
  ai : Option String
deriving DecidableEq, Repr

/-- The store: the backing arrays of the slices `[]int8` and the structs `Player`; an
array or a struct is referred to by its index. -/
structure Store where
  arrays : List (List Int)
  players : List PlayerRec
deriving DecidableEq, Repr

/-- The struct `Game` with its references: the rows of `Cells` are slices, the values
of the map `Players` are pointers, `internalCellsFlat` is nil (`none`) or the whole of a
backing array. -/
structure GameRef where
  Width : Int
  Height : Int
  Cells : List SliceRef
  Players : List (Int × Nat)
  You : Int
  Running : Bool
  Deadline : String
  playerAnswer : List String
  internalCellsFlat : Option Nat
deriving DecidableEq, Repr

/-- The cells that a slice shows; `none` for a window that is not inside its array. -/
def readSlice (s : Store) (r : SliceRef) : Option (List Int) :=
  match s.arrays[r.arr]? with
  | none => none
  | some a => if r.off + r.len ≤ a.length then some ((a.drop r.off).take r.len) else none

/-- The rows that the slices of `g.Cells` show. -/
def loadRows (s : Store) : List SliceRef → Option (List (List Int))
  | [] => some []
  | r :: rest =>
    match readSlice s r with
    | none => none
    | some row =>
      match loadRows s rest with
      | none => none
      | some rows => some (row :: rows)

/-- The player records to which the pointers of `g.Players` point. -/
def loadPlayers (s : Store) : List (Int × Nat) → Option (List (Int × Player))
  | [] => some []
  | (k, ptr) :: rest =>
    match s.players[ptr]? with
    | none => none
    | some r =>
      match loadPlayers s rest with
      | none => none
      | some ps => some ((k, r.fields) :: ps)

/-- The board that the struct `g` shows in the store `s`. -/
def loadGame (s : Store) (g : GameRef) : Option Game :=
  match loadRows s g.Cells with
  | none => none
  | some rows =>
    match loadPlayers s g.Players with
    | none => none
    | some ps =>
      some { Width := g.Width, Height := g.Height, Cells := rows, Players := ps, You := g.You,
             Running := g.Running, Deadline := g.Deadline, playerAnswer := g.playerAnswer }

/-- The loop of lines 317-320: every row gets a new array that holds a copy of it. -/
def copyRows (s : Store) : List SliceRef → Option (Store × List SliceRef)
  | [] => some (s, [])
  | r :: rest =>
    match readSlice s r with
    | none => none
    | some row =>
      match copyRows { s with arrays := s.arrays ++ [row] } rest with
      | none => none
      | some (s1, refs) => some (s1, { arr := s.arrays.length, off := 0, len := row.length } :: refs)

/-- The slice expression `flat[y*w : (y+1)*w]` on the array `flat` of length `n`;
`none` is a slice bound out of range. -/
def sliceRow (flat n : Nat) (w : Int) (y : Nat) : Option SliceRef :=
  if 0 ≤ (y : Int) * w ∧ (y : Int) * w ≤ ((y : Int) + 1) * w ∧ ((y : Int) + 1) * w ≤ (n : Int) then
    some { arr := flat, off := ((y : Int) * w).toNat, len := w.toNat }
  else none

/-- The loop `for y := range g.Cells` of lines 324-326 and 419-421, from row `y` on,
with `k` rows left: row `y` becomes the window `flat[y*w : (y+1)*w]`. -/
def viewRows (flat n : Nat) (w : Int) : Nat → Nat → Option (List SliceRef)
  | _, 0 => some []
  | y, k + 1 =>
    match sliceRow flat n w y with
    | none => none
    | some r =>
      match viewRows flat n w (y + 1) k with
      | none => none
      | some refs => some (r :: refs)

/-- The loop of lines 329-339: every player gets a new struct that holds its seven
fields; the field `ai` of the new struct is nil. -/
def copyPlayers (s : Store) : List (Int × Nat) → Option (Store × List (Int × Nat))
  | [] => some (s, [])
  | (k, ptr) :: rest =>
    match s.players[ptr]? with
    | none => none
    | some r =>
      match copyPlayers
          { s with players := s.players ++
              [{ fields := { X := r.fields.X, Y := r.fields.Y, Direction := r.fields.Direction,
                             Speed := r.fields.Speed, Active := r.fields.Active,
                             Name := r.fields.Name, stepCounter := r.fields.stepCounter },
                 ai := none }] } rest with
      | none => none
      | some (s1, ptrs) => some (s1, (k, s.players.length) :: ptrs)

/-- The cells of the new struct (lines 316-327): with `internalCellsFlat` nil every row
is copied to a new array; otherwise the flat array is copied to a new array and the
rows are windows of the copy. The value is the store, the rows and the field
`internalCellsFlat` of the new struct. -/
def copyCells (s : Store) (g : GameRef) : Option (Store × List SliceRef × Option Nat) :=
  match g.internalCellsFlat with
  | none =>
    match copyRows s g.Cells with
    | none => none
    | some (s1, refs) => some (s1, refs, none)
  | some flat =>
    match s.arrays[flat]? with
    | none => none
    | some a =>
      match viewRows s.arrays.length a.length g.Width 0 g.Cells.length with
      | none => none
      | some refs => some ({ s with arrays := s.arrays ++ [a] }, refs, some s.arrays.length)

/-- The method `PublicCopy` on the storage: the store after the call and the new
struct. -/
def PublicCopyRef (s : Store) (g : GameRef) : Option (Store × GameRef) :=
  match copyCells s g with
  | none => none
  | some (s1, refs, flat1) =>
    match copyPlayers s1 g.Players with
    | none => none
    | some (s2, ptrs) =>
      some (s2, { Width := g.Width, Height := g.Height, Cells := refs, Players := ptrs,
                  You := g.You, Running := g.Running, Deadline := g.Deadline,
                  playerAnswer := [], internalCellsFlat := flat1 })

/-- The write `flat[k] = v`; `none` is an index out of range. -/
def writeAt (flat : List Int) (k : Int) (v : Int) : Option (List Int) :=
  if k < 0 then none
  else if k.toNat < flat.length then some (flat.set k.toNat v) else none

/-- The loop `for x := range g.Cells[y]` of lines 413-415: the cells of the row are
written to `flat[base+x]`, `x` counted from the cell `x`. -/
def writeRow (w : Int) (y : Nat) : List Int → Nat → List Int → Option (List Int)
  | flat, _, [] => some flat
  | flat, x, v :: rest =>
    match writeAt flat ((y : Int) * w + (x : Int)) v with
    | none => none
    | some flat1 => writeRow w y flat1 (x + 1) rest

/-- The loop `for y := range g.Cells` of lines 412-416, from row `y` on. -/
def writeRows (s : Store) (w : Int) : List Int → Nat → List SliceRef → Option (List Int)
  | flat, _, [] => some flat
  | flat, y, r :: rest =>
    match readSlice s r with
    | none => none
    | some row =>
      match writeRow w y flat 0 row with
      | none => none
      | some flat1 => writeRows s w flat1 (y + 1) rest

/-- The method `PopulateInternalCellsFlat` on the storage: a new array of
`Height*Width` cells is filled with the cells of the rows, and the rows become windows
of it. -/
def PopulateInternalCellsFlatRef (s : Store) (g : GameRef) : Option (Store × GameRef) :=
  if g.Height * g.Width < 0 then none
  else
    match writeRows s g.Width (List.replicate (g.Height * g.Width).toNat 0) 0 g.Cells with
    | none => none
    | some flat =>
      match viewRows s.arrays.length flat.length g.Width 0 g.Cells.length with
      | none => none
      | some refs =>
        some ({ s with arrays := s.arrays ++ [flat] },
              { g with Cells := refs, internalCellsFlat := some s.arrays.length })

/-- The write of the cells `row` through the slice `r`. -/
def storeSlice (s : Store) (r : SliceRef) (row : List Int) : Option Store :=
  match s.arrays[r.arr]? with
  | none => none
  | some a =>
    if r.off + r.len ≤ a.length ∧ row.length = r.len then
      some { s with arrays := s.arrays.set r.arr (a.take r.off ++ row ++ a.drop (r.off + r.len)) }
    else none

/-- The writes of the rows `rows` through the slices of `g.Cells`. -/
def storeRows (s : Store) : List SliceRef → List (List Int) → Option Store
  | [], [] => some s
  | r :: rest, row :: rows =>
    match storeSlice s r row with
    | none => none
    | some s1 => storeRows s1 rest rows
  | _, _ => none

/-- The writes of the player records `ps` through the pointers of `g.Players`; the
field `ai` of every struct is set to `ai` (line 77). -/
def storePlayers (s : Store) (ai : Option String) :
    List (Int × Nat) → List (Int × Player) → Option Store
  | [], [] => some s
  | (_, ptr) :: rest, (_, p) :: ps =>
    if ptr < s.players.length then
      storePlayers { s with players := s.players.set ptr { fields := p, ai := ai } } ai rest ps
    else none
  | _, _ => none

/-- The method `SimulateGame` on the storage: the board that the struct shows is played
to its end, and what the run leaves is written through the references of the struct
(the rows of `g.Cells`, the pointers of `g.Players`) and to the fields of the struct
itself. A run that is cut off before the loop writes nothing. -/
def SimulateGameRef (fuel : Nat) (ai : Policy) (s : Store) (g : GameRef) (next : String) :
    Outcome (Result × Store × GameRef) :=
  match loadGame s g with
  | none => Outcome.panicked
  | some board =>
    match SimulateGame fuel ai board next with
    | Outcome.panicked => Outcome.panicked
    | Outcome.outOfFuel => Outcome.outOfFuel
    | Outcome.done (r, gf) =>
      if cutsOff board next then Outcome.done (r, s, g)
      else
        match storeRows s g.Cells gf.Cells with
        | none => Outcome.panicked
        | some s1 =>
          match storePlayers s1 (some "SuperRandomAI") g.Players gf.Players with
          | none => Outcome.panicked
          | some s2 =>
            Outcome.done (r, s2, { g with Running := gf.Running, playerAnswer := gf.playerAnswer })

/-- A store with the board `headOnBoard`: one array per row, one struct per player. -/
def headOnStore : Store :=
  { arrays := [[1, 0, 0, 0, 2]],
    players := [{ fields := mkPlayer 0 0 DirectionRight 1 0, ai := some "master" },
                { fields := mkPlayer 4 0 DirectionLeft 1 0, ai := some "master" }] }

/-- The struct of the board `headOnBoard` in `headOnStore`. -/
def headOnRef : GameRef :=
  { Width := 5, Height := 1, Cells := [{ arr := 0, off := 0, len := 5 }],
    Players := [(1, 0), (2, 1)], You := 1, Running := true, Deadline := "",
    playerAnswer := [], internalCellsFlat := none }

/-- The store `s1` holds everything that `s` holds, unchanged, and possibly more. -/
def Extends (s s1 : Store) : Prop :=
  (∃ t, s1.arrays = s.arrays ++ t) ∧ ∃ u, s1.players = s.players ++ u

/-- The struct `g` is built on storage that the store `s` does not hold: every array
and every struct `Player` that it refers to is new. -/
def Fresh (s : Store) (g : GameRef) : Prop :=
  (∀ r ∈ g.Cells, s.arrays.length ≤ r.arr) ∧
    (∀ f, g.internalCellsFlat = some f → s.arrays.length ≤ f) ∧
    ∀ kp ∈ g.Players, s.players.length ≤ kp.2

/-- If `internalCellsFlat` is set, the rows of `g.Cells` are the windows
`flat[y*Width : (y+1)*Width]` of it, as `PopulateInternalCellsFlat` leaves them. -/
def FlatOk (s : Store) (g : GameRef) : Prop :=
  ∀ f, g.internalCellsFlat = some f →
    ∃ a, s.arrays[f]? = some a ∧ viewRows f a.length g.Width 0 g.Cells.length = some g.Cells

/-- The store after `PublicCopy` on `headOnRef` in `headOnStore`: a copy of the row and
two new structs have been added. -/
def headOnCopyStore : Store :=
  { arrays := [[1, 0, 0, 0, 2], [1, 0, 0, 0, 2]],
    players := [{ fields := mkPlayer 0 0 DirectionRight 1 0, ai := some "master" },
                { fields := mkPlayer 4 0 DirectionLeft 1 0, ai := some "master" },
                { fields := mkPlayer 0 0 DirectionRight 1 0, ai := none },
                { fields := mkPlayer 4 0 DirectionLeft 1 0, ai := none }] }

/-- The struct that `PublicCopy` on `headOnRef` returns. -/
def headOnCopyRef : GameRef :=
  { Width := 5, Height := 1, Cells := [{ arr := 1, off := 0, len := 5 }],
    Players := [(1, 2), (2, 3)], You := 1, Running := true, Deadline := "",
    playerAnswer := [], internalCellsFlat := none }

/-! ## Boards and notions of the later properties -/

/-- Scenario "speed 3 in a hole round": 5x1, A at (0,0) facing right with speed 3 and
step counter 5, all other cells empty. -/
def speedThreeBoard : Game :=
  { Width := 5, Height := 1, Cells := [[1, 0, 0, 0, 0]],
    Players := [(1, mkPlayer 0 0 DirectionRight 3 5)], You := 1,
    Running := true, Deadline := "", playerAnswer := [] }

/-! ## Notions for the order of arrival of the records -/

/-- The entry of the map `data.Collect` after the record `r` has been added to the entry
`d` (lines 294-312). -/
def addRecord (d : Stats) (r : Result) : Stats :=
  { Run := d.Run + 1
    Won := if r.win then d.Won + 1 else d.Won
    Survived := d.Survived + r.survived
    SurvivdedOpponent := d.SurvivdedOpponent + r.survivdedOpponent
    Round := d.Round + r.round
    LongestOpponent :=
      if r.survivdedOpponent > d.LongestOpponent then r.survivdedOpponent else d.LongestOpponent }

/-- The switch "Process action" of `isJump` (lines 468-506) on the record of the
self-player; `none` is a `return false`. -/
def jumpAction (action : String) (p : Player) : Option Player :=
  if action = ActionTurnLeft then some { p with Direction := turnLeft p.Direction }
  else if action = ActionTurnRight then some { p with Direction := turnRight p.Direction }
  else if action = ActionFaster then
    let p1 := { p with Speed := p.Speed + 1 }
    if p1.Speed > MaxSpeed then none else some p1
  else if action = ActionSlower then
    let p1 := { p with Speed := p.Speed - 1 }
    if p1.Speed < 1 then none else some p1
  else if action = ActionNOOP then some p
  else none

/-- The loop "Check Jump" of `isJump` (lines 527-541), with `n` iterations left, at loop
index `s`, the player at `(x, y)`; `d` and `speed` are the direction and the speed of the
player. The value `none` is a failure (call of the nil function, index out of range). -/
def jumpLoop (g : Game) (d : String) (speed : Int) : Nat → Int → Int → Int → Bool → Option Bool
  | 0, _, _, _, jumpFound => some jumpFound
  | n + 1, s, x, y, jumpFound =>
    match dostep d x y with
    | none => none
    | some (x1, y1) =>
      if x1 < 0 ∨ x1 ≥ g.Width ∨ y1 < 0 ∨ y1 ≥ g.Height then some false
      else
        match getCell g.Cells y1 x1 with
        | none => none
        | some v =>
          if s ≠ 0 ∧ s ≠ speed - 1 then
            jumpLoop g d speed n (s + 1) x1 y1 (if v ≠ 0 then true else jumpFound)
          else if v ≠ 0 then some false
          else jumpLoop g d speed n (s + 1) x1 y1 jumpFound

/-- The function `isJump`; `none` is a failure (nil pointer, nil function, index out of
range). -/
def isJump (g : Game) (action : String) : Option Bool :=
  match getPlayer g.Players g.You with
  | none => none
  | some p =>
    if Int.tmod (p.stepCounter + 1) HolesEachStep ≠ 0 then some false
    else
      match jumpAction action p with
      | none => some false
      | some p1 =>
        if p1.Speed < HoleSpeed then some false
        else jumpLoop g p1.Direction p1.Speed p1.Speed.toNat 0 p1.X p1.Y false

/-- The self-player after the action, in the words of the specification: a turn changes
the direction, `speed_up` and `slow_down` change the speed by one. -/
def applyActionSpec (action : String) (p : Player) : Player :=
  if action = ActionTurnLeft then { p with Direction := turnLeft p.Direction }
  else if action = ActionTurnRight then { p with Direction := turnRight p.Direction }
  else if action = ActionFaster then { p with Speed := p.Speed + 1 }
  else if action = ActionSlower then { p with Speed := p.Speed - 1 }
  else p

/-- The jump condition of the specification for the player `q` (the self-player after
the action): speed at least 3, step counter plus one divisible by 6, the `Speed` cells
ahead all on the board, the first and the last of them empty, and a cell strictly
between them not empty. -/
def JumpAhead (g : Game) (q : Player) : Prop :=
  q.Speed ≥ 3 ∧ (q.stepCounter + 1) % 6 = 0 ∧
    ∃ dx dy, dirVec q.Direction = some (dx, dy) ∧
      (∀ k : Nat, (k : Int) < q.Speed →
        InBoard g.Width g.Height (q.X + ((k : Int) + 1) * dx) (q.Y + ((k : Int) + 1) * dy)) ∧
      getCell g.Cells (q.Y + dy) (q.X + dx) = some 0 ∧
      getCell g.Cells (q.Y + q.Speed * dy) (q.X + q.Speed * dx) = some 0 ∧
      ∃ k : Nat, 1 ≤ k ∧ (k : Int) ≤ q.Speed - 2 ∧
        ∃ v, getCell g.Cells (q.Y + ((k : Int) + 1) * dy) (q.X + ((k : Int) + 1) * dx) = some v ∧
          v ≠ 0

/-- A 12x1 board: the self-player at (0,0) faces right at the maximum speed 10 with step
counter 5; the cell (2,0) is occupied, the other cells ahead are empty. -/
def maxSpeedBoard : Game :=
  { Width := 12, Height := 1, Cells := [[1, 0, 2, 0, 0, 0, 0, 0, 0, 0, 0, 0]],
    Players := [(1, mkPlayer 0 0 DirectionRight 10 5), (2, mkPlayer 2 0 DirectionRight 1 0)],
    You := 1, Running := true, Deadline := "", playerAnswer := [] }

/-- A 5x1 board on which `change_nothing` is a jump: the self-player at (0,0) faces right
with speed 3 and step counter 5, the cell (2,0) is occupied. -/
def jumpBoard : Game :=
  { Width := 5, Height := 1, Cells := [[1, 0, 2, 0, 0]],
    Players := [(1, mkPlayer 0 0 DirectionRight 3 5), (2, mkPlayer 2 0 DirectionRight 1 0)],
    You := 1, Running := true, Deadline := "", playerAnswer := [] }

/-! ## The policy `JumpingSnailAI` (`ai_jumpingsnail.go`) -/

/-- JumpingSnailAIJumpAtLessThanFree is the number of free cells connected at which the
AI tries to jump. -/
def JumpingSnailAIJumpAtLessThanFree : Int := 50

/-- What a call of `JumpingSnailAI.GetState` does: it sends nothing, it offers an action
to the answer channel, or it hands the board to the jump policy (`js.jump.GetState(g)`)
or to the snail policy (`js.snail.GetState(g)`). -/
inductive Decision where
  | silent
  | answer (a : String)
  | toJump
  | toSnail
deriving DecidableEq, Repr

/-- The slice with which `JumpingSnailAI.freeSpaceConnected` starts (lines 191-197): a new
slice of `Height*Width` flags when the length of the field differs from `Height*Width`
(`none`: a negative length), the old slice with every flag cleared otherwise. -/
def jsClearedSlice (g : Game) (slice : Option (List Bool)) : Option (List Bool) :=
  let len : Nat := match slice with
    | none => 0
    | some s => s.length
  if (len : Int) ≠ g.Height * g.Width then
    if g.Height * g.Width < 0 then none
    else some (List.replicate (g.Height * g.Width).toNat false)
  else some (List.replicate len false)

/-- The method `JumpingSnailAI.freeSpaceConnected` (lines 187-208); `slice` is the field
`js.freeCountingSlice` at the call. The five calls of
`js.freeSpaceConnectedInternal` (lines 210-237, the same statements as
`Game.freeSpaceConnectedInternal` with the slice of the policy) are made one after the
other. -/
def jsFreeSpaceConnected (fuel : Nat) (g : Game) (slice : Option (List Bool))
    (x y cutoff : Int) : Outcome (Int × List Bool) :=
  match jsClearedSlice g slice with
  | none => Outcome.panicked
  | some vis0 =>
    runCalls g fuel cutoff [(x, y), (x - 1, y), (x + 1, y), (x, y - 1), (x, y + 1)] (0, vis0)

/-- The function value `dostep` of "Check turn_left" (lines 110-119) applied to `(x, y)`;
`none` is the nil function. -/
def stepLeftCheck (d : String) (x y : Int) : Option (Int × Int) :=
  if d = DirectionLeft then some (x, y - 1)
  else if d = DirectionRight then some (x, y + 1)
  else if d = DirectionDown then some (x - 1, y)
  else if d = DirectionUp then some (x + 1, y)
  else none

/-- The function value `dostep` of "Check turn_right" (lines 141-150) applied to `(x, y)`;
`none` is the nil function. -/
def stepRightCheck (d : String) (x y : Int) : Option (Int × Int) :=
  if d = DirectionRight then some (x, y - 1)
  else if d = DirectionLeft then some (x, y + 1)
  else if d = DirectionUp then some (x - 1, y)
  else if d = DirectionDown then some (x + 1, y)
  else none

/-- The test loops of lines 90-96, 121-127 and 152-158 with `n` iterations left, from the
cell `(x, y)`: the value is the flag `possible`; `none` is a failure (call of the nil
function, index out of range). -/
def pathFree (g : Game) (step : Int → Int → Option (Int × Int)) : Nat → Int → Int → Option Bool
  | 0, _, _ => some true
  | n + 1, x, y =>
    match step x y with
    | none => none
    | some (x1, y1) =>
      if x1 < 0 ∨ x1 ≥ g.Width ∨ y1 < 0 ∨ y1 ≥ g.Height then some false
      else
        match getCell g.Cells y1 x1 with
        | none => none
        | some v => if v ≠ 0 then some false else pathFree g step n x1 y1

/-- The branch `g.Players[g.You].Speed > 1` of `GetState` (lines 72-172) for the record
`you` of the acting player. -/
def slowOrTurn (g : Game) (you : Player) : Outcome Decision :=
  match pathFree g (dostep you.Direction) (you.Speed - 1).toNat you.X you.Y with
  | none => Outcome.panicked
  | some true => Outcome.done (Decision.answer ActionSlower)
  | some false =>
    match pathFree g (stepLeftCheck you.Direction) you.Speed.toNat you.X you.Y with
    | none => Outcome.panicked
    | some true => Outcome.done (Decision.answer ActionTurnLeft)
    | some false =>
      match pathFree g (stepRightCheck you.Direction) you.Speed.toNat you.X you.Y with
      | none => Outcome.panicked
      | some true => Outcome.done (Decision.answer ActionTurnRight)
      | some false => Outcome.done (Decision.answer ActionSlower)

/-- The method `JumpingSnailAI.GetState` (lines 52-178). `channel` tells whether the
answer channel `js.i` is set, `slice` is the field `js.freeCountingSlice`; an action
offered to the channel is taken as sent. -/
def JumpingSnailAI_GetState (fuel : Nat) (channel : Bool) (slice : Option (List Bool))
    (g : Game) : Outcome Decision :=
  if channel = false then Outcome.done Decision.silent
  else if g.Running = false then Outcome.done Decision.silent
  else
    match getPlayer g.Players g.You with
    | none => Outcome.panicked
    | some you =>
      if you.Active = false then Outcome.done Decision.silent
      else
        match jsFreeSpaceConnected fuel g slice you.X you.Y
            (JumpingSnailAIJumpAtLessThanFree + 1) with
        | Outcome.panicked => Outcome.panicked
        | Outcome.outOfFuel => Outcome.outOfFuel
        | Outcome.done r =>
          if r.1 < JumpingSnailAIJumpAtLessThanFree then Outcome.done Decision.toJump
          else if you.Speed > 1 then slowOrTurn g you
          else Outcome.done Decision.toSnail

/-- An 8x8 board, empty except for the cell of the acting player, which stands at (0,0)
and faces right with speed 2. -/
def openBoard : Game :=
  { Width := 8, Height := 8,
    Cells := [[1, 0, 0, 0, 0, 0, 0, 0], [0, 0, 0, 0, 0, 0, 0, 0], [0, 0, 0, 0, 0, 0, 0, 0],
              [0, 0, 0, 0, 0, 0, 0, 0], [0, 0, 0, 0, 0, 0, 0, 0], [0, 0, 0, 0, 0, 0, 0, 0],
              [0, 0, 0, 0, 0, 0, 0, 0], [0, 0, 0, 0, 0, 0, 0, 0]],
    Players := [(1, mkPlayer 0 0 DirectionRight 2 0)], You := 1,
    Running := true, Deadline := "", playerAnswer := [] }

/-- An 8x8 board, empty except for the cell of the acting player, which stands at the
right edge, at (7,0), and faces right with speed 2. -/
def edgeBoard : Game :=
  { Width := 8, Height := 8,
    Cells := [[0, 0, 0, 0, 0, 0, 0, 1], [0, 0, 0, 0, 0, 0, 0, 0], [0, 0, 0, 0, 0, 0, 0, 0],
              [0, 0, 0, 0, 0, 0, 0, 0], [0, 0, 0, 0, 0, 0, 0, 0], [0, 0, 0, 0, 0, 0, 0, 0],
              [0, 0, 0, 0, 0, 0, 0, 0], [0, 0, 0, 0, 0, 0, 0, 0]],
    Players := [(1, mkPlayer 7 0 DirectionRight 2 0)], You := 1,
    Running := true, Deadline := "", playerAnswer := [] }

/-! ## Aggregates on which the rounding of `float64` shows -/

/-- The record of a rollout of `action` that the self-player wins and that ends in round
`n`: it has faced an opponent at the start of each round. -/
def wonIn (action : String) (n : Int) : Result :=
  { action := action, win := true, survived := n, survivdedOpponent := n - 1, round := n }

/-- The record of a rollout of `action` that ends in round `n`, in which the self-player
is eliminated, without a winner. -/
def lostIn (action : String) (n : Int) : Result :=
  { action := action, win := false, survived := n - 1, survivdedOpponent := n - 1, round := n }

/-- Records of two actions whose win rates differ and round to the same `float64` value:
`turn_left` wins 180000001 of 200000002 rollouts and `turn_right` 157500002 of
175000003. -/
def winTieRecords : List Result :=
  List.replicate 180000001 (wonIn ActionTurnLeft 2) ++
    List.replicate 20000001 (lostIn ActionTurnLeft 1) ++
    List.replicate 157500002 (wonIn ActionTurnRight 2) ++
    List.replicate 17500001 (lostIn ActionTurnRight 1)

/-- The aggregate of `winTieRecords`. -/
def winTieData : GameData :=
  { Collect :=
      [(ActionTurnLeft,
          { Run := 200000002, Won := 180000001, Survived := 360000002,
            SurvivdedOpponent := 180000001, Round := 380000003, LongestOpponent := 1 }),
       (ActionTurnRight,
          { Run := 175000003, Won := 157500002, Survived := 315000004,
            SurvivdedOpponent := 157500002, Round := 332500005, LongestOpponent := 1 })],
    LongestWin := 2, LongestWinAction := ActionTurnLeft, Longest := 2,
    LongestAction := ActionTurnLeft, Action := "nothing", Reason := "" }

/-- Records of an action whose win rate 3400000000000006 / 4000000000000007 is above
0.85 and rounds to the `float64` value of the constant `0.85`. -/
def winRoundedRecords : List Result :=
  List.replicate 3400000000000006 (wonIn ActionTurnLeft 2) ++
    List.replicate 600000000000001 (lostIn ActionTurnLeft 1)

/-- The aggregate of `winRoundedRecords`. -/
def winRoundedData : GameData :=
  { Collect :=
      [(ActionTurnLeft,
          { Run := 4000000000000007, Won := 3400000000000006, Survived := 6800000000000012,
            SurvivdedOpponent := 3400000000000006, Round := 7400000000000013,
            LongestOpponent := 1 })],
    LongestWin := 2, LongestWinAction := ActionTurnLeft, Longest := 2,
    LongestAction := ActionTurnLeft, Action := "nothing", Reason := "" }

/-- Records of two actions whose mean survivals 806000081 / 20000002 and
604499960 / 14999999 differ and round to the same `float64` value; about half of the
rollouts of either action are won. -/
def meanTieRecords : List Result :=
  List.replicate 10000001 (wonIn ActionTurnLeft 40) ++
    List.replicate 6000001 (lostIn ActionTurnLeft 42) ++
    List.replicate 4000000 (lostIn ActionTurnLeft 41) ++
    List.replicate 7500000 (wonIn ActionTurnRight 40) ++
    List.replicate 4500000 (lostIn ActionTurnRight 42) ++
    List.replicate 2999999 (lostIn ActionTurnRight 41)

/-- The aggregate of `meanTieRecords`. -/
def meanTieData : GameData :=
  { Collect :=
      [(ActionTurnLeft,
          { Run := 20000002, Won := 10000001, Survived := 806000081,
            SurvivdedOpponent := 796000080, Round := 816000082, LongestOpponent := 41 }),
       (ActionTurnRight,
          { Run := 14999999, Won := 7500000, Survived := 604499960,
            SurvivdedOpponent := 596999960, Round := 611999959, LongestOpponent := 41 })],
    LongestWin := 40, LongestWinAction := ActionTurnLeft, Longest := 41,
    LongestAction := ActionTurnLeft, Action := "nothing", Reason := "" }

/-- An action that has won 85 of 100 rollouts. -/
def winEdgeCollect : List (String × Stats) :=
  [(ActionTurnLeft, mkStats 100 85 170)]

/-- The entry `d` of the map after `n ≥ 1` records equal to `r` have been added to it. -/
def addRecords (d : Stats) (r : Result) (n : Nat) : Stats :=
  { Run := d.Run + n
    Won := if r.win then d.Won + n else d.Won
    Survived := d.Survived + n * r.survived
    SurvivdedOpponent := d.SurvivdedOpponent + n * r.survivdedOpponent
    Round := d.Round + n * r.round
    LongestOpponent :=
      if r.survivdedOpponent > d.LongestOpponent then r.survivdedOpponent else d.LongestOpponent }

/-! ## Boards with a player of the speed `maxInt` -/

/-- A 5x1 board on which no cell is stamped; player 1 at (0,0) faces right and has the
speed `maxInt`. -/
def wrapBoard : Game :=
  { Width := 5, Height := 1, Cells := [[0, 0, 0, 0, 0]],
    Players := [(1, mkPlayer 0 0 DirectionRight maxInt 0)], You := 1,
    Running := true, Deadline := "", playerAnswer := [] }

/-- The 5x1 board of the scenario "trivial win" with the speed `maxInt` for player 1. -/
def wrapOwnBoard : Game :=
  { Width := 5, Height := 1, Cells := [[1, 0, 0, 0, 0]],
    Players := [(1, mkPlayer 0 0 DirectionRight maxInt 0)], You := 1,
    Running := true, Deadline := "", playerAnswer := [] }

/-! ## The loop `mainGame` -/

theorem roundsFrom_succ_left (ai : Policy) (next : String) (k : Nat) (st : LoopState) :
    roundsFrom ai next (k + 1) st =
      match roundBody ai next st with
      | none => none
      | some s => roundsFrom ai next k s := by
  induction k with
  | zero =>
    simp only [roundsFrom]
    cases roundBody ai next st <;> rfl
  | succ k ih =>
    rw [roundsFrom, ih]
    cases h : roundBody ai next st with
    | none => rfl
    | some s => simp only [roundsFrom]

/-- Enough fuel: when round `n + 1` counted from `st` is the first that leaves no
player alive, the loop stops there. -/
theorem mainGame_of_rounds (ai : Policy) (next : String) :
    ∀ (n : Nat) (st fin : LoopState) (fuel : Nat),
      roundsFrom ai next (n + 1) st = some fin →
      playerAlive fin.g.Players = false →
      (∀ k s, k < n → roundsFrom ai next (k + 1) st = some s → playerAlive s.g.Players = true) →
      n + 1 ≤ fuel →
      mainGame ai next fuel st = Outcome.done fin := by
  intro n
  induction n with
  | zero =>
    intro st fin fuel hr hdead _ hfuel
    obtain ⟨f, rfl⟩ : ∃ f, fuel = f + 1 := ⟨fuel - 1, by omega⟩
    rw [roundsFrom_succ_left] at hr
    cases hb : roundBody ai next st with
    | none => rw [hb] at hr; simp at hr
    | some s =>
      rw [hb] at hr
      simp only [roundsFrom, Option.some.injEq] at hr
      subst hr
      simp [mainGame, hb, hdead]
  | succ n ih =>
    intro st fin fuel hr hdead halive hfuel
    obtain ⟨f, rfl⟩ : ∃ f, fuel = f + 1 := ⟨fuel - 1, by omega⟩
    rw [roundsFrom_succ_left] at hr
    cases hb : roundBody ai next st with
    | none => rw [hb] at hr; simp at hr
    | some s =>
      rw [hb] at hr
      simp only at hr
      have h1 : playerAlive s.g.Players = true :=
        halive 0 s (by omega) (by simp [roundsFrom, hb])
      have := ih s fin f hr hdead (fun k s' hk hs' => halive (k + 1) s' (by omega) (by
        rw [roundsFrom_succ_left, hb]; exact hs')) (by omega)
      simp [mainGame, hb, h1, this]

/-- What a finished loop has done. -/
theorem rounds_of_mainGame (ai : Policy) (next : String) :
    ∀ (fuel : Nat) (st fin : LoopState),
      mainGame ai next fuel st = Outcome.done fin →
      ∃ n, n + 1 ≤ fuel ∧ roundsFrom ai next (n + 1) st = some fin ∧
        playerAlive fin.g.Players = false ∧
        ∀ k s, k < n → roundsFrom ai next (k + 1) st = some s → playerAlive s.g.Players = true := by
  intro fuel
  induction fuel with
  | zero => intro st fin h; simp [mainGame] at h
  | succ f ih =>
    intro st fin h
    rw [mainGame] at h
    cases hb : roundBody ai next st with
    | none => rw [hb] at h; simp at h
    | some s =>
      rw [hb] at h
      simp only at h
      by_cases ha : playerAlive s.g.Players = true
      · rw [if_pos ha] at h
        obtain ⟨n, hn, hr, hd, hal⟩ := ih s fin h
        refine ⟨n + 1, by omega, ?_, hd, ?_⟩
        · rw [roundsFrom_succ_left, hb]; exact hr
        · intro k s' hk hs'
          cases k with
          | zero =>
            simp only [roundsFrom, hb, Option.some.injEq, Nat.zero_add] at hs'
            subst hs'; exact ha
          | succ k =>
            rw [roundsFrom_succ_left, hb] at hs'
            exact hal k s' (by omega) hs'
      · rw [if_neg ha] at h
        simp only [Outcome.done.injEq] at h
        subst h
        refine ⟨0, by omega, ?_, by simpa using ha, ?_⟩
        · simp [roundsFrom, hb]
        · intro k s' hk; omega

/-! ## The round body, phase by phase -/

theorem roundBody_some {ai : Policy} {next : String} {st s : LoopState}
    (h : roundBody ai next st = some s) :
    ∃ you g1 g2, getPlayer st.g.Players st.g.You = some you ∧
      afterActions ai next st = some g1 ∧ moveAndCrash g1 = some g2 ∧
      s = { g := g2
            first := false
            round := st.round + 1
            survived := if you.Active then st.survived + 1 else st.survived
            survivedOpponent := countOpponent st.g.You you.Active st.g.Players st.survivedOpponent
            winner := if st.winner = -1 then findWinner g2.Players st.winner else st.winner } := by
  unfold roundBody at h
  cases hy : getPlayer st.g.Players st.g.You with
  | none => rw [hy] at h; simp at h
  | some you =>
    rw [hy] at h
    simp only at h
    cases ha : afterActions ai next st with
    | none => rw [ha] at h; simp at h
    | some g1 =>
      rw [ha] at h
      simp only at h
      cases hm : moveAndCrash g1 with
      | none => rw [hm] at h; simp at h
      | some g2 =>
        rw [hm] at h
        simp only [Option.some.injEq] at h
        refine ⟨you, g1, g2, ?_, ?_, ?_, h.symm⟩ <;> first | rfl | assumption

theorem afterActions_some {ai : Policy} {next : String} {st : LoopState} {g1 : Game}
    (h : afterActions ai next st = some g1) :
    ∃ answers ps,
      collectAnswers ai next st.g st.first (st.round + 1) (List.range st.g.Players.length)
        = some answers ∧
      processActions answers st.g.Players = some ps ∧
      g1 = { st.g with playerAnswer := answers, Players := ps } := by
  unfold afterActions at h
  cases hc : collectAnswers ai next st.g st.first (st.round + 1) (List.range st.g.Players.length) with
  | none => rw [hc] at h; simp at h
  | some answers =>
    rw [hc] at h
    simp only at h
    cases hp : processActions answers st.g.Players with
    | none => rw [hp] at h; simp at h
    | some ps =>
      rw [hp] at h
      simp only [Option.some.injEq] at h
      refine ⟨answers, ps, ?_, ?_, h.symm⟩ <;> first | rfl | assumption

theorem moveAndCrash_some {g g2 : Game} (h : moveAndCrash g = some g2) :
    ∃ cells ps ps1, doMovement g.Width g.Height g.Cells g.Players = some (cells, ps) ∧
      checkCrash cells ps = some ps1 ∧ g2 = { g with Cells := cells, Players := ps1 } := by
  unfold moveAndCrash at h
  cases hd : doMovement g.Width g.Height g.Cells g.Players with
  | none => rw [hd] at h; simp at h
  | some cp =>
    obtain ⟨cells, ps⟩ := cp
    rw [hd] at h
    simp only at h
    cases hc : checkCrash cells ps with
    | none => rw [hc] at h; simp at h
    | some ps1 =>
      rw [hc] at h
      simp only [Option.some.injEq] at h
      refine ⟨cells, ps, ps1, ?_, ?_, h.symm⟩ <;> first | rfl | assumption

/-! ### The keys of the player map -/

theorem processActions_keys {answers : List String} :
    ∀ {ps ps1 : List (Int × Player)}, processActions answers ps = some ps1 →
      ps1.map Prod.fst = ps.map Prod.fst := by
  intro ps
  induction ps with
  | nil => intro ps1 h; simp [processActions] at h; subst h; rfl
  | cons kp rest ih =>
    obtain ⟨i, p⟩ := kp
    intro ps1 h
    unfold processActions at h
    cases ha : getAnswer answers i with
    | none => rw [ha] at h; simp at h
    | some a =>
      rw [ha] at h
      simp only at h
      cases hr : processActions answers rest with
      | none => rw [hr] at h; simp at h
      | some rest1 =>
        rw [hr] at h
        simp only [Option.some.injEq] at h
        subst h
        simp [ih hr]

theorem processActions_key_pos {answers : List String} :
    ∀ {ps ps1 : List (Int × Player)}, processActions answers ps = some ps1 →
      ∀ kp ∈ ps, 1 ≤ kp.1 ∧ kp.1 ≤ answers.length := by
  intro ps
  induction ps with
  | nil => intro ps1 _ kp hkp; simp at hkp
  | cons kp0 rest ih =>
    obtain ⟨i, p⟩ := kp0
    intro ps1 h kp hkp
    unfold processActions at h
    cases ha : getAnswer answers i with
    | none => rw [ha] at h; simp at h
    | some a =>
      rw [ha] at h
      simp only at h
      cases hr : processActions answers rest with
      | none => rw [hr] at h; simp at h
      | some rest1 =>
        rcases List.mem_cons.mp hkp with rfl | hmem
        · unfold getAnswer at ha
          by_cases hneg : i - 1 < 0
          · simp [hneg] at ha
          · simp only [hneg, if_false] at ha
            have hlt : (i - 1).toNat < answers.length := by
              by_contra hge
              rw [List.getElem?_eq_none (by omega)] at ha
              simp at ha
            constructor
            · show 1 ≤ i
              omega
            · show i ≤ answers.length
              omega
        · exact ih hr kp hmem

theorem doMovement_keys {w h : Int} :
    ∀ {ps : List (Int × Player)} {cells cells1 : List (List Int)} {ps1 : List (Int × Player)},
      doMovement w h cells ps = some (cells1, ps1) → ps1.map Prod.fst = ps.map Prod.fst := by
  intro ps
  induction ps with
  | nil => intro cells cells1 ps1 hd; simp [doMovement] at hd; rw [hd.2]
  | cons kp rest ih =>
    obtain ⟨i, p⟩ := kp
    intro cells cells1 ps1 hd
    unfold doMovement at hd
    cases hm : movePlayer w h i cells p with
    | none => rw [hm] at hd; simp at hd
    | some cp =>
      obtain ⟨c1, p1⟩ := cp
      rw [hm] at hd
      simp only at hd
      cases hr : doMovement w h c1 rest with
      | none => rw [hr] at hd; simp at hd
      | some cr =>
        obtain ⟨c2, rest1⟩ := cr
        rw [hr] at hd
        simp only [Option.some.injEq, Prod.mk.injEq] at hd
        obtain ⟨_, rfl⟩ := hd
        simp [ih hr]

theorem checkCrash_keys {cells : List (List Int)} :
    ∀ {ps ps1 : List (Int × Player)}, checkCrash cells ps = some ps1 →
      ps1.map Prod.fst = ps.map Prod.fst := by
  intro ps
  induction ps with
  | nil => intro ps1 h; simp [checkCrash] at h; subst h; rfl
  | cons kp rest ih =>
    obtain ⟨i, p⟩ := kp
    intro ps1 h
    unfold checkCrash at h
    cases hc : crashPlayer cells p with
    | none => rw [hc] at h; simp at h
    | some p1 =>
      rw [hc] at h
      simp only at h
      cases hr : checkCrash cells rest with
      | none => rw [hr] at h; simp at h
      | some rest1 =>
        rw [hr] at h
        simp only [Option.some.injEq] at h
        subst h
        simp [ih hr]

theorem collectAnswers_length {ai : Policy} {next : String} {g : Game} {first : Bool}
    {round : Int} :
    ∀ {is : List Nat} {answers : List String},
      collectAnswers ai next g first round is = some answers → answers.length = is.length := by
  intro is
  induction is with
  | nil => intro answers h; simp [collectAnswers] at h; subst h; rfl
  | cons i rest ih =>
    intro answers h
    unfold collectAnswers at h
    cases ha : answerFor ai next g first round i with
    | none => rw [ha] at h; simp at h
    | some a =>
      rw [ha] at h
      simp only at h
      cases hr : collectAnswers ai next g first round rest with
      | none => rw [hr] at h; simp at h
      | some as =>
        rw [hr] at h
        simp only [Option.some.injEq] at h
        subst h
        simp [ih hr]

/-- A round that completes keeps the board's frame and the keys of the player map, and
every key lies in `1..len(g.Players)`. -/
theorem roundBody_frame {ai : Policy} {next : String} {st s : LoopState}
    (h : roundBody ai next st = some s) :
    s.round = st.round + 1 ∧ s.first = false ∧ s.g.You = st.g.You ∧
      s.g.Width = st.g.Width ∧ s.g.Height = st.g.Height ∧
      s.g.Players.map Prod.fst = st.g.Players.map Prod.fst ∧
      ∀ kp ∈ st.g.Players, 1 ≤ kp.1 ∧ kp.1 ≤ st.g.Players.length := by
  obtain ⟨you, g1, g2, _, ha, hm, rfl⟩ := roundBody_some h
  obtain ⟨answers, ps, hc, hp, rfl⟩ := afterActions_some ha
  obtain ⟨cells, ps', ps1, hd, hcr, rfl⟩ := moveAndCrash_some hm
  refine ⟨rfl, rfl, rfl, rfl, rfl, ?_, ?_⟩
  · simp only
    rw [checkCrash_keys hcr, doMovement_keys hd, processActions_keys hp]
  · intro kp hkp
    have := processActions_key_pos hp kp hkp
    rw [collectAnswers_length hc, List.length_range] at this
    exact this

/-! ## The rollout as a whole -/

theorem stateAfter_frame (ai : Policy) (next : String) (g : Game) :
    ∀ (k : Nat) (s : LoopState), stateAfter ai next g k = some s →
      s.round = k ∧ s.g.You = g.You ∧ s.g.Width = g.Width ∧ s.g.Height = g.Height ∧
        s.g.Players.map Prod.fst = g.Players.map Prod.fst := by
  intro k
  induction k with
  | zero =>
    intro s h
    simp only [stateAfter, roundsFrom, Option.some.injEq] at h
    subst h
    simp [initState]
  | succ k ih =>
    intro s h
    simp only [stateAfter, roundsFrom] at h
    cases hk : roundsFrom ai next k (initState g) with
    | none => rw [hk] at h; simp at h
    | some s0 =>
      rw [hk] at h
      simp only at h
      obtain ⟨h1, h2, h3, h4, h5⟩ := ih s0 hk
      obtain ⟨r1, _, r3, r4, r5, r6, _⟩ := roundBody_frame h
      refine ⟨?_, ?_, ?_, ?_, ?_⟩
      · rw [r1, h1]; push_cast; ring
      · rw [r3, h2]
      · rw [r4, h3]
      · rw [r5, h4]
      · rw [r6, h5]

theorem stateAfter_succ {ai : Policy} {next : String} {g : Game} {k : Nat} {s : LoopState}
    (h : stateAfter ai next g (k + 1) = some s) :
    ∃ s0, stateAfter ai next g k = some s0 ∧ roundBody ai next s0 = some s := by
  simp only [stateAfter, roundsFrom] at h
  cases hk : roundsFrom ai next k (initState g) with
  | none => rw [hk] at h; simp at h
  | some s0 =>
    rw [hk] at h
    exact ⟨s0, hk, h⟩

/-- A rollout that reaches the end of a round has a self-player. -/
theorem getPlayer_of_stateAfter {ai : Policy} {next : String} {g : Game} {k : Nat}
    {s : LoopState} (h : stateAfter ai next g (k + 1) = some s) :
    ∃ you, getPlayer g.Players g.You = some you := by
  induction k generalizing s with
  | zero =>
    obtain ⟨s0, h0, hb⟩ := stateAfter_succ h
    simp only [stateAfter, roundsFrom, Option.some.injEq] at h0
    subst h0
    obtain ⟨you, _, _, hy, _⟩ := roundBody_some hb
    exact ⟨you, hy⟩
  | succ k ih =>
    obtain ⟨s0, h0, _⟩ := stateAfter_succ h
    exact ih h0

theorem SimulateGame_of_not_cutsOff {fuel : Nat} {ai : Policy} {g : Game} {next : String}
    {you : Player} (hy : getPlayer g.Players g.You = some you) (hc : cutsOff g next = false) :
    SimulateGame fuel ai g next = playRounds fuel ai g next := by
  simp only [cutsOff, hy, Bool.or_eq_false_iff, Bool.and_eq_false_iff, beq_eq_false_iff_ne,
    ne_eq] at hc
  obtain ⟨h1, h2⟩ := hc
  have hsf : ActionSlower ≠ ActionFaster := by decide
  unfold SimulateGame youSpeedIs
  rw [hy]
  by_cases hs : next = ActionSlower
  · have hne : you.Speed ≠ 1 := by
      rcases h1 with h | h
      · exact absurd hs h
      · exact h
    have hf : next ≠ ActionFaster := by rw [hs]; exact hsf
    rw [if_pos hs, if_neg hf]
    simp [hne]
  · rw [if_neg hs]
    by_cases hf : next = ActionFaster
    · have hne : you.Speed ≠ MaxSpeed := by
        rcases h2 with h | h
        · exact absurd hf h
        · exact h
      rw [if_pos hf]
      simp [hne]
    · rw [if_neg hf]

/-- A record that `SimulateGame` sends is the cut-off record or the record sent after
the loop. -/
theorem SimulateGame_done_cases {fuel : Nat} {ai : Policy} {g : Game} {next : String}
    {r : Result} {gf : Game} (h : SimulateGame fuel ai g next = Outcome.done (r, gf)) :
    (cutsOff g next = true ∧ r = cutoffResult next ∧ gf = g) ∨
      (cutsOff g next = false ∧ playRounds fuel ai g next = Outcome.done (r, gf)) := by
  have hsf : ActionSlower ≠ ActionFaster := by decide
  unfold SimulateGame youSpeedIs at h
  unfold cutsOff
  cases hy : getPlayer g.Players g.You with
  | none =>
    rw [hy] at h
    simp only at h ⊢
    by_cases hs : next = ActionSlower
    · rw [if_pos hs] at h
      simp at h
    · rw [if_neg hs] at h
      simp only at h
      by_cases hf : next = ActionFaster
      · rw [if_pos hf] at h
        simp at h
      · rw [if_neg hf] at h
        exact Or.inr ⟨trivial, h⟩
  | some you =>
    rw [hy] at h
    simp only at h ⊢
    by_cases hs : next = ActionSlower
    · have hf : next ≠ ActionFaster := by rw [hs]; exact hsf
      rw [if_pos hs, if_neg hf] at h
      by_cases h1 : you.Speed = 1
      · left
        simp only [h1, decide_True, Outcome.done.injEq, Prod.mk.injEq] at h
        exact ⟨by simp [hs, h1], h.1.symm, h.2.symm⟩
      · right
        simp only [h1, decide_False] at h
        exact ⟨by simp [hf, h1], h⟩
    · rw [if_neg hs] at h
      simp only at h
      by_cases hf : next = ActionFaster
      · rw [if_pos hf] at h
        by_cases h1 : you.Speed = MaxSpeed
        · left
          simp only [h1, decide_True, Outcome.done.injEq, Prod.mk.injEq] at h
          exact ⟨by simp [hf, h1], h.1.symm, h.2.symm⟩
        · right
          simp only [h1, decide_False] at h
          exact ⟨by simp [hs, h1], h⟩
      · rw [if_neg hf] at h
        exact Or.inr ⟨by simp [hs, hf], h⟩

/-- Enough fuel gives the result: a rollout whose first round without a player alive
is round `n` sends the record computed from the state at the end of round `n`. -/
theorem SimulateGame_of_EndsAt {fuel : Nat} {ai : Policy} {g : Game} {next : String}
    {n : Nat} {st : LoopState} (h : EndsAt ai next g n st) (hc : cutsOff g next = false)
    (hf : n ≤ fuel) :
    SimulateGame fuel ai g next = Outcome.done (finish next st) := by
  obtain ⟨hn, hst, hdead, halive⟩ := h
  obtain ⟨m, rfl⟩ : ∃ m, n = m + 1 := ⟨n - 1, by omega⟩
  obtain ⟨you, hy⟩ := getPlayer_of_stateAfter hst
  rw [SimulateGame_of_not_cutsOff hy hc]
  unfold playRounds
  rw [mainGame_of_rounds ai next m (initState g) st fuel hst hdead
    (fun k s hk hs => halive (k + 1) s (by omega) (by omega) hs) hf]

/-- A rollout that sends a record after the loop ended at some round `n`. -/
theorem EndsAt_of_playRounds {fuel : Nat} {ai : Policy} {g : Game} {next : String}
    {r : Result} {gf : Game} (h : playRounds fuel ai g next = Outcome.done (r, gf)) :
    ∃ n st, n ≤ fuel ∧ EndsAt ai next g n st ∧ (r, gf) = finish next st := by
  unfold playRounds at h
  cases hm : mainGame ai next fuel (initState g) with
  | done st =>
    rw [hm] at h
    simp only [Outcome.done.injEq] at h
    obtain ⟨n, hn, hr, hd, hal⟩ := rounds_of_mainGame ai next fuel (initState g) st hm
    refine ⟨n + 1, st, hn, ⟨by omega, hr, hd, ?_⟩, h.symm⟩
    intro k s hk1 hk2 hs
    obtain ⟨j, rfl⟩ : ∃ j, k = j + 1 := ⟨k - 1, by omega⟩
    exact hal j s (by omega) hs
  | panicked => rw [hm] at h; simp at h
  | outOfFuel => rw [hm] at h; simp at h

theorem EndsAt_round {ai : Policy} {next : String} {g : Game} {n : Nat} {st : LoopState}
    (h : EndsAt ai next g n st) : st.round = n ∧ st.g.You = g.You :=
  ⟨(stateAfter_frame ai next g n st h.2.1).1, (stateAfter_frame ai next g n st h.2.1).2.1⟩

/-! ## C1: the early cut-offs -/

/-- C1. When the self-player has speed 1 and the seed action is `slow_down`, or has
speed 10 and the seed action is `speed_up`, `SimulateGame` sends exactly the record
`(seed, won = false, survived = 0, opponent survived = 0, rounds = 0)` and leaves the
board as it was: no round is run (this holds with no fuel at all), and no cell and no
field of a player is changed. -/
theorem SimulateGame_early_cutoff (fuel : Nat) (ai : Policy) (g : Game) (next : String)
    (you : Player) (hy : getPlayer g.Players g.You = some you)
    (h : (you.Speed = 1 ∧ next = ActionSlower) ∨ (you.Speed = 10 ∧ next = ActionFaster)) :
    SimulateGame fuel ai g next =
      Outcome.done
        ({ action := next, win := false, survived := 0, survivdedOpponent := 0, round := 0 }, g) := by
  have hsf : ActionFaster ≠ ActionSlower := by decide
  unfold SimulateGame youSpeedIs
  rw [hy]
  rcases h with ⟨hs, hn⟩ | ⟨hs, hn⟩
  · rw [if_pos hn]
    simp [hs, cutoffResult]
  · have hn' : next ≠ ActionSlower := by rw [hn]; exact hsf
    rw [if_neg hn', if_pos hn]
    simp [hs, MaxSpeed, cutoffResult]

/-- C1 at the 5x1 board with seed `slow_down` (speed 1), run without fuel. -/
theorem SimulateGame_early_cutoff_witness :
    SimulateGame 0 aiNoop trivialBoard ActionSlower =
      Outcome.done
        ({ action := ActionSlower, win := false, survived := 0, survivdedOpponent := 0,
           round := 0 }, trivialBoard) :=
  SimulateGame_early_cutoff 0 aiNoop trivialBoard ActionSlower
    (mkPlayer 0 0 DirectionRight 1 0) rfl (Or.inl ⟨rfl, rfl⟩)

/-! ## C2: the round at which the rollout ends -/

/-- C2, as stated, fails on the single-player board: at the end of round 1 one player
is active (`checkEndGame` holds), yet with `change_nothing` answered in every round the
rollout runs five rounds, and under no policy does it end after round one. -/
theorem trivialBoard_not_one_round :
    (∃ s1, stateAfter aiNoop ActionNOOP trivialBoard 1 = some s1 ∧
      numberActive s1.g.Players = 1 ∧ s1.g.checkEndGame = true) ∧
    (∃ gf, SimulateGame 10 aiNoop trivialBoard ActionNOOP =
      Outcome.done ({ action := ActionNOOP, win := true, survived := 5,
                      survivdedOpponent := -1, round := 5 }, gf)) ∧
    ¬ ∃ (fuel : Nat) (ai : Policy) (r : Result) (gf : Game),
        SimulateGame fuel ai trivialBoard ActionNOOP = Outcome.done (r, gf) ∧ r.round = 1 := by
  refine ⟨⟨_, rfl, rfl, rfl⟩, ⟨_, rfl⟩, ?_⟩
  rintro ⟨fuel, ai, r, gf, hsim, hr⟩
  have hy : getPlayer trivialBoard.Players trivialBoard.You
      = some (mkPlayer 0 0 DirectionRight 1 0) := rfl
  have hc : cutsOff trivialBoard ActionNOOP = false := rfl
  rw [SimulateGame_of_not_cutsOff hy hc] at hsim
  obtain ⟨n, st, _, hend, hfin⟩ := EndsAt_of_playRounds hsim
  have hround := (EndsAt_round hend).1
  have hrn : r.round = st.round := by
    have := congrArg (fun x => x.1.round) hfin
    simpa [finish] using this
  have hn : n = 1 := by
    have : (n : Int) = 1 := by rw [← hround, ← hrn, hr]
    exact_mod_cast this
  subst hn
  obtain ⟨_, hst, hdead, _⟩ := hend
  have hone : stateAfter ai ActionNOOP trivialBoard 1 =
      some { g := { trivialBoard with
                      Cells := [[0, 1, 0, 0, 0]]
                      Players := [(1, mkPlayer 1 0 DirectionRight 1 1)]
                      playerAnswer := [ActionNOOP] }
             first := false, round := 1, survived := 0, survivedOpponent := -1, winner := 1 } := rfl
  rw [hone] at hst
  simp only [Option.some.injEq] at hst
  subst hst
  simp [playerAlive, mkPlayer] at hdead

/-- C2 (amended). `SimulateGame` ends at the end of the first round after which no
player is still active, and the result's rounds is the number of that round: with
enough fuel a rollout whose first such round is `n` sends a record with rounds `n`, and
every record sent without an early cut-off comes from such a round. On the single-player 5x1
board with seed `change_nothing` and `change_nothing` answered in every round the
result is won = true and rounds = 5. -/
theorem SimulateGame_rounds_until_nobody_alive :
    (∀ (fuel : Nat) (ai : Policy) (g : Game) (next : String) (n : Nat) (st : LoopState),
      EndsAt ai next g n st → cutsOff g next = false → n ≤ fuel →
      ∃ r gf, SimulateGame fuel ai g next = Outcome.done (r, gf) ∧ r.round = n ∧
        gf = { st.g with Running := false }) ∧
    (∀ (fuel : Nat) (ai : Policy) (g : Game) (next : String) (r : Result) (gf : Game),
      SimulateGame fuel ai g next = Outcome.done (r, gf) → cutsOff g next = false →
      ∃ n st, EndsAt ai next g n st ∧ r.round = n ∧ n ≤ fuel) ∧
    (∃ r gf, SimulateGame 10 aiNoop trivialBoard ActionNOOP = Outcome.done (r, gf) ∧
      r.win = true ∧ r.round = 5) := by
  refine ⟨?_, ?_, ⟨_, _, rfl, rfl, rfl⟩⟩
  · intro fuel ai g next n st hend hc hf
    refine ⟨_, _, SimulateGame_of_EndsAt hend hc hf, ?_, rfl⟩
    exact (EndsAt_round hend).1
  · intro fuel ai g next r gf h hc
    rcases SimulateGame_done_cases h with ⟨hc1, _⟩ | ⟨_, hplay⟩
    · rw [hc] at hc1; exact absurd hc1 (by decide)
    obtain ⟨n, st, hn, hend, hfin⟩ := EndsAt_of_playRounds hplay
    refine ⟨n, st, hend, ?_, hn⟩
    have := congrArg (fun x => x.1.round) hfin
    simp only [finish] at this
    rw [this, (EndsAt_round hend).1]

theorem trivialBoard_EndsAt :
    EndsAt aiNoop ActionNOOP trivialBoard 5
      { g := { trivialBoard with
                 Cells := [[0, 1, 1, 1, 1]]
                 Players := [(1, { mkPlayer 5 0 DirectionRight 1 5 with Active := false })]
                 playerAnswer := [ActionNOOP] }
        first := false, round := 5, survived := 4, survivedOpponent := -1, winner := 1 } := by
  refine ⟨by decide, rfl, rfl, ?_⟩
  intro k s hk1 hk5 hs
  have hall : ∀ k, 1 ≤ k → k < 5 →
      (match stateAfter aiNoop ActionNOOP trivialBoard k with
       | some s => playerAlive s.g.Players
       | none => true) = true := by decide
  have := hall k hk1 hk5
  rw [hs] at this
  exact this

/-- C2 (amended) at the single-player board: five rounds. -/
theorem SimulateGame_rounds_until_nobody_alive_witness :
    ∃ r gf, SimulateGame 10 aiNoop trivialBoard ActionNOOP = Outcome.done (r, gf) ∧
      r.round = ((5 : Nat) : Int) ∧
      gf = { trivialBoard with
               Cells := [[0, 1, 1, 1, 1]]
               Players := [(1, { mkPlayer 5 0 DirectionRight 1 5 with Active := false })]
               playerAnswer := [ActionNOOP]
               Running := false } :=
  SimulateGame_rounds_until_nobody_alive.1 10 aiNoop trivialBoard ActionNOOP 5 _
    trivialBoard_EndsAt rfl (by decide)

/-! ## C3 and C4: the two survival counters -/

theorem roundsWhere_succ (ai : Policy) (next : String) (g : Game) (test : LoopState → Bool)
    (k : Nat) :
    roundsWhere ai next g test (k + 1) =
      roundsWhere ai next g test k +
        (match stateAfter ai next g k with
         | none => 0
         | some s => if test s then 1 else 0) := by
  unfold roundsWhere
  rw [List.range_succ, List.filter_append, List.length_append]
  congr 1
  cases h : stateAfter ai next g k with
  | none => simp [List.filter, h]
  | some s =>
    cases ht : test s <;> simp [List.filter, h, ht]

theorem roundsWhere_mono (ai : Policy) (next : String) (g : Game) (t1 t2 : LoopState → Bool)
    (h : ∀ s, t1 s = true → t2 s = true) (n : Nat) :
    roundsWhere ai next g t1 n ≤ roundsWhere ai next g t2 n := by
  induction n with
  | zero => simp [roundsWhere]
  | succ k ih =>
    rw [roundsWhere_succ, roundsWhere_succ]
    cases hs : stateAfter ai next g k with
    | none => simpa using ih
    | some s =>
      simp only
      by_cases h1 : t1 s = true
      · rw [if_pos h1, if_pos (h s h1)]; omega
      · rw [if_neg h1]
        split <;> omega

/-- The counter `survived` at the end of round `k`. -/
theorem survived_stateAfter (ai : Policy) (next : String) (g : Game) :
    ∀ (k : Nat) (s : LoopState), stateAfter ai next g k = some s →
      s.survived = (roundsWhere ai next g selfActive k : Int) - 1 := by
  intro k
  induction k with
  | zero =>
    intro s h
    simp only [stateAfter, roundsFrom, Option.some.injEq] at h
    subst h
    simp [initState, roundsWhere]
  | succ k ih =>
    intro s h
    obtain ⟨s0, h0, hb⟩ := stateAfter_succ h
    obtain ⟨you, g1, g2, hy, _, _, rfl⟩ := roundBody_some hb
    rw [roundsWhere_succ, h0]
    have hsa : selfActive s0 = you.Active := by simp [selfActive, hy]
    simp only [hsa, ih s0 h0]
    cases you.Active <;> simp

theorem countOpponent_eq (you : Int) (act : Bool) :
    ∀ (ps : List (Int × Player)) (opp : Int),
      countOpponent you act ps opp =
        if act && ps.any (fun kp => decide (kp.1 ≠ you)) then opp + 1 else opp := by
  intro ps
  induction ps with
  | nil => intro opp; simp [countOpponent]
  | cons kp rest ih =>
    obtain ⟨i, p⟩ := kp
    intro opp
    unfold countOpponent
    by_cases hi : i = you
    · subst hi
      have h0 : decide (i ≠ i) = false := by simp
      simp only [if_true, ih, List.any_cons, h0, Bool.false_or]
    · cases act <;> simp [hi, ih]

/-- The counter `survivedOpponent` at the end of round `k`. -/
theorem survivedOpponent_stateAfter (ai : Policy) (next : String) (g : Game) :
    ∀ (k : Nat) (s : LoopState), stateAfter ai next g k = some s →
      s.survivedOpponent =
        (roundsWhere ai next g (fun t => selfActive t && hasOtherPlayer t) k : Int) - 1 := by
  intro k
  induction k with
  | zero =>
    intro s h
    simp only [stateAfter, roundsFrom, Option.some.injEq] at h
    subst h
    simp [initState, roundsWhere]
  | succ k ih =>
    intro s h
    obtain ⟨s0, h0, hb⟩ := stateAfter_succ h
    obtain ⟨you, g1, g2, hy, _, _, rfl⟩ := roundBody_some hb
    rw [roundsWhere_succ, h0]
    have hsa : selfActive s0 = you.Active := by simp [selfActive, hy]
    simp only [hsa, hasOtherPlayer, countOpponent_eq, ih s0 h0]
    split <;> simp

theorem opponentActive_imp_hasOther (s : LoopState) (h : opponentActive s = true) :
    hasOtherPlayer s = true := by
  simp only [opponentActive, hasOtherPlayer, List.any_eq_true, Bool.and_eq_true] at *
  obtain ⟨kp, hkp, h1, _⟩ := h
  exact ⟨kp, hkp, h1⟩

theorem headOnBoard_EndsAt :
    EndsAt aiNoop ActionNOOP headOnBoard 2
      { g := { headOnBoard with
                 Cells := [[1, 1, -1, 2, 2]]
                 Players := [(1, { mkPlayer 2 0 DirectionRight 1 2 with Active := false }),
                             (2, { mkPlayer 2 0 DirectionLeft 1 2 with Active := false })]
                 playerAnswer := [ActionNOOP, ActionNOOP] }
        first := false, round := 2, survived := 1, survivedOpponent := 1, winner := -1 } := by
  refine ⟨by decide, rfl, rfl, ?_⟩
  intro k s hk1 hk5 hs
  have hall : ∀ k, 1 ≤ k → k < 2 →
      (match stateAfter aiNoop ActionNOOP headOnBoard k with
       | some s => playerAlive s.g.Players
       | none => true) = true := by decide
  have := hall k hk1 hk5
  rw [hs] at this
  exact this

/-- C3, as stated, fails on the head-on board: the self-player is active at the start
of both rounds, the rollout has two rounds (not three), and the record has
survived = 1. -/
theorem headOnBoard_self_survival :
    (∃ gf, SimulateGame 10 aiNoop headOnBoard ActionNOOP =
      Outcome.done ({ action := ActionNOOP, win := false, survived := 1,
                      survivdedOpponent := 1, round := 2 }, gf)) ∧
    roundsWhere aiNoop ActionNOOP headOnBoard selfActive 2 = 2 :=
  ⟨⟨_, rfl⟩, by decide⟩

/-- C3 (amended). For every rollout that goes through the main loop (its first round
without an active player is round `n`), the result's survived value equals the number
of rounds `n` if the self-player won, and otherwise equals the number of rounds at
whose start the self-player was still active minus one. In the head-on tie the result
is won = false, rounds = 2, survived = 1. -/
theorem SimulateGame_self_survival :
    (∀ (fuel : Nat) (ai : Policy) (g : Game) (next : String) (n : Nat) (st : LoopState),
      EndsAt ai next g n st → cutsOff g next = false → n ≤ fuel →
      ∃ r gf, SimulateGame fuel ai g next = Outcome.done (r, gf) ∧ r.round = n ∧
        (r.win = true → r.survived = n) ∧
        (r.win = false → r.survived = (roundsWhere ai next g selfActive n : Int) - 1)) ∧
    (∃ r gf, SimulateGame 10 aiNoop headOnBoard ActionNOOP = Outcome.done (r, gf) ∧
      r.win = false ∧ r.round = 2 ∧ r.survived = 1) := by
  refine ⟨?_, ⟨_, _, rfl, rfl, rfl, rfl⟩⟩
  intro fuel ai g next n st hend hc hf
  refine ⟨_, _, SimulateGame_of_EndsAt hend hc hf, (EndsAt_round hend).1, ?_, ?_⟩
  · intro hw
    simp only [finish, decide_eq_true_eq] at hw
    simp only [finish, hw, if_true]
    exact (EndsAt_round hend).1
  · intro hw
    simp only [finish, decide_eq_false_iff_not] at hw
    simp only [finish, hw, if_false]
    exact survived_stateAfter ai next g n st hend.2.1

/-- C3 (amended) at the head-on board. -/
theorem SimulateGame_self_survival_witness :
    ∃ r gf, SimulateGame 10 aiNoop headOnBoard ActionNOOP = Outcome.done (r, gf) ∧
      r.round = ((2 : Nat) : Int) ∧ (r.win = true → r.survived = ((2 : Nat) : Int)) ∧
      (r.win = false →
        r.survived = (roundsWhere aiNoop ActionNOOP headOnBoard selfActive 2 : Int) - 1) :=
  SimulateGame_self_survival.1 10 aiNoop headOnBoard ActionNOOP 2 _ headOnBoard_EndsAt rfl (by decide)

/-- C4, as stated, fails on the head-on board: player 2 is active at the start of both
rounds, and the record's opponent-survival value is 1. -/
theorem headOnBoard_opponent_survival :
    (∃ r gf, SimulateGame 10 aiNoop headOnBoard ActionNOOP = Outcome.done (r, gf) ∧
      r.round = 2 ∧ r.survivdedOpponent = 1) ∧
    roundsWhere aiNoop ActionNOOP headOnBoard opponentActive 2 = 2 :=
  ⟨⟨_, _, rfl, rfl, rfl⟩, by decide⟩

theorem roundsWhere_zero (ai : Policy) (next : String) (g : Game) (test : LoopState → Bool)
    (h : ∀ k s, stateAfter ai next g k = some s → test s = false) (n : Nat) :
    roundsWhere ai next g test n = 0 := by
  induction n with
  | zero => simp [roundsWhere]
  | succ k ih =>
    rw [roundsWhere_succ, ih]
    cases hs : stateAfter ai next g k with
    | none => rfl
    | some s => simp [h k s hs]

theorem hasOtherPlayer_stateAfter {ai : Policy} {next : String} {g : Game} {k : Nat}
    {s : LoopState} (hs : stateAfter ai next g k = some s)
    (hsingle : ∀ kp ∈ g.Players, kp.1 = g.You) : hasOtherPlayer s = false := by
  obtain ⟨_, hyou, _, _, hkeys⟩ := stateAfter_frame ai next g k s hs
  unfold hasOtherPlayer
  rw [Bool.eq_false_iff]
  intro hany
  obtain ⟨kp, hkp, hne⟩ := List.any_eq_true.mp hany
  have h1 : kp.1 ∈ s.g.Players.map Prod.fst := List.mem_map.mpr ⟨kp, hkp, rfl⟩
  rw [hkeys] at h1
  obtain ⟨kp1, hkp1, he⟩ := List.mem_map.mp h1
  have := hsingle kp1 hkp1
  rw [hyou] at hne
  simp only [decide_eq_true_eq] at hne
  exact hne (by rw [← he, this])

/-- C4 (amended). For every rollout that goes through the main loop, the result's
opponent-survival value is a number of rounds minus one: it is at least the number of
rounds at whose start both the self-player and some other player were active, minus
one, and at most the number of rounds at whose start the self-player or some other
player was active, minus one; on a board with no player other than the self-player it
is -1. -/
theorem SimulateGame_opponent_survival (fuel : Nat) (ai : Policy) (g : Game) (next : String)
    (n : Nat) (st : LoopState) (hend : EndsAt ai next g n st) (hc : cutsOff g next = false)
    (hf : n ≤ fuel) :
    ∃ r gf, SimulateGame fuel ai g next = Outcome.done (r, gf) ∧ r.round = n ∧
      (roundsWhere ai next g (fun t => selfActive t && opponentActive t) n : Int) - 1
        ≤ r.survivdedOpponent ∧
      r.survivdedOpponent
        ≤ (roundsWhere ai next g (fun t => selfActive t || opponentActive t) n : Int) - 1 ∧
      ((∀ kp ∈ g.Players, kp.1 = g.You) → r.survivdedOpponent = -1) := by
  refine ⟨_, _, SimulateGame_of_EndsAt hend hc hf, (EndsAt_round hend).1, ?_, ?_, ?_⟩
  · simp only [finish]
    rw [survivedOpponent_stateAfter ai next g n st hend.2.1]
    have := roundsWhere_mono ai next g (fun t => selfActive t && opponentActive t)
      (fun t => selfActive t && hasOtherPlayer t) (by
        intro s hs
        simp only [Bool.and_eq_true] at hs ⊢
        exact ⟨hs.1, opponentActive_imp_hasOther s hs.2⟩) n
    omega
  · simp only [finish]
    rw [survivedOpponent_stateAfter ai next g n st hend.2.1]
    have := roundsWhere_mono ai next g (fun t => selfActive t && hasOtherPlayer t)
      (fun t => selfActive t || opponentActive t) (by
        intro s hs
        simp only [Bool.and_eq_true, Bool.or_eq_true] at hs ⊢
        exact Or.inl hs.1) n
    omega
  · intro hsingle
    simp only [finish]
    rw [survivedOpponent_stateAfter ai next g n st hend.2.1,
      roundsWhere_zero ai next g _ (fun k s hs => by
        simp only [hasOtherPlayer_stateAfter hs hsingle, Bool.and_false]) n]
    rfl

/-- C4 (amended) at the head-on board. -/
theorem SimulateGame_opponent_survival_witness :
    ∃ r gf, SimulateGame 10 aiNoop headOnBoard ActionNOOP = Outcome.done (r, gf) ∧
      r.round = ((2 : Nat) : Int) ∧
      (roundsWhere aiNoop ActionNOOP headOnBoard
          (fun t => selfActive t && opponentActive t) 2 : Int) - 1 ≤ r.survivdedOpponent ∧
      r.survivdedOpponent ≤ (roundsWhere aiNoop ActionNOOP headOnBoard
          (fun t => selfActive t || opponentActive t) 2 : Int) - 1 ∧
      ((∀ kp ∈ headOnBoard.Players, kp.1 = headOnBoard.You) → r.survivdedOpponent = -1) :=
  SimulateGame_opponent_survival 10 aiNoop headOnBoard ActionNOOP 2 _ headOnBoard_EndsAt rfl
    (by decide)

/-- The opponent counter reads the self-player's flag: on the 5x2 board the self-player
leaves the board in round 1 and player 2 is active at the start of all five rounds,
yet the record's opponent-survival value is 0. -/
theorem opponent_counter_reads_self_flag :
    (∃ gf, SimulateGame 10 aiNoop selfLeavesBoard ActionNOOP =
      Outcome.done ({ action := ActionNOOP, win := false, survived := 0,
                      survivdedOpponent := 0, round := 5 }, gf)) ∧
    roundsWhere aiNoop ActionNOOP selfLeavesBoard opponentActive 5 = 5 ∧
    roundsWhere aiNoop ActionNOOP selfLeavesBoard selfActive 5 = 1 :=
  ⟨⟨_, rfl⟩, by decide, by decide⟩

/-! ## C5: the winner -/

theorem playerAlive_eq_false_iff (ps : List (Int × Player)) :
    playerAlive ps = false ↔ numberActive ps = 0 := by
  induction ps with
  | nil => simp [playerAlive, numberActive]
  | cons kp rest ih =>
    obtain ⟨i, p⟩ := kp
    cases hp : p.Active <;> simp [playerAlive, numberActive, hp, ih]

theorem numberActive_eq_zero {ps : List (Int × Player)} (h : numberActive ps = 0) :
    ∀ kp ∈ ps, kp.2.Active = false := by
  induction ps with
  | nil => intro kp hkp; simp at hkp
  | cons kp0 rest ih =>
    obtain ⟨i, p⟩ := kp0
    intro kp hkp
    simp only [numberActive] at h
    rcases List.mem_cons.mp hkp with rfl | hmem
    · cases hp : p.Active
      · rfl
      · simp [hp] at h
    · exact ih (by omega) kp hmem

theorem playerAlive_false_of_all {ps : List (Int × Player)}
    (hall : ∀ kp ∈ ps, kp.2.Active = false) : playerAlive ps = false := by
  induction ps with
  | nil => rfl
  | cons kp rest ih =>
    obtain ⟨i, p⟩ := kp
    have hp := hall (i, p) (List.mem_cons_self _ _)
    simp only at hp
    simp [playerAlive, hp, ih (fun kp hkp => hall kp (List.mem_cons_of_mem _ hkp))]

/-- With a winner already found, one more active player resets the search. -/
theorem findWinner_of_ne (ps : List (Int × Player)) (w : Int) (hw : w ≠ -1) :
    findWinner ps w = if numberActive ps = 0 then w else -1 := by
  induction ps with
  | nil => simp [findWinner, numberActive]
  | cons kp rest ih =>
    obtain ⟨i, p⟩ := kp
    cases hp : p.Active
    · simp [findWinner, numberActive, hp, ih]
    · simp [findWinner, numberActive, hp, hw]

/-- The search for the winner, entered with `-1`: the key of the only active player,
and `-1` when no player or more than one player is active. -/
theorem findWinner_neg_one (ps : List (Int × Player)) (hk : ∀ kp ∈ ps, kp.1 ≠ -1) :
    (numberActive ps = 0 → findWinner ps (-1) = -1) ∧
    (2 ≤ numberActive ps → findWinner ps (-1) = -1) ∧
    (numberActive ps = 1 → ∀ kp ∈ ps, kp.2.Active = true → findWinner ps (-1) = kp.1) := by
  induction ps with
  | nil => simp [findWinner, numberActive]
  | cons kp0 rest ih =>
    obtain ⟨i, p⟩ := kp0
    have hi : i ≠ -1 := hk (i, p) (List.mem_cons_self _ _)
    obtain ⟨ih0, ih2, ih1⟩ := ih (fun kp hkp => hk kp (List.mem_cons_of_mem _ hkp))
    cases hp : p.Active
    · simp only [findWinner, numberActive, hp, Bool.false_eq_true, if_false, Nat.zero_add]
      refine ⟨ih0, ih2, ?_⟩
      intro h1 kp hkp hact
      rcases List.mem_cons.mp hkp with rfl | hmem
      · simp [hp] at hact
      · exact ih1 h1 kp hmem hact
    · simp only [findWinner, numberActive, hp, if_true]
      rw [findWinner_of_ne rest i hi]
      refine ⟨by omega, ?_, ?_⟩
      · intro h2
        have : numberActive rest ≠ 0 := by omega
        simp [this]
      · intro h1 kp hkp hact
        have h0 : numberActive rest = 0 := by omega
        rcases List.mem_cons.mp hkp with rfl | hmem
        · simp [h0]
        · have := numberActive_eq_zero h0 kp hmem
          rw [this] at hact
          simp at hact

theorem getPlayer_mem {ps : List (Int × Player)} {k : Int} {p : Player}
    (h : getPlayer ps k = some p) : (k, p) ∈ ps := by
  induction ps with
  | nil => simp [getPlayer] at h
  | cons kp rest ih =>
    obtain ⟨i, q⟩ := kp
    unfold getPlayer at h
    by_cases hi : i = k
    · simp only [hi, if_true, Option.some.injEq] at h
      subst h; subst hi
      exact List.mem_cons_self _ _
    · simp only [hi, if_false] at h
      exact List.mem_cons_of_mem _ (ih h)

theorem getPlayer_of_mem {ps : List (Int × Player)} (hnd : (ps.map Prod.fst).Nodup)
    {k : Int} {p : Player} (h : (k, p) ∈ ps) : getPlayer ps k = some p := by
  induction ps with
  | nil => simp at h
  | cons kp rest ih =>
    obtain ⟨i, q⟩ := kp
    simp only [List.map_cons, List.nodup_cons] at hnd
    unfold getPlayer
    rcases List.mem_cons.mp h with heq | hmem
    · simp only [Prod.mk.injEq] at heq
      simp [heq.1, heq.2]
    · have hne : i ≠ k := by
        rintro rfl
        exact hnd.1 (List.mem_map.mpr ⟨(i, p), hmem, rfl⟩)
      simp only [hne, if_false]
      exact ih hnd.2 hmem

/-- The winner, once found, is kept. -/
theorem winner_kept {ai : Policy} {next : String} {g : Game} {m : Nat} {sm : LoopState}
    (hm : stateAfter ai next g m = some sm) (hw : sm.winner ≠ -1) :
    ∀ (d : Nat) (s : LoopState), stateAfter ai next g (m + d) = some s → s.winner = sm.winner := by
  intro d
  induction d with
  | zero =>
    intro s hs
    rw [Nat.add_zero, hm] at hs
    simp only [Option.some.injEq] at hs
    rw [hs]
  | succ d ih =>
    intro s hs
    obtain ⟨s0, h0, hb⟩ := stateAfter_succ (k := m + d) hs
    obtain ⟨you, g1, g2, _, _, _, rfl⟩ := roundBody_some hb
    have := ih s0 h0
    simp only
    rw [this, if_neg hw]

/-- While every round leaves two or more players active, no winner is recorded. -/
theorem winner_undecided {ai : Policy} {next : String} {g : Game} :
    ∀ (k : Nat) (s : LoopState), stateAfter ai next g k = some s →
      (∀ j sj, 1 ≤ j → j ≤ k → stateAfter ai next g j = some sj →
        2 ≤ numberActive sj.g.Players) →
      s.winner = -1 := by
  intro k
  induction k with
  | zero =>
    intro s h _
    simp only [stateAfter, roundsFrom, Option.some.injEq] at h
    subst h
    rfl
  | succ k ih =>
    intro s hs hall
    obtain ⟨s0, h0, hb⟩ := stateAfter_succ hs
    have hw0 := ih s0 h0 (fun j sj h1 h2 hj => hall j sj h1 (by omega) hj)
    have hfr := roundBody_frame hb
    obtain ⟨you, g1, g2, _, _, _, rfl⟩ := roundBody_some hb
    simp only [hw0, if_true]
    have hkeys : ∀ kp ∈ g2.Players, kp.1 ≠ -1 := by
      intro kp hkp
      have h1 : kp.1 ∈ g2.Players.map Prod.fst := List.mem_map.mpr ⟨kp, hkp, rfl⟩
      have h2 := hfr.2.2.2.2.2.1
      simp only at h2
      rw [h2] at h1
      obtain ⟨kp', hkp', he⟩ := List.mem_map.mp h1
      have := (hfr.2.2.2.2.2.2 kp' hkp').1
      omega
    exact (findWinner_neg_one g2.Players hkeys).2.1 (hall (k + 1) _ (by omega) (by omega) hs)

/-- C5. The result has won = true if and only if, at the end of the first round `m`
that leaves at most one active player, the self-player is active (so it is the player
still active); if no player is active at the end of that round, won = false. The keys
of the player map are distinct. -/
theorem SimulateGame_win (fuel : Nat) (ai : Policy) (g : Game) (next : String)
    (n : Nat) (st : LoopState) (hend : EndsAt ai next g n st) (hc : cutsOff g next = false)
    (hf : n ≤ fuel) (hnd : (g.Players.map Prod.fst).Nodup) :
    ∃ r gf m sm, SimulateGame fuel ai g next = Outcome.done (r, gf) ∧
      1 ≤ m ∧ m ≤ n ∧ stateAfter ai next g m = some sm ∧
      numberActive sm.g.Players ≤ 1 ∧
      (∀ k s, 1 ≤ k → k < m → stateAfter ai next g k = some s → 2 ≤ numberActive s.g.Players) ∧
      (r.win = true ↔ selfActive sm = true) ∧
      (numberActive sm.g.Players = 0 → r.win = false) := by
  classical
  obtain ⟨hn1, hst, hdead, halive⟩ := hend
  have hex : ∃ m, 1 ≤ m ∧ ∃ s, stateAfter ai next g m = some s ∧ numberActive s.g.Players ≤ 1 :=
    ⟨n, hn1, st, hst, by rw [(playerAlive_eq_false_iff _).mp hdead]; omega⟩
  have hm1 := (Nat.find_spec hex).1
  obtain ⟨sm, hsm, hle⟩ := (Nat.find_spec hex).2
  have hmn : Nat.find hex ≤ n :=
    Nat.find_min' hex ⟨hn1, st, hst, by rw [(playerAlive_eq_false_iff _).mp hdead]; omega⟩
  have hbefore : ∀ k s, 1 ≤ k → k < Nat.find hex → stateAfter ai next g k = some s →
      2 ≤ numberActive s.g.Players := by
    intro k s hk1 hk hs
    by_contra hlt
    exact Nat.find_min hex hk ⟨hk1, s, hs, by omega⟩
  generalize Nat.find hex = m at hm1 hsm hmn hbefore
  -- the state before round `m` and the round itself
  obtain ⟨j, rfl⟩ : ∃ j, m = j + 1 := ⟨m - 1, by omega⟩
  obtain ⟨s0, h0, hb⟩ := stateAfter_succ hsm
  have hw0 : s0.winner = -1 :=
    winner_undecided j s0 h0 (fun i si h1 h2 hi => hbefore i si h1 (by omega) hi)
  have hfr := roundBody_frame hb
  have hfrm := stateAfter_frame ai next g (j + 1) sm hsm
  have hkeys : ∀ kp ∈ sm.g.Players, 1 ≤ kp.1 := by
    intro kp hkp
    have h1 : kp.1 ∈ sm.g.Players.map Prod.fst := List.mem_map.mpr ⟨kp, hkp, rfl⟩
    rw [hfr.2.2.2.2.2.1] at h1
    obtain ⟨kp', hkp', he⟩ := List.mem_map.mp h1
    have := (hfr.2.2.2.2.2.2 kp' hkp').1
    omega
  have hfw := findWinner_neg_one sm.g.Players (fun kp hkp => by have := hkeys kp hkp; omega)
  have hwm : sm.winner = findWinner sm.g.Players (-1) := by
    obtain ⟨you, g1, g2, _, _, _, rfl⟩ := roundBody_some hb
    simp only [hw0, if_true]
  have hndm : (sm.g.Players.map Prod.fst).Nodup := by rw [hfrm.2.2.2.2]; exact hnd
  have hsim : SimulateGame fuel ai g next = Outcome.done (finish next st) :=
    SimulateGame_of_EndsAt ⟨hn1, hst, hdead, halive⟩ hc hf
  have hyou : st.g.You = sm.g.You := by
    rw [(stateAfter_frame ai next g n st hst).2.1, hfrm.2.1]
  refine ⟨_, _, j + 1, sm, hsim, hm1, hmn, hsm, hle, hbefore, ?_, ?_⟩
  · -- won ↔ the self-player is active at the end of round `m`
    simp only [finish, decide_eq_true_eq]
    rcases Nat.eq_zero_or_pos (numberActive sm.g.Players) with hz | hpos
    · -- nobody is left: round `m` is the last round
      have hdm : playerAlive sm.g.Players = false := (playerAlive_eq_false_iff _).mpr hz
      have hmn' : j + 1 = n := by
        by_contra hne
        have := halive (j + 1) sm hm1 (by omega) hsm
        rw [hdm] at this
        simp at this
      subst hmn'
      rw [hsm] at hst
      simp only [Option.some.injEq] at hst
      subst hst
      rw [hwm, hfw.1 hz]
      constructor
      · intro hw
        exfalso
        obtain ⟨you, hy⟩ := getPlayer_of_stateAfter hsm
        have hmem := getPlayer_mem hy
        have h1 : g.You ∈ sm.g.Players.map Prod.fst := by
          rw [hfrm.2.2.2.2]
          exact List.mem_map.mpr ⟨_, hmem, rfl⟩
        obtain ⟨kp, hkp, he⟩ := List.mem_map.mp h1
        have := hkeys kp hkp
        rw [hfrm.2.1] at hw
        omega
      · intro hsa
        exfalso
        simp only [selfActive] at hsa
        cases hg : getPlayer sm.g.Players sm.g.You with
        | none => rw [hg] at hsa; simp at hsa
        | some you =>
          rw [hg] at hsa
          have := numberActive_eq_zero hz _ (getPlayer_mem hg)
          simp only at this hsa
          rw [this] at hsa
          simp at hsa
    · -- exactly one player is left: it is the winner until the end
      have h1 : numberActive sm.g.Players = 1 := by omega
      have hwin : ∀ kp ∈ sm.g.Players, kp.2.Active = true → sm.winner = kp.1 := by
        intro kp hkp hact
        rw [hwm]
        exact hfw.2.2 h1 kp hkp hact
      -- some entry is active
      have hsome : ∃ kp ∈ sm.g.Players, kp.2.Active = true := by
        by_contra hno
        have : playerAlive sm.g.Players = false := by
          have hall : ∀ kp ∈ sm.g.Players, kp.2.Active = false := by
            intro kp hkp
            cases ha : kp.2.Active
            · rfl
            · exact absurd ⟨kp, hkp, ha⟩ hno
          exact playerAlive_false_of_all hall
        have := (playerAlive_eq_false_iff _).mp this
        omega
      obtain ⟨kpw, hkpw, hactw⟩ := hsome
      have hwne : sm.winner ≠ -1 := by
        rw [hwin kpw hkpw hactw]
        have := hkeys kpw hkpw
        omega
      have hstw : st.winner = sm.winner := by
        obtain ⟨d, rfl⟩ : ∃ d, n = j + 1 + d := ⟨n - (j + 1), by omega⟩
        exact winner_kept hsm hwne d st hst
      rw [hstw, hyou, hwin kpw hkpw hactw]
      constructor
      · intro hw
        have hg := getPlayer_of_mem hndm (show (kpw.1, kpw.2) ∈ sm.g.Players from hkpw)
        simp only [selfActive, ← hw, hg, hactw]
      · intro hsa
        simp only [selfActive] at hsa
        cases hg : getPlayer sm.g.Players sm.g.You with
        | none => rw [hg] at hsa; simp at hsa
        | some you =>
          rw [hg] at hsa
          simp only at hsa
          have := hwin _ (getPlayer_mem hg) hsa
          simp only at this
          rw [← this, hwin kpw hkpw hactw]
  · intro hz
    simp only [finish, decide_eq_false_iff_not]
    have hdm : playerAlive sm.g.Players = false := (playerAlive_eq_false_iff _).mpr hz
    have hmn' : j + 1 = n := by
      by_contra hne
      have := halive (j + 1) sm hm1 (by omega) hsm
      rw [hdm] at this
      simp at this
    subst hmn'
    rw [hsm] at hst
    simp only [Option.some.injEq] at hst
    subst hst
    rw [hwm, hfw.1 hz]
    intro hw
    obtain ⟨you, hy⟩ := getPlayer_of_stateAfter hsm
    have hmem := getPlayer_mem hy
    have h1 : g.You ∈ sm.g.Players.map Prod.fst := by
      rw [hfrm.2.2.2.2]
      exact List.mem_map.mpr ⟨_, hmem, rfl⟩
    obtain ⟨kp, hkp, he⟩ := List.mem_map.mp h1
    have := hkeys kp hkp
    rw [hfrm.2.1] at hw
    omega

/-- C5 at the head-on board: both players are eliminated in round 2, the first round
that leaves at most one active player, and won = false. -/
theorem SimulateGame_win_witness :
    ∃ r gf m sm, SimulateGame 10 aiNoop headOnBoard ActionNOOP = Outcome.done (r, gf) ∧
      1 ≤ m ∧ m ≤ 2 ∧ stateAfter aiNoop ActionNOOP headOnBoard m = some sm ∧
      numberActive sm.g.Players ≤ 1 ∧
      (∀ k s, 1 ≤ k → k < m → stateAfter aiNoop ActionNOOP headOnBoard k = some s →
        2 ≤ numberActive s.g.Players) ∧
      (r.win = true ↔ selfActive sm = true) ∧
      (numberActive sm.g.Players = 0 → r.win = false) :=
  SimulateGame_win 10 aiNoop headOnBoard ActionNOOP 2 _ headOnBoard_EndsAt rfl (by decide)
    (by decide)

/-! ## C10: two players that enter the same cell -/

theorem getCell_setCell_same {cs c1 : List (List Int)} {y x v : Int}
    (h : setCell cs y x v = some c1) : getCell c1 y x = some v := by
  unfold setCell at h
  by_cases hneg : y < 0 ∨ x < 0
  · simp [hneg] at h
  · simp only [hneg, if_false] at h
    cases hrow : cs[y.toNat]? with
    | none => rw [hrow] at h; simp at h
    | some row =>
      rw [hrow] at h
      simp only at h
      by_cases hx : x.toNat < row.length
      · simp only [hx, if_true, Option.some.injEq] at h
        subst h
        have hy : y.toNat < cs.length := by
          by_contra hge
          rw [List.getElem?_eq_none (by omega)] at hrow
          simp at hrow
        unfold getCell
        simp only [hneg, if_false]
        rw [List.getElem?_set_self hy]
        simp only
        rw [List.getElem?_set_self hx]
      · simp [hx] at h

theorem getCell_setCell_other {cs c1 : List (List Int)} {y x v : Int}
    (h : setCell cs y x v = some c1) (y1 x1 : Int) (hne : ¬ (y1 = y ∧ x1 = x)) :
    getCell c1 y1 x1 = getCell cs y1 x1 := by
  unfold setCell at h
  by_cases hneg : y < 0 ∨ x < 0
  · simp [hneg] at h
  · simp only [hneg, if_false] at h
    cases hrow : cs[y.toNat]? with
    | none => rw [hrow] at h; simp at h
    | some row =>
      rw [hrow] at h
      simp only at h
      by_cases hx : x.toNat < row.length
      · simp only [hx, if_true, Option.some.injEq] at h
        subst h
        unfold getCell
        by_cases hneg1 : y1 < 0 ∨ x1 < 0
        · simp [hneg1]
        · simp only [hneg1, if_false]
          by_cases hy1 : y1 = y
          · subst hy1
            have hx1 : x1 ≠ x := fun hh => hne ⟨rfl, hh⟩
            have hy : y1.toNat < cs.length := by
              by_contra hge
              rw [List.getElem?_eq_none (by omega)] at hrow
              simp at hrow
            rw [List.getElem?_set_self hy, hrow]
            simp only
            rw [List.getElem?_set_ne (by omega)]
          · rw [List.getElem?_set_ne (by omega)]
      · simp [hx] at h

theorem CellsKept.refl (c : List (List Int)) : CellsKept c c :=
  fun _ _ v h => ⟨v, h, fun _ => Or.inl rfl⟩

theorem CellsKept.trans {c c1 c2 : List (List Int)} (h1 : CellsKept c c1)
    (h2 : CellsKept c1 c2) : CellsKept c c2 := by
  intro y x v hv
  obtain ⟨v1, hv1, hk1⟩ := h1 y x v hv
  obtain ⟨v2, hv2, hk2⟩ := h2 y x v1 hv1
  refine ⟨v2, hv2, fun hne => ?_⟩
  rcases hk1 hne with rfl | rfl
  · exact hk2 hne
  · rcases hk2 (by decide) with h | h <;> exact Or.inr h

/-- The stamp of one step keeps the cells. -/
theorem CellsKept_stamp {c c1 : List (List Int)} {y x v w : Int}
    (hg : getCell c y x = some v) (h : setCell c y x (if v ≠ 0 then -1 else w) = some c1) :
    CellsKept c c1 := by
  intro y1 x1 v1 hv1
  by_cases hsame : y1 = y ∧ x1 = x
  · obtain ⟨rfl, rfl⟩ := hsame
    rw [hg] at hv1
    simp only [Option.some.injEq] at hv1
    subst hv1
    refine ⟨_, getCell_setCell_same h, fun hne => ?_⟩
    simp [hne]
  · rw [← getCell_setCell_other h y1 x1 hsame] at hv1
    exact ⟨v1, hv1, fun _ => Or.inl rfl⟩

/-- One pass of the step loop, taken apart. -/
theorem moveLoop_succ {w h i : Int} {n : Nat} {s : Int} {c c1 : List (List Int)}
    {p p1 : Player} {dx dy : Int} (hd : dirVec p.Direction = some (dx, dy))
    (hm : moveLoop w h i (n + 1) s c p = some (c1, p1)) :
    let q : Player := { p with X := p.X + dx, Y := p.Y + dy }
    ((q.X < 0 ∨ q.X ≥ w ∨ q.Y < 0 ∨ q.Y ≥ h) ∧ c1 = c ∧ p1 = invalidatePlayer q) ∨
    (¬ (q.X < 0 ∨ q.X ≥ w ∨ q.Y < 0 ∨ q.Y ≥ h) ∧ isHole q s = true ∧
      moveLoop w h i n (s + 1) c q = some (c1, p1)) ∨
    (¬ (q.X < 0 ∨ q.X ≥ w ∨ q.Y < 0 ∨ q.Y ≥ h) ∧ isHole q s = false ∧
      ∃ v c0, getCell c q.Y q.X = some v ∧
        setCell c q.Y q.X (if v ≠ 0 then -1 else toInt8 i) = some c0 ∧
        moveLoop w h i n (s + 1) c0 q = some (c1, p1)) := by
  intro q
  have hstep : dostep p.Direction p.X p.Y = some (p.X + dx, p.Y + dy) := by
    unfold dirVec at hd
    unfold dostep
    split_ifs at hd ⊢ <;> simp_all <;> omega
  unfold moveLoop at hm
  rw [hstep] at hm
  simp only at hm
  by_cases hout : q.X < 0 ∨ q.X ≥ w ∨ q.Y < 0 ∨ q.Y ≥ h
  · left
    rw [if_pos hout] at hm
    simp only [Option.some.injEq, Prod.mk.injEq] at hm
    exact ⟨hout, hm.1.symm, hm.2.symm⟩
  · right
    rw [if_neg hout] at hm
    cases hh : isHole q s
    · right
      simp only [hh] at hm
      cases hg : getCell c q.Y q.X with
      | none =>
        simp only [q] at hg
        rw [hg] at hm
        simp at hm
      | some v =>
        simp only [q] at hg
        rw [hg] at hm
        simp only at hm
        cases hs : setCell c (p.Y + dy) (p.X + dx) (if v ≠ 0 then -1 else toInt8 i) with
        | none => rw [hs] at hm; simp at hm
        | some c0 =>
          rw [hs] at hm
          exact ⟨hout, rfl, v, c0, rfl, hs, hm⟩
    · left
      simp only [hh, if_true] at hm
      exact ⟨hout, rfl, hm⟩

theorem dirVec_of_dostep {d : String} {x y : Int} {r : Int × Int}
    (h : dostep d x y = some r) : ∃ dx dy, dirVec d = some (dx, dy) := by
  unfold dostep at h
  unfold dirVec
  split_ifs at h ⊢ <;> simp_all

theorem dirVec_of_moveLoop {w h i : Int} {n : Nat} {s : Int} {c c1 : List (List Int)}
    {p p1 : Player} (hm : moveLoop w h i (n + 1) s c p = some (c1, p1)) :
    ∃ dx dy, dirVec p.Direction = some (dx, dy) := by
  unfold moveLoop at hm
  cases hs : dostep p.Direction p.X p.Y with
  | none => rw [hs] at hm; simp at hm
  | some r => exact dirVec_of_dostep hs

/-- The step loop never empties a cell and never changes a collision mark. -/
theorem moveLoop_kept {w h i : Int} :
    ∀ (n : Nat) (s : Int) (c c1 : List (List Int)) (p p1 : Player),
      moveLoop w h i n s c p = some (c1, p1) → CellsKept c c1 := by
  intro n
  induction n with
  | zero =>
    intro s c c1 p p1 hm
    simp only [moveLoop, Option.some.injEq, Prod.mk.injEq] at hm
    rw [← hm.1]
    exact CellsKept.refl c
  | succ n ih =>
    intro s c c1 p p1 hm
    obtain ⟨dx, dy, hd⟩ := dirVec_of_moveLoop hm
    rcases moveLoop_succ hd hm with ⟨_, hc, _⟩ | ⟨_, _, hrec⟩ | ⟨_, _, v, c0, hg, hs, hrec⟩
    · rw [hc]; exact CellsKept.refl c
    · exact ih _ _ _ _ _ hrec
    · exact (CellsKept_stamp hg hs).trans (ih _ _ _ _ _ hrec)

/-- The step loop changes the position and the active flag only. -/
theorem moveLoop_fields {w h i : Int} :
    ∀ (n : Nat) (s : Int) (c c1 : List (List Int)) (p p1 : Player),
      moveLoop w h i n s c p = some (c1, p1) →
      p1.Direction = p.Direction ∧ p1.Speed = p.Speed ∧ p1.stepCounter = p.stepCounter := by
  intro n
  induction n with
  | zero =>
    intro s c c1 p p1 hm
    simp only [moveLoop, Option.some.injEq, Prod.mk.injEq] at hm
    rw [← hm.2]
    exact ⟨rfl, rfl, rfl⟩
  | succ n ih =>
    intro s c c1 p p1 hm
    obtain ⟨dx, dy, hd⟩ := dirVec_of_moveLoop hm
    rcases moveLoop_succ hd hm with ⟨_, _, hp⟩ | ⟨_, _, hrec⟩ | ⟨_, _, v, c0, _, _, hrec⟩
    · rw [hp]; exact ⟨rfl, rfl, rfl⟩
    · have := ih _ _ _ _ _ hrec
      exact this
    · have := ih _ _ _ _ _ hrec
      exact this

/-- A player that is still active after the step loop has made all its steps. -/
theorem moveLoop_active {w h i : Int} {dx dy : Int} :
    ∀ (n : Nat) (s : Int) (c c1 : List (List Int)) (p p1 : Player),
      moveLoop w h i n s c p = some (c1, p1) → dirVec p.Direction = some (dx, dy) →
      p1.Active = true →
      p1.X = p.X + (n : Int) * dx ∧ p1.Y = p.Y + (n : Int) * dy := by
  intro n
  induction n with
  | zero =>
    intro s c c1 p p1 hm _ _
    simp only [moveLoop, Option.some.injEq, Prod.mk.injEq] at hm
    rw [← hm.2]
    simp
  | succ n ih =>
    intro s c c1 p p1 hm hd hact
    rcases moveLoop_succ hd hm with ⟨_, _, hp⟩ | ⟨_, _, hrec⟩ | ⟨_, _, v, c0, _, _, hrec⟩
    · rw [hp] at hact
      simp [invalidatePlayer] at hact
    · have := ih _ _ _ _ _ hrec hd hact
      simp only at this
      constructor
      · rw [this.1]; push_cast; ring
      · rw [this.2]; push_cast; ring
    · have := ih _ _ _ _ _ hrec hd hact
      simp only at this
      constructor
      · rw [this.1]; push_cast; ring
      · rw [this.2]; push_cast; ring

/-- The cell that a player enters with a step that is no hole step is not empty after
the step loop, and holds `-1` if it was not empty before. -/
theorem moveLoop_enters {w h i : Int} {dx dy : Int} :
    ∀ (n : Nat) (s : Int) (c c1 : List (List Int)) (p p1 : Player) (t : Nat) (cx cy : Int),
      moveLoop w h i n s c p = some (c1, p1) → dirVec p.Direction = some (dx, dy) →
      t < n → cx = p.X + ((t : Int) + 1) * dx → cy = p.Y + ((t : Int) + 1) * dy →
      (∀ u : Nat, u ≤ t →
        0 ≤ p.X + ((u : Int) + 1) * dx ∧ p.X + ((u : Int) + 1) * dx < w ∧
        0 ≤ p.Y + ((u : Int) + 1) * dy ∧ p.Y + ((u : Int) + 1) * dy < h) →
      isHole p (s + t) = false →
      ∃ v1, getCell c1 cy cx = some v1 ∧ (toInt8 i ≠ 0 → v1 ≠ 0) ∧
        (∀ v, getCell c cy cx = some v → v ≠ 0 → v1 = -1) := by
  intro n
  induction n with
  | zero => intro s c c1 p p1 t cx cy _ _ ht; omega
  | succ n ih =>
    intro s c c1 p p1 t cx cy hm hd ht hcx hcy hin hhole
    have hin0 := hin 0 (Nat.zero_le _)
    simp only [Nat.cast_zero, zero_add, one_mul] at hin0
    rcases moveLoop_succ hd hm with ⟨hout, _, _⟩ | ⟨_, hh, hrec⟩ | ⟨_, hh, v, c0, hg, hs, hrec⟩
    · exfalso
      simp only at hout
      omega
    · -- a hole step: the entered cell lies further ahead
      cases t with
      | zero =>
        simp only [Nat.cast_zero, add_zero] at hhole
        have : isHole { p with X := p.X + dx, Y := p.Y + dy } s = isHole p s := rfl
        rw [this, hhole] at hh
        simp at hh
      | succ t =>
        refine ih (s + 1) c c1 _ p1 t cx cy hrec hd (by omega) ?_ ?_ ?_ ?_
        · rw [hcx]; push_cast; ring
        · rw [hcy]; push_cast; ring
        · intro u hu
          have := hin (u + 1) (by omega)
          push_cast at this
          simp only
          refine ⟨?_, ?_, ?_, ?_⟩ <;> linarith [this.1, this.2.1, this.2.2.1, this.2.2.2]
        · have : isHole { p with X := p.X + dx, Y := p.Y + dy } (s + 1 + (t : Int))
              = isHole p (s + ((t + 1 : Nat) : Int)) := by
            push_cast
            rw [show s + 1 + (t : Int) = s + ((t : Int) + 1) by ring]
            rfl
          rw [this]; exact hhole
    · -- a stamping step
      have hk := moveLoop_kept _ _ _ _ _ _ hrec
      cases t with
      | zero =>
        simp only [Nat.cast_zero, zero_add, one_mul] at hcx hcy
        subst hcx; subst hcy
        have hc0 := getCell_setCell_same hs
        obtain ⟨v1, hv1, hkeep⟩ := hk _ _ _ hc0
        refine ⟨v1, hv1, ?_, ?_⟩
        · intro hi
          by_cases hv : v ≠ 0
          · rw [if_pos hv] at hkeep
            rcases hkeep (by decide) with h1 | h1 <;> rw [h1] <;> decide
          · rw [if_neg hv] at hkeep
            rcases hkeep hi with h1 | h1
            · rw [h1]; exact hi
            · rw [h1]; decide
        · intro v0 hv0 hne
          simp only at hg
          rw [hg] at hv0
          simp only [Option.some.injEq] at hv0
          subst hv0
          rw [if_pos hne] at hkeep
          rcases hkeep (by decide) with h1 | h1 <;> exact h1
      | succ t =>
        have hrecE := ih (s + 1) c0 c1 _ p1 t cx cy hrec hd (by omega)
          (by rw [hcx]; push_cast; ring) (by rw [hcy]; push_cast; ring)
          (by
            intro u hu
            have := hin (u + 1) (by omega)
            push_cast at this
            simp only
            refine ⟨?_, ?_, ?_, ?_⟩ <;> linarith [this.1, this.2.1, this.2.2.1, this.2.2.2])
          (by
            have : isHole { p with X := p.X + dx, Y := p.Y + dy } (s + 1 + (t : Int))
                = isHole p (s + ((t + 1 : Nat) : Int)) := by
              push_cast
              rw [show s + 1 + (t : Int) = s + ((t : Int) + 1) by ring]
              rfl
            rw [this]; exact hhole)
        obtain ⟨v1, hv1, hnz, hcol⟩ := hrecE
        refine ⟨v1, hv1, hnz, ?_⟩
        intro v0 hv0 hne
        obtain ⟨v0', hv0', hkeep⟩ := CellsKept_stamp hg hs _ _ _ hv0
        refine hcol v0' hv0' ?_
        rcases hkeep hne with h1 | h1
        · rw [h1]; exact hne
        · rw [h1]; decide

theorem movePlayer_kept {w h i : Int} {c c1 : List (List Int)} {p p1 : Player}
    (hm : movePlayer w h i c p = some (c1, p1)) : CellsKept c c1 := by
  unfold movePlayer at hm
  by_cases ha : p.Active = false
  · rw [if_pos ha] at hm
    simp only [Option.some.injEq, Prod.mk.injEq] at hm
    rw [← hm.1]
    exact CellsKept.refl c
  · rw [if_neg ha] at hm
    exact moveLoop_kept _ _ _ _ _ _ hm

theorem movePlayer_enters {w h i : Int} {c c1 : List (List Int)} {p p1 : Player} {s : Nat}
    {cx cy : Int} (he : EntersAt w h p s cx cy) (hm : movePlayer w h i c p = some (c1, p1)) :
    ∃ v1, getCell c1 cy cx = some v1 ∧ (toInt8 i ≠ 0 → v1 ≠ 0) ∧
      (∀ v, getCell c cy cx = some v → v ≠ 0 → v1 = -1) := by
  obtain ⟨dx, dy, hd, hact, hs, hcx, hcy, hin, hhole⟩ := he
  unfold movePlayer at hm
  rw [if_neg (by simp [hact])] at hm
  refine moveLoop_enters _ 0 c c1 _ p1 s cx cy hm hd (by simp only; omega) hcx hcy hin ?_
  rw [zero_add]
  exact hhole

/-- A player that entered a cell and is still active after its move stands
`Speed` cells ahead of where it was. -/
theorem movePlayer_final {w h i : Int} {c c1 : List (List Int)} {p p1 : Player} {dx dy : Int}
    (hd : dirVec p.Direction = some (dx, dy)) (hact : p.Active = true) (hsp : 0 ≤ p.Speed)
    (hm : movePlayer w h i c p = some (c1, p1)) (h1 : p1.Active = true) :
    p1.X = p.X + p.Speed * dx ∧ p1.Y = p.Y + p.Speed * dy ∧ p1.Direction = p.Direction ∧
      p1.Speed = p.Speed ∧ p1.stepCounter = p.stepCounter + 1 := by
  unfold movePlayer at hm
  rw [if_neg (by simp [hact])] at hm
  have hf := moveLoop_fields _ _ _ _ _ _ hm
  have ha := moveLoop_active _ _ _ _ _ _ hm hd h1
  simp only at hf ha
  rw [Int.toNat_of_nonneg hsp] at ha
  exact ⟨ha.1, ha.2, hf.1, hf.2.1, hf.2.2⟩

theorem doMovement_cons {w h : Int} {i : Int} {p : Player} {rest : List (Int × Player)}
    {c c2 : List (List Int)} {ps2 : List (Int × Player)}
    (hm : doMovement w h c ((i, p) :: rest) = some (c2, ps2)) :
    ∃ c1 p1 rest1, movePlayer w h i c p = some (c1, p1) ∧
      doMovement w h c1 rest = some (c2, rest1) ∧ ps2 = (i, p1) :: rest1 := by
  unfold doMovement at hm
  cases hmp : movePlayer w h i c p with
  | none => rw [hmp] at hm; simp at hm
  | some cp =>
    obtain ⟨c1, p1⟩ := cp
    rw [hmp] at hm
    simp only at hm
    cases hr : doMovement w h c1 rest with
    | none => rw [hr] at hm; simp at hm
    | some cr =>
      obtain ⟨c3, rest1⟩ := cr
      rw [hr] at hm
      simp only [Option.some.injEq, Prod.mk.injEq] at hm
      exact ⟨c1, p1, rest1, rfl, by rw [← hm.1]; exact hr, hm.2.symm⟩

theorem doMovement_kept {w h : Int} :
    ∀ (ps : List (Int × Player)) (c c2 : List (List Int)) (ps2 : List (Int × Player)),
      doMovement w h c ps = some (c2, ps2) → CellsKept c c2 := by
  intro ps
  induction ps with
  | nil =>
    intro c c2 ps2 hm
    simp only [doMovement, Option.some.injEq, Prod.mk.injEq] at hm
    rw [← hm.1]
    exact CellsKept.refl c
  | cons kp rest ih =>
    obtain ⟨i, p⟩ := kp
    intro c c2 ps2 hm
    obtain ⟨c1, p1, rest1, hmp, hr, _⟩ := doMovement_cons hm
    exact (movePlayer_kept hmp).trans (ih _ _ _ hr)

/-- A cell that is not empty and is entered by some player holds `-1` after the
movement. -/
theorem doMovement_collide_one {w h : Int} {cx cy : Int} :
    ∀ (ps : List (Int × Player)) (c c2 : List (List Int)) (ps2 : List (Int × Player))
      (i : Int) (p : Player) (s : Nat) (v : Int),
      doMovement w h c ps = some (c2, ps2) → (i, p) ∈ ps → EntersAt w h p s cx cy →
      getCell c cy cx = some v → v ≠ 0 → getCell c2 cy cx = some (-1) := by
  intro ps
  induction ps with
  | nil => intro c c2 ps2 i p s v _ hmem; simp at hmem
  | cons kp rest ih =>
    obtain ⟨k, r⟩ := kp
    intro c c2 ps2 i p s v hm hmem he hv hne
    obtain ⟨c1, r1, rest1, hmp, hr, _⟩ := doMovement_cons hm
    rcases List.mem_cons.mp hmem with heq | hin
    · simp only [Prod.mk.injEq] at heq
      obtain ⟨rfl, rfl⟩ := heq
      obtain ⟨v1, hv1, _, hcol⟩ := movePlayer_enters he hmp
      have h1 : v1 = -1 := hcol v hv hne
      subst h1
      obtain ⟨v2, hv2, hk⟩ := doMovement_kept _ _ _ _ hr _ _ _ hv1
      rcases hk (by decide) with h2 | h2 <;> rw [hv2, h2]
    · obtain ⟨v1, hv1, hk⟩ := movePlayer_kept hmp _ _ _ hv
      refine ih c1 c2 rest1 i p s v1 hr hin he hv1 ?_
      rcases hk hne with h1 | h1
      · rw [h1]; exact hne
      · rw [h1]; decide

/-- A cell entered by two players with different ids holds `-1` after the movement. -/
theorem doMovement_collide {w h : Int} {cx cy : Int} :
    ∀ (ps : List (Int × Player)) (c c2 : List (List Int)) (ps2 : List (Int × Player))
      (i j : Int) (p q : Player) (s t : Nat),
      doMovement w h c ps = some (c2, ps2) → (i, p) ∈ ps → (j, q) ∈ ps → i ≠ j →
      toInt8 i ≠ 0 → toInt8 j ≠ 0 →
      EntersAt w h p s cx cy → EntersAt w h q t cx cy → getCell c2 cy cx = some (-1) := by
  intro ps
  induction ps with
  | nil => intro c c2 ps2 i j p q s t _ hmem; simp at hmem
  | cons kp rest ih =>
    obtain ⟨k, r⟩ := kp
    intro c c2 ps2 i j p q s t hm hi hj hij hi0 hj0 hep heq
    obtain ⟨c1, r1, rest1, hmp, hr, _⟩ := doMovement_cons hm
    rcases List.mem_cons.mp hi with hieq | hiin
    · simp only [Prod.mk.injEq] at hieq
      obtain ⟨rfl, rfl⟩ := hieq
      rcases List.mem_cons.mp hj with hjeq | hjin
      · simp only [Prod.mk.injEq] at hjeq
        exact absurd hjeq.1.symm hij
      · obtain ⟨v1, hv1, hnz, _⟩ := movePlayer_enters hep hmp
        exact doMovement_collide_one rest c1 c2 rest1 j q t v1 hr hjin heq hv1 (hnz hi0)
    · rcases List.mem_cons.mp hj with hjeq | hjin
      · simp only [Prod.mk.injEq] at hjeq
        obtain ⟨rfl, rfl⟩ := hjeq
        obtain ⟨v1, hv1, hnz, _⟩ := movePlayer_enters heq hmp
        exact doMovement_collide_one rest c1 c2 rest1 i p s v1 hr hiin hep hv1 (hnz hj0)
      · exact ih c1 c2 rest1 i j p q s t hr hiin hjin hij hi0 hj0 hep heq

/-- Every record after the movement comes from the record with the same key. -/
theorem doMovement_trace {w h : Int} :
    ∀ (ps : List (Int × Player)) (c c2 : List (List Int)) (ps2 : List (Int × Player))
      (i : Int) (p1 : Player),
      doMovement w h c ps = some (c2, ps2) → (i, p1) ∈ ps2 →
      ∃ p c0 c1, (i, p) ∈ ps ∧ movePlayer w h i c0 p = some (c1, p1) := by
  intro ps
  induction ps with
  | nil =>
    intro c c2 ps2 i p1 hm hmem
    simp only [doMovement, Option.some.injEq, Prod.mk.injEq] at hm
    rw [← hm.2] at hmem
    simp at hmem
  | cons kp rest ih =>
    obtain ⟨k, r⟩ := kp
    intro c c2 ps2 i p1 hm hmem
    obtain ⟨c1, r1, rest1, hmp, hr, rfl⟩ := doMovement_cons hm
    rcases List.mem_cons.mp hmem with heq | hin
    · simp only [Prod.mk.injEq] at heq
      obtain ⟨rfl, rfl⟩ := heq
      exact ⟨r, c, c1, List.mem_cons_self _ _, hmp⟩
    · obtain ⟨p, c0, c1', hp, hmp'⟩ := ih c1 c2 rest1 i p1 hr hin
      exact ⟨p, c0, c1', List.mem_cons_of_mem _ hp, hmp'⟩

theorem checkCrash_trace {cells : List (List Int)} :
    ∀ (ps ps2 : List (Int × Player)) (i : Int) (p2 : Player),
      checkCrash cells ps = some ps2 → (i, p2) ∈ ps2 →
      ∃ p1, (i, p1) ∈ ps ∧ crashPlayer cells p1 = some p2 := by
  intro ps
  induction ps with
  | nil =>
    intro ps2 i p2 hc hmem
    simp only [checkCrash, Option.some.injEq] at hc
    rw [← hc] at hmem
    simp at hmem
  | cons kp rest ih =>
    obtain ⟨k, r⟩ := kp
    intro ps2 i p2 hc hmem
    unfold checkCrash at hc
    cases hcp : crashPlayer cells r with
    | none => rw [hcp] at hc; simp at hc
    | some r1 =>
      rw [hcp] at hc
      simp only at hc
      cases hr : checkCrash cells rest with
      | none => rw [hr] at hc; simp at hc
      | some rest1 =>
        rw [hr] at hc
        simp only [Option.some.injEq] at hc
        subst hc
        rcases List.mem_cons.mp hmem with heq | hin
        · simp only [Prod.mk.injEq] at heq
          obtain ⟨rfl, rfl⟩ := heq
          exact ⟨r, List.mem_cons_self _ _, hcp⟩
        · obtain ⟨p1, hp1, hcp1⟩ := ih rest1 i p2 hr hin
          exact ⟨p1, List.mem_cons_of_mem _ hp1, hcp1⟩

theorem dostepback_of_dirVec {d : String} {dx dy : Int} (hd : dirVec d = some (dx, dy))
    (x y : Int) : dostepback d x y = some (x - dx, y - dy) := by
  unfold dirVec at hd
  unfold dostepback
  split_ifs at hd ⊢ <;> simp_all <;> omega

/-- The walk back over the cells of the move finds a collision mark that lies on a
step that is no hole step. -/
theorem crashLoop_hit {cells : List (List Int)} {p : Player} {dx dy : Int}
    (hd : dirVec p.Direction = some (dx, dy)) :
    ∀ (n : Nat) (u bx bY : Int) (r : Player) (t : Nat),
      crashLoop cells p n u bx bY = some r → t < n →
      getCell cells (bY - (t : Int) * dy) (bx - (t : Int) * dx) = some (-1) →
      isHole p (u + t) = false → r.Active = false := by
  intro n
  induction n with
  | zero => intro u bx bY r t _ ht; omega
  | succ n ih =>
    intro u bx bY r t hc ht hcell hhole
    unfold crashLoop at hc
    cases hg : getCell cells bY bx with
    | none => rw [hg] at hc; simp at hc
    | some v =>
      rw [hg] at hc
      simp only at hc
      by_cases hit : v = -1 ∧ isHole p u = false
      · rw [if_pos hit] at hc
        simp only [Option.some.injEq] at hc
        rw [← hc]
        rfl
      · rw [if_neg hit, dostepback_of_dirVec hd] at hc
        simp only at hc
        cases t with
        | zero =>
          exfalso
          simp only [Nat.cast_zero, zero_mul, sub_zero, add_zero] at hcell hhole
          rw [hg] at hcell
          simp only [Option.some.injEq] at hcell
          exact hit ⟨hcell, hhole⟩
        | succ t =>
          refine ih (u + 1) (bx - dx) (bY - dy) r t hc (by omega) ?_ ?_
          · rw [← hcell]
            congr 1 <;> (push_cast; ring)
          · rw [← hhole]
            congr 1
            push_cast; ring

/-- The hole test reads the same on the way back: step `s` of the move is step
`Speed - 1 - s` of the walk back. -/
theorem isHole_back (p0 p1 : Player) (s : Int) (hsp : p1.Speed = p0.Speed)
    (hsc : p1.stepCounter = p0.stepCounter) :
    isHole p1 (p0.Speed - 1 - s) = isHole p0 s := by
  have e1 : decide (p0.Speed - 1 - s ≠ 0) = decide (s ≠ p0.Speed - 1) := by
    apply decide_eq_decide.mpr
    constructor <;> intro hne <;> omega
  have e2 : decide (p0.Speed - 1 - s ≠ p0.Speed - 1) = decide (s ≠ 0) := by
    apply decide_eq_decide.mpr
    constructor <;> intro hne <;> omega
  unfold isHole
  rw [hsp, hsc, e1, e2]
  cases decide (p0.Speed ≥ HoleSpeed) <;> cases decide (Int.tmod p0.stepCounter HolesEachStep = 0)
    <;> cases decide (s ≠ p0.Speed - 1) <;> cases decide (s ≠ 0) <;> rfl

theorem getPlayer_of_key {ps : List (Int × Player)} {k : Int} (h : k ∈ ps.map Prod.fst) :
    ∃ p, getPlayer ps k = some p := by
  induction ps with
  | nil => simp at h
  | cons kp rest ih =>
    obtain ⟨i, q⟩ := kp
    unfold getPlayer
    by_cases hi : i = k
    · exact ⟨q, by simp [hi]⟩
    · simp only [hi, if_false]
      apply ih
      simp only [List.map_cons, List.mem_cons] at h
      rcases h with h | h
      · exact absurd h.symm hi
      · exact h

/-- A player that entered a cell which holds `-1` after the movement is inactive after
the crash check. -/
theorem inactive_after_crash {w h : Int} {c c2 : List (List Int)}
    {ps ps2 ps3 : List (Int × Player)} (hm : doMovement w h c ps = some (c2, ps2))
    (hc : checkCrash c2 ps2 = some ps3) (hnd : (ps.map Prod.fst).Nodup)
    {i : Int} {p : Player} {s : Nat} {cx cy : Int} (hp : (i, p) ∈ ps)
    (he : EntersAt w h p s cx cy) (hcell : getCell c2 cy cx = some (-1))
    {p3 : Player} (hp3 : (i, p3) ∈ ps3) : p3.Active = false := by
  obtain ⟨p1, hp1, hcp⟩ := checkCrash_trace ps2 ps3 i p3 hc hp3
  obtain ⟨p0, c0, c1, hp0, hmp⟩ := doMovement_trace ps c c2 ps2 i p1 hm hp1
  have hsame : p0 = p := by
    have h1 := getPlayer_of_mem hnd hp0
    have h2 := getPlayer_of_mem hnd hp
    rw [h1] at h2
    exact Option.some.inj h2
  subst hsame
  obtain ⟨dx, dy, hd, hact, hs, hcx, hcy, _, hhole⟩ := he
  unfold crashPlayer at hcp
  by_cases h1 : p1.Active = false
  · rw [if_pos h1] at hcp
    simp only [Option.some.injEq] at hcp
    rw [← hcp]; exact h1
  · rw [if_neg h1] at hcp
    have h1' : p1.Active = true := by simpa using h1
    obtain ⟨hx, hy, hdir, hsp, hsc⟩ := movePlayer_final hd hact (by omega) hmp h1'
    have hd1 : dirVec p1.Direction = some (dx, dy) := by rw [hdir]; exact hd
    have ht : (((p0.Speed - 1 - s).toNat : Nat) : Int) = p0.Speed - 1 - s :=
      Int.toNat_of_nonneg (by omega)
    refine crashLoop_hit hd1 p1.Speed.toNat 0 p1.X p1.Y p3 (p0.Speed - 1 - s).toNat hcp ?_ ?_ ?_
    · rw [hsp]; omega
    · rw [ht, hx, hy, ← hcell, hcx, hcy]
      congr 1 <;> ring
    · rw [ht, zero_add]
      rw [isHole_back { p0 with stepCounter := p0.stepCounter + 1 } p1 s hsp hsc]
      exact hhole

/-- C10. In every round of `SimulateGame` that runs to its end: if two players with
different ids both enter the same in-bounds cell in the movement of that round, each
with a step that is no hole step, then after the round the cell holds `-1` and both
players are inactive. (The keys of the player map are distinct and the ids fit the
`int8` cells.) In the head-on scenario both players are active after round 1 and
inactive after round 2, cell (2,0) holds `-1` and won = false. -/
theorem round_collision :
    (∀ (ai : Policy) (next : String) (st st1 : LoopState) (g1 : Game)
      (i j : Int) (p q : Player) (s t : Nat) (cx cy : Int),
      roundBody ai next st = some st1 → afterActions ai next st = some g1 →
      (st.g.Players.map Prod.fst).Nodup → st.g.Players.length ≤ 127 →
      (i, p) ∈ g1.Players → (j, q) ∈ g1.Players → i ≠ j →
      EntersAt g1.Width g1.Height p s cx cy → EntersAt g1.Width g1.Height q t cx cy →
      getCell st1.g.Cells cy cx = some (-1) ∧
      ∃ p1 q1, getPlayer st1.g.Players i = some p1 ∧ p1.Active = false ∧
        getPlayer st1.g.Players j = some q1 ∧ q1.Active = false) ∧
    (∃ s1 s2 r gf, stateAfter aiNoop ActionNOOP headOnBoard 1 = some s1 ∧
      numberActive s1.g.Players = 2 ∧
      stateAfter aiNoop ActionNOOP headOnBoard 2 = some s2 ∧
      numberActive s2.g.Players = 0 ∧ getCell s2.g.Cells 0 2 = some (-1) ∧
      SimulateGame 10 aiNoop headOnBoard ActionNOOP = Outcome.done (r, gf) ∧
      r.win = false ∧ getCell gf.Cells 0 2 = some (-1)) := by
  refine ⟨?_, ⟨_, _, _, _, rfl, rfl, rfl, rfl, rfl, rfl, rfl, rfl⟩⟩
  intro ai next st st1 g1 i j p q s t cx cy hb ha hnd hsmall hp hq hij hep heq
  have hfr := roundBody_frame hb
  obtain ⟨you, g1', g2, _, ha', hmc, rfl⟩ := roundBody_some hb
  rw [ha] at ha'
  simp only [Option.some.injEq] at ha'
  subst ha'
  obtain ⟨answers, ps, _, hpa, rfl⟩ := afterActions_some ha
  obtain ⟨cells, ps2, ps3, hd, hcr, rfl⟩ := moveAndCrash_some hmc
  simp only at hp hq hep heq hd ⊢
  have hkeys := processActions_keys hpa
  have hnd1 : (ps.map Prod.fst).Nodup := by rw [hkeys]; exact hnd
  have hsmallkey : ∀ k r, (k, r) ∈ ps → toInt8 k ≠ 0 := by
    intro k r hkr
    have h1 : k ∈ ps.map Prod.fst := List.mem_map.mpr ⟨(k, r), hkr, rfl⟩
    rw [hkeys] at h1
    obtain ⟨kp, hkp, he⟩ := List.mem_map.mp h1
    have := hfr.2.2.2.2.2.2 kp hkp
    unfold toInt8
    omega
  have hcell : getCell cells cy cx = some (-1) :=
    doMovement_collide ps _ cells ps2 i j p q s t hd hp hq hij (hsmallkey i p hp)
      (hsmallkey j q hq) hep heq
  have hkeys3 : ps3.map Prod.fst = ps.map Prod.fst := by
    rw [checkCrash_keys hcr, doMovement_keys hd]
  have hi3 : i ∈ ps3.map Prod.fst := by
    rw [hkeys3]; exact List.mem_map.mpr ⟨(i, p), hp, rfl⟩
  have hj3 : j ∈ ps3.map Prod.fst := by
    rw [hkeys3]; exact List.mem_map.mpr ⟨(j, q), hq, rfl⟩
  obtain ⟨p1, hp1⟩ := getPlayer_of_key hi3
  obtain ⟨q1, hq1⟩ := getPlayer_of_key hj3
  exact ⟨hcell, p1, q1, hp1,
    inactive_after_crash hd hcr hnd1 hp hep hcell (getPlayer_mem hp1), hq1,
    inactive_after_crash hd hcr hnd1 hq heq hcell (getPlayer_mem hq1)⟩

/-- C10 at round 2 of the head-on scenario: both players enter (2,0) with step 0. -/
theorem round_collision_witness :
    getCell [[1, 1, -1, 2, 2]] 0 2 = some (-1) ∧
    ∃ p1 q1,
      getPlayer [(1, { mkPlayer 2 0 DirectionRight 1 2 with Active := false }),
                 (2, { mkPlayer 2 0 DirectionLeft 1 2 with Active := false })] 1 = some p1 ∧
      p1.Active = false ∧
      getPlayer [(1, { mkPlayer 2 0 DirectionRight 1 2 with Active := false }),
                 (2, { mkPlayer 2 0 DirectionLeft 1 2 with Active := false })] 2 = some q1 ∧
      q1.Active = false :=
  round_collision.1 aiNoop ActionNOOP
    { g := { headOnBoard with
               Cells := [[1, 1, 0, 2, 2]]
               Players := [(1, mkPlayer 1 0 DirectionRight 1 1), (2, mkPlayer 3 0 DirectionLeft 1 1)]
               playerAnswer := [ActionNOOP, ActionNOOP] }
      first := false, round := 1, survived := 0, survivedOpponent := 0, winner := -1 }
    { g := { headOnBoard with
               Cells := [[1, 1, -1, 2, 2]]
               Players := [(1, { mkPlayer 2 0 DirectionRight 1 2 with Active := false }),
                           (2, { mkPlayer 2 0 DirectionLeft 1 2 with Active := false })]
               playerAnswer := [ActionNOOP, ActionNOOP] }
      first := false, round := 2, survived := 1, survivedOpponent := 1, winner := -1 }
    { headOnBoard with
        Cells := [[1, 1, 0, 2, 2]]
        Players := [(1, mkPlayer 1 0 DirectionRight 1 1), (2, mkPlayer 3 0 DirectionLeft 1 1)]
        playerAnswer := [ActionNOOP, ActionNOOP] }
    1 2 (mkPlayer 1 0 DirectionRight 1 1) (mkPlayer 3 0 DirectionLeft 1 1) 0 0 2 0
    rfl rfl (by decide) (by decide) (by decide) (by decide) (by decide)
    ⟨1, 0, rfl, rfl, by decide, by decide, by decide, by decide, rfl⟩
    ⟨-1, 0, rfl, rfl, by decide, by decide, by decide, by decide, rfl⟩

/-! ## The model of `float64` -/

set_option maxRecDepth 100000 in
/-- The bit patterns of some `float64` values: `90.0` is `0x4056800000000000`, the
constant `0.85` is `0x3FEB333333333333`, the constant `0.1` is `0x3FB999999999999A`, and
`1.0 / 2.0` is `0x3FE0000000000000`. -/
theorem float64_examples :
    float64 90 = 4636033603912859648 ∧ float64Const 85 100 = 4605831338911806259 ∧
      float64Const 1 10 = 4591870180066957722 ∧
      f64div (float64 1) (float64 2) = 4602678819172646912 ∧
      f64div (float64 (-1)) (float64 2) = -4602678819172646912 := by
  decide

set_option maxRecDepth 100000 in
/-- Quotients that differ as fractions and are the same `float64` value:
180000001 / 200000002 and 157500002 / 175000003 are `0x3FECCCCCCAA70B50`,
806000081 / 20000002 and 604499960 / 14999999 are `0x4044266666915984`, and
3400000000000006 / 4000000000000007 is the value `0x3FEB333333333333` of the constant
`0.85`. -/
theorem float64_ties :
    f64div (float64 180000001) (float64 200000002) = 4606281698838514512 ∧
      f64div (float64 157500002) (float64 175000003) = 4606281698838514512 ∧
      f64div (float64 806000081) (float64 20000002) = 4630868538093033860 ∧
      f64div (float64 604499960) (float64 14999999) = 4630868538093033860 ∧
      f64div (float64 3400000000000006) (float64 4000000000000007) = float64Const 85 100 := by
  decide

theorem float64Const_pos : (0 : F64) < float64Const 85 100 ∧ (0 : F64) < float64Const 1 10 := by
  decide

theorem f64bits_zero (d : Nat) : f64bits 0 d = 0 := by
  unfold f64bits
  rw [if_pos rfl]

theorem float64_zero : float64 0 = 0 := by decide

theorem f64div_zero (b : F64) : f64div 0 b = 0 := by
  unfold f64div
  have h0 : (f64val (0 : Int).natAbs).1 = 0 := by decide
  rw [h0, Nat.zero_mul, f64bits_zero]
  split_ifs <;> rfl

/-- An action without a won rollout has the win rate 0. -/
theorem winRate_of_won_zero {d : Stats} (h : d.Won = 0) : winRate d = 0 := by
  unfold winRate
  rw [h]
  exact (congrArg (fun a => f64div a (float64 d.Run)) float64_zero).trans (f64div_zero _)

theorem bitLen_lt : ∀ (fuel n : Nat), n ≤ fuel → n < 2 ^ bitLen fuel n := by
  intro fuel
  induction fuel with
  | zero => intro n h; simp only [bitLen]; omega
  | succ fuel ih =>
    intro n h
    unfold bitLen
    by_cases hn : n = 0
    · rw [if_pos hn, hn]; exact Nat.one_pos
    · rw [if_neg hn]
      have h2 := ih (n / 2) (by omega)
      rw [Nat.pow_succ]
      omega

theorem bitLen_le : ∀ (fuel n j : Nat), n < 2 ^ j → bitLen fuel n ≤ j := by
  intro fuel
  induction fuel with
  | zero => intro n j _; simp only [bitLen]; omega
  | succ fuel ih =>
    intro n j h
    unfold bitLen
    by_cases hn : n = 0
    · rw [if_pos hn]; omega
    · rw [if_neg hn]
      cases j with
      | zero => simp at h; omega
      | succ j =>
        rw [Nat.pow_succ] at h
        have := ih (n / 2) j (by omega)
        omega

theorem bitLen_pos {n : Nat} (h : 1 ≤ n) : 1 ≤ bitLen n n := by
  cases n with
  | zero => omega
  | succ n =>
    unfold bitLen
    rw [if_neg (by omega)]
    omega

theorem roundHalfEven_pos {n d : Nat} (h : d < 2 * n) : 1 ≤ roundHalfEven n d := by
  unfold roundHalfEven
  by_cases hd : d = 0
  · subst hd
    have : 2 * (n % 0) > 0 := by rw [Nat.mod_zero]; omega
    rw [if_pos (Or.inl this)]
    exact Nat.le_add_left 1 _
  · by_cases hlt : n < d
    · have h1 : n % d = n := Nat.mod_eq_of_lt hlt
      rw [if_pos (Or.inl (by rw [h1]; omega))]
      exact Nat.le_add_left 1 _
    · have : 1 ≤ n / d := (Nat.one_le_div_iff (by omega)).mpr (by omega)
      split_ifs
      · exact Nat.le_add_left 1 _
      · exact this

theorem roundHalfEven_le (n d : Nat) : roundHalfEven n d ≤ n / d + 1 := by
  unfold roundHalfEven
  split_ifs
  · exact le_refl _
  · exact Nat.le_add_right _ 1

/-- A fraction that is not below `2^-1075` does not round to zero. -/
theorem f64bits_pos {n d : Nat} (hn : 0 < n) (hd : d < n * 2 ^ 1075) : 0 < f64bits n d := by
  have hsub : 1 ≤ roundHalfEven (n * 2 ^ 1074) d := by
    apply roundHalfEven_pos
    have : n * 2 ^ 1075 = 2 * (n * 2 ^ 1074) := by rw [Nat.pow_succ]; ring
    omega
  unfold f64bits
  rw [if_neg (by omega)]
  by_cases h1 : ilog2 n d < -1022
  · rw [if_pos h1]; exact hsub
  · rw [if_neg h1]
    by_cases h2 : ilog2 n d = -1022
    · rw [h2]
      have e1 : (52 - (-1022 : Int)).toNat = 1074 := by decide
      have e2 : ((-1022 : Int) - 52).toNat = 0 := by decide
      rw [e1, e2, Nat.pow_zero, Nat.mul_one]
      omega
    · have h3 : 1 ≤ (ilog2 n d + 1022).toNat := by omega
      have h4 : 0 < 2 ^ 52 := Nat.two_pow_pos 52
      have : 2 ^ 52 ≤ (ilog2 n d + 1022).toNat * 2 ^ 52 := Nat.le_mul_of_pos_left _ (by omega)
      omega

/-- The value of `roundHalfEven n d` is an integer nearest to `n / d`, and when `n / d`
is half-way between two integers it is the even one. -/
theorem roundHalfEven_nearest (n d : Nat) (hd : 0 < d) :
    2 * roundHalfEven n d * d ≤ 2 * n + d ∧ 2 * n ≤ 2 * roundHalfEven n d * d + d ∧
      ((2 * roundHalfEven n d * d = 2 * n + d ∨ 2 * n = 2 * roundHalfEven n d * d + d) →
        roundHalfEven n d % 2 = 0) := by
  have key : n = n / d * d + n % d := (Nat.div_add_mod' n d).symm
  have hr : n % d < d := Nat.mod_lt n hd
  unfold roundHalfEven
  split_ifs with h
  · have e : 2 * (n / d + 1) * d = 2 * (n / d * d) + 2 * d := by ring
    rw [e]
    generalize n / d * d = m at key
    refine ⟨by omega, by omega, fun ht => ?_⟩
    rcases h with h | h
    · omega
    · omega
  · have e : 2 * (n / d) * d = 2 * (n / d * d) := by ring
    rw [e]
    generalize n / d * d = m at key
    refine ⟨by omega, by omega, fun ht => ?_⟩
    have h1 : ¬ (2 * (n % d) = d ∧ n / d % 2 = 1) := fun hc => h (Or.inr hc)
    omega

theorem bitLen_ge {n : Nat} (h : 1 ≤ n) : 2 ^ (bitLen n n - 1) ≤ n := by
  by_contra hc
  have h1 := bitLen_le n n (bitLen n n - 1) (by omega)
  have h2 := bitLen_pos h
  omega

/-- The value `e` of `ilog2 n d` is the integer with `2^e ≤ n / d < 2^(e+1)`. -/
theorem ilog2_spec (n d : Nat) (hn : 1 ≤ n) (hd : 1 ≤ d) :
    d * 2 ^ (ilog2 n d).toNat ≤ n * 2 ^ (-(ilog2 n d)).toNat ∧
      n * 2 ^ (-(ilog2 n d + 1)).toNat < d * 2 ^ (ilog2 n d + 1).toNat := by
  have ha1 := bitLen_ge hn
  have ha2 := bitLen_lt n n (le_refl _)
  have hb1 := bitLen_ge hd
  have hb2 := bitLen_lt d d (le_refl _)
  have ha := bitLen_pos hn
  have hb := bitLen_pos hd
  unfold ilog2
  dsimp only
  generalize bitLen n n = a at ha1 ha2 ha ⊢
  generalize bitLen d d = b at hb1 hb2 hb ⊢
  have hpow : ∀ x y : Nat, 2 ^ (x + y) = 2 ^ x * 2 ^ y := fun x y => Nat.pow_add 2 x y
  by_cases hab : b ≤ a
  · obtain ⟨j, rfl⟩ : ∃ j, a = b + j := ⟨a - b, by omega⟩
    have e1 : (((b + j : Nat) : Int) - (b : Int)).toNat = j := by omega
    have e2 : (-(((b + j : Nat) : Int) - (b : Int))).toNat = 0 := by omega
    rw [e1, e2]
    -- n < 2^(b+j) = 2^(b-1) * 2^(j+1) ≤ d * 2^(j+1)
    have hup : n < d * 2 ^ (j + 1) := by
      have : 2 ^ (b + j) = 2 ^ (b - 1) * 2 ^ (j + 1) := by
        rw [← Nat.pow_add]; congr 1; omega
      calc n < 2 ^ (b + j) := ha2
        _ = 2 ^ (b - 1) * 2 ^ (j + 1) := this
        _ ≤ d * 2 ^ (j + 1) := Nat.mul_le_mul_right _ hb1
    split_ifs with hc
    · have e3 : (-(((b + j : Nat) : Int) - (b : Int) + 1)).toNat = 0 := by omega
      have e4 : (((b + j : Nat) : Int) - (b : Int) + 1).toNat = j + 1 := by omega
      rw [e1, e2, e3, e4]
      exact ⟨hc, by rw [Nat.pow_zero, Nat.mul_one]; exact hup⟩
    · cases j with
      | zero =>
        have e5 : (((b + 0 : Nat) : Int) - (b : Int) - 1).toNat = 0 := by omega
        have e6 : (-(((b + 0 : Nat) : Int) - (b : Int) - 1)).toNat = 1 := by omega
        have e7 : (-(((b + 0 : Nat) : Int) - (b : Int) - 1 + 1)).toNat = 0 := by omega
        have e8 : (((b + 0 : Nat) : Int) - (b : Int) - 1 + 1).toNat = 0 := by omega
        rw [e5, e6, e7, e8]
        simp only [Nat.pow_zero, Nat.mul_one, Nat.pow_one] at hc ⊢
        simp only [Nat.add_zero] at ha1 ha2
        have h2 : 2 ^ b = 2 * 2 ^ (b - 1) := by
          rw [← Nat.pow_succ']; congr 1; omega
        constructor
        · omega
        · omega
      | succ j =>
        have e5 : (((b + (j + 1) : Nat) : Int) - (b : Int) - 1).toNat = j := by omega
        have e6 : (-(((b + (j + 1) : Nat) : Int) - (b : Int) - 1)).toNat = 0 := by omega
        have e7 : (-(((b + (j + 1) : Nat) : Int) - (b : Int) - 1 + 1)).toNat = 0 := by omega
        have e8 : (((b + (j + 1) : Nat) : Int) - (b : Int) - 1 + 1).toNat = j + 1 := by omega
        rw [e5, e6, e7, e8]
        simp only [Nat.pow_zero, Nat.mul_one] at hc ⊢
        constructor
        · have h3 : d * 2 ^ j < 2 ^ b * 2 ^ j := Nat.mul_lt_mul_of_pos_right hb2 (Nat.two_pow_pos _)
          have h4 : 2 ^ b * 2 ^ j = 2 ^ (b + (j + 1) - 1) := by
            rw [← Nat.pow_add]; congr 1
          omega
        · omega
  · obtain ⟨j, rfl⟩ : ∃ j, b = a + (j + 1) := ⟨b - a - 1, by omega⟩
    have e1 : (((a : Nat) : Int) - ((a + (j + 1) : Nat) : Int)).toNat = 0 := by omega
    have e2 : (-(((a : Nat) : Int) - ((a + (j + 1) : Nat) : Int))).toNat = j + 1 := by omega
    rw [e1, e2]
    split_ifs with hc
    · have e3 : (-(((a : Nat) : Int) - ((a + (j + 1) : Nat) : Int) + 1)).toNat = j := by omega
      have e4 : (((a : Nat) : Int) - ((a + (j + 1) : Nat) : Int) + 1).toNat = 0 := by omega
      rw [e1, e2, e3, e4]
      refine ⟨hc, ?_⟩
      simp only [Nat.pow_zero, Nat.mul_one]
      have h3 : n * 2 ^ j < 2 ^ a * 2 ^ j := Nat.mul_lt_mul_of_pos_right ha2 (Nat.two_pow_pos _)
      have h4 : 2 ^ a * 2 ^ j = 2 ^ (a + (j + 1) - 1) := by
        rw [← Nat.pow_add]; congr 1
      omega
    · have e5 : (((a : Nat) : Int) - ((a + (j + 1) : Nat) : Int) - 1).toNat = 0 := by omega
      have e6 : (-(((a : Nat) : Int) - ((a + (j + 1) : Nat) : Int) - 1)).toNat = j + 2 := by
        omega
      have e7 : (-(((a : Nat) : Int) - ((a + (j + 1) : Nat) : Int) - 1 + 1)).toNat = j + 1 := by
        omega
      have e8 : (((a : Nat) : Int) - ((a + (j + 1) : Nat) : Int) - 1 + 1).toNat = 0 := by omega
      rw [e5, e6, e7, e8]
      simp only [Nat.pow_zero, Nat.mul_one] at hc ⊢
      constructor
      · have h3 : 2 ^ (a + (j + 1)) = 2 ^ (a - 1) * 2 ^ (j + 2) := by
          rw [← Nat.pow_add]; congr 1; omega
        have h4 : 2 ^ (a - 1) * 2 ^ (j + 2) ≤ n * 2 ^ (j + 2) := Nat.mul_le_mul_right _ ha1
        omega
      · omega

theorem ilog2_one_cases (n : Nat) :
    ilog2 n 1 = (bitLen n n : Int) - 1 ∨ ilog2 n 1 = (bitLen n n : Int) - 1 - 1 := by
  have h1 : bitLen 1 1 = 1 := by decide
  unfold ilog2
  rw [h1]
  dsimp only
  split_ifs
  · left; rfl
  · right; rfl

/-- The conversion of a positive `int`: the exponent field is at least 1021. -/
theorem f64bits_int_ge {n : Nat} (h1 : 1 ≤ n) : 1021 * 2 ^ 52 ≤ f64bits n 1 := by
  have hb := bitLen_pos h1
  have hex : -1 ≤ ilog2 n 1 := by
    rcases ilog2_one_cases n with e | e <;> omega
  unfold f64bits
  rw [if_neg (by omega), if_neg (by omega)]
  have h3 : 1021 ≤ (ilog2 n 1 + 1022).toNat := by omega
  have := Nat.mul_le_mul_right (2 ^ 52) h3
  omega

/-- The conversion of a positive `int` below `2^63`: the exponent field is below 1092. -/
theorem f64bits_int_lt {n : Nat} (h1 : 1 ≤ n) (h2 : n < 2 ^ 63) : f64bits n 1 < 1092 * 2 ^ 52 := by
  have hb := bitLen_pos h1
  have hb2 : bitLen n n ≤ 63 := bitLen_le n n 63 h2
  have hlt : n < 2 ^ bitLen n n := bitLen_lt n n (le_refl _)
  obtain ⟨em, hem, hem1, hem2⟩ : ∃ em : Nat, ilog2 n 1 = (em : Int) - 1 ∧ em ≤ 63 ∧
      bitLen n n ≤ em + 1 := by
    rcases ilog2_one_cases n with e | e
    · exact ⟨bitLen n n, by omega, by omega, by omega⟩
    · exact ⟨bitLen n n - 1, by omega, by omega, by omega⟩
  have hn : n < 2 ^ (em + 1) := lt_of_lt_of_le hlt (Nat.pow_le_pow_right (by decide) hem2)
  unfold f64bits
  rw [if_neg (by omega), if_neg (by omega), hem]
  have e1 : (52 - ((em : Int) - 1)).toNat = 53 - em := by omega
  have e2 : ((em : Int) - 1 - 52).toNat = em - 53 := by omega
  have e3 : ((em : Int) - 1 + 1022).toNat = em + 1021 := by omega
  rw [e1, e2, e3, Nat.one_mul]
  have hm : roundHalfEven (n * 2 ^ (53 - em)) (2 ^ (em - 53)) ≤ 2 ^ 54 := by
    refine le_trans (roundHalfEven_le _ _) ?_
    have hq : n * 2 ^ (53 - em) / 2 ^ (em - 53) < 2 ^ 54 := by
      by_cases hc : em ≤ 53
      · have e4 : em - 53 = 0 := by omega
        rw [e4, Nat.pow_zero, Nat.div_one]
        calc n * 2 ^ (53 - em) < 2 ^ (em + 1) * 2 ^ (53 - em) :=
              Nat.mul_lt_mul_of_pos_right hn (Nat.two_pow_pos _)
          _ = 2 ^ 54 := by rw [← Nat.pow_add]; congr 1; omega
      · have e4 : 53 - em = 0 := by omega
        rw [e4, Nat.pow_zero, Nat.mul_one]
        apply Nat.div_lt_of_lt_mul
        calc n < 2 ^ (em + 1) := hn
          _ = 2 ^ (em - 53) * 2 ^ 54 := by rw [← Nat.pow_add]; congr 1; omega
    omega
  have h5 : (em + 1021) * 2 ^ 52 ≤ 1084 * 2 ^ 52 := Nat.mul_le_mul_right _ (by omega)
  omega

/-- The value of a bit pattern whose exponent field is at least 1021: at least 1/4. -/
theorem f64val_ge {b : Nat} (h : 1021 * 2 ^ 52 ≤ b) :
    1 ≤ (f64val b).1 ∧ (f64val b).2 ≤ 4 * (f64val b).1 := by
  have hE : 1021 ≤ b / 2 ^ 52 := (Nat.le_div_iff_mul_le (Nat.two_pow_pos 52)).mpr h
  unfold f64val
  rw [if_neg (by omega)]
  dsimp only
  have h1 : 2 ^ 52 ≤ (2 ^ 52 + b % 2 ^ 52) * 2 ^ (b / 2 ^ 52 - 1075) :=
    le_trans (Nat.le_add_right _ _) (Nat.le_mul_of_pos_right _ (Nat.two_pow_pos _))
  have h2 : 2 ^ (1075 - b / 2 ^ 52) ≤ 2 ^ 54 := Nat.pow_le_pow_right (by decide) (by omega)
  constructor
  · have : 0 < 2 ^ 52 := Nat.two_pow_pos 52
    omega
  · have e : (2 : Nat) ^ 54 = 4 * 2 ^ 52 := by norm_num
    omega

/-- The value of a bit pattern whose exponent field is from 2 to 1091: below `2^70`. -/
theorem f64val_lt {b : Nat} (h0 : 2 * 2 ^ 52 ≤ b) (h : b < 1092 * 2 ^ 52) :
    (f64val b).1 < 2 ^ 70 * (f64val b).2 := by
  have hE : b / 2 ^ 52 < 1092 := (Nat.div_lt_iff_lt_mul (Nat.two_pow_pos 52)).mpr h
  have hE2 : 2 ≤ b / 2 ^ 52 := (Nat.le_div_iff_mul_le (Nat.two_pow_pos 52)).mpr h0
  unfold f64val
  rw [if_neg (by omega)]
  dsimp only
  have hF : 2 ^ 52 + b % 2 ^ 52 < 2 ^ 53 := by
    have := Nat.mod_lt b (Nat.two_pow_pos 52)
    have e : (2 : Nat) ^ 53 = 2 ^ 52 + 2 ^ 52 := by norm_num
    omega
  have hp : 2 ^ (b / 2 ^ 52 - 1075) ≤ 2 ^ 17 := Nat.pow_le_pow_right (by decide) (by omega)
  calc (2 ^ 52 + b % 2 ^ 52) * 2 ^ (b / 2 ^ 52 - 1075)
      < 2 ^ 53 * 2 ^ (b / 2 ^ 52 - 1075) :=
        Nat.mul_lt_mul_of_pos_right hF (Nat.two_pow_pos _)
    _ ≤ 2 ^ 53 * 2 ^ 17 := Nat.mul_le_mul_left _ hp
    _ = 2 ^ 70 := by norm_num
    _ ≤ 2 ^ 70 * 2 ^ (1075 - b / 2 ^ 52) := Nat.le_mul_of_pos_right _ (Nat.two_pow_pos _)

/-- The quotient of the conversions of two positive `int` values is above 0. -/
theorem f64div_pos {s r : Int} (hs : 1 ≤ s) (hr : 1 ≤ r) (hr2 : r < 2 ^ 63) :
    0 < f64div (float64 s) (float64 r) := by
  obtain ⟨sn, rfl⟩ : ∃ sn : Nat, s = (sn : Int) := ⟨s.toNat, by omega⟩
  obtain ⟨rn, rfl⟩ : ∃ rn : Nat, r = (rn : Int) := ⟨r.toNat, by omega⟩
  have hs1 : 1 ≤ sn := by omega
  have hr1 : 1 ≤ rn := by omega
  have hr3 : rn < 2 ^ 63 := by exact_mod_cast hr2
  have ea : float64 (sn : Int) = ((f64bits sn 1 : Nat) : Int) := by
    unfold float64 float64Const
    rw [if_neg (by omega), Int.natAbs_ofNat]
  have eb : float64 (rn : Int) = ((f64bits rn 1 : Nat) : Int) := by
    unfold float64 float64Const
    rw [if_neg (by omega), Int.natAbs_ofNat]
  have ka := f64bits_int_ge hs1
  have kb := f64bits_int_ge hr1
  have kb2 := f64bits_int_lt hr1 hr3
  obtain ⟨a1, a2⟩ := f64val_ge ka
  obtain ⟨b1, _⟩ := f64val_ge kb
  have b3 := f64val_lt (by omega) kb2
  have hpa : (0 : Int) < ((f64bits sn 1 : Nat) : Int) := by
    have : 0 < 2 ^ 52 := Nat.two_pow_pos 52
    omega
  have hpb : (0 : Int) < ((f64bits rn 1 : Nat) : Int) := by
    have : 0 < 2 ^ 52 := Nat.two_pow_pos 52
    omega
  rw [ea, eb]
  unfold f64div
  rw [if_neg (not_or.mpr ⟨fun h => absurd h.1 (not_lt.mpr (le_of_lt hpa)),
    fun h => absurd h.2 (not_lt.mpr (le_of_lt hpb))⟩), Int.natAbs_ofNat, Int.natAbs_ofNat]
  have hb2pos : 1 ≤ (f64val (f64bits rn 1)).2 := by
    by_contra hz
    have : (f64val (f64bits rn 1)).2 = 0 := by omega
    rw [this, Nat.mul_zero] at b3
    omega
  have key72 : (f64val (f64bits sn 1)).2 * (f64val (f64bits rn 1)).1 <
      (f64val (f64bits sn 1)).1 * (f64val (f64bits rn 1)).2 * 2 ^ 72 := by
    calc (f64val (f64bits sn 1)).2 * (f64val (f64bits rn 1)).1
        ≤ 4 * (f64val (f64bits sn 1)).1 * (f64val (f64bits rn 1)).1 :=
          Nat.mul_le_mul_right _ a2
      _ < 4 * (f64val (f64bits sn 1)).1 * (2 ^ 70 * (f64val (f64bits rn 1)).2) :=
          Nat.mul_lt_mul_of_pos_left b3 (by omega)
      _ = (f64val (f64bits sn 1)).1 * (f64val (f64bits rn 1)).2 * 2 ^ 72 := by ring
  have hpowk : ∀ k : Nat, 72 ≤ k → (2 : Nat) ^ 72 ≤ 2 ^ k :=
    fun k hk => Nat.pow_le_pow_right (by decide) hk
  have hpow := hpowk 1075 (by decide)
  have key : (f64val (f64bits sn 1)).2 * (f64val (f64bits rn 1)).1 <
      (f64val (f64bits sn 1)).1 * (f64val (f64bits rn 1)).2 * 2 ^ 1075 :=
    lt_of_lt_of_le key72 (Nat.mul_le_mul_left _ hpow)
  have hN : 0 < (f64val (f64bits sn 1)).1 * (f64val (f64bits rn 1)).2 :=
    Nat.mul_pos (by omega) (by omega)
  exact_mod_cast f64bits_pos hN key

/-! ## The two rules that read the aggregates -/

/-- What the loop of the win-rate rule does, started with `best`: either no entry
beats both 0.85 and `best`, and nothing is changed, or the action of an entry that
beats them and has the highest win rate is selected. -/
theorem winLoop_spec :
    ∀ (it : List (String × Stats)) (data : GameData) (best : F64),
      ((∀ kd ∈ it, kd.2.Run ≠ 0 → ¬ (winRate kd.2 > float64Const 85 100 ∧ winRate kd.2 > best)) ∧
        winLoop it data best = data) ∨
      (∃ kd ∈ it, kd.2.Run ≠ 0 ∧ winRate kd.2 > float64Const 85 100 ∧ winRate kd.2 > best ∧
        (∀ kd1 ∈ it, kd1.2.Run ≠ 0 → winRate kd1.2 ≤ winRate kd.2) ∧
        winLoop it data best = { data with Reason := "win > 85%", Action := kd.1 }) := by
  intro it
  induction it with
  | nil => intro data best; left; simp [winLoop]
  | cons kd0 rest ih =>
    obtain ⟨k, d⟩ := kd0
    intro data best
    by_cases hrun : d.Run = 0
    · have hstep : winLoop ((k, d) :: rest) data best = winLoop rest data best := by
        simp [winLoop, hrun]
      rw [hstep]
      rcases ih data best with ⟨hno, heq⟩ | ⟨kd, hkd, h1, h2, h3, hmax, heq⟩
      · left
        refine ⟨?_, heq⟩
        intro kd1 hkd1 hr1
        rcases List.mem_cons.mp hkd1 with rfl | hin
        · exact absurd hrun hr1
        · exact hno kd1 hin hr1
      · right
        refine ⟨kd, List.mem_cons_of_mem _ hkd, h1, h2, h3, ?_, heq⟩
        intro kd1 hkd1 hr1
        rcases List.mem_cons.mp hkd1 with rfl | hin
        · exact absurd hrun hr1
        · exact hmax kd1 hin hr1
    · by_cases hbeat : winRate d > float64Const 85 100 ∧ winRate d > best
      · have hstep : winLoop ((k, d) :: rest) data best
            = winLoop rest { data with Reason := "win > 85%", Action := k } (winRate d) := by
          have hb := hbeat
          unfold winRate at hb
          simp only [winLoop, hrun, if_false, hb, and_self, if_true]
          rfl
        rw [hstep]
        right
        rcases ih { data with Reason := "win > 85%", Action := k } (winRate d) with
          ⟨hno, heq⟩ | ⟨kd, hkd, h1, h2, h3, hmax, heq⟩
        · refine ⟨(k, d), List.mem_cons_self _ _, hrun, hbeat.1, hbeat.2, ?_, heq⟩
          intro kd1 hkd1 hr1
          rcases List.mem_cons.mp hkd1 with rfl | hin
          · exact le_refl _
          · have := hno kd1 hin hr1
            by_contra hlt
            push_neg at hlt
            exact this ⟨lt_trans hbeat.1 hlt, hlt⟩
        · refine ⟨kd, List.mem_cons_of_mem _ hkd, h1, h2, lt_trans hbeat.2 h3, ?_, heq⟩
          intro kd1 hkd1 hr1
          rcases List.mem_cons.mp hkd1 with rfl | hin
          · exact le_of_lt h3
          · exact hmax kd1 hin hr1
      · have hstep : winLoop ((k, d) :: rest) data best = winLoop rest data best := by
          have hb := hbeat
          unfold winRate at hb
          simp only [winLoop, hrun, if_false, hb]
        rw [hstep]
        rcases ih data best with ⟨hno, heq⟩ | ⟨kd, hkd, h1, h2, h3, hmax, heq⟩
        · left
          refine ⟨?_, heq⟩
          intro kd1 hkd1 hr1
          rcases List.mem_cons.mp hkd1 with rfl | hin
          · exact hbeat
          · exact hno kd1 hin hr1
        · right
          refine ⟨kd, List.mem_cons_of_mem _ hkd, h1, h2, h3, ?_, heq⟩
          intro kd1 hkd1 hr1
          rcases List.mem_cons.mp hkd1 with rfl | hin
          · by_contra hlt
            push_neg at hlt
            exact hbeat ⟨lt_trans h2 hlt, lt_trans h3 hlt⟩
          · exact hmax kd1 hin hr1

/-- What the loop of the average-survival rule does, started with `best`. -/
theorem averageLoop_spec :
    ∀ (it : List (String × Stats)) (data : GameData) (best : F64),
      ((∀ kd ∈ it, kd.2.Run ≠ 0 → ¬ (meanSurvival kd.2 > best ∧ winRate kd.2 > float64Const 1 10)) ∧
        averageLoop it data best = data) ∨
      (∃ kd ∈ it, kd.2.Run ≠ 0 ∧ winRate kd.2 > float64Const 1 10 ∧ meanSurvival kd.2 > best ∧
        (∀ kd1 ∈ it, kd1.2.Run ≠ 0 → winRate kd1.2 > float64Const 1 10 →
          meanSurvival kd1.2 ≤ meanSurvival kd.2) ∧
        averageLoop it data best = { data with Action := kd.1, Reason := "average length" }) := by
  intro it
  induction it with
  | nil => intro data best; left; simp [averageLoop]
  | cons kd0 rest ih =>
    obtain ⟨k, d⟩ := kd0
    intro data best
    by_cases hrun : d.Run = 0
    · have hstep : averageLoop ((k, d) :: rest) data best = averageLoop rest data best := by
        simp [averageLoop, hrun]
      rw [hstep]
      rcases ih data best with ⟨hno, heq⟩ | ⟨kd, hkd, h1, h2, h3, hmax, heq⟩
      · left
        refine ⟨?_, heq⟩
        intro kd1 hkd1 hr1
        rcases List.mem_cons.mp hkd1 with rfl | hin
        · exact absurd hrun hr1
        · exact hno kd1 hin hr1
      · right
        refine ⟨kd, List.mem_cons_of_mem _ hkd, h1, h2, h3, ?_, heq⟩
        intro kd1 hkd1 hr1
        rcases List.mem_cons.mp hkd1 with rfl | hin
        · exact absurd hrun hr1
        · exact hmax kd1 hin hr1
    · by_cases hbeat : meanSurvival d > best ∧ winRate d > float64Const 1 10
      · have hstep : averageLoop ((k, d) :: rest) data best
            = averageLoop rest { data with Action := k, Reason := "average length" }
                (meanSurvival d) := by
          have hb := hbeat
          unfold winRate meanSurvival at hb
          simp only [averageLoop, hrun, if_false, hb, and_self, if_true]
          rfl
        rw [hstep]
        right
        rcases ih { data with Action := k, Reason := "average length" } (meanSurvival d) with
          ⟨hno, heq⟩ | ⟨kd, hkd, h1, h2, h3, hmax, heq⟩
        · refine ⟨(k, d), List.mem_cons_self _ _, hrun, hbeat.2, hbeat.1, ?_, heq⟩
          intro kd1 hkd1 hr1 hv1
          rcases List.mem_cons.mp hkd1 with rfl | hin
          · exact le_refl _
          · have := hno kd1 hin hr1
            by_contra hlt
            push_neg at hlt
            exact this ⟨hlt, hv1⟩
        · refine ⟨kd, List.mem_cons_of_mem _ hkd, h1, h2, lt_trans hbeat.1 h3, ?_, heq⟩
          intro kd1 hkd1 hr1 hv1
          rcases List.mem_cons.mp hkd1 with rfl | hin
          · exact le_of_lt h3
          · exact hmax kd1 hin hr1 hv1
      · have hstep : averageLoop ((k, d) :: rest) data best = averageLoop rest data best := by
          have hb := hbeat
          unfold winRate meanSurvival at hb
          simp only [averageLoop, hrun, if_false, hb]
        rw [hstep]
        rcases ih data best with ⟨hno, heq⟩ | ⟨kd, hkd, h1, h2, h3, hmax, heq⟩
        · left
          refine ⟨?_, heq⟩
          intro kd1 hkd1 hr1
          rcases List.mem_cons.mp hkd1 with rfl | hin
          · exact hbeat
          · exact hno kd1 hin hr1
        · right
          refine ⟨kd, List.mem_cons_of_mem _ hkd, h1, h2, h3, ?_, heq⟩
          intro kd1 hkd1 hr1 hv1
          rcases List.mem_cons.mp hkd1 with rfl | hin
          · by_contra hlt
            push_neg at hlt
            exact hbeat ⟨lt_trans h3 hlt, hv1⟩
          · exact hmax kd1 hin hr1 hv1

theorem valid_ne_nothing {a : String} (h : IsValidAction a = true) : a ≠ "nothing" := by
  rintro rfl
  revert h
  decide

theorem valid_ne_empty {a : String} (h : IsValidAction a = true) : a ≠ "" := by
  rintro rfl
  revert h
  decide

/-- Once an action other than the placeholder is selected, the later rules keep it. -/
theorem later_rules_keep (it2 : List (String × Stats)) (data : GameData)
    (h : data.Action ≠ "nothing") :
    fallbackRule (longestRule (averageRule it2 data)) = data := by
  simp [fallbackRule, longestRule, averageRule, h]

/-! ## The map `data.Collect` and the collector's work on one record -/

theorem getStats_setStats (m : List (String × Stats)) (a b : String) (d : Stats) :
    getStats (setStats m a d) b = if b = a then d else getStats m b := by
  induction m with
  | nil =>
    simp only [setStats, getStats]
    by_cases h : b = a
    · rw [if_pos h.symm, if_pos h]
    · rw [if_neg (fun e => h e.symm), if_neg h]
  | cons kd rest ih =>
    obtain ⟨k, d0⟩ := kd
    simp only [setStats]
    by_cases hk : k = a
    · rw [if_pos hk]
      simp only [getStats]
      by_cases h : b = a
      · rw [if_pos h, if_pos (hk.trans h.symm)]
      · rw [if_neg h, if_neg (fun e => h (e.symm.trans hk)), if_neg (fun e => h (e.symm.trans hk))]
    · rw [if_neg hk]
      simp only [getStats]
      by_cases hb : k = b
      · rw [if_pos hb, if_pos hb, if_neg (fun e => hk (hb.trans e))]
      · rw [if_neg hb, if_neg hb, ih]

/-- What the collector does with one record, field by field. -/
theorem collectResult_eq (data : GameData) (r : Result) :
    collectResult data r =
      { Collect := setStats data.Collect r.action (addRecord (getStats data.Collect r.action) r)
        LongestWin :=
          if r.win = true ∧ r.survived > data.LongestWin then r.survived else data.LongestWin
        LongestWinAction :=
          if r.win = true ∧ r.survived > data.LongestWin then r.action
          else data.LongestWinAction
        Longest := if r.survived > data.Longest then r.survived else data.Longest
        LongestAction := if r.survived > data.Longest then r.action else data.LongestAction
        Action := data.Action
        Reason := data.Reason } := by
  unfold collectResult addRecord
  by_cases hw : r.win = true <;> by_cases h1 : r.survived > data.LongestWin <;>
    by_cases h2 : r.survived > data.Longest <;>
    by_cases h3 : r.survivdedOpponent > (getStats data.Collect r.action).LongestOpponent <;>
    simp [hw, h1, h2, h3]

theorem mem_setStats (m : List (String × Stats)) (a : String) (d : Stats) :
    ∀ kd ∈ setStats m a d, kd = (a, d) ∨ kd ∈ m := by
  induction m with
  | nil =>
    intro kd hkd
    simp only [setStats, List.mem_singleton] at hkd
    exact Or.inl hkd
  | cons kd0 rest ih =>
    obtain ⟨k, d0⟩ := kd0
    intro kd hkd
    unfold setStats at hkd
    by_cases hk : k = a
    · rw [if_pos hk] at hkd
      rcases List.mem_cons.mp hkd with h | hin
      · left; rw [h, hk]
      · right; exact List.mem_cons_of_mem _ hin
    · rw [if_neg hk] at hkd
      rcases List.mem_cons.mp hkd with h | hin
      · right; rw [h]; exact List.mem_cons_self _ _
      · rcases ih kd hin with h | h
        · exact Or.inl h
        · exact Or.inr (List.mem_cons_of_mem _ h)

theorem getStats_zero_or_mem (m : List (String × Stats)) (a : String) :
    getStats m a = zeroStats ∨ (a, getStats m a) ∈ m := by
  induction m with
  | nil => left; rfl
  | cons kd0 rest ih =>
    obtain ⟨k, d0⟩ := kd0
    unfold getStats
    by_cases hk : k = a
    · rw [if_pos hk]
      right
      rw [← hk]
      exact List.mem_cons_self _ _
    · rw [if_neg hk]
      rcases ih with h | h
      · exact Or.inl h
      · exact Or.inr (List.mem_cons_of_mem _ h)

/-- The entries of the collector after records with survived ≥ 0, and survived ≥ 1 in a
won rollout: an entry has no more wins than summed survival, no more summed survival
than all records together, and no more runs than there are records. -/
theorem collector_entries (rs : List Result)
    (hrs : ∀ r ∈ rs, 0 ≤ r.survived ∧ (r.win = true → 1 ≤ r.survived)) :
    ∀ kd ∈ (collector rs).Collect,
      (kd.2.Won : Int) ≤ kd.2.Survived ∧ kd.2.Survived ≤ (rs.map Result.survived).sum ∧
        kd.2.Run ≤ rs.length := by
  induction rs using List.reverseRecOn with
  | nil =>
    intro kd hkd
    simp [collector, newData] at hkd
  | append_singleton rs r ih =>
    have hstep : collector (rs ++ [r]) = collectResult (collector rs) r := by
      simp [collector, List.foldl_append]
    have ih1 := ih (fun r1 hr1 => hrs r1 (List.mem_append_left _ hr1))
    have hr := hrs r (List.mem_append_right _ (List.mem_singleton.mpr rfl))
    intro kd hkd
    rw [hstep, collectResult_eq] at hkd
    rw [List.length_append, List.length_singleton, List.map_append, List.sum_append,
      List.map_singleton, List.sum_singleton]
    rcases mem_setStats _ _ _ kd hkd with h | h
    · have hold : ((getStats (collector rs).Collect r.action).Won : Int)
            ≤ (getStats (collector rs).Collect r.action).Survived ∧
          (getStats (collector rs).Collect r.action).Survived
            ≤ (rs.map Result.survived).sum ∧
          (getStats (collector rs).Collect r.action).Run ≤ rs.length := by
        rcases getStats_zero_or_mem (collector rs).Collect r.action with h0 | hm
        · rw [h0]
          refine ⟨by decide, ?_, Nat.zero_le _⟩
          show (0 : Int) ≤ _
          apply List.sum_nonneg
          intro x hx
          obtain ⟨r1, hr1, rfl⟩ := List.mem_map.mp hx
          exact (hrs r1 (List.mem_append_left _ hr1)).1
        · exact ih1 _ hm
      rw [h]
      unfold addRecord
      dsimp only
      refine ⟨?_, by omega, by omega⟩
      by_cases hw : r.win = true
      · rw [if_pos hw]
        have := hr.2 hw
        push_cast
        omega
      · rw [if_neg hw]
        omega
    · have := ih1 kd h
      exact ⟨this.1, by omega, by omega⟩

/-! ## Records that arrive many times -/

theorem setStats_setStats (m : List (String × Stats)) (a : String) (d d1 : Stats) :
    setStats (setStats m a d) a d1 = setStats m a d1 := by
  induction m with
  | nil => simp [setStats]
  | cons kd0 rest ih =>
    obtain ⟨k, d0⟩ := kd0
    by_cases hk : k = a
    · simp [setStats, hk]
    · simp [setStats, hk, ih]

theorem addRecords_succ (d : Stats) (r : Result) (n : Nat) :
    addRecords (addRecord d r) r (n + 1) = addRecords d r (n + 2) := by
  unfold addRecords addRecord
  dsimp only
  congr 1
  · omega
  · by_cases h : r.win = true
    · simp only [h, if_true]; omega
    · simp only [h]; rfl
  · push_cast; ring
  · push_cast; ring
  · push_cast; ring
  · split_ifs <;> omega

theorem addRecords_one (d : Stats) (r : Result) : addRecords d r 1 = addRecord d r := by
  unfold addRecords addRecord
  congr 1
  · push_cast; ring
  · push_cast; ring
  · push_cast; ring

/-- The collector after `n + 1` records equal to `r`: the entry of the action has taken
them all, and the other fields are as after the first of them. -/
theorem foldl_collect_replicate (r : Result) :
    ∀ (n : Nat) (data : GameData),
      (List.replicate (n + 1) r).foldl collectResult data =
        { collectResult data r with
          Collect := setStats data.Collect r.action
            (addRecords (getStats data.Collect r.action) r (n + 1)) } := by
  intro n
  induction n with
  | zero =>
    intro data
    rw [addRecords_one]
    show collectResult data r = _
    rw [collectResult_eq]
  | succ n ih =>
    intro data
    rw [List.replicate_succ, List.foldl_cons, ih (collectResult data r)]
    rw [collectResult_eq (collectResult data r) r]
    rw [collectResult_eq data r]
    dsimp only
    rw [getStats_setStats, if_pos rfl, setStats_setStats, addRecords_succ]
    congr 1
    · split_ifs <;> rfl
    · split_ifs <;> rfl
    · split_ifs <;> rfl
    · split_ifs <;> rfl

/-- The collector after `n ≥ 1` records equal to `r`. -/
theorem foldl_collect_replicate_pos (r : Result) (n : Nat) (h : 0 < n) (data : GameData) :
    (List.replicate n r).foldl collectResult data =
      { collectResult data r with
        Collect := setStats data.Collect r.action
          (addRecords (getStats data.Collect r.action) r n) } := by
  obtain ⟨m, rfl⟩ : ∃ m, n = m + 1 := ⟨n - 1, by omega⟩
  exact foldl_collect_replicate r m data

theorem collector_winTieRecords : collector winTieRecords = winTieData := by
  unfold collector winTieRecords
  rw [List.foldl_append, List.foldl_append, List.foldl_append,
    foldl_collect_replicate_pos _ _ (by decide), foldl_collect_replicate_pos _ _ (by decide),
    foldl_collect_replicate_pos _ _ (by decide), foldl_collect_replicate_pos _ _ (by decide)]
  decide

theorem collector_winRoundedRecords : collector winRoundedRecords = winRoundedData := by
  unfold collector winRoundedRecords
  rw [List.foldl_append,
    foldl_collect_replicate_pos _ _ (by decide), foldl_collect_replicate_pos _ _ (by decide)]
  decide

theorem collector_meanTieRecords : collector meanTieRecords = meanTieData := by
  unfold collector meanTieRecords
  rw [List.foldl_append, List.foldl_append, List.foldl_append, List.foldl_append,
    List.foldl_append,
    foldl_collect_replicate_pos _ _ (by decide), foldl_collect_replicate_pos _ _ (by decide),
    foldl_collect_replicate_pos _ _ (by decide), foldl_collect_replicate_pos _ _ (by decide),
    foldl_collect_replicate_pos _ _ (by decide), foldl_collect_replicate_pos _ _ (by decide)]
  decide

/-! ## C6: the win-rate rule -/

set_option maxRecDepth 100000 in
/-- C6, as stated with the win rate won/run, fails where `float64` rounds. (1) The
collector receives 200000002 records of turn_left, 180000001 of them won, and 175000003
records of turn_right, 157500002 of them won: both win rates are above 0.85 and that of
turn_right is the higher one, but both quotients are the same `float64` value and the
selector, visiting turn_left first, chooses turn_left. (2) The collector receives
4000000000000007 records of turn_left, 3400000000000006 of them won: the win rate is
above 0.85, but the quotient is the `float64` value of the constant 0.85 and the
win-rate rule does not choose; the reason is "average length". -/
theorem win_rule_rounds :
    ((85 : ℚ) / 100 < exactWinRate (getStats (collector winTieRecords).Collect ActionTurnLeft) ∧
      exactWinRate (getStats (collector winTieRecords).Collect ActionTurnLeft)
        < exactWinRate (getStats (collector winTieRecords).Collect ActionTurnRight) ∧
      winRate (getStats (collector winTieRecords).Collect ActionTurnLeft)
        = winRate (getStats (collector winTieRecords).Collect ActionTurnRight) ∧
      (collector winTieRecords).Collect.map Prod.fst = [ActionTurnLeft, ActionTurnRight] ∧
      (selector (collector winTieRecords).Collect (collector winTieRecords).Collect
        (collector winTieRecords)).Action = ActionTurnLeft ∧
      (selector (collector winTieRecords).Collect (collector winTieRecords).Collect
        (collector winTieRecords)).Reason = "win > 85%") ∧
    ((85 : ℚ) / 100
        < exactWinRate (getStats (collector winRoundedRecords).Collect ActionTurnLeft) ∧
      winRate (getStats (collector winRoundedRecords).Collect ActionTurnLeft)
        = float64Const 85 100 ∧
      (selector (collector winRoundedRecords).Collect (collector winRoundedRecords).Collect
        (collector winRoundedRecords)).Reason = "average length") := by
  rw [collector_winTieRecords, collector_winRoundedRecords]
  have e1 : getStats winTieData.Collect ActionTurnLeft
      = { Run := 200000002, Won := 180000001, Survived := 360000002,
          SurvivdedOpponent := 180000001, Round := 380000003, LongestOpponent := 1 } := by
    decide
  have e2 : getStats winTieData.Collect ActionTurnRight
      = { Run := 175000003, Won := 157500002, Survived := 315000004,
          SurvivdedOpponent := 157500002, Round := 332500005, LongestOpponent := 1 } := by
    decide
  have e3 : getStats winRoundedData.Collect ActionTurnLeft
      = { Run := 4000000000000007, Won := 3400000000000006, Survived := 6800000000000012,
          SurvivdedOpponent := 3400000000000006, Round := 7400000000000013,
          LongestOpponent := 1 } := by
    decide
  refine ⟨⟨?_, ?_, by decide, by decide, by decide, by decide⟩, ?_, by decide, by decide⟩
  · rw [e1]; norm_num [exactWinRate]
  · rw [e1, e2]; norm_num [exactWinRate]
  · rw [e3]; norm_num [exactWinRate]

set_option maxRecDepth 100000 in
/-- C6 (amended). The win rate of an action is the `float64` quotient
float64(won) / float64(run) and 0.85 is the `float64` constant. For every aggregate in
which some action has run > 0 and a win rate above 0.85, the selector (started with the
placeholder "nothing", whatever the order in which the map is visited) chooses an action
with run > 0 whose win rate is above 0.85 and is the maximum over all actions with
run > 0, and sets the reason to "win > 85%"; so an action whose win rate is exactly 0.85
is never chosen by this rule, as turn_left with 85 wins of 100. For change_nothing
90/100, turn_left 95/100, turn_right 10/100 it chooses turn_left. -/
theorem selector_win_rule :
    (∀ (data : GameData) (it1 it2 : List (String × Stats)),
      data.Action = "nothing" → it1.Perm data.Collect →
      (∀ kd ∈ data.Collect, IsValidAction kd.1 = true) →
      (∃ kd ∈ data.Collect, 0 < kd.2.Run ∧ winRate kd.2 > float64Const 85 100) →
      ∃ kd ∈ data.Collect, 0 < kd.2.Run ∧ winRate kd.2 > float64Const 85 100 ∧
        (∀ kd1 ∈ data.Collect, 0 < kd1.2.Run → winRate kd1.2 ≤ winRate kd.2) ∧
        (selector it1 it2 data).Action = kd.1 ∧
        (selector it1 it2 data).Reason = "win > 85%") ∧
    (∀ (it1 it2 : List (String × Stats)), it1.Perm tierOneCollect →
      (selector it1 it2 { newData with Collect := tierOneCollect }).Action = ActionTurnLeft ∧
      (selector it1 it2 { newData with Collect := tierOneCollect }).Reason = "win > 85%") ∧
    (winRate (mkStats 100 85 170) = float64Const 85 100 ∧
      (selector winEdgeCollect winEdgeCollect
        { newData with Collect := winEdgeCollect }).Reason = "average length") := by
  have general : ∀ (data : GameData) (it1 it2 : List (String × Stats)),
      data.Action = "nothing" → it1.Perm data.Collect →
      (∀ kd ∈ data.Collect, IsValidAction kd.1 = true) →
      (∃ kd ∈ data.Collect, 0 < kd.2.Run ∧ winRate kd.2 > float64Const 85 100) →
      ∃ kd ∈ data.Collect, 0 < kd.2.Run ∧ winRate kd.2 > float64Const 85 100 ∧
        (∀ kd1 ∈ data.Collect, 0 < kd1.2.Run → winRate kd1.2 ≤ winRate kd.2) ∧
        (selector it1 it2 data).Action = kd.1 ∧
        (selector it1 it2 data).Reason = "win > 85%" := by
    intro data it1 it2 hstart hperm hvalid ⟨kd0, hkd0, hrun0, hrate0⟩
    rcases winLoop_spec it1 data 0 with ⟨hno, _⟩ | ⟨kd, hkd, h1, h2, _, hmax, heq⟩
    · exfalso
      exact hno kd0 (hperm.mem_iff.mpr hkd0) (by omega)
        ⟨hrate0, lt_trans float64Const_pos.1 hrate0⟩
    · have hmem := hperm.mem_iff.mp hkd
      have hne : kd.1 ≠ "nothing" := valid_ne_nothing (hvalid kd hmem)
      have hsel : selector it1 it2 data = { data with Reason := "win > 85%", Action := kd.1 } := by
        unfold selector winRule
        rw [if_pos hstart, heq]
        exact later_rules_keep it2 _ hne
      refine ⟨kd, hmem, by omega, h2, ?_, by rw [hsel], by rw [hsel]⟩
      intro kd1 hkd1 hr1
      exact hmax kd1 (hperm.mem_iff.mpr hkd1) (by omega)
  refine ⟨general, ?_, by decide, by decide⟩
  intro it1 it2 hperm
  obtain ⟨kd, hkd, _, _, hmax, hact, hreason⟩ :=
    general { newData with Collect := tierOneCollect } it1 it2 rfl hperm (by decide)
      ⟨(ActionTurnLeft, mkStats 100 95 0), by decide, by decide, by decide⟩
  refine ⟨?_, hreason⟩
  rw [hact]
  have hbest := hmax (ActionTurnLeft, mkStats 100 95 0) (by decide) (by decide)
  simp only [tierOneCollect, List.mem_cons, List.mem_singleton, List.not_mem_nil, or_false]
    at hkd
  rcases hkd with rfl | rfl | rfl
  · exact absurd hbest (by decide)
  · rfl
  · exact absurd hbest (by decide)

set_option maxRecDepth 100000 in
/-- C6 (amended) at the aggregate of the scenario "selector tier 1". -/
theorem selector_win_rule_witness :
    ∃ kd ∈ tierOneCollect, 0 < kd.2.Run ∧ winRate kd.2 > float64Const 85 100 ∧
      (∀ kd1 ∈ tierOneCollect, 0 < kd1.2.Run → winRate kd1.2 ≤ winRate kd.2) ∧
      (selector tierOneCollect tierOneCollect { newData with Collect := tierOneCollect }).Action
        = kd.1 ∧
      (selector tierOneCollect tierOneCollect { newData with Collect := tierOneCollect }).Reason
        = "win > 85%" :=
  selector_win_rule.1 { newData with Collect := tierOneCollect } tierOneCollect tierOneCollect
    rfl (List.Perm.refl _) (by decide)
    ⟨(ActionTurnLeft, mkStats 100 95 0), by decide, by decide, by decide⟩

/-! ## C7: the average-survival rule -/

set_option maxRecDepth 100000 in
/-- C7, as stated with the mean survival survived/run, fails where `float64` rounds. The
collector receives 20000002 records of turn_left with summed survival 806000081 and
14999999 records of turn_right with summed survival 604499960; about half of the
rollouts of either action are won, so no win rate is above 0.85 and both are above
0.10. The mean survival of turn_right is the higher one, but both quotients are the same
`float64` value and the selector, visiting turn_left first, chooses turn_left with the
reason "average length". -/
theorem average_rule_rounds :
    (∀ kd ∈ (collector meanTieRecords).Collect,
      exactWinRate kd.2 ≤ 85 / 100 ∧ 1 / 10 < exactWinRate kd.2 ∧ 0 < kd.2.Run) ∧
    exactMeanSurvival (getStats (collector meanTieRecords).Collect ActionTurnLeft)
      < exactMeanSurvival (getStats (collector meanTieRecords).Collect ActionTurnRight) ∧
    meanSurvival (getStats (collector meanTieRecords).Collect ActionTurnLeft)
      = meanSurvival (getStats (collector meanTieRecords).Collect ActionTurnRight) ∧
    (collector meanTieRecords).Collect.map Prod.fst = [ActionTurnLeft, ActionTurnRight] ∧
    (selector (collector meanTieRecords).Collect (collector meanTieRecords).Collect
      (collector meanTieRecords)).Action = ActionTurnLeft ∧
    (selector (collector meanTieRecords).Collect (collector meanTieRecords).Collect
      (collector meanTieRecords)).Reason = "average length" := by
  rw [collector_meanTieRecords]
  have e1 : getStats meanTieData.Collect ActionTurnLeft
      = { Run := 20000002, Won := 10000001, Survived := 806000081,
          SurvivdedOpponent := 796000080, Round := 816000082, LongestOpponent := 41 } := by
    decide
  have e2 : getStats meanTieData.Collect ActionTurnRight
      = { Run := 14999999, Won := 7500000, Survived := 604499960,
          SurvivdedOpponent := 596999960, Round := 611999959, LongestOpponent := 41 } := by
    decide
  refine ⟨?_, ?_, by decide, by decide, by decide, by decide⟩
  · intro kd hkd
    simp only [meanTieData, List.mem_cons, List.mem_singleton, List.not_mem_nil, or_false]
      at hkd
    rcases hkd with rfl | rfl <;> norm_num [exactWinRate]
  · rw [e1, e2]; norm_num [exactMeanSurvival]

set_option maxRecDepth 100000 in
/-- C7 (amended). The win rate and the mean survival of an action are the `float64`
quotients float64(won) / float64(run) and float64(survived) / float64(run), and 0.85 and
0.10 are the `float64` constants. For every aggregate as the collector builds it (an
action has no more wins than summed survival, and its run count is a Go `int`) in which
no action with run > 0 has a win rate above 0.85 and at least one action has run > 0
and a win rate above 0.10, the selector chooses an action that has the highest mean
survival among the actions with run > 0 and win rate above 0.10, with reason "average
length". The collector builds such aggregates from records with survived ≥ 0, and
survived ≥ 1 in a won rollout, when the number of the records and the sum of their
survived values are Go `int`s (no sum wraps around). An action with a higher mean survival but a win rate of
at most 0.10 is not chosen: change_nothing with mean 40 and win rate 0.12 beats
turn_left with mean 50 and win rate 0.05. -/
theorem selector_average_rule :
    (∀ (data : GameData) (it1 it2 : List (String × Stats)),
      data.Action = "nothing" → it1.Perm data.Collect → it2.Perm data.Collect →
      (∀ kd ∈ data.Collect, IsValidAction kd.1 = true) →
      (∀ kd ∈ data.Collect, (kd.2.Won : Int) ≤ kd.2.Survived ∧ (kd.2.Run : Int) ≤ maxInt) →
      (∀ kd ∈ data.Collect, 0 < kd.2.Run → ¬ winRate kd.2 > float64Const 85 100) →
      (∃ kd ∈ data.Collect, 0 < kd.2.Run ∧ winRate kd.2 > float64Const 1 10) →
      ∃ kd ∈ data.Collect, 0 < kd.2.Run ∧ winRate kd.2 > float64Const 1 10 ∧
        (∀ kd1 ∈ data.Collect, 0 < kd1.2.Run → winRate kd1.2 > float64Const 1 10 →
          meanSurvival kd1.2 ≤ meanSurvival kd.2) ∧
        (selector it1 it2 data).Action = kd.1 ∧
        (selector it1 it2 data).Reason = "average length") ∧
    (∀ rs : List Result, (rs.length : Int) ≤ maxInt →
      (rs.map Result.survived).sum ≤ maxInt →
      (∀ r ∈ rs, 0 ≤ r.survived ∧ (r.win = true → 1 ≤ r.survived)) →
      ∀ kd ∈ (collector rs).Collect,
        ((kd.2.Won : Int) ≤ kd.2.Survived ∧ (kd.2.Run : Int) ≤ maxInt) ∧
          kd.2.Survived ≤ maxInt) ∧
    (∀ (it1 it2 : List (String × Stats)), it1.Perm tierTwoCollect → it2.Perm tierTwoCollect →
      (selector it1 it2 { newData with Collect := tierTwoCollect }).Action = ActionNOOP ∧
      (selector it1 it2 { newData with Collect := tierTwoCollect }).Reason = "average length") := by
  have general : ∀ (data : GameData) (it1 it2 : List (String × Stats)),
      data.Action = "nothing" → it1.Perm data.Collect → it2.Perm data.Collect →
      (∀ kd ∈ data.Collect, IsValidAction kd.1 = true) →
      (∀ kd ∈ data.Collect, (kd.2.Won : Int) ≤ kd.2.Survived ∧ (kd.2.Run : Int) ≤ maxInt) →
      (∀ kd ∈ data.Collect, 0 < kd.2.Run → ¬ winRate kd.2 > float64Const 85 100) →
      (∃ kd ∈ data.Collect, 0 < kd.2.Run ∧ winRate kd.2 > float64Const 1 10) →
      ∃ kd ∈ data.Collect, 0 < kd.2.Run ∧ winRate kd.2 > float64Const 1 10 ∧
        (∀ kd1 ∈ data.Collect, 0 < kd1.2.Run → winRate kd1.2 > float64Const 1 10 →
          meanSurvival kd1.2 ≤ meanSurvival kd.2) ∧
        (selector it1 it2 data).Action = kd.1 ∧
        (selector it1 it2 data).Reason = "average length" := by
    intro data it1 it2 hstart hperm1 hperm2 hvalid hinv hnowin ⟨kd0, hkd0, hrun0, hrate0⟩
    have hmean0 : meanSurvival kd0.2 > 0 := by
      have hwon : kd0.2.Won ≠ 0 := by
        intro h0
        rw [winRate_of_won_zero h0] at hrate0
        exact absurd hrate0 (not_lt.mpr (le_of_lt float64Const_pos.2))
      have hi := hinv kd0 hkd0
      have hmax : maxInt < 2 ^ 63 := by decide
      exact f64div_pos (by omega) (by omega) (lt_of_le_of_lt hi.2 hmax)
    have hwin : winRule it1 data = data := by
      unfold winRule
      rw [if_pos hstart]
      rcases winLoop_spec it1 data 0 with ⟨_, heq⟩ | ⟨kd, hkd, h1, h2, _, _, _⟩
      · exact heq
      · exact absurd h2 (hnowin kd (hperm1.mem_iff.mp hkd) (by omega))
    rcases averageLoop_spec it2 data 0 with ⟨hno, _⟩ | ⟨kd, hkd, h1, h2, _, hmax, heq⟩
    · exfalso
      exact hno kd0 (hperm2.mem_iff.mpr hkd0) (by omega) ⟨hmean0, hrate0⟩
    · have hmem := hperm2.mem_iff.mp hkd
      have hne : kd.1 ≠ "nothing" := valid_ne_nothing (hvalid kd hmem)
      have hsel : selector it1 it2 data
          = { data with Action := kd.1, Reason := "average length" } := by
        unfold selector
        rw [hwin]
        unfold averageRule
        rw [if_pos hstart, heq]
        simp [fallbackRule, longestRule, hne]
      refine ⟨kd, hmem, by omega, h2, ?_, by rw [hsel], by rw [hsel]⟩
      intro kd1 hkd1 hr1 hv1
      exact hmax kd1 (hperm2.mem_iff.mpr hkd1) (by omega) hv1
  refine ⟨general, ?_, ?_⟩
  · intro rs hlen hsum hrs kd hkd
    have h := collector_entries rs hrs kd hkd
    exact ⟨⟨h.1, le_trans (by exact_mod_cast h.2.2) hlen⟩, le_trans h.2.1 hsum⟩
  intro it1 it2 hperm1 hperm2
  obtain ⟨kd, hkd, _, hviable, _, hact, hreason⟩ :=
    general { newData with Collect := tierTwoCollect } it1 it2 rfl hperm1 hperm2 (by decide)
      (by decide) (by decide)
      ⟨(ActionNOOP, mkStats 100 12 4000), by decide, by decide, by decide⟩
  refine ⟨?_, hreason⟩
  rw [hact]
  simp only [tierTwoCollect, List.mem_cons, List.mem_singleton, List.not_mem_nil, or_false]
    at hkd
  rcases hkd with rfl | rfl
  · rfl
  · exact absurd hviable (by decide)

set_option maxRecDepth 100000 in
/-- C7 (amended) at the aggregate of the scenario "selector tier 2". -/
theorem selector_average_rule_witness :
    ∃ kd ∈ tierTwoCollect, 0 < kd.2.Run ∧ winRate kd.2 > float64Const 1 10 ∧
      (∀ kd1 ∈ tierTwoCollect, 0 < kd1.2.Run → winRate kd1.2 > float64Const 1 10 →
        meanSurvival kd1.2 ≤ meanSurvival kd.2) ∧
      (selector tierTwoCollect tierTwoCollect { newData with Collect := tierTwoCollect }).Action
        = kd.1 ∧
      (selector tierTwoCollect tierTwoCollect { newData with Collect := tierTwoCollect }).Reason
        = "average length" :=
  selector_average_rule.1 { newData with Collect := tierTwoCollect } tierTwoCollect
    tierTwoCollect rfl (List.Perm.refl _) (List.Perm.refl _) (by decide) (by decide) (by decide)
    ⟨(ActionNOOP, mkStats 100 12 4000), by decide, by decide, by decide⟩

/-! ## C8 and C9: the collector, the longest path and the fallback -/

theorem collectResult_fields (data : GameData) (r : Result) :
    (collectResult data r).Action = data.Action ∧
    (collectResult data r).Reason = data.Reason ∧
    (collectResult data r).Longest
      = (if r.survived > data.Longest then r.survived else data.Longest) ∧
    (collectResult data r).LongestAction
      = (if r.survived > data.Longest then r.action else data.LongestAction) ∧
    ∃ d, (collectResult data r).Collect = setStats data.Collect r.action d := by
  unfold collectResult
  refine ⟨?_, ?_, ?_, ?_, ?_⟩
  · simp only
    split_ifs <;> rfl
  · simp only
    split_ifs <;> rfl
  · simp only
    split_ifs <;> rfl
  · simp only
    split_ifs <;> rfl
  · simp only
    split_ifs <;> exact ⟨_, rfl⟩

theorem setStats_keys (m : List (String × Stats)) (a : String) (d : Stats) :
    ∀ kd ∈ setStats m a d, kd.1 = a ∨ ∃ kd1 ∈ m, kd1.1 = kd.1 := by
  induction m with
  | nil =>
    intro kd hkd
    simp only [setStats, List.mem_singleton] at hkd
    left; rw [hkd]
  | cons kd0 rest ih =>
    obtain ⟨k, d0⟩ := kd0
    intro kd hkd
    unfold setStats at hkd
    by_cases hk : k = a
    · rw [if_pos hk] at hkd
      rcases List.mem_cons.mp hkd with rfl | hin
      · left; exact hk
      · right; exact ⟨kd, List.mem_cons_of_mem _ hin, rfl⟩
    · rw [if_neg hk] at hkd
      rcases List.mem_cons.mp hkd with rfl | hin
      · right; exact ⟨(k, d0), List.mem_cons_self _ _, rfl⟩
      · rcases ih kd hin with h | ⟨kd1, hkd1, he⟩
        · left; exact h
        · right; exact ⟨kd1, List.mem_cons_of_mem _ hkd1, he⟩

/-- What the collector has recorded after the records `rs`: the placeholder action,
the keys of the map, and the longest survival with its action. -/
theorem collector_spec (rs : List Result) :
    (collector rs).Action = "nothing" ∧
    (∀ kd ∈ (collector rs).Collect, ∃ r ∈ rs, kd.1 = r.action) ∧
    (((collector rs).LongestAction = "" ∧ (collector rs).Longest = 0 ∧
        ∀ r ∈ rs, r.survived ≤ 0) ∨
      (∃ r ∈ rs, (collector rs).LongestAction = r.action ∧
        (collector rs).Longest = r.survived ∧ 1 ≤ r.survived ∧
        ∀ r1 ∈ rs, r1.survived ≤ r.survived)) := by
  induction rs using List.reverseRecOn with
  | nil =>
    refine ⟨rfl, ?_, Or.inl ⟨rfl, rfl, ?_⟩⟩
    · intro kd hkd
      simp [collector, newData] at hkd
    · intro r hr
      simp at hr
  | append_singleton rs r ih =>
    have hstep : collector (rs ++ [r]) = collectResult (collector rs) r := by
      simp [collector, List.foldl_append]
    obtain ⟨hact, hreason, hlong, hla, d, hcol⟩ := collectResult_fields (collector rs) r
    obtain ⟨ihact, ihkeys, ihlong⟩ := ih
    rw [hstep]
    refine ⟨by rw [hact, ihact], ?_, ?_⟩
    · intro kd hkd
      rw [hcol] at hkd
      rcases setStats_keys _ _ _ kd hkd with h | ⟨kd1, hkd1, he⟩
      · exact ⟨r, by simp, h⟩
      · obtain ⟨r1, hr1, he1⟩ := ihkeys kd1 hkd1
        exact ⟨r1, by simp [hr1], by rw [← he, he1]⟩
    · rw [hlong, hla]
      rcases ihlong with ⟨hempty, hzero, hall⟩ | ⟨r0, hr0, hl0, hlen0, hpos0, hmax0⟩
      · by_cases hgt : r.survived > (collector rs).Longest
        · right
          rw [if_pos hgt, if_pos hgt]
          refine ⟨r, by simp, rfl, rfl, by omega, ?_⟩
          intro r1 hr1
          rcases List.mem_append.mp hr1 with h | h
          · have := hall r1 h; omega
          · rw [List.mem_singleton.mp h]
        · left
          rw [if_neg hgt, if_neg hgt]
          refine ⟨hempty, hzero, ?_⟩
          intro r1 hr1
          rcases List.mem_append.mp hr1 with h | h
          · exact hall r1 h
          · rw [List.mem_singleton.mp h]; omega
      · right
        by_cases hgt : r.survived > (collector rs).Longest
        · rw [if_pos hgt, if_pos hgt]
          refine ⟨r, by simp, rfl, rfl, by omega, ?_⟩
          intro r1 hr1
          rcases List.mem_append.mp hr1 with h | h
          · have := hmax0 r1 h; omega
          · rw [List.mem_singleton.mp h]
        · rw [if_neg hgt, if_neg hgt]
          refine ⟨r0, by simp [hr0], hl0, hlen0, hpos0, ?_⟩
          intro r1 hr1
          rcases List.mem_append.mp hr1 with h | h
          · exact hmax0 r1 h
          · rw [List.mem_singleton.mp h]; omega

/-- The two rules that read the aggregates change the action and the reason only. -/
theorem rules_keep_longest (it1 it2 : List (String × Stats)) (data : GameData) :
    (averageRule it2 (winRule it1 data)).LongestAction = data.LongestAction := by
  have h1 : (winRule it1 data).LongestAction = data.LongestAction := by
    unfold winRule
    split_ifs
    · rcases winLoop_spec it1 data 0 with ⟨_, heq⟩ | ⟨_, _, _, _, _, _, heq⟩ <;> rw [heq]
    · rfl
  have h2 : ∀ d : GameData, (averageRule it2 d).LongestAction = d.LongestAction := by
    intro d
    unfold averageRule
    split_ifs
    · rcases averageLoop_spec it2 d 0 with ⟨_, heq⟩ | ⟨_, _, _, _, _, _, heq⟩ <;> rw [heq]
    · rfl
  rw [h2, h1]

/-- The action after the two rules that read the aggregates: the one before them or a
key of the map. -/
theorem rules_action (it1 it2 : List (String × Stats)) (data : GameData) :
    (averageRule it2 (winRule it1 data)).Action = data.Action ∨
      (∃ kd ∈ it1, (averageRule it2 (winRule it1 data)).Action = kd.1) ∨
      (∃ kd ∈ it2, (averageRule it2 (winRule it1 data)).Action = kd.1) := by
  have h2 : ∀ d : GameData, (averageRule it2 d).Action = d.Action ∨
      ∃ kd ∈ it2, (averageRule it2 d).Action = kd.1 := by
    intro d
    unfold averageRule
    split_ifs
    · rcases averageLoop_spec it2 d 0 with ⟨_, heq⟩ | ⟨kd, hkd, _, _, _, _, heq⟩
      · left; rw [heq]
      · right; exact ⟨kd, hkd, by rw [heq]⟩
    · left; rfl
  have h1 : (winRule it1 data).Action = data.Action ∨
      ∃ kd ∈ it1, (winRule it1 data).Action = kd.1 := by
    unfold winRule
    split_ifs
    · rcases winLoop_spec it1 data 0 with ⟨_, heq⟩ | ⟨kd, hkd, _, _, _, _, heq⟩
      · left; rw [heq]
      · right; exact ⟨kd, hkd, by rw [heq]⟩
    · left; rfl
  rcases h2 (winRule it1 data) with h | h
  · rcases h1 with h' | ⟨kd, hkd, h'⟩
    · left; rw [h, h']
    · right; left; exact ⟨kd, hkd, by rw [h, h']⟩
  · right; right; exact h

/-- C8. For every sequence of result records (each with one of the five actions) for
which neither the win-rate rule nor the average-survival rule selects an action: if
some record has survived >= 1, the selector chooses the action of a record whose
survived value is the largest over all records, with reason "longest path"; otherwise
it chooses change_nothing with reason "fallback". -/
theorem selector_longest_or_fallback (rs : List Result) (it1 it2 : List (String × Stats))
    (hvalid : ∀ r ∈ rs, IsValidAction r.action = true)
    (hnone : (averageRule it2 (winRule it1 (collector rs))).Action = "nothing") :
    ((∃ r ∈ rs, 1 ≤ r.survived) →
      ∃ r ∈ rs, (∀ r1 ∈ rs, r1.survived ≤ r.survived) ∧
        (selector it1 it2 (collector rs)).Action = r.action ∧
        (selector it1 it2 (collector rs)).Reason = "longest path") ∧
    ((∀ r ∈ rs, r.survived < 1) →
      (selector it1 it2 (collector rs)).Action = ActionNOOP ∧
      (selector it1 it2 (collector rs)).Reason = "fallback") := by
  have hla := rules_keep_longest it1 it2 (collector rs)
  obtain ⟨_, _, hlong⟩ := collector_spec rs
  constructor
  · rintro ⟨r0, hr0, hpos0⟩
    rcases hlong with ⟨_, _, hall⟩ | ⟨r, hr, hl, _, hpos, hmax⟩
    · have := hall r0 hr0; omega
    · have hne : r.action ≠ "" := valid_ne_empty (hvalid r hr)
      have hnn : r.action ≠ "nothing" := valid_ne_nothing (hvalid r hr)
      refine ⟨r, hr, hmax, ?_, ?_⟩
      · unfold selector longestRule
        rw [if_pos hnone, hla, hl, if_pos hne]
        simp [fallbackRule, hnn]
      · unfold selector longestRule
        rw [if_pos hnone, hla, hl, if_pos hne]
        simp [fallbackRule, hnn]
  · intro hall
    rcases hlong with ⟨hempty, _, _⟩ | ⟨r, hr, _, _, hpos, _⟩
    · have hl : longestRule (averageRule it2 (winRule it1 (collector rs)))
          = averageRule it2 (winRule it1 (collector rs)) := by
        unfold longestRule
        rw [if_pos hnone, hla, hempty]
        simp
      unfold selector
      rw [hl]
      simp [fallbackRule, hnone]
    · have := hall r hr; omega

set_option maxRecDepth 100000 in
/-- C8 at one losing rollout of turn_left that survived three rounds. -/
theorem selector_longest_or_fallback_witness :
    ((∃ r ∈ [({ action := ActionTurnLeft, win := false, survived := 3, survivdedOpponent := 3,
                 round := 5 } : Result)], 1 ≤ r.survived) →
      ∃ r ∈ [({ action := ActionTurnLeft, win := false, survived := 3, survivdedOpponent := 3,
                 round := 5 } : Result)],
        (∀ r1 ∈ [({ action := ActionTurnLeft, win := false, survived := 3,
                     survivdedOpponent := 3, round := 5 } : Result)],
          r1.survived ≤ r.survived) ∧
        (selector [(ActionTurnLeft, { mkStats 1 0 3 with SurvivdedOpponent := 3, Round := 5,
                                                          LongestOpponent := 3 })]
            [(ActionTurnLeft, { mkStats 1 0 3 with SurvivdedOpponent := 3, Round := 5,
                                                   LongestOpponent := 3 })]
            (collector [{ action := ActionTurnLeft, win := false, survived := 3,
                          survivdedOpponent := 3, round := 5 }])).Action = r.action ∧
        (selector [(ActionTurnLeft, { mkStats 1 0 3 with SurvivdedOpponent := 3, Round := 5,
                                                          LongestOpponent := 3 })]
            [(ActionTurnLeft, { mkStats 1 0 3 with SurvivdedOpponent := 3, Round := 5,
                                                   LongestOpponent := 3 })]
            (collector [{ action := ActionTurnLeft, win := false, survived := 3,
                          survivdedOpponent := 3, round := 5 }])).Reason = "longest path") ∧
    ((∀ r ∈ [({ action := ActionTurnLeft, win := false, survived := 3, survivdedOpponent := 3,
                 round := 5 } : Result)], r.survived < 1) →
      (selector [(ActionTurnLeft, { mkStats 1 0 3 with SurvivdedOpponent := 3, Round := 5,
                                                        LongestOpponent := 3 })]
          [(ActionTurnLeft, { mkStats 1 0 3 with SurvivdedOpponent := 3, Round := 5,
                                                 LongestOpponent := 3 })]
          (collector [{ action := ActionTurnLeft, win := false, survived := 3,
                        survivdedOpponent := 3, round := 5 }])).Action = ActionNOOP ∧
      (selector [(ActionTurnLeft, { mkStats 1 0 3 with SurvivdedOpponent := 3, Round := 5,
                                                        LongestOpponent := 3 })]
          [(ActionTurnLeft, { mkStats 1 0 3 with SurvivdedOpponent := 3, Round := 5,
                                                 LongestOpponent := 3 })]
          (collector [{ action := ActionTurnLeft, win := false, survived := 3,
                        survivdedOpponent := 3, round := 5 }])).Reason = "fallback") :=
  selector_longest_or_fallback _ _ _ (by decide) (by decide)

/-- C9. For every aggregate built by the collector from result records whose action is
one of the five valid actions, whatever the order in which the map is visited, the
selector ends with an action for which `IsValidAction` is true (never the placeholder
"nothing"); with no record received it ends with change_nothing. -/
theorem selector_total :
    (∀ (rs : List Result) (it1 it2 : List (String × Stats)),
      (∀ r ∈ rs, IsValidAction r.action = true) →
      it1.Perm (collector rs).Collect → it2.Perm (collector rs).Collect →
      IsValidAction (selector it1 it2 (collector rs)).Action = true ∧
      (selector it1 it2 (collector rs)).Action ≠ "nothing") ∧
    (selector (collector []).Collect (collector []).Collect (collector [])).Action
      = ActionNOOP := by
  refine ⟨?_, by simp [selector, collector, newData, winRule, winLoop, averageRule,
    averageLoop, longestRule, fallbackRule]⟩
  intro rs it1 it2 hvalid hperm1 hperm2
  obtain ⟨hact, hkeys, hlong⟩ := collector_spec rs
  have hla := rules_keep_longest it1 it2 (collector rs)
  have hkeyvalid : ∀ kd ∈ (collector rs).Collect, IsValidAction kd.1 = true := by
    intro kd hkd
    obtain ⟨r, hr, he⟩ := hkeys kd hkd
    rw [he]; exact hvalid r hr
  have hfinal : IsValidAction (selector it1 it2 (collector rs)).Action = true := by
    by_cases hnone : (averageRule it2 (winRule it1 (collector rs))).Action = "nothing"
    · -- the longest path or the fallback
      rcases hlong with ⟨hempty, _, _⟩ | ⟨r, hr, hl, _, _, _⟩
      · have hl : longestRule (averageRule it2 (winRule it1 (collector rs)))
            = averageRule it2 (winRule it1 (collector rs)) := by
          unfold longestRule
          rw [if_pos hnone, hla, hempty]
          simp
        unfold selector
        rw [hl]
        simp only [fallbackRule, hnone, if_true]
        decide
      · have hne : r.action ≠ "" := valid_ne_empty (hvalid r hr)
        have hnn : r.action ≠ "nothing" := valid_ne_nothing (hvalid r hr)
        have : (selector it1 it2 (collector rs)).Action = r.action := by
          unfold selector longestRule
          rw [if_pos hnone, hla, hl, if_pos hne]
          simp [fallbackRule, hnn]
        rw [this]; exact hvalid r hr
    · -- one of the two rules that read the aggregates selected a key of the map
      have hsel : selector it1 it2 (collector rs)
          = averageRule it2 (winRule it1 (collector rs)) := by
        unfold selector
        simp [fallbackRule, longestRule, hnone]
      rw [hsel]
      rcases rules_action it1 it2 (collector rs) with h | ⟨kd, hkd, h⟩ | ⟨kd, hkd, h⟩
      · rw [hact] at h; exact absurd h hnone
      · rw [h]; exact hkeyvalid kd (hperm1.mem_iff.mp hkd)
      · rw [h]; exact hkeyvalid kd (hperm2.mem_iff.mp hkd)
  exact ⟨hfinal, valid_ne_nothing hfinal⟩

/-- C9 at two records: a win of speed_up and a loss of turn_right. -/
theorem selector_total_witness :
    IsValidAction (selector
        (collector [{ action := ActionFaster, win := true, survived := 4,
                      survivdedOpponent := 2, round := 4 },
                    { action := ActionTurnRight, win := false, survived := 1,
                      survivdedOpponent := 1, round := 6 }]).Collect
        (collector [{ action := ActionFaster, win := true, survived := 4,
                      survivdedOpponent := 2, round := 4 },
                    { action := ActionTurnRight, win := false, survived := 1,
                      survivdedOpponent := 1, round := 6 }]).Collect
        (collector [{ action := ActionFaster, win := true, survived := 4,
                      survivdedOpponent := 2, round := 4 },
                    { action := ActionTurnRight, win := false, survived := 1,
                      survivdedOpponent := 1, round := 6 }])).Action = true ∧
    (selector
        (collector [{ action := ActionFaster, win := true, survived := 4,
                      survivdedOpponent := 2, round := 4 },
                    { action := ActionTurnRight, win := false, survived := 1,
                      survivdedOpponent := 1, round := 6 }]).Collect
        (collector [{ action := ActionFaster, win := true, survived := 4,
                      survivdedOpponent := 2, round := 4 },
                    { action := ActionTurnRight, win := false, survived := 1,
                      survivdedOpponent := 1, round := 6 }]).Collect
        (collector [{ action := ActionFaster, win := true, survived := 4,
                      survivdedOpponent := 2, round := 4 },
                    { action := ActionTurnRight, win := false, survived := 1,
                      survivdedOpponent := 1, round := 6 }])).Action ≠ "nothing" :=
  selector_total.1 _ _ _ (by decide) (List.Perm.refl _) (List.Perm.refl _)

theorem getCell_isSome_iff (cells : List (List Int)) (y x : Int) :
    (∃ v, getCell cells y x = some v) ↔
      0 ≤ y ∧ 0 ≤ x ∧ ∃ l, (shape cells)[y.toNat]? = some l ∧ x.toNat < l := by
  unfold getCell shape
  by_cases hneg : y < 0 ∨ x < 0
  · simp only [hneg, if_true]
    constructor
    · rintro ⟨v, hv⟩; simp at hv
    · rintro ⟨h1, h2, _⟩; omega
  · simp only [hneg, if_false]
    rw [List.getElem?_map]
    cases hrow : cells[y.toNat]? with
    | none => simp
    | some row =>
      simp only [Option.map_some', Option.some.injEq, exists_eq_left']
      constructor
      · rintro ⟨v, hv⟩
        refine ⟨by omega, by omega, ?_⟩
        by_contra hge
        rw [List.getElem?_eq_none (by omega)] at hv
        simp at hv
      · rintro ⟨_, _, hlt⟩
        exact ⟨row[x.toNat], List.getElem?_eq_getElem hlt⟩

theorem setCell_isSome_iff (cells : List (List Int)) (y x v : Int) :
    (∃ c1, setCell cells y x v = some c1) ↔ ∃ v0, getCell cells y x = some v0 := by
  unfold setCell getCell
  by_cases hneg : y < 0 ∨ x < 0
  · simp [hneg]
  · simp only [hneg, if_false]
    cases hrow : cells[y.toNat]? with
    | none => simp
    | some row =>
      simp only
      by_cases hx : x.toNat < row.length
      · simp only [hx, if_true, Option.some.injEq, exists_eq']
        simp only [true_iff]
        exact ⟨row[x.toNat], List.getElem?_eq_getElem hx⟩
      · simp only [hx, if_false]
        rw [List.getElem?_eq_none (by omega)]
        simp

theorem setCell_shape {cells c1 : List (List Int)} {y x v : Int}
    (h : setCell cells y x v = some c1) : shape c1 = shape cells := by
  unfold setCell at h
  by_cases hneg : y < 0 ∨ x < 0
  · simp [hneg] at h
  · simp only [hneg, if_false] at h
    cases hrow : cells[y.toNat]? with
    | none => rw [hrow] at h; simp at h
    | some row =>
      rw [hrow] at h
      simp only at h
      by_cases hx : x.toNat < row.length
      · simp only [hx, if_true, Option.some.injEq] at h
        subst h
        unfold shape
        apply List.ext_getElem?
        intro k
        rw [List.getElem?_map, List.getElem?_map]
        by_cases hk : k = y.toNat
        · subst hk
          have hy : y.toNat < cells.length := by
            by_contra hge
            rw [List.getElem?_eq_none (by omega)] at hrow
            simp at hrow
          rw [List.getElem?_set_self hy, hrow]
          simp
        · rw [List.getElem?_set_ne (by omega)]
      · simp [hx] at h

/-- Two grids of the same shape that agree at every cell are equal. -/
theorem cells_ext {cs cs1 : List (List Int)} (hshape : shape cs = shape cs1)
    (h : ∀ y x : Int, getCell cs y x = getCell cs1 y x) : cs = cs1 := by
  apply List.ext_getElem?
  intro k
  have hk := congrArg (fun l => l[k]?) hshape
  simp only [shape, List.getElem?_map] at hk
  cases h1 : cs[k]? with
  | none =>
    rw [h1] at hk
    cases h2 : cs1[k]? with
    | none => rfl
    | some r2 => rw [h2] at hk; simp at hk
  | some r1 =>
    rw [h1] at hk
    cases h2 : cs1[k]? with
    | none => rw [h2] at hk; simp at hk
    | some r2 =>
      rw [h2] at hk
      simp only [Option.map_some', Option.some.injEq] at hk
      congr 1
      apply List.ext_getElem?
      intro j
      have := h (k : Int) (j : Int)
      unfold getCell at this
      simp only [Int.toNat_ofNat, h1, h2] at this
      have hnn : ¬ ((k : Int) < 0 ∨ (j : Int) < 0) := by omega
      simpa [hnn] using this

theorem getCell_some_of_sized {w h : Int} {cells : List (List Int)}
    (hs : CellsSized w h cells) {x y : Int} (hin : InBoard w h x y) :
    ∃ v, getCell cells y x = some v := by
  obtain ⟨hw, hh, hshape⟩ := hs
  obtain ⟨h1, h2, h3, h4⟩ := hin
  rw [getCell_isSome_iff]
  refine ⟨h3, h1, w.toNat, ?_, by omega⟩
  rw [hshape, List.getElem?_replicate]
  simp only [ite_eq_left_iff, not_lt, reduceCtorEq, imp_false, not_le]
  omega

theorem setCell_sized {w h : Int} {cells c1 : List (List Int)} {y x v : Int}
    (hs : CellsSized w h cells) (h1 : setCell cells y x v = some c1) : CellsSized w h c1 :=
  ⟨hs.1, hs.2.1, by rw [setCell_shape h1]; exact hs.2.2⟩

theorem dirVec_unit {d : String} {dx dy : Int} (hd : dirVec d = some (dx, dy)) :
    (dx = 0 ∧ (dy = 1 ∨ dy = -1)) ∨ (dy = 0 ∧ (dx = 1 ∨ dx = -1)) := by
  unfold dirVec at hd
  split_ifs at hd <;> simp only [Option.some.injEq, Prod.mk.injEq, reduceCtorEq] at hd <;> omega

theorem StampsCell_first {w h : Int} {p : Player} {dx dy s : Int} {n : Nat}
    (hin : InBoard w h (p.X + dx) (p.Y + dy)) (hh : isHole p s = false) :
    StampsCell w h p dx dy s (n + 1) (p.X + dx) (p.Y + dy) := by
  refine ⟨0, by omega, by simp, by simp, ?_, by simpa using hh⟩
  intro u hu
  have : u = 0 := by omega
  subst this
  simpa using hin

theorem StampsCell_later {w h : Int} {p : Player} {dx dy s : Int} {n : Nat} {x y : Int}
    (hin : InBoard w h (p.X + dx) (p.Y + dy))
    (hst : StampsCell w h { p with X := p.X + dx, Y := p.Y + dy } dx dy (s + 1) n x y) :
    StampsCell w h p dx dy s (n + 1) x y := by
  obtain ⟨t, ht, hx, hy, hall, hh⟩ := hst
  simp only at hx hy hall
  refine ⟨t + 1, by omega, by rw [hx]; push_cast; ring, by rw [hy]; push_cast; ring, ?_, ?_⟩
  · intro u hu
    cases u with
    | zero => simpa using hin
    | succ u =>
      have := hall u (by omega)
      have e1 : p.X + (((u + 1 : Nat) : Int) + 1) * dx = p.X + dx + ((u : Int) + 1) * dx := by
        push_cast; ring
      have e2 : p.Y + (((u + 1 : Nat) : Int) + 1) * dy = p.Y + dy + ((u : Int) + 1) * dy := by
        push_cast; ring
      rw [e1, e2]; exact this
  · have e : s + ((t + 1 : Nat) : Int) = s + 1 + (t : Int) := by push_cast; ring
    rw [e]; exact hh

theorem StampsCell_cases {w h : Int} {p : Player} {dx dy s : Int} {n : Nat} {x y : Int}
    (hst : StampsCell w h p dx dy s (n + 1) x y) :
    InBoard w h (p.X + dx) (p.Y + dy) ∧
      ((x = p.X + dx ∧ y = p.Y + dy ∧ isHole p s = false) ∨
        StampsCell w h { p with X := p.X + dx, Y := p.Y + dy } dx dy (s + 1) n x y) := by
  obtain ⟨t, ht, hx, hy, hall, hh⟩ := hst
  have h0 := hall 0 (Nat.zero_le _)
  simp only [Nat.cast_zero, zero_add, one_mul] at h0
  refine ⟨h0, ?_⟩
  cases t with
  | zero =>
    left
    simp only [Nat.cast_zero, zero_add, one_mul, add_zero] at hx hy hh
    exact ⟨hx, hy, hh⟩
  | succ t =>
    right
    refine ⟨t, by omega, by rw [hx]; push_cast; ring, by rw [hy]; push_cast; ring, ?_, ?_⟩
    · intro u hu
      have := hall (u + 1) (by omega)
      have e1 : p.X + (((u + 1 : Nat) : Int) + 1) * dx = p.X + dx + ((u : Int) + 1) * dx := by
        push_cast; ring
      have e2 : p.Y + (((u + 1 : Nat) : Int) + 1) * dy = p.Y + dy + ((u : Int) + 1) * dy := by
        push_cast; ring
      rw [e1, e2] at this; exact this
    · have e : s + ((t + 1 : Nat) : Int) = s + 1 + (t : Int) := by push_cast; ring
      rw [e] at hh; exact hh

/-- The cells of a move are distinct: the cell a player stands on is none of the cells
ahead. -/
theorem StampsCell_ne_start {w h : Int} {p : Player} {dx dy s : Int} {n : Nat} {x y : Int}
    (hu : (dx = 0 ∧ (dy = 1 ∨ dy = -1)) ∨ (dy = 0 ∧ (dx = 1 ∨ dx = -1)))
    (hst : StampsCell w h p dx dy s n x y) : ¬ (x = p.X ∧ y = p.Y) := by
  obtain ⟨t, _, hx, hy, _, _⟩ := hst
  rintro ⟨rfl, rfl⟩
  rcases hu with ⟨rfl, rfl | rfl⟩ | ⟨rfl, rfl | rfl⟩ <;> simp at hx hy <;> omega

/-- What the step loop does to the cells: a cell that it stamps, and that cell only,
gets the stamp value for what it held before the loop. -/
theorem moveLoop_pointwise {w h i : Int} {dx dy : Int} :
    ∀ (n : Nat) (s : Int) (cs cs1 : List (List Int)) (p p1 : Player),
      dirVec p.Direction = some (dx, dy) →
      moveLoop w h i n s cs p = some (cs1, p1) →
      ∀ x y : Int,
        (StampsCell w h p dx dy s n x y → ∀ v, getCell cs y x = some v →
          getCell cs1 y x = some (stampValue i v)) ∧
        (¬ StampsCell w h p dx dy s n x y → getCell cs1 y x = getCell cs y x) := by
  intro n
  induction n with
  | zero =>
    intro s cs cs1 p p1 _ hm x y
    simp only [moveLoop, Option.some.injEq, Prod.mk.injEq] at hm
    rw [← hm.1]
    refine ⟨?_, fun _ => rfl⟩
    rintro ⟨t, ht, _⟩
    omega
  | succ n ih =>
    intro s cs cs1 p p1 hd hm x y
    have hunit := dirVec_unit hd
    rcases moveLoop_succ hd hm with ⟨hout, hc, _⟩ | ⟨hin, hh, hrec⟩ | ⟨hin, hh, v0, c0, hg, hs, hrec⟩
    · -- the step leaves the board
      subst hc
      refine ⟨?_, fun _ => rfl⟩
      intro hst
      exfalso
      have := (StampsCell_cases hst).1
      simp only [InBoard] at this
      simp only at hout
      omega
    · -- a hole step
      have hinb : InBoard w h (p.X + dx) (p.Y + dy) := by
        simp only [InBoard]; simp only at hin; omega
      have hhp : isHole p s = true := hh
      obtain ⟨ihA, ihB⟩ := ih (s + 1) cs cs1 { p with X := p.X + dx, Y := p.Y + dy } p1 hd hrec x y
      constructor
      · intro hst v hv
        rcases (StampsCell_cases hst).2 with ⟨_, _, hno⟩ | hlater
        · rw [hhp] at hno; simp at hno
        · exact ihA hlater v hv
      · intro hnot
        exact ihB (fun hlater => hnot (StampsCell_later hinb hlater))
    · -- a stamping step
      have hinb : InBoard w h (p.X + dx) (p.Y + dy) := by
        simp only [InBoard]; simp only at hin; omega
      have hhp : isHole p s = false := hh
      obtain ⟨ihA, ihB⟩ := ih (s + 1) c0 cs1 { p with X := p.X + dx, Y := p.Y + dy } p1 hd hrec x y
      simp only at hg hs
      constructor
      · intro hst v hv
        rcases (StampsCell_cases hst).2 with ⟨hx, hy, _⟩ | hlater
        · subst hx; subst hy
          rw [hg] at hv
          simp only [Option.some.injEq] at hv
          subst hv
          have hnot : ¬ StampsCell w h { p with X := p.X + dx, Y := p.Y + dy } dx dy (s + 1) n
              (p.X + dx) (p.Y + dy) := fun hst1 => StampsCell_ne_start hunit hst1 ⟨rfl, rfl⟩
          rw [ihB hnot]
          exact getCell_setCell_same hs
        · have hne : ¬ (y = p.Y + dy ∧ x = p.X + dx) := fun hh1 =>
            StampsCell_ne_start hunit hlater ⟨hh1.2, hh1.1⟩
          refine ihA hlater v ?_
          rw [getCell_setCell_other hs y x hne]
          exact hv
      · intro hnot
        have hne : ¬ (y = p.Y + dy ∧ x = p.X + dx) := by
          rintro ⟨rfl, rfl⟩
          exact hnot (StampsCell_first hinb hhp)
        rw [ihB (fun hlater => hnot (StampsCell_later hinb hlater))]
        exact getCell_setCell_other hs y x hne

theorem dostep_of_dirVec {d : String} {dx dy : Int} (hd : dirVec d = some (dx, dy))
    (x y : Int) : dostep d x y = some (x + dx, y + dy) := by
  unfold dirVec at hd
  unfold dostep
  split_ifs at hd ⊢ <;> simp_all <;> omega

theorem moveLoop_shape {w h i : Int} :
    ∀ (n : Nat) (s : Int) (cs cs1 : List (List Int)) (p p1 : Player),
      moveLoop w h i n s cs p = some (cs1, p1) → shape cs1 = shape cs := by
  intro n
  induction n with
  | zero =>
    intro s cs cs1 p p1 hm
    simp only [moveLoop, Option.some.injEq, Prod.mk.injEq] at hm
    rw [← hm.1]
  | succ n ih =>
    intro s cs cs1 p p1 hm
    obtain ⟨dx, dy, hd⟩ := dirVec_of_moveLoop hm
    rcases moveLoop_succ hd hm with ⟨_, hc, _⟩ | ⟨_, _, hrec⟩ | ⟨_, _, v, c0, _, hs, hrec⟩
    · rw [hc]
    · exact ih _ _ _ _ _ hrec
    · rw [ih _ _ _ _ _ hrec, setCell_shape hs]

/-- The player that comes out of the step loop does not depend on the cells, and the
loop fails on a grid iff it fails on every grid of the same shape. -/
theorem moveLoop_transfer {w h i j : Int} :
    ∀ (n : Nat) (s : Int) (cs cs1 ds : List (List Int)) (p p1 : Player),
      moveLoop w h i n s cs p = some (cs1, p1) → shape ds = shape cs →
      ∃ ds1, moveLoop w h j n s ds p = some (ds1, p1) := by
  intro n
  induction n with
  | zero =>
    intro s cs cs1 ds p p1 hm _
    simp only [moveLoop, Option.some.injEq, Prod.mk.injEq] at hm
    exact ⟨ds, by simp [moveLoop, hm.2]⟩
  | succ n ih =>
    intro s cs cs1 ds p p1 hm hshape
    obtain ⟨dx, dy, hd⟩ := dirVec_of_moveLoop hm
    have hstep := dostep_of_dirVec hd p.X p.Y
    rcases moveLoop_succ hd hm with ⟨hout, _, hp⟩ | ⟨hin, hh, hrec⟩ | ⟨hin, hh, v, c0, hg, hs, hrec⟩
    · refine ⟨ds, ?_⟩
      unfold moveLoop
      rw [hstep]
      simp only
      rw [if_pos hout, hp]
    · obtain ⟨ds1, hds1⟩ := ih _ _ _ ds _ _ hrec hshape
      refine ⟨ds1, ?_⟩
      unfold moveLoop
      rw [hstep]
      simp only
      rw [if_neg hin]
      simp only [hh, if_true]
      exact hds1
    · have hdef : ∃ v1, getCell ds (p.Y + dy) (p.X + dx) = some v1 := by
        rw [getCell_isSome_iff, hshape, ← getCell_isSome_iff]
        exact ⟨v, hg⟩
      obtain ⟨v1, hv1⟩ := hdef
      obtain ⟨d0, hd0⟩ := (setCell_isSome_iff ds (p.Y + dy) (p.X + dx)
        (if v1 ≠ 0 then -1 else toInt8 j)).mpr ⟨v1, hv1⟩
      obtain ⟨ds1, hds1⟩ := ih _ _ _ d0 _ _ hrec (by
        rw [setCell_shape hd0, setCell_shape hs, hshape])
      refine ⟨ds1, ?_⟩
      unfold moveLoop
      rw [hstep]
      simp only
      rw [if_neg hin]
      simp only [hh, Bool.false_eq_true, if_false, hv1, hd0]
      exact hds1

/-- On a grid of the right size the step loop does not fail. -/
theorem moveLoop_total {w h i : Int} {dx dy : Int} :
    ∀ (n : Nat) (s : Int) (cs : List (List Int)) (p : Player),
      dirVec p.Direction = some (dx, dy) → CellsSized w h cs →
      ∃ cs1 p1, moveLoop w h i n s cs p = some (cs1, p1) := by
  intro n
  induction n with
  | zero => intro s cs p _ _; exact ⟨cs, p, rfl⟩
  | succ n ih =>
    intro s cs p hd hsz
    have hstep := dostep_of_dirVec hd p.X p.Y
    unfold moveLoop
    rw [hstep]
    simp only
    by_cases hout : p.X + dx < 0 ∨ p.X + dx ≥ w ∨ p.Y + dy < 0 ∨ p.Y + dy ≥ h
    · rw [if_pos hout]
      exact ⟨_, _, rfl⟩
    · rw [if_neg hout]
      cases hh : isHole { p with X := p.X + dx, Y := p.Y + dy } s
      · simp only [Bool.false_eq_true, if_false]
        have hinb : InBoard w h (p.X + dx) (p.Y + dy) := by
          simp only [InBoard]; omega
        obtain ⟨v, hv⟩ := getCell_some_of_sized hsz hinb
        obtain ⟨c0, hc0⟩ := (setCell_isSome_iff cs (p.Y + dy) (p.X + dx)
          (if v ≠ 0 then -1 else toInt8 i)).mpr ⟨v, hv⟩
        rw [hv]
        simp only
        rw [hc0]
        exact ih (s + 1) c0 { p with X := p.X + dx, Y := p.Y + dy } hd (setCell_sized hsz hc0)
      · simp only [if_true]
        exact ih (s + 1) cs { p with X := p.X + dx, Y := p.Y + dy } hd hsz

/-- A move that stays on the board: the player ends `n` cells ahead, with no other
field changed. -/
theorem moveLoop_all_in {w h i : Int} {dx dy : Int} :
    ∀ (n : Nat) (s : Int) (cs cs1 : List (List Int)) (p p1 : Player),
      dirVec p.Direction = some (dx, dy) →
      moveLoop w h i n s cs p = some (cs1, p1) →
      (∀ t : Nat, t < n →
        InBoard w h (p.X + ((t : Int) + 1) * dx) (p.Y + ((t : Int) + 1) * dy)) →
      p1 = { p with X := p.X + (n : Int) * dx, Y := p.Y + (n : Int) * dy } := by
  intro n
  induction n with
  | zero =>
    intro s cs cs1 p p1 _ hm _
    simp only [moveLoop, Option.some.injEq, Prod.mk.injEq] at hm
    rw [← hm.2]
    simp
  | succ n ih =>
    intro s cs cs1 p p1 hd hm hall
    have h0 := hall 0 (by omega)
    simp only [Nat.cast_zero, zero_add, one_mul, InBoard] at h0
    have hrest : ∀ t : Nat, t < n →
        InBoard w h (p.X + dx + ((t : Int) + 1) * dx) (p.Y + dy + ((t : Int) + 1) * dy) := by
      intro t ht
      have := hall (t + 1) (by omega)
      have e1 : p.X + (((t + 1 : Nat) : Int) + 1) * dx = p.X + dx + ((t : Int) + 1) * dx := by
        push_cast; ring
      have e2 : p.Y + (((t + 1 : Nat) : Int) + 1) * dy = p.Y + dy + ((t : Int) + 1) * dy := by
        push_cast; ring
      rw [e1, e2] at this; exact this
    rcases moveLoop_succ hd hm with ⟨hout, _, _⟩ | ⟨_, _, hrec⟩ | ⟨_, _, v, c0, _, _, hrec⟩
    · exfalso; simp only at hout; omega
    · rw [ih (s + 1) cs cs1 { p with X := p.X + dx, Y := p.Y + dy } p1 hd hrec hrest]
      simp only [Player.mk.injEq, and_true, true_and]
      constructor <;> (push_cast; ring)
    · rw [ih (s + 1) c0 cs1 { p with X := p.X + dx, Y := p.Y + dy } p1 hd hrec hrest]
      simp only [Player.mk.injEq, and_true, true_and]
      constructor <;> (push_cast; ring)

/-- A move whose step `t` is the first to leave the board: the player stops there and
is inactive. -/
theorem moveLoop_leaves {w h i : Int} {dx dy : Int} :
    ∀ (n : Nat) (s : Int) (cs cs1 : List (List Int)) (p p1 : Player) (t : Nat),
      dirVec p.Direction = some (dx, dy) →
      moveLoop w h i n s cs p = some (cs1, p1) → t < n →
      (∀ u : Nat, u < t →
        InBoard w h (p.X + ((u : Int) + 1) * dx) (p.Y + ((u : Int) + 1) * dy)) →
      ¬ InBoard w h (p.X + ((t : Int) + 1) * dx) (p.Y + ((t : Int) + 1) * dy) →
      p1 = { p with X := p.X + ((t : Int) + 1) * dx, Y := p.Y + ((t : Int) + 1) * dy,
                    Active := false } := by
  intro n
  induction n with
  | zero => intro s cs cs1 p p1 t _ _ ht; omega
  | succ n ih =>
    intro s cs cs1 p p1 t hd hm ht hbefore hout
    cases t with
    | zero =>
      simp only [Nat.cast_zero, zero_add, one_mul, InBoard] at hout
      rcases moveLoop_succ hd hm with ⟨_, _, hp⟩ | ⟨hin, _, _⟩ | ⟨hin, _, _⟩
      · rw [hp]
        simp [invalidatePlayer]
      · exfalso; simp only at hin; omega
      · exfalso; simp only at hin; omega
    | succ t =>
      have h0 := hbefore 0 (by omega)
      simp only [Nat.cast_zero, zero_add, one_mul, InBoard] at h0
      have hrest : ∀ u : Nat, u < t →
          InBoard w h (p.X + dx + ((u : Int) + 1) * dx) (p.Y + dy + ((u : Int) + 1) * dy) := by
        intro u hu
        have := hbefore (u + 1) (by omega)
        have e1 : p.X + (((u + 1 : Nat) : Int) + 1) * dx = p.X + dx + ((u : Int) + 1) * dx := by
          push_cast; ring
        have e2 : p.Y + (((u + 1 : Nat) : Int) + 1) * dy = p.Y + dy + ((u : Int) + 1) * dy := by
          push_cast; ring
        rw [e1, e2] at this; exact this
      have hout1 : ¬ InBoard w h (p.X + dx + ((t : Int) + 1) * dx)
          (p.Y + dy + ((t : Int) + 1) * dy) := by
        have e1 : p.X + (((t + 1 : Nat) : Int) + 1) * dx = p.X + dx + ((t : Int) + 1) * dx := by
          push_cast; ring
        have e2 : p.Y + (((t + 1 : Nat) : Int) + 1) * dy = p.Y + dy + ((t : Int) + 1) * dy := by
          push_cast; ring
        rw [e1, e2] at hout; exact hout
      rcases moveLoop_succ hd hm with ⟨hout0, _, _⟩ | ⟨_, _, hrec⟩ | ⟨_, _, v, c0, _, _, hrec⟩
      · exfalso; simp only at hout0; omega
      · rw [ih (s + 1) cs cs1 { p with X := p.X + dx, Y := p.Y + dy } p1 t hd hrec (by omega)
          hrest hout1]
        simp only [Player.mk.injEq, and_true, true_and]
        constructor <;> (push_cast; ring)
      · rw [ih (s + 1) c0 cs1 { p with X := p.X + dx, Y := p.Y + dy } p1 t hd hrec (by omega)
          hrest hout1]
        simp only [Player.mk.injEq, and_true, true_and]
        constructor <;> (push_cast; ring)

theorem tmod_six (a : Int) : Int.tmod a 6 = 0 ↔ a % 6 = 0 := by
  rw [← Int.dvd_iff_tmod_eq_zero, Int.dvd_iff_emod_eq_zero]

theorem isHole_iff (p : Player) (t : Int) (h0 : 0 ≤ t) (h1 : t < p.Speed) :
    isHole p t = true ↔ HoleIndex p.Speed p.stepCounter t := by
  unfold isHole HoleIndex HoleSpeed HolesEachStep
  simp only [Bool.and_eq_true, decide_eq_true_eq, tmod_six]
  constructor
  · rintro ⟨⟨⟨h1, h2⟩, h3⟩, h4⟩
    exact ⟨h1, h2, by omega, by omega⟩
  · rintro ⟨h1, h2, h3, h4⟩
    exact ⟨⟨⟨h1, h2⟩, by omega⟩, by omega⟩

theorem isHole_congr (p q : Player) (t : Int) (h1 : q.Speed = p.Speed)
    (h2 : q.stepCounter = p.stepCounter) : isHole q t = isHole p t := by
  unfold isHole
  rw [h1, h2]

/-- The cells of a move are distinct. -/
theorem path_injective {dx dy : Int}
    (hu : (dx = 0 ∧ (dy = 1 ∨ dy = -1)) ∨ (dy = 0 ∧ (dx = 1 ∨ dx = -1)))
    {x y : Int} {t u : Nat}
    (h1 : x + ((t : Int) + 1) * dx = x + ((u : Int) + 1) * dx)
    (h2 : y + ((t : Int) + 1) * dy = y + ((u : Int) + 1) * dy) : t = u := by
  rcases hu with ⟨rfl, rfl | rfl⟩ | ⟨rfl, rfl | rfl⟩ <;> simp at h1 h2 <;> omega

/-- The movement of one active player whose whole move stays on a board of the right
size: the call does not fail, the player ends `Speed` cells ahead and is still active,
every step that is no hole step stamps its cell, and the cells of the hole steps and
the cells off the path are not written. -/
theorem movePlayer_on_board {w h i : Int} {cs : List (List Int)} {p : Player} {dx dy : Int}
    (hsz : CellsSized w h cs) (hact : p.Active = true)
    (hd : dirVec p.Direction = some (dx, dy))
    (hin : ∀ t : Nat, (t : Int) < p.Speed →
      InBoard w h (p.X + ((t : Int) + 1) * dx) (p.Y + ((t : Int) + 1) * dy)) :
    ∃ cs1 p1, movePlayer w h i cs p = some (cs1, p1) ∧ CellsSized w h cs1 ∧
      p1 = { p with X := p.X + (p.Speed.toNat : Int) * dx,
                    Y := p.Y + (p.Speed.toNat : Int) * dy,
                    stepCounter := p.stepCounter + 1 } ∧
      (∀ (t : Nat) (v : Int), (t : Int) < p.Speed →
        ¬ HoleIndex p.Speed (p.stepCounter + 1) t →
        getCell cs (p.Y + ((t : Int) + 1) * dy) (p.X + ((t : Int) + 1) * dx) = some v →
        getCell cs1 (p.Y + ((t : Int) + 1) * dy) (p.X + ((t : Int) + 1) * dx)
          = some (stampValue i v)) ∧
      (∀ t : Nat, (t : Int) < p.Speed → HoleIndex p.Speed (p.stepCounter + 1) t →
        getCell cs1 (p.Y + ((t : Int) + 1) * dy) (p.X + ((t : Int) + 1) * dx)
          = getCell cs (p.Y + ((t : Int) + 1) * dy) (p.X + ((t : Int) + 1) * dx)) ∧
      (∀ x y : Int, (¬ ∃ t : Nat, (t : Int) < p.Speed ∧ x = p.X + ((t : Int) + 1) * dx ∧
          y = p.Y + ((t : Int) + 1) * dy) → getCell cs1 y x = getCell cs y x) := by
  have hne : ¬ (p.Active = false) := by rw [hact]; simp
  have hd1 : dirVec ({ p with stepCounter := p.stepCounter + 1 } : Player).Direction
      = some (dx, dy) := hd
  obtain ⟨cs1, p1, hm⟩ := moveLoop_total (w := w) (h := h) (i := i) p.Speed.toNat 0 cs
    { p with stepCounter := p.stepCounter + 1 } hd1 hsz
  have hin1 : ∀ t : Nat, t < p.Speed.toNat →
      InBoard w h (({ p with stepCounter := p.stepCounter + 1 } : Player).X + ((t : Int) + 1) * dx)
        (({ p with stepCounter := p.stepCounter + 1 } : Player).Y + ((t : Int) + 1) * dy) := by
    intro t ht
    exact hin t (by omega)
  have hp1 := moveLoop_all_in _ _ _ _ _ _ hd1 hm hin1
  have hpt := moveLoop_pointwise _ _ _ _ _ _ hd1 hm
  have hu := dirVec_unit hd
  have hshape := moveLoop_shape _ _ _ _ _ _ hm
  refine ⟨cs1, p1, ?_, ?_, ?_, ?_, ?_, ?_⟩
  · unfold movePlayer
    rw [if_neg hne]
    exact hm
  · exact ⟨hsz.1, hsz.2.1, by rw [hshape]; exact hsz.2.2⟩
  · rw [hp1]
  · intro t v ht hnh hg
    refine (hpt _ _).1 ⟨t, by omega, rfl, rfl, ?_, ?_⟩ v hg
    · intro u hu1
      exact hin u (by omega)
    · cases hh : isHole { p with stepCounter := p.stepCounter + 1 } (0 + (t : Int))
      · rfl
      · exfalso
        rw [zero_add] at hh
        exact hnh ((isHole_iff { p with stepCounter := p.stepCounter + 1 } _ (by omega) ht).mp hh)
  · intro t ht hh
    refine (hpt _ _).2 ?_
    rintro ⟨u, _, hx, hy, _, hnh⟩
    have := path_injective hu hx hy
    subst this
    rw [zero_add] at hnh
    have : isHole { p with stepCounter := p.stepCounter + 1 } (t : Int) = true :=
      (isHole_iff { p with stepCounter := p.stepCounter + 1 } _ (by omega) ht).mpr hh
    rw [this] at hnh
    exact Bool.noConfusion hnh
  · intro x y hno
    refine (hpt _ _).2 ?_
    rintro ⟨u, hu1, hx, hy, _, _⟩
    exact hno ⟨u, by omega, hx, hy⟩

/-- The walk back of the crash check: the value is the player itself when no cell of
the walk holds `-1` outside a hole step, and the inactive player otherwise. -/
theorem crashLoop_spec {cells : List (List Int)} {p : Player} {dx dy : Int}
    (hd : dirVec p.Direction = some (dx, dy)) :
    ∀ (n : Nat) (u bx bY : Int) (r : Player),
      crashLoop cells p n u bx bY = some r →
      ((∀ t : Nat, t < n →
          getCell cells (bY - (t : Int) * dy) (bx - (t : Int) * dx) = some (-1) →
          isHole p (u + t) = true) ∧ r = p) ∨
      ((∃ t : Nat, t < n ∧
          getCell cells (bY - (t : Int) * dy) (bx - (t : Int) * dx) = some (-1) ∧
          isHole p (u + t) = false) ∧ r = invalidatePlayer p) := by
  intro n
  induction n with
  | zero =>
    intro u bx bY r hc
    left
    simp only [crashLoop, Option.some.injEq] at hc
    exact ⟨fun t ht => by omega, hc.symm⟩
  | succ n ih =>
    intro u bx bY r hc
    unfold crashLoop at hc
    cases hg : getCell cells bY bx with
    | none => rw [hg] at hc; simp at hc
    | some v =>
      rw [hg] at hc
      simp only at hc
      by_cases hit : v = -1 ∧ isHole p u = false
      · rw [if_pos hit] at hc
        simp only [Option.some.injEq] at hc
        right
        refine ⟨⟨0, by omega, ?_, ?_⟩, hc.symm⟩
        · simp only [Nat.cast_zero, zero_mul, sub_zero]
          rw [hg, hit.1]
        · simpa using hit.2
      · rw [if_neg hit, dostepback_of_dirVec hd] at hc
        simp only at hc
        have e1 : ∀ t : Nat, bY - dy - (t : Int) * dy = bY - ((t + 1 : Nat) : Int) * dy := by
          intro t; push_cast; ring
        have e2 : ∀ t : Nat, bx - dx - (t : Int) * dx = bx - ((t + 1 : Nat) : Int) * dx := by
          intro t; push_cast; ring
        have e3 : ∀ t : Nat, u + 1 + (t : Int) = u + ((t + 1 : Nat) : Int) := by
          intro t; push_cast; ring
        rcases ih (u + 1) (bx - dx) (bY - dy) r hc with ⟨hall, hr⟩ | ⟨⟨t, ht, hcell, hh⟩, hr⟩
        · left
          refine ⟨?_, hr⟩
          intro t ht hcell
          cases t with
          | zero =>
            simp only [Nat.cast_zero, zero_mul, sub_zero, add_zero] at hcell ⊢
            rw [hg] at hcell
            simp only [Option.some.injEq] at hcell
            cases hh : isHole p u
            · exact absurd ⟨hcell, hh⟩ hit
            · rfl
          | succ t =>
            have := hall t (by omega)
            rw [e1, e2, e3] at this
            exact this hcell
        · right
          refine ⟨⟨t + 1, by omega, ?_, ?_⟩, hr⟩
          · rw [← e1, ← e2]; exact hcell
          · rw [← e3]; exact hh

/-- The walk back does not fail when the cells it reads exist. -/
theorem crashLoop_total {cells : List (List Int)} {p : Player} {dx dy : Int}
    (hd : dirVec p.Direction = some (dx, dy)) :
    ∀ (n : Nat) (u bx bY : Int),
      (∀ t : Nat, t < n →
        ∃ v, getCell cells (bY - (t : Int) * dy) (bx - (t : Int) * dx) = some v) →
      ∃ r, crashLoop cells p n u bx bY = some r := by
  intro n
  induction n with
  | zero => intro u bx bY _; exact ⟨p, rfl⟩
  | succ n ih =>
    intro u bx bY hall
    obtain ⟨v, hv⟩ := hall 0 (by omega)
    simp only [Nat.cast_zero, zero_mul, sub_zero] at hv
    unfold crashLoop
    rw [hv]
    simp only
    by_cases hit : v = -1 ∧ isHole p u = false
    · rw [if_pos hit]; exact ⟨_, rfl⟩
    · rw [if_neg hit, dostepback_of_dirVec hd]
      simp only
      apply ih
      intro t ht
      obtain ⟨v1, hv1⟩ := hall (t + 1) (by omega)
      refine ⟨v1, ?_⟩
      have e1 : bY - dy - (t : Int) * dy = bY - ((t + 1 : Nat) : Int) * dy := by
        push_cast; ring
      have e2 : bx - dx - (t : Int) * dx = bx - ((t + 1 : Nat) : Int) * dx := by
        push_cast; ring
      rw [e1, e2]; exact hv1

theorem crashPlayer_inactive (cells : List (List Int)) (p : Player) (h : p.Active = false) :
    crashPlayer cells p = some p := by
  unfold crashPlayer
  rw [if_pos h]

theorem stampValue_small {i : Int} (h1 : -128 ≤ i) (h2 : i ≤ 127) (v : Int) :
    stampValue i v = if v = 0 then i else -1 := by
  unfold stampValue toInt8
  by_cases hv : v = 0
  · simp only [hv, ne_eq, not_true_eq_false, if_false, if_true]; omega
  · simp only [hv, ne_eq, not_false_eq_true, if_true, if_false]

/-- A move one of whose steps leaves the board ends with an inactive player. -/
theorem moveLoop_leaves_inactive {w h i : Int} {dx dy : Int} :
    ∀ (n : Nat) (s : Int) (cs cs1 : List (List Int)) (p p1 : Player) (t : Nat),
      dirVec p.Direction = some (dx, dy) →
      moveLoop w h i n s cs p = some (cs1, p1) → t < n →
      ¬ InBoard w h (p.X + ((t : Int) + 1) * dx) (p.Y + ((t : Int) + 1) * dy) →
      p1.Active = false := by
  intro n
  induction n with
  | zero => intro s cs cs1 p p1 t _ _ ht; omega
  | succ n ih =>
    intro s cs cs1 p p1 t hd hm ht hout
    rcases moveLoop_succ hd hm with ⟨_, _, hp⟩ | ⟨hin, _, hrec⟩ | ⟨hin, _, v, c0, _, _, hrec⟩
    · rw [hp]; rfl
    all_goals
      cases t with
      | zero =>
        exfalso
        simp only [Nat.cast_zero, zero_add, one_mul, InBoard] at hout
        simp only at hin
        omega
      | succ t =>
        have e1 : p.X + (((t + 1 : Nat) : Int) + 1) * dx = p.X + dx + ((t : Int) + 1) * dx := by
          push_cast; ring
        have e2 : p.Y + (((t + 1 : Nat) : Int) + 1) * dy = p.Y + dy + ((t : Int) + 1) * dy := by
          push_cast; ring
        rw [e1, e2] at hout
        exact ih (s + 1) _ cs1 { p with X := p.X + dx, Y := p.Y + dy } p1 t hd hrec
          (by omega) hout

/-- The movement of an active player one of whose steps leaves a board of the right
size: the call does not fail, the player is inactive, and no cell other than the cells
of the steps before that step is written. -/
theorem movePlayer_leaves {w h i : Int} {cs : List (List Int)} {p : Player} {dx dy : Int}
    {t : Nat} (hsz : CellsSized w h cs) (hact : p.Active = true)
    (hd : dirVec p.Direction = some (dx, dy)) (ht : (t : Int) < p.Speed)
    (hout : ¬ InBoard w h (p.X + ((t : Int) + 1) * dx) (p.Y + ((t : Int) + 1) * dy)) :
    ∃ cs1 p1, movePlayer w h i cs p = some (cs1, p1) ∧ CellsSized w h cs1 ∧
      p1.Active = false ∧
      (∀ x y : Int, (¬ ∃ u : Nat, u < t ∧ x = p.X + ((u : Int) + 1) * dx ∧
          y = p.Y + ((u : Int) + 1) * dy) → getCell cs1 y x = getCell cs y x) := by
  have hne : ¬ (p.Active = false) := by rw [hact]; simp
  have hd1 : dirVec ({ p with stepCounter := p.stepCounter + 1 } : Player).Direction
      = some (dx, dy) := hd
  obtain ⟨cs1, p1, hm⟩ := moveLoop_total (w := w) (h := h) (i := i) p.Speed.toNat 0 cs
    { p with stepCounter := p.stepCounter + 1 } hd1 hsz
  have hpt := moveLoop_pointwise _ _ _ _ _ _ hd1 hm
  have hshape := moveLoop_shape _ _ _ _ _ _ hm
  refine ⟨cs1, p1, ?_, ?_, ?_, ?_⟩
  · unfold movePlayer
    rw [if_neg hne]
    exact hm
  · exact ⟨hsz.1, hsz.2.1, by rw [hshape]; exact hsz.2.2⟩
  · exact moveLoop_leaves_inactive _ _ _ _ _ _ t hd1 hm (by omega) hout
  · intro x y hno
    refine (hpt _ _).2 ?_
    rintro ⟨u, _, hx, hy, hall, _⟩
    by_cases hut : u < t
    · exact hno ⟨u, hut, hx, hy⟩
    · exact hout (hall t (by omega))

/-- Every player record before the movement has its record after the movement, made
by `movePlayer` on cells of the same shape as the cells of the board. -/
theorem doMovement_forward {w h : Int} :
    ∀ (ps : List (Int × Player)) (c c2 : List (List Int)) (ps2 : List (Int × Player))
      (i : Int) (p : Player),
      doMovement w h c ps = some (c2, ps2) → (i, p) ∈ ps →
      ∃ p1 c0 c1, (i, p1) ∈ ps2 ∧ shape c0 = shape c ∧
        movePlayer w h i c0 p = some (c1, p1) := by
  intro ps
  induction ps with
  | nil => intro c c2 ps2 i p _ hmem; simp at hmem
  | cons kp rest ih =>
    obtain ⟨k, r⟩ := kp
    intro c c2 ps2 i p hm hmem
    obtain ⟨c1, r1, rest1, hmp, hr, rfl⟩ := doMovement_cons hm
    rcases List.mem_cons.mp hmem with heq | hin
    · simp only [Prod.mk.injEq] at heq
      obtain ⟨rfl, rfl⟩ := heq
      exact ⟨r1, c, c1, List.mem_cons_self _ _, rfl, hmp⟩
    · obtain ⟨p1, c0, c1', hp1, hsh, hmp'⟩ := ih c1 c2 rest1 i p hr hin
      refine ⟨p1, c0, c1', List.mem_cons_of_mem _ hp1, ?_, hmp'⟩
      rw [hsh]
      unfold movePlayer at hmp
      split_ifs at hmp
      · simp only [Option.some.injEq, Prod.mk.injEq] at hmp
        rw [hmp.1]
      · exact moveLoop_shape _ _ _ _ _ _ hmp

theorem checkCrash_forward {cells : List (List Int)} :
    ∀ (ps ps2 : List (Int × Player)) (i : Int) (p1 : Player),
      checkCrash cells ps = some ps2 → (i, p1) ∈ ps →
      ∃ p2, (i, p2) ∈ ps2 ∧ crashPlayer cells p1 = some p2 := by
  intro ps
  induction ps with
  | nil => intro ps2 i p1 _ hmem; simp at hmem
  | cons kp rest ih =>
    obtain ⟨k, r⟩ := kp
    intro ps2 i p1 hc hmem
    unfold checkCrash at hc
    cases hcp : crashPlayer cells r with
    | none => rw [hcp] at hc; simp at hc
    | some r1 =>
      rw [hcp] at hc
      simp only at hc
      cases hr : checkCrash cells rest with
      | none => rw [hr] at hc; simp at hc
      | some rest1 =>
        rw [hr] at hc
        simp only [Option.some.injEq] at hc
        subst hc
        rcases List.mem_cons.mp hmem with heq | hin
        · simp only [Prod.mk.injEq] at heq
          obtain ⟨rfl, rfl⟩ := heq
          exact ⟨r1, List.mem_cons_self _ _, hcp⟩
        · obtain ⟨p2, hp2, hcp2⟩ := ih rest1 i p1 hr hin
          exact ⟨p2, List.mem_cons_of_mem _ hp2, hcp2⟩

/-- The record of a player at the end of a round that completes: the record after
"Process Actions" is moved by `movePlayer` and then checked by `crashPlayer` against
the cells at the end of the round. -/
theorem round_trace {ai : Policy} {next : String} {st st1 : LoopState} {g1 : Game}
    (hb : roundBody ai next st = some st1) (ha : afterActions ai next st = some g1)
    (hnd : (st.g.Players.map Prod.fst).Nodup) {i : Int} {p : Player}
    (hp : (i, p) ∈ g1.Players) :
    ∃ c0 c1 p1 p2, shape c0 = shape st.g.Cells ∧
      movePlayer st.g.Width st.g.Height i c0 p = some (c1, p1) ∧
      crashPlayer st1.g.Cells p1 = some p2 ∧ getPlayer st1.g.Players i = some p2 := by
  obtain ⟨you, g1', g2, _, ha', hmc, rfl⟩ := roundBody_some hb
  rw [ha] at ha'
  simp only [Option.some.injEq] at ha'
  subst ha'
  obtain ⟨answers, ps, _, hpa, rfl⟩ := afterActions_some ha
  obtain ⟨cells, ps2, ps3, hd, hcr, rfl⟩ := moveAndCrash_some hmc
  simp only at hp hd ⊢
  obtain ⟨p1, c0, c1, hp1, hsh, hmp⟩ := doMovement_forward _ _ _ _ i p hd hp
  obtain ⟨p2, hp2, hcp⟩ := checkCrash_forward _ _ i p1 hcr hp1
  refine ⟨c0, c1, p1, p2, hsh, hmp, hcp, ?_⟩
  apply getPlayer_of_mem _ hp2
  rw [checkCrash_keys hcr, doMovement_keys hd, processActions_keys hpa]
  exact hnd

/-! ## C11: stamped cells and hole cells of a move -/

/-- C11: the movement of an active player whose whole move stays on the board (the
board has `height` rows of `width` cells and the id fits an `int8` cell) does not fail
and leaves the player active. A step `t` of `0..Speed-1` that is a hole step (speed at
least 3, step counter after the increment divisible by 6, `1 ≤ t ≤ Speed-2`) leaves its
cell untouched; every other step, in particular the first and the last one, stamps its
cell with the id if it was empty and with `-1` if it was not; no cell off the path is
written. On the hole-jump board the cells after round 1 are `[0,1,2,2,2,2,2,1,0]` and A
is active at (7,0). -/
theorem movement_stamps_and_holes :
    (∀ (w h i : Int) (cs : List (List Int)) (p : Player) (dx dy : Int),
      CellsSized w h cs → -128 ≤ i → i ≤ 127 → p.Active = true →
      dirVec p.Direction = some (dx, dy) →
      (∀ t : Nat, (t : Int) < p.Speed →
        InBoard w h (p.X + ((t : Int) + 1) * dx) (p.Y + ((t : Int) + 1) * dy)) →
      ∃ cs1 p1, movePlayer w h i cs p = some (cs1, p1) ∧ p1.Active = true ∧
        (∀ (t : Nat) (v : Int), (t : Int) < p.Speed →
          getCell cs (p.Y + ((t : Int) + 1) * dy) (p.X + ((t : Int) + 1) * dx) = some v →
          (HoleIndex p.Speed (p.stepCounter + 1) t →
            getCell cs1 (p.Y + ((t : Int) + 1) * dy) (p.X + ((t : Int) + 1) * dx) = some v) ∧
          (¬ HoleIndex p.Speed (p.stepCounter + 1) t →
            getCell cs1 (p.Y + ((t : Int) + 1) * dy) (p.X + ((t : Int) + 1) * dx)
              = some (if v = 0 then i else -1))) ∧
        (∀ x y : Int, (¬ ∃ t : Nat, (t : Int) < p.Speed ∧ x = p.X + ((t : Int) + 1) * dx ∧
          y = p.Y + ((t : Int) + 1) * dy) → getCell cs1 y x = getCell cs y x)) ∧
    (∃ st1, stateAfter aiNoop ActionNOOP holeBoard 1 = some st1 ∧
      st1.g.Cells = [[0, 1, 2, 2, 2, 2, 2, 1, 0]] ∧
      getPlayer st1.g.Players 1 = some (mkPlayer 7 0 DirectionRight 7 6)) := by
  refine ⟨?_, ⟨_, rfl, rfl, rfl⟩⟩
  intro w h i cs p dx dy hsz hlo hhi hact hd hin
  obtain ⟨cs1, p1, hm, _, hp1, hstamp, hhole, hoff⟩ :=
    movePlayer_on_board (i := i) hsz hact hd hin
  refine ⟨cs1, p1, hm, by rw [hp1]; exact hact, ?_, hoff⟩
  intro t v ht hg
  refine ⟨fun hh => ?_, fun hnh => ?_⟩
  · rw [hhole t ht hh]; exact hg
  · rw [hstamp t v ht hnh hg, stampValue_small hlo hhi]

/-- C11 on the cells of the hole-jump board: step 0 stamps the empty cell (1,0) with the
id 1, the hole step 2 leaves the `2` of cell (3,0). -/
theorem movement_stamps_and_holes_witness :
    ∃ cs1 p1, movePlayer 9 1 1 [[0, 0, 2, 2, 2, 2, 2, 0, 0]]
        (mkPlayer 0 0 DirectionRight 7 5) = some (cs1, p1) ∧ p1.Active = true ∧
      getCell cs1 0 1 = some 1 ∧ getCell cs1 0 3 = some 2 := by
  obtain ⟨cs1, p1, hm, hact, hcells, _⟩ :=
    movement_stamps_and_holes.1 9 1 1 [[0, 0, 2, 2, 2, 2, 2, 0, 0]]
      (mkPlayer 0 0 DirectionRight 7 5) 1 0 ⟨by decide, by decide, by decide⟩
      (by decide) (by decide) rfl rfl
      (by
        intro t ht
        simp only [mkPlayer, InBoard] at ht ⊢
        omega)
  refine ⟨cs1, p1, hm, hact, ?_, ?_⟩
  · exact (hcells 0 0 (by decide) rfl).2 (by simp [HoleIndex, mkPlayer])
  · exact (hcells 2 2 (by decide) rfl).1 (by simp [HoleIndex, mkPlayer])

/-! ## C13: a move that leaves the grid -/

/-- C13: if step `t` of the move of an active player leaves the grid (any speed, any
step counter), the movement does not fail on a board of `height` rows of `width` cells,
the player is inactive after it and stays so in the crash check, and no cell is
written except the cells of the steps before `t`; with `t = 0` the cells are unchanged.
In a round that completes, such a player is inactive at the end of the round. On the
board `selfLeavesBoard` player 1 leaves the grid with its first step: after round 1 it
is inactive and row 0 is unchanged. -/
theorem leaving_the_grid_eliminates :
    (∀ (w h i : Int) (cs : List (List Int)) (p : Player) (dx dy : Int) (t : Nat),
      CellsSized w h cs → p.Active = true → dirVec p.Direction = some (dx, dy) →
      (t : Int) < p.Speed →
      ¬ InBoard w h (p.X + ((t : Int) + 1) * dx) (p.Y + ((t : Int) + 1) * dy) →
      ∃ cs1 p1, movePlayer w h i cs p = some (cs1, p1) ∧ p1.Active = false ∧
        (∀ cells2, crashPlayer cells2 p1 = some p1) ∧
        (∀ x y : Int, (¬ ∃ u : Nat, u < t ∧ x = p.X + ((u : Int) + 1) * dx ∧
          y = p.Y + ((u : Int) + 1) * dy) → getCell cs1 y x = getCell cs y x) ∧
        (t = 0 → cs1 = cs)) ∧
    (∀ (ai : Policy) (next : String) (st st1 : LoopState) (g1 : Game) (i : Int) (p : Player)
      (dx dy : Int) (t : Nat),
      roundBody ai next st = some st1 → afterActions ai next st = some g1 →
      (st.g.Players.map Prod.fst).Nodup → (i, p) ∈ g1.Players → p.Active = true →
      dirVec p.Direction = some (dx, dy) → (t : Int) < p.Speed →
      ¬ InBoard st.g.Width st.g.Height (p.X + ((t : Int) + 1) * dx)
        (p.Y + ((t : Int) + 1) * dy) →
      ∃ p2, getPlayer st1.g.Players i = some p2 ∧ p2.Active = false) ∧
    (∃ st1, stateAfter aiNoop ActionNOOP selfLeavesBoard 1 = some st1 ∧
      getPlayer st1.g.Players 1
        = some { mkPlayer (-1) 0 DirectionLeft 1 1 with Active := false } ∧
      st1.g.Cells = [[1, 0, 0, 0, 0], [2, 2, 0, 0, 0]]) := by
  refine ⟨?_, ?_, ⟨_, rfl, rfl, rfl⟩⟩
  · intro w h i cs p dx dy t hsz hact hd ht hout
    obtain ⟨cs1, p1, hm, hsz1, hina, hkeep⟩ := movePlayer_leaves (i := i) hsz hact hd ht hout
    refine ⟨cs1, p1, hm, hina, fun cells2 => crashPlayer_inactive cells2 p1 hina, hkeep, ?_⟩
    intro ht0
    subst ht0
    symm
    apply cells_ext
    · rw [hsz.2.2, hsz1.2.2]
    · intro y x
      symm
      apply hkeep
      rintro ⟨u, hu, _⟩
      omega
  · intro ai next st st1 g1 i p dx dy t hb ha hnd hp hact hd ht hout
    obtain ⟨c0, c1, p1, p2, _, hmp, hcp, hget⟩ := round_trace hb ha hnd hp
    have hina : p1.Active = false := by
      unfold movePlayer at hmp
      have hne : ¬ (p.Active = false) := by rw [hact]; simp
      rw [if_neg hne] at hmp
      have hd1 : dirVec ({ p with stepCounter := p.stepCounter + 1 } : Player).Direction
          = some (dx, dy) := hd
      exact moveLoop_leaves_inactive _ _ _ _ _ _ t hd1 hmp (by simp only; omega) hout
    rw [crashPlayer_inactive _ _ hina] at hcp
    simp only [Option.some.injEq] at hcp
    subst hcp
    exact ⟨p1, hget, hina⟩

/-- C13 for player 1 of `selfLeavesBoard`, whose first step goes to (-1,0). -/
theorem leaving_the_grid_eliminates_witness :
    ∃ cs1 p1, movePlayer 5 2 1 [[1, 0, 0, 0, 0], [2, 0, 0, 0, 0]]
        (mkPlayer 0 0 DirectionLeft 1 0) = some (cs1, p1) ∧ p1.Active = false ∧
      (∀ cells2, crashPlayer cells2 p1 = some p1) ∧
      (∀ x y : Int, (¬ ∃ u : Nat, u < 0 ∧
          x = (mkPlayer 0 0 DirectionLeft 1 0).X + ((u : Int) + 1) * (-1) ∧
          y = (mkPlayer 0 0 DirectionLeft 1 0).Y + ((u : Int) + 1) * 0) →
        getCell cs1 y x = getCell [[1, 0, 0, 0, 0], [2, 0, 0, 0, 0]] y x) ∧
      (0 = 0 → cs1 = [[1, 0, 0, 0, 0], [2, 0, 0, 0, 0]]) :=
  leaving_the_grid_eliminates.1 5 2 1 [[1, 0, 0, 0, 0], [2, 0, 0, 0, 0]]
    (mkPlayer 0 0 DirectionLeft 1 0) (-1) 0 0 ⟨by decide, by decide, by decide⟩ rfl rfl
    (by decide) (by simp [InBoard, mkPlayer])

/-! ## C12: the holes of the movement are the holes of the crash check -/

/-- C12: the hole test is invariant under the index change `s -> Speed-1-s`. For an
active player whose whole move stays on the board, the crash check reads at index
`Speed-1-t` the cell of step `t` of the move and exempts it iff the movement skipped it;
the player is active after the crash check iff every cell of its move that holds `-1`
lies at a hole step, and then the crash check leaves its record as it is. -/
theorem own_hole_never_eliminates :
    (∀ (p : Player) (s : Int), isHole p (p.Speed - 1 - s) = isHole p s) ∧
    (∀ (w h i : Int) (cs : List (List Int)) (p : Player) (dx dy : Int),
      CellsSized w h cs → p.Active = true → dirVec p.Direction = some (dx, dy) →
      (∀ t : Nat, (t : Int) < p.Speed →
        InBoard w h (p.X + ((t : Int) + 1) * dx) (p.Y + ((t : Int) + 1) * dy)) →
      ∃ cs1 p1, movePlayer w h i cs p = some (cs1, p1) ∧
        (∀ t : Nat, (t : Int) < p.Speed →
          p1.X - (p.Speed - 1 - (t : Int)) * dx = p.X + ((t : Int) + 1) * dx ∧
          p1.Y - (p.Speed - 1 - (t : Int)) * dy = p.Y + ((t : Int) + 1) * dy ∧
          isHole p1 (p.Speed - 1 - (t : Int))
            = isHole { p with stepCounter := p.stepCounter + 1 } t) ∧
        (∀ (cells2 : List (List Int)) (r : Player), crashPlayer cells2 p1 = some r →
          (r.Active = true ↔
            ∀ t : Nat, (t : Int) < p.Speed →
              getCell cells2 (p.Y + ((t : Int) + 1) * dy) (p.X + ((t : Int) + 1) * dx)
                = some (-1) →
              isHole { p with stepCounter := p.stepCounter + 1 } t = true)) ∧
        (∀ cells2 : List (List Int), CellsSized w h cells2 →
          (∀ t : Nat, (t : Int) < p.Speed →
            getCell cells2 (p.Y + ((t : Int) + 1) * dy) (p.X + ((t : Int) + 1) * dx)
              = some (-1) →
            isHole { p with stepCounter := p.stepCounter + 1 } t = true) →
          crashPlayer cells2 p1 = some p1 ∧ p1.Active = true)) := by
  refine ⟨fun p s => isHole_back p p s rfl rfl, ?_⟩
  intro w h i cs p dx dy hsz hact hd hin
  obtain ⟨cs1, p1, hm, _, hp1, _, _, _⟩ := movePlayer_on_board (i := i) hsz hact hd hin
  have hact1 : p1.Active = true := by rw [hp1]; exact hact
  have hne1 : ¬ (p1.Active = false) := by rw [hact1]; simp
  have hd1 : dirVec p1.Direction = some (dx, dy) := by rw [hp1]; exact hd
  have hsp : p1.Speed = p.Speed := by rw [hp1]
  have hX : p1.X = p.X + (p.Speed.toNat : Int) * dx := by rw [hp1]
  have hY : p1.Y = p.Y + (p.Speed.toNat : Int) * dy := by rw [hp1]
  have hback : ∀ s : Int, isHole p1 (p.Speed - 1 - s)
      = isHole { p with stepCounter := p.stepCounter + 1 } s := by
    intro s
    rw [isHole_congr { p with stepCounter := p.stepCounter + 1 } p1 _ hsp (by rw [hp1])]
    exact isHole_back { p with stepCounter := p.stepCounter + 1 }
      { p with stepCounter := p.stepCounter + 1 } s rfl rfl
  -- the cell read at index `s` of the walk back is the cell of step `Speed-1-s`
  have hcellY : ∀ s t : Nat, s + t + 1 = p.Speed.toNat →
      p1.Y - (s : Int) * dy = p.Y + ((t : Int) + 1) * dy := by
    intro s t hst
    rw [hY, ← hst]; push_cast; ring
  have hcellX : ∀ s t : Nat, s + t + 1 = p.Speed.toNat →
      p1.X - (s : Int) * dx = p.X + ((t : Int) + 1) * dx := by
    intro s t hst
    rw [hX, ← hst]; push_cast; ring
  have hholes : ∀ s t : Nat, s + t + 1 = p.Speed.toNat →
      isHole p1 (0 + (s : Int)) = isHole { p with stepCounter := p.stepCounter + 1 } t := by
    intro s t hst
    rw [← hback]
    congr 1
    omega
  have hiff : ∀ cells2 : List (List Int),
      (∀ t : Nat, t < p1.Speed.toNat →
          getCell cells2 (p1.Y - (t : Int) * dy) (p1.X - (t : Int) * dx) = some (-1) →
          isHole p1 (0 + t) = true) ↔
      (∀ t : Nat, (t : Int) < p.Speed →
          getCell cells2 (p.Y + ((t : Int) + 1) * dy) (p.X + ((t : Int) + 1) * dx)
            = some (-1) →
          isHole { p with stepCounter := p.stepCounter + 1 } t = true) := by
    intro cells2
    constructor
    · intro hall t ht hcell
      have hst : (p.Speed.toNat - 1 - t) + t + 1 = p.Speed.toNat := by omega
      have := hall (p.Speed.toNat - 1 - t) (by rw [hsp]; omega)
      rw [hcellY _ _ hst, hcellX _ _ hst, hholes _ _ hst] at this
      exact this hcell
    · intro hall s hs hcell
      rw [hsp] at hs
      have hst : s + (p.Speed.toNat - 1 - s) + 1 = p.Speed.toNat := by omega
      rw [hcellY _ _ hst, hcellX _ _ hst] at hcell
      rw [hholes _ _ hst]
      exact hall _ (by omega) hcell
  refine ⟨cs1, p1, hm, ?_, ?_, ?_⟩
  · intro t ht
    have hst : (p.Speed.toNat - 1 - t) + t + 1 = p.Speed.toNat := by omega
    have e : ((p.Speed.toNat - 1 - t : Nat) : Int) = p.Speed - 1 - (t : Int) := by omega
    have h1 := hcellX _ _ hst
    have h2 := hcellY _ _ hst
    rw [e] at h1 h2
    exact ⟨h1, h2, hback _⟩
  · intro cells2 r hcp
    unfold crashPlayer at hcp
    rw [if_neg hne1] at hcp
    rw [← hiff cells2]
    rcases crashLoop_spec hd1 _ _ _ _ _ hcp with ⟨hall, hr⟩ | ⟨⟨t, ht, hcell, hh⟩, hr⟩
    · rw [hr]
      exact ⟨fun _ => hall, fun _ => hact1⟩
    · rw [hr]
      constructor
      · intro hf
        exact absurd hf (by simp [invalidatePlayer])
      · intro hall
        have := hall t ht hcell
        rw [hh] at this
        exact Bool.noConfusion this
  · intro cells2 hsz2 hall
    have hdef : ∀ t : Nat, t < p1.Speed.toNat →
        ∃ v, getCell cells2 (p1.Y - (t : Int) * dy) (p1.X - (t : Int) * dx) = some v := by
      intro s hs
      rw [hsp] at hs
      have hst : s + (p.Speed.toNat - 1 - s) + 1 = p.Speed.toNat := by omega
      rw [hcellY _ _ hst, hcellX _ _ hst]
      exact getCell_some_of_sized hsz2 (hin _ (by omega))
    have htot : ∃ r, crashLoop cells2 p1 p1.Speed.toNat 0 p1.X p1.Y = some r :=
      crashLoop_total hd1 p1.Speed.toNat 0 p1.X p1.Y hdef
    obtain ⟨r, hr⟩ := htot
    have hcp : crashPlayer cells2 p1 = some r := by
      unfold crashPlayer
      rw [if_neg hne1]
      exact hr
    rcases crashLoop_spec hd1 _ _ _ _ _ hr with ⟨_, hrp⟩ | ⟨⟨t, ht, hcell, hh⟩, _⟩
    · rw [hcp, hrp]
      exact ⟨rfl, hact1⟩
    · exfalso
      have := (hiff cells2).mpr hall t ht hcell
      rw [hh] at this
      exact Bool.noConfusion this

/-- C12 on the hole-jump board, with a collision mark put on the hole cell (3,0): the
player is still active after the crash check. -/
theorem own_hole_never_eliminates_witness :
    ∃ cs1 p1, movePlayer 9 1 1 [[0, 0, 2, 2, 2, 2, 2, 0, 0]]
        (mkPlayer 0 0 DirectionRight 7 5) = some (cs1, p1) ∧
      crashPlayer [[0, 1, 2, -1, 2, 2, 2, 1, 0]] p1 = some p1 ∧ p1.Active = true := by
  obtain ⟨cs1, p1, hm, _, _, hkeep⟩ :=
    own_hole_never_eliminates.2 9 1 1 [[0, 0, 2, 2, 2, 2, 2, 0, 0]]
      (mkPlayer 0 0 DirectionRight 7 5) 1 0 ⟨by decide, by decide, by decide⟩ rfl rfl
      (by
        intro t ht
        simp only [mkPlayer, InBoard] at ht ⊢
        omega)
  refine ⟨cs1, p1, hm, hkeep [[0, 1, 2, -1, 2, 2, 2, 1, 0]] ⟨by decide, by decide, by decide⟩ ?_⟩
  intro t ht hcell
  simp only [mkPlayer] at ht hcell
  have ht7 : t < 7 := by omega
  interval_cases t <;> first | rfl | (exfalso; revert hcell; decide)

theorem processActions_get {answers : List String} :
    ∀ {ps ps1 : List (Int × Player)} {i : Int} {p : Player},
      processActions answers ps = some ps1 → getPlayer ps i = some p →
      ∃ a, getAnswer answers i = some a ∧ getPlayer ps1 i = some (processAction a p) := by
  intro ps
  induction ps with
  | nil => intro ps1 i p _ hg; simp [getPlayer] at hg
  | cons kp rest ih =>
    obtain ⟨k, r⟩ := kp
    intro ps1 i p h hg
    unfold processActions at h
    cases ha : getAnswer answers k with
    | none => rw [ha] at h; simp at h
    | some a =>
      rw [ha] at h
      simp only at h
      cases hr : processActions answers rest with
      | none => rw [hr] at h; simp at h
      | some rest1 =>
        rw [hr] at h
        simp only [Option.some.injEq] at h
        subst h
        unfold getPlayer at hg ⊢
        by_cases hk : k = i
        · simp only [hk, if_true, Option.some.injEq] at hg ⊢
          subst hg
          subst hk
          exact ⟨a, ha, rfl⟩
        · simp only [hk, if_false] at hg ⊢
          exact ih hr hg

theorem doMovement_get {w h : Int} :
    ∀ (ps : List (Int × Player)) (c c2 : List (List Int)) (ps2 : List (Int × Player))
      (i : Int) (p : Player),
      doMovement w h c ps = some (c2, ps2) → getPlayer ps i = some p →
      ∃ p1 c0 c1, getPlayer ps2 i = some p1 ∧ shape c0 = shape c ∧
        movePlayer w h i c0 p = some (c1, p1) := by
  intro ps
  induction ps with
  | nil => intro c c2 ps2 i p _ hg; simp [getPlayer] at hg
  | cons kp rest ih =>
    obtain ⟨k, r⟩ := kp
    intro c c2 ps2 i p hm hg
    obtain ⟨c1, r1, rest1, hmp, hr, rfl⟩ := doMovement_cons hm
    unfold getPlayer at hg ⊢
    by_cases hk : k = i
    · simp only [hk, if_true, Option.some.injEq] at hg ⊢
      subst hg
      subst hk
      exact ⟨r1, c, c1, rfl, rfl, hmp⟩
    · simp only [hk, if_false] at hg ⊢
      obtain ⟨p1, c0, c1', hp1, hsh, hmp'⟩ := ih c1 c2 rest1 i p hr hg
      refine ⟨p1, c0, c1', hp1, ?_, hmp'⟩
      rw [hsh]
      unfold movePlayer at hmp
      split_ifs at hmp
      · simp only [Option.some.injEq, Prod.mk.injEq] at hmp
        rw [hmp.1]
      · exact moveLoop_shape _ _ _ _ _ _ hmp

theorem checkCrash_get {cells : List (List Int)} :
    ∀ (ps ps2 : List (Int × Player)) (i : Int) (p1 : Player),
      checkCrash cells ps = some ps2 → getPlayer ps i = some p1 →
      ∃ p2, getPlayer ps2 i = some p2 ∧ crashPlayer cells p1 = some p2 := by
  intro ps
  induction ps with
  | nil => intro ps2 i p1 _ hg; simp [getPlayer] at hg
  | cons kp rest ih =>
    obtain ⟨k, r⟩ := kp
    intro ps2 i p1 hc hg
    unfold checkCrash at hc
    cases hcp : crashPlayer cells r with
    | none => rw [hcp] at hc; simp at hc
    | some r1 =>
      rw [hcp] at hc
      simp only at hc
      cases hr : checkCrash cells rest with
      | none => rw [hr] at hc; simp at hc
      | some rest1 =>
        rw [hr] at hc
        simp only [Option.some.injEq] at hc
        subst hc
        unfold getPlayer at hg ⊢
        by_cases hk : k = i
        · simp only [hk, if_true, Option.some.injEq] at hg ⊢
          subst hg
          exact ⟨r1, rfl, hcp⟩
        · simp only [hk, if_false] at hg ⊢
          exact ih rest1 i p1 hr hg

/-- The record that the map gives for the key `i` at the end of a round that
completes, from the record at its start: the action is processed, the player is moved
and then checked against the cells at the end of the round. -/
theorem round_get {ai : Policy} {next : String} {st st1 : LoopState}
    (hb : roundBody ai next st = some st1) {i : Int} {p : Player}
    (hp : getPlayer st.g.Players i = some p) :
    ∃ a c0 c1 p1 p2, shape c0 = shape st.g.Cells ∧
      movePlayer st.g.Width st.g.Height i c0 (processAction a p) = some (c1, p1) ∧
      crashPlayer st1.g.Cells p1 = some p2 ∧ getPlayer st1.g.Players i = some p2 := by
  obtain ⟨you, g1, g2, _, ha, hmc, rfl⟩ := roundBody_some hb
  obtain ⟨answers, ps, _, hpa, rfl⟩ := afterActions_some ha
  obtain ⟨cells, ps2, ps3, hd, hcr, rfl⟩ := moveAndCrash_some hmc
  simp only at hd ⊢
  obtain ⟨a, _, hg1⟩ := processActions_get hpa hp
  obtain ⟨p1, c0, c1, hg2, hsh, hmp⟩ := doMovement_get _ _ _ _ i _ hd hg1
  obtain ⟨p2, hg3, hcp⟩ := checkCrash_get _ _ i p1 hcr hg2
  exact ⟨a, c0, c1, p1, p2, hsh, hmp, hcp, hg3⟩

theorem processAction_inactive (a : String) (p : Player) (h : p.Active = false) :
    (processAction a p).Active = false ∧ (processAction a p).X = p.X ∧
      (processAction a p).Y = p.Y := by
  unfold processAction invalidatePlayer
  split_ifs <;> simp_all

theorem processAction_position (a : String) (p : Player) :
    (processAction a p).X = p.X ∧ (processAction a p).Y = p.Y ∧
      (processAction a p).stepCounter = p.stepCounter ∧ (processAction a p).Name = p.Name := by
  unfold processAction invalidatePlayer
  split_ifs <;> simp only [and_self] <;> split_ifs <;> simp only [and_self]

/-- A player that is inactive at the start of a round is inactive at its end, at the
same position. -/
theorem round_keeps_inactive {ai : Policy} {next : String} {st st1 : LoopState}
    (hb : roundBody ai next st = some st1) {i : Int} {p : Player}
    (hp : getPlayer st.g.Players i = some p) (hina : p.Active = false) :
    ∃ q, getPlayer st1.g.Players i = some q ∧ q.Active = false ∧ q.X = p.X ∧ q.Y = p.Y := by
  obtain ⟨a, c0, c1, p1, p2, _, hmp, hcp, hg⟩ := round_get hb hp
  obtain ⟨h1, h2, h3⟩ := processAction_inactive a p hina
  unfold movePlayer at hmp
  rw [if_pos h1] at hmp
  simp only [Option.some.injEq, Prod.mk.injEq] at hmp
  rw [← hmp.2, crashPlayer_inactive _ _ h1] at hcp
  simp only [Option.some.injEq] at hcp
  rw [← hcp] at hg
  exact ⟨_, hg, h1, h2, h3⟩

theorem stateAfter_keeps_inactive {ai : Policy} {next : String} {g : Game} {k : Nat} :
    ∀ (m : Nat) (s s1 : LoopState) (i : Int) (p : Player),
      stateAfter ai next g k = some s → stateAfter ai next g (k + m) = some s1 →
      getPlayer s.g.Players i = some p → p.Active = false →
      ∃ q, getPlayer s1.g.Players i = some q ∧ q.Active = false ∧ q.X = p.X ∧ q.Y = p.Y := by
  intro m
  induction m with
  | zero =>
    intro s s1 i p hs hs1 hp hina
    rw [Nat.add_zero, hs] at hs1
    simp only [Option.some.injEq] at hs1
    subst hs1
    exact ⟨p, hp, hina, rfl, rfl⟩
  | succ m ih =>
    intro s s1 i p hs hs1 hp hina
    obtain ⟨s0, hs0, hb⟩ := stateAfter_succ hs1
    obtain ⟨q0, hq0, hina0, hx0, hy0⟩ := ih s s0 i p hs hs0 hp hina
    obtain ⟨q, hq, hinaq, hx, hy⟩ := round_keeps_inactive hb hq0 hina0
    exact ⟨q, hq, hinaq, by rw [hx, hx0], by rw [hy, hy0]⟩

/-! ## C15: monotonic elimination -/

/-- C15: a player that is inactive at the end of round `k` of a rollout (`k = 0` is the
input board) is inactive at the end of every later round `k + m` that is played, at the
same `(x, y)`; and on the board that `SimulateGame` leaves, a player that was inactive
at the end of one of the rounds of the run is inactive at the same `(x, y)`. -/
theorem inactive_stays_inactive :
    (∀ (ai : Policy) (next : String) (g : Game) (k m : Nat) (s s1 : LoopState) (i : Int)
      (p : Player),
      stateAfter ai next g k = some s → stateAfter ai next g (k + m) = some s1 →
      getPlayer s.g.Players i = some p → p.Active = false →
      ∃ q, getPlayer s1.g.Players i = some q ∧ q.Active = false ∧ q.X = p.X ∧ q.Y = p.Y) ∧
    (∀ (fuel : Nat) (ai : Policy) (g : Game) (next : String) (r : Result) (gf : Game)
      (k : Nat) (s : LoopState) (i : Int) (p : Player),
      SimulateGame fuel ai g next = Outcome.done (r, gf) →
      stateAfter ai next g k = some s → (k : Int) ≤ r.round →
      getPlayer s.g.Players i = some p → p.Active = false →
      ∃ q, getPlayer gf.Players i = some q ∧ q.Active = false ∧ q.X = p.X ∧ q.Y = p.Y) := by
  refine ⟨fun ai next g k m s s1 i p hs hs1 hp hina =>
    stateAfter_keeps_inactive m s s1 i p hs hs1 hp hina, ?_⟩
  intro fuel ai g next r gf k s i p hsim hs hk hp hina
  rcases SimulateGame_done_cases hsim with ⟨_, hr, hgf⟩ | ⟨_, hplay⟩
  · have hk0 : k = 0 := by
      rw [hr] at hk
      simp only [cutoffResult] at hk
      omega
    subst hk0
    simp only [stateAfter, roundsFrom, Option.some.injEq] at hs
    subst hs
    subst hgf
    exact ⟨p, hp, hina, rfl, rfl⟩
  · obtain ⟨n, st, _, hends, hfin⟩ := EndsAt_of_playRounds hplay
    have hst := hends.2.1
    have hround := (stateAfter_frame ai next g n st hst).1
    simp only [finish, Prod.mk.injEq] at hfin
    obtain ⟨hr, hgf⟩ := hfin
    have hrr : r.round = st.round := by rw [hr]
    have hkn : k ≤ n := by omega
    obtain ⟨m, rfl⟩ : ∃ m, n = k + m := ⟨n - k, by omega⟩
    obtain ⟨q, hq, h1, h2, h3⟩ := stateAfter_keeps_inactive m s st i p hs hst hp hina
    exact ⟨q, by rw [hgf]; exact hq, h1, h2, h3⟩

/-- C15 on `selfLeavesBoard`: player 1 is inactive at (-1,0) after round 1 and on the
board that the run of five rounds leaves. -/
theorem inactive_stays_inactive_witness :
    ∃ r gf, SimulateGame 10 aiNoop selfLeavesBoard ActionNOOP = Outcome.done (r, gf) ∧
      r.round = 5 ∧
      ∃ q, getPlayer gf.Players 1 = some q ∧ q.Active = false ∧
        q.X = ({ mkPlayer (-1) 0 DirectionLeft 1 1 with Active := false } : Player).X ∧
        q.Y = ({ mkPlayer (-1) 0 DirectionLeft 1 1 with Active := false } : Player).Y :=
  ⟨_, _, rfl, rfl,
    inactive_stays_inactive.2 10 aiNoop selfLeavesBoard ActionNOOP _ _ 1 _ 1
      { mkPlayer (-1) 0 DirectionLeft 1 1 with Active := false } rfl rfl (by decide) rfl rfl⟩

theorem cellsInRange_iff (m : Int) (cells : List (List Int)) :
    CellsInRange m cells ↔
      ∀ y x v, getCell cells y x = some v → v = -1 ∨ (0 ≤ v ∧ v ≤ m) := by
  constructor
  · intro h y x v hg
    unfold getCell at hg
    split_ifs at hg
    cases hrow : cells[y.toNat]? with
    | none => rw [hrow] at hg; simp at hg
    | some row =>
      rw [hrow] at hg
      simp only at hg
      exact h row (List.mem_iff_getElem?.mpr ⟨_, hrow⟩) v (List.mem_iff_getElem?.mpr ⟨_, hg⟩)
  · intro h row hrow v hv
    obtain ⟨k, hk⟩ := List.mem_iff_getElem?.mp hrow
    obtain ⟨j, hj⟩ := List.mem_iff_getElem?.mp hv
    apply h (k : Int) (j : Int) v
    unfold getCell
    have hneg : ¬ ((k : Int) < 0 ∨ (j : Int) < 0) := by omega
    rw [if_neg hneg]
    simp only [Int.toNat_ofNat, hk, hj]

theorem key_le_maxPlayerId :
    ∀ (ps : List (Int × Player)) (kp : Int × Player), kp ∈ ps → kp.1 ≤ maxPlayerId ps := by
  intro ps
  induction ps with
  | nil => intro kp h; simp at h
  | cons a rest ih =>
    intro kp h
    simp only [maxPlayerId, List.map_cons, List.foldr_cons]
    rcases List.mem_cons.mp h with rfl | hin
    · exact le_max_left _ _
    · exact le_trans (ih kp hin) (le_max_right _ _)

theorem maxPlayerId_congr {ps qs : List (Int × Player)}
    (h : qs.map Prod.fst = ps.map Prod.fst) : maxPlayerId qs = maxPlayerId ps := by
  unfold maxPlayerId
  rw [h]

/-- Every cell after the step loop holds what it held before or the stamp on it. -/
theorem moveLoop_cell_cases {w h i : Int} {n : Nat} {s : Int} {cs cs1 : List (List Int)}
    {p p1 : Player} (hm : moveLoop w h i n s cs p = some (cs1, p1)) {y x v1 : Int}
    (hg : getCell cs1 y x = some v1) :
    ∃ v0, getCell cs y x = some v0 ∧ (v1 = v0 ∨ v1 = stampValue i v0) := by
  have hshape := moveLoop_shape _ _ _ _ _ _ hm
  have hdef : ∃ v0, getCell cs y x = some v0 := by
    rw [getCell_isSome_iff, ← hshape, ← getCell_isSome_iff]
    exact ⟨v1, hg⟩
  obtain ⟨v0, hv0⟩ := hdef
  refine ⟨v0, hv0, ?_⟩
  cases n with
  | zero =>
    simp only [moveLoop, Option.some.injEq, Prod.mk.injEq] at hm
    rw [← hm.1, hv0] at hg
    left
    exact (Option.some.inj hg).symm
  | succ n =>
    obtain ⟨dx, dy, hd⟩ := dirVec_of_moveLoop hm
    have hpt := moveLoop_pointwise _ _ _ _ _ _ hd hm x y
    by_cases hst : StampsCell w h p dx dy s (n + 1) x y
    · right
      have := hpt.1 hst v0 hv0
      rw [hg] at this
      exact Option.some.inj this
    · left
      have := hpt.2 hst
      rw [hg, hv0] at this
      exact Option.some.inj this

theorem movePlayer_cell_cases {w h i : Int} {cs cs1 : List (List Int)}
    {p p1 : Player} (hm : movePlayer w h i cs p = some (cs1, p1)) {y x v1 : Int}
    (hg : getCell cs1 y x = some v1) :
    ∃ v0, getCell cs y x = some v0 ∧ (v1 = v0 ∨ v1 = stampValue i v0) := by
  unfold movePlayer at hm
  split_ifs at hm
  · simp only [Option.some.injEq, Prod.mk.injEq] at hm
    rw [← hm.1] at hg
    exact ⟨v1, hg, Or.inl rfl⟩
  · exact moveLoop_cell_cases hm hg

/-- The movement keeps the cells in `{-1} ∪ {0..m}` when the ids are in `1..m` and fit
the `int8` cells. -/
theorem doMovement_range {w h : Int} {m : Int} :
    ∀ (ps : List (Int × Player)) (c c2 : List (List Int)) (ps2 : List (Int × Player)),
      doMovement w h c ps = some (c2, ps2) →
      (∀ kp ∈ ps, 1 ≤ kp.1 ∧ kp.1 ≤ m ∧ kp.1 ≤ 127) →
      (∀ y x v, getCell c y x = some v → v = -1 ∨ (0 ≤ v ∧ v ≤ m)) →
      ∀ y x v, getCell c2 y x = some v → v = -1 ∨ (0 ≤ v ∧ v ≤ m) := by
  intro ps
  induction ps with
  | nil =>
    intro c c2 ps2 hm _ hc
    simp only [doMovement, Option.some.injEq, Prod.mk.injEq] at hm
    rw [← hm.1]
    exact hc
  | cons kp rest ih =>
    obtain ⟨k, r⟩ := kp
    intro c c2 ps2 hm hkeys hc
    obtain ⟨c1, r1, rest1, hmp, hr, rfl⟩ := doMovement_cons hm
    have hk := hkeys (k, r) (List.mem_cons_self _ _)
    simp only at hk
    apply ih c1 c2 rest1 hr (fun kp hkp => hkeys kp (List.mem_cons_of_mem _ hkp))
    intro y x v1 hg
    obtain ⟨v0, hv0, hcase⟩ := movePlayer_cell_cases hmp hg
    have h0 := hc y x v0 hv0
    rcases hcase with rfl | rfl
    · exact h0
    · rw [stampValue_small (by omega) hk.2.2]
      split_ifs
      · right; omega
      · left; rfl

theorem processActions_trace {answers : List String} :
    ∀ {ps ps1 : List (Int × Player)} {i : Int} {p1 : Player},
      processActions answers ps = some ps1 → (i, p1) ∈ ps1 →
      ∃ a p, (i, p) ∈ ps ∧ p1 = processAction a p := by
  intro ps
  induction ps with
  | nil =>
    intro ps1 i p1 h hmem
    simp only [processActions, Option.some.injEq] at h
    rw [← h] at hmem
    simp at hmem
  | cons kp rest ih =>
    obtain ⟨k, r⟩ := kp
    intro ps1 i p1 h hmem
    unfold processActions at h
    cases ha : getAnswer answers k with
    | none => rw [ha] at h; simp at h
    | some a =>
      rw [ha] at h
      simp only at h
      cases hr : processActions answers rest with
      | none => rw [hr] at h; simp at h
      | some rest1 =>
        rw [hr] at h
        simp only [Option.some.injEq] at h
        subst h
        rcases List.mem_cons.mp hmem with heq | hin
        · simp only [Prod.mk.injEq] at heq
          obtain ⟨rfl, rfl⟩ := heq
          exact ⟨a, r, List.mem_cons_self _ _, rfl⟩
        · obtain ⟨a1, p, hp, he⟩ := ih hr hin
          exact ⟨a1, p, List.mem_cons_of_mem _ hp, he⟩

/-- Every record after the movement comes from the record with the same key, and the
cells that this player's move leaves are kept by the moves after it. -/
theorem doMovement_trace_kept {w h : Int} :
    ∀ (ps : List (Int × Player)) (c c2 : List (List Int)) (ps2 : List (Int × Player))
      (i : Int) (p1 : Player),
      doMovement w h c ps = some (c2, ps2) → (i, p1) ∈ ps2 →
      ∃ p c0 c1, (i, p) ∈ ps ∧ movePlayer w h i c0 p = some (c1, p1) ∧ CellsKept c1 c2 := by
  intro ps
  induction ps with
  | nil =>
    intro c c2 ps2 i p1 hm hmem
    simp only [doMovement, Option.some.injEq, Prod.mk.injEq] at hm
    rw [← hm.2] at hmem
    simp at hmem
  | cons kp rest ih =>
    obtain ⟨k, r⟩ := kp
    intro c c2 ps2 i p1 hm hmem
    obtain ⟨c1, r1, rest1, hmp, hr, rfl⟩ := doMovement_cons hm
    rcases List.mem_cons.mp hmem with heq | hin
    · simp only [Prod.mk.injEq] at heq
      obtain ⟨rfl, rfl⟩ := heq
      exact ⟨r, c, c1, List.mem_cons_self _ _, hmp, doMovement_kept _ _ _ _ hr⟩
    · obtain ⟨p, c0, c1', hp, hmp', hk⟩ := ih c1 c2 rest1 i p1 hr hin
      exact ⟨p, c0, c1', List.mem_cons_of_mem _ hp, hmp', hk⟩

theorem wrapInt_of_range {i : Int} (h1 : -9223372036854775808 ≤ i)
    (h2 : i ≤ 9223372036854775807) : wrapInt i = i := by
  unfold wrapInt
  omega

/-- A player that is active after its action was active before it, and a speed of at
least 1 and below `maxInt` stays so: `Speed++` and `Speed--` do not wrap around. -/
theorem processAction_active {a : String} {p : Player}
    (h : (processAction a p).Active = true) :
    p.Active = true ∧
      (1 ≤ p.Speed ∧ p.Speed < maxInt →
        1 ≤ (processAction a p).Speed ∧ (processAction a p).Speed < maxInt) := by
  have hup : 1 ≤ p.Speed ∧ p.Speed < maxInt → wrapInt (p.Speed + 1) = p.Speed + 1 := by
    intro hs
    have := hs.2
    unfold maxInt at this
    exact wrapInt_of_range (by omega) (by omega)
  have hdown : 1 ≤ p.Speed ∧ p.Speed < maxInt → wrapInt (p.Speed - 1) = p.Speed - 1 := by
    intro hs
    have := hs.2
    unfold maxInt at this
    exact wrapInt_of_range (by omega) (by omega)
  unfold processAction invalidatePlayer MaxSpeed at h ⊢
  split_ifs at h ⊢ <;> (try dsimp only at h ⊢) <;> (try split_ifs at h ⊢) <;>
    first
    | exact ⟨h, fun hs => hs⟩
    | exact Bool.noConfusion h
    | (refine ⟨h, fun hs => ?_⟩
       rename_i hgt
       dsimp only at hgt ⊢
       rw [hup hs] at hgt ⊢
       unfold maxInt
       omega)
    | (refine ⟨h, fun hs => ?_⟩
       rename_i hlt
       dsimp only at hlt ⊢
       rw [hdown hs] at hlt ⊢
       have := hs.2
       unfold maxInt at this ⊢
       omega)

theorem crashPlayer_active {cells : List (List Int)} {p1 p2 : Player}
    (h : crashPlayer cells p1 = some p2) (hact : p2.Active = true) : p2 = p1 := by
  unfold crashPlayer at h
  split_ifs at h with hina
  · exact (Option.some.inj h).symm
  · cases hn : p1.Speed.toNat with
    | zero =>
      rw [hn] at h
      simp only [crashLoop, Option.some.injEq] at h
      exact h.symm
    | succ n =>
      rw [hn] at h
      have hd : ∃ dx dy, dirVec p1.Direction = some (dx, dy) := by
        unfold crashLoop at h
        cases hg : getCell cells p1.Y p1.X with
        | none => rw [hg] at h; simp at h
        | some v =>
          rw [hg] at h
          simp only at h
          split_ifs at h with hit
          · simp only [Option.some.injEq] at h
            rw [← h] at hact
            simp [invalidatePlayer] at hact
          · unfold dostepback at h
            unfold dirVec
            split_ifs at h ⊢ <;> exact ⟨_, _, rfl⟩
      obtain ⟨dx, dy, hd⟩ := hd
      rcases crashLoop_spec hd _ _ _ _ _ h with ⟨_, hr⟩ | ⟨_, hr⟩
      · exact hr
      · rw [hr] at hact
        simp [invalidatePlayer] at hact

/-- A player that is active after its move: it was active, every step stayed on the
board, and the cell it stands on was stamped by its last step. -/
theorem movePlayer_active_end {w h i : Int} {c0 c1 : List (List Int)} {p p1 : Player}
    (hm : movePlayer w h i c0 p = some (c1, p1)) (hact1 : p1.Active = true)
    (hsp : 1 ≤ p.Speed) :
    p.Active = true ∧ InBoard w h p1.X p1.Y ∧ p1.Speed = p.Speed ∧
      ∃ v0, getCell c0 p1.Y p1.X = some v0 ∧
        getCell c1 p1.Y p1.X = some (stampValue i v0) := by
  have hact : p.Active = true := by
    cases hpa : p.Active
    · unfold movePlayer at hm
      rw [if_pos hpa] at hm
      simp only [Option.some.injEq, Prod.mk.injEq] at hm
      rw [← hm.2, hpa] at hact1
      exact Bool.noConfusion hact1
    · rfl
  have hne : ¬ (p.Active = false) := by rw [hact]; simp
  unfold movePlayer at hm
  rw [if_neg hne] at hm
  simp only at hm
  obtain ⟨n, hn⟩ : ∃ n, p.Speed.toNat = n + 1 := ⟨p.Speed.toNat - 1, by omega⟩
  rw [hn] at hm
  obtain ⟨dx, dy, hd⟩ := dirVec_of_moveLoop hm
  have hall : ∀ t : Nat, t < n + 1 →
      InBoard w h (p.X + ((t : Int) + 1) * dx) (p.Y + ((t : Int) + 1) * dy) := by
    intro t ht
    by_contra hout
    have := moveLoop_leaves_inactive _ _ _ _ _ _ t hd hm ht hout
    rw [hact1] at this
    exact Bool.noConfusion this
  have hp1 := moveLoop_all_in _ _ _ _ _ _ hd hm hall
  simp only at hp1
  have hX : p1.X = p.X + ((n : Int) + 1) * dx := by rw [hp1]; push_cast; ring
  have hY : p1.Y = p.Y + ((n : Int) + 1) * dy := by rw [hp1]; push_cast; ring
  have hlast := hall n (by omega)
  rw [← hX, ← hY] at hlast
  have hnh : isHole { p with stepCounter := p.stepCounter + 1 } (0 + (n : Int)) = false := by
    unfold isHole
    have : decide ((0 : Int) + (n : Int) ≠
        ({ p with stepCounter := p.stepCounter + 1 } : Player).Speed - 1) = false := by
      apply decide_eq_false
      simp only [ne_eq, not_not]; omega
    rw [this, Bool.and_false]
  have hst : StampsCell w h { p with stepCounter := p.stepCounter + 1 } dx dy 0 (n + 1)
      p1.X p1.Y := ⟨n, by omega, hX, hY, fun u hu => hall u (by omega), hnh⟩
  obtain ⟨v1, hv1, _, _⟩ := moveLoop_enters _ _ _ _ _ _ n p1.X p1.Y hm hd (by omega) hX hY
    (fun u hu => hall u (by omega)) hnh
  obtain ⟨v0, hv0, _⟩ := moveLoop_cell_cases hm hv1
  refine ⟨hact, hlast, by rw [hp1], v0, hv0, ?_⟩
  exact (moveLoop_pointwise _ _ _ _ _ _ hd hm p1.X p1.Y).1 hst v0 hv0

/-- One round keeps the cells in range and leaves every active player on the board, with
a speed of at least 1 and below `maxInt`, on a cell that holds its id or `-1`. -/
theorem round_invariant {ai : Policy} {next : String} {st st1 : LoopState}
    (hb : roundBody ai next st = some st1) {m : Int}
    (hkeys : ∀ kp ∈ st.g.Players, kp.1 ≤ m ∧ kp.1 ≤ 127)
    (hcells : CellsInRange m st.g.Cells)
    (hspeed : ∀ kp ∈ st.g.Players, kp.2.Active = true →
      1 ≤ kp.2.Speed ∧ kp.2.Speed < maxInt) :
    CellsInRange m st1.g.Cells ∧
      ∀ kp ∈ st1.g.Players, kp.2.Active = true →
        InBoard st.g.Width st.g.Height kp.2.X kp.2.Y ∧
        (1 ≤ kp.2.Speed ∧ kp.2.Speed < maxInt) ∧
        (getCell st1.g.Cells kp.2.Y kp.2.X = some kp.1 ∨
          getCell st1.g.Cells kp.2.Y kp.2.X = some (-1)) := by
  have hfr := roundBody_frame hb
  obtain ⟨you, g1, g2, _, ha, hmc, rfl⟩ := roundBody_some hb
  obtain ⟨answers, ps, _, hpa, rfl⟩ := afterActions_some ha
  obtain ⟨cells, ps2, ps3, hd, hcr, rfl⟩ := moveAndCrash_some hmc
  simp only at hd ⊢
  have hpos : ∀ kp ∈ ps, 1 ≤ kp.1 ∧ kp.1 ≤ m ∧ kp.1 ≤ 127 := by
    intro kp hkp
    have h1 : kp.1 ∈ ps.map Prod.fst := List.mem_map.mpr ⟨kp, hkp, rfl⟩
    rw [processActions_keys hpa] at h1
    obtain ⟨kq, hkq, he⟩ := List.mem_map.mp h1
    have h2 := hfr.2.2.2.2.2.2 kq hkq
    have h3 := hkeys kq hkq
    rw [← he]
    exact ⟨h2.1, h3.1, h3.2⟩
  refine ⟨?_, ?_⟩
  · rw [cellsInRange_iff]
    exact doMovement_range ps _ _ _ hd hpos ((cellsInRange_iff _ _).mp hcells)
  · rintro ⟨i, q⟩ hq hact
    simp only at hact ⊢
    obtain ⟨p1, hp1, hcp⟩ := checkCrash_trace ps2 ps3 i q hcr hq
    have hqp := crashPlayer_active hcp hact
    subst hqp
    obtain ⟨p0, c0, c1, hp0, hmp, hkept⟩ := doMovement_trace_kept ps _ _ _ i q hd hp1
    obtain ⟨a, p, hp, rfl⟩ := processActions_trace hpa hp0
    have hi := hpos _ hp0
    simp only at hi
    have hq0 : (processAction a p).Active = true := by
      cases hpa0 : (processAction a p).Active
      · unfold movePlayer at hmp
        rw [if_pos hpa0] at hmp
        simp only [Option.some.injEq, Prod.mk.injEq] at hmp
        rw [← hmp.2, hpa0] at hact
        exact Bool.noConfusion hact
      · rfl
    obtain ⟨hpact, hsp⟩ := processAction_active hq0
    have hsp1 := hsp (hspeed (i, p) hp hpact)
    obtain ⟨_, hin, hspq, v0, _, hv1⟩ := movePlayer_active_end hmp hact hsp1.1
    refine ⟨hin, by rw [hspq]; exact hsp1, ?_⟩
    obtain ⟨v2, hv2, hcase⟩ := hkept _ _ _ hv1
    rw [stampValue_small (by omega) hi.2.2] at hcase hv1
    rw [hv2]
    by_cases hz : v0 = 0
    · simp only [hz, if_true] at hcase
      rcases hcase (by omega) with h | h
      · left; rw [h]
      · right; rw [h]
    · simp only [hz, if_false] at hcase
      right
      rcases hcase (by omega) with h | h <;> rw [h]

/-! ## C14: the board invariant -/

/-- C14, as stated, fails for a speed that `Speed++` wraps around: on a 5x1 board without
a stamped cell, player 1 stands at (0,0) with the speed `maxInt` (every cell is 0, the
player is in bounds and its speed is at least 1), and the seed action is speed_up. At
the end of round 1 the speed is `-2^63`, which is not above `MaxSpeed`, so the player is
still active; it has not moved, and the cell at its position holds 0, neither its id
nor -1. -/
theorem wrapBoard_breaks_invariant :
    CellsInRange (maxPlayerId wrapBoard.Players) wrapBoard.Cells ∧
    (∀ kp ∈ wrapBoard.Players, kp.2.Active = true →
      InBoard wrapBoard.Width wrapBoard.Height kp.2.X kp.2.Y ∧ 1 ≤ kp.2.Speed) ∧
    ∃ s, stateAfter aiNoop ActionFaster wrapBoard 1 = some s ∧
      s.g.Players = [(1, mkPlayer 0 0 DirectionRight (-9223372036854775808) 1)] ∧
      (mkPlayer 0 0 DirectionRight (-9223372036854775808) 1).Active = true ∧
      getCell s.g.Cells 0 0 = some 0 := by
  exact ⟨by unfold CellsInRange; decide, by decide, _, rfl, rfl, rfl, rfl⟩

/-- C14 (amended): let every cell of the input board be `-1` or in `0..max player id`,
let the ids fit the `int8` cells (`max player id ≤ 127`) and let every active player
have a speed of at least 1 and below `maxInt = 2^63 - 1`. Then at the end of every round
that the rollout plays every cell is `-1` or in `0..max player id`, and every player
that is active is on the board, has a speed of at least 1 and below `maxInt`, and stands
on a cell that holds its id or `-1`. (That the active players of the input board are in
bounds is not needed.) -/
theorem board_invariant (ai : Policy) (next : String) (g : Game) (k : Nat) (s : LoopState)
    (hs : stateAfter ai next g (k + 1) = some s)
    (hfit : maxPlayerId g.Players ≤ 127)
    (hcells : CellsInRange (maxPlayerId g.Players) g.Cells)
    (hspeed : ∀ kp ∈ g.Players, kp.2.Active = true →
      1 ≤ kp.2.Speed ∧ kp.2.Speed < maxInt) :
    CellsInRange (maxPlayerId g.Players) s.g.Cells ∧
      ∀ kp ∈ s.g.Players, kp.2.Active = true →
        InBoard g.Width g.Height kp.2.X kp.2.Y ∧
        (1 ≤ kp.2.Speed ∧ kp.2.Speed < maxInt) ∧
        (getCell s.g.Cells kp.2.Y kp.2.X = some kp.1 ∨
          getCell s.g.Cells kp.2.Y kp.2.X = some (-1)) := by
  have hkeys : ∀ (j : Nat) (t : LoopState), stateAfter ai next g j = some t →
      ∀ kp ∈ t.g.Players, kp.1 ≤ maxPlayerId g.Players ∧ kp.1 ≤ 127 := by
    intro j t ht kp hkp
    have hfr := (stateAfter_frame ai next g j t ht).2.2.2.2
    have := key_le_maxPlayerId t.g.Players kp hkp
    rw [maxPlayerId_congr hfr] at this
    exact ⟨this, le_trans this hfit⟩
  have hstart : ∀ (j : Nat) (t : LoopState), stateAfter ai next g j = some t →
      CellsInRange (maxPlayerId g.Players) t.g.Cells ∧
        ∀ kp ∈ t.g.Players, kp.2.Active = true →
          1 ≤ kp.2.Speed ∧ kp.2.Speed < maxInt := by
    intro j
    induction j with
    | zero =>
      intro t ht
      simp only [stateAfter, roundsFrom, Option.some.injEq] at ht
      subst ht
      exact ⟨hcells, hspeed⟩
    | succ j ih =>
      intro t ht
      obtain ⟨t0, ht0, hb⟩ := stateAfter_succ ht
      obtain ⟨h1, h2⟩ := ih t0 ht0
      obtain ⟨h3, h4⟩ := round_invariant hb (hkeys j t0 ht0) h1 h2
      exact ⟨h3, fun kp hkp hact => (h4 kp hkp hact).2.1⟩
  obtain ⟨s0, hs0, hb⟩ := stateAfter_succ hs
  obtain ⟨h1, h2⟩ := hstart k s0 hs0
  obtain ⟨h3, h4⟩ := round_invariant hb (hkeys k s0 hs0) h1 h2
  have hfr := stateAfter_frame ai next g k s0 hs0
  rw [hfr.2.2.1, hfr.2.2.2.1] at h4
  exact ⟨h3, h4⟩

/-- C14 (amended) at the end of round 1 of the head-on scenario. -/
theorem board_invariant_witness :
    ∃ s, stateAfter aiNoop ActionNOOP headOnBoard 1 = some s ∧
      CellsInRange (maxPlayerId headOnBoard.Players) s.g.Cells ∧
      ∀ kp ∈ s.g.Players, kp.2.Active = true →
        InBoard headOnBoard.Width headOnBoard.Height kp.2.X kp.2.Y ∧
        (1 ≤ kp.2.Speed ∧ kp.2.Speed < maxInt) ∧
        (getCell s.g.Cells kp.2.Y kp.2.X = some kp.1 ∨
          getCell s.g.Cells kp.2.Y kp.2.X = some (-1)) :=
  ⟨_, rfl, board_invariant aiNoop ActionNOOP headOnBoard 0 _ rfl (by decide)
    (by unfold CellsInRange; decide) (by decide)⟩

/-- A row in which no cell is emptied has at most as many empty cells, and fewer when
some empty cell is filled. -/
theorem row_count_le :
    ∀ (row row1 : List Int), row1.length = row.length →
      (∀ (j : Nat) (v v1 : Int), row[j]? = some v → row1[j]? = some v1 → v ≠ 0 → v1 ≠ 0) →
      row1.count 0 ≤ row.count 0 ∧
        ((∃ (j : Nat) (v1 : Int), row[j]? = some 0 ∧ row1[j]? = some v1 ∧ v1 ≠ 0) →
          row1.count 0 < row.count 0) := by
  intro row
  induction row with
  | nil =>
    intro row1 hlen _
    have : row1 = [] := List.length_eq_zero.mp hlen
    subst this
    refine ⟨le_refl _, ?_⟩
    rintro ⟨j, v1, h, _⟩
    simp at h
  | cons a rest ih =>
    intro row1 hlen hkeep
    cases row1 with
    | nil => simp at hlen
    | cons b rest1 =>
      have hlen1 : rest1.length = rest.length := by simpa using hlen
      have hkeep1 : ∀ (j : Nat) (v v1 : Int), rest[j]? = some v → rest1[j]? = some v1 →
          v ≠ 0 → v1 ≠ 0 := fun j v v1 h1 h2 => hkeep (j + 1) v v1 (by simpa using h1)
            (by simpa using h2)
      obtain ⟨hle, hlt⟩ := ih rest1 hlen1 hkeep1
      have hhead : a ≠ 0 → b ≠ 0 := hkeep 0 a b (by simp) (by simp)
      simp only [List.count_cons, beq_iff_eq]
      refine ⟨?_, ?_⟩
      · by_cases ha : a = 0
        · simp only [ha, if_true]; split_ifs <;> omega
        · have hb := hhead ha
          simp only [ha, hb, if_false]; omega
      · rintro ⟨j, v1, h0, h1, hne⟩
        cases j with
        | zero =>
          simp only [List.getElem?_cons_zero, Option.some.injEq] at h0 h1
          subst h0
          subst h1
          simp only [hne, if_false, if_true]
          omega
        | succ j =>
          simp only [List.getElem?_cons_succ] at h0 h1
          have := hlt ⟨j, v1, h0, h1, hne⟩
          by_cases ha : a = 0
          · simp only [ha, if_true]; split_ifs <;> omega
          · have hb := hhead ha
            simp only [ha, hb, if_false]; omega

theorem getCell_cons_succ (r : List Int) (rest : List (List Int)) (k : Nat) (x : Int) :
    getCell (r :: rest) ((k : Int) + 1) x = getCell rest (k : Int) x := by
  unfold getCell
  have e : ((k : Int) + 1).toNat = k + 1 := by omega
  by_cases hx : x < 0
  · have h1 : ((k : Int) + 1 < 0 ∨ x < 0) := Or.inr hx
    have h2 : ((k : Int) < 0 ∨ x < 0) := Or.inr hx
    rw [if_pos h1, if_pos h2]
  · have h1 : ¬ ((k : Int) + 1 < 0 ∨ x < 0) := by omega
    have h2 : ¬ ((k : Int) < 0 ∨ x < 0) := by omega
    rw [if_neg h1, if_neg h2, e]
    simp

theorem getCell_cons_zero (r : List Int) (rest : List (List Int)) (j : Nat) :
    getCell (r :: rest) 0 (j : Int) = r[j]? := by
  unfold getCell
  have h1 : ¬ ((0 : Int) < 0 ∨ (j : Int) < 0) := by omega
  rw [if_neg h1]
  simp

/-- Cells of the same shape in which no cell is emptied: the number of empty cells
does not grow, and it falls when some empty cell is filled. -/
theorem emptyCells_le :
    ∀ (cs cs1 : List (List Int)), shape cs1 = shape cs →
      (∀ (y x v v1 : Int), getCell cs y x = some v → getCell cs1 y x = some v1 →
        v ≠ 0 → v1 ≠ 0) →
      emptyCells cs1 ≤ emptyCells cs ∧
        ((∃ (y x v1 : Int), getCell cs y x = some 0 ∧ getCell cs1 y x = some v1 ∧ v1 ≠ 0) →
          emptyCells cs1 < emptyCells cs) := by
  intro cs
  induction cs with
  | nil =>
    intro cs1 hshape _
    have : cs1 = [] := by
      simp only [shape, List.map_nil, List.map_eq_nil_iff] at hshape
      exact hshape
    subst this
    refine ⟨le_refl _, ?_⟩
    rintro ⟨y, x, v1, h, _⟩
    unfold getCell at h
    split_ifs at h
    simp at h
  | cons r rest ih =>
    intro cs1 hshape hkeep
    cases cs1 with
    | nil => simp [shape] at hshape
    | cons r1 rest1 =>
      simp only [shape, List.map_cons, List.cons.injEq] at hshape
      obtain ⟨hlen, hshape1⟩ := hshape
      have hkeepRow : ∀ (j : Nat) (v v1 : Int), r[j]? = some v → r1[j]? = some v1 →
          v ≠ 0 → v1 ≠ 0 := by
        intro j v v1 h1 h2
        apply hkeep 0 (j : Int) v v1
        · rw [getCell_cons_zero]; exact h1
        · rw [getCell_cons_zero]; exact h2
      have hkeepRest : ∀ (y x v v1 : Int), getCell rest y x = some v →
          getCell rest1 y x = some v1 → v ≠ 0 → v1 ≠ 0 := by
        intro y x v v1 h1 h2
        have hy : 0 ≤ y := by
          unfold getCell at h1
          split_ifs at h1 with hneg
          omega
        obtain ⟨k, rfl⟩ : ∃ k : Nat, y = (k : Int) := ⟨y.toNat, by omega⟩
        apply hkeep ((k : Int) + 1) x v v1
        · rw [getCell_cons_succ]; exact h1
        · rw [getCell_cons_succ]; exact h2
      obtain ⟨hle1, hlt1⟩ := row_count_le r r1 hlen hkeepRow
      obtain ⟨hle2, hlt2⟩ := ih rest1 hshape1 hkeepRest
      simp only [emptyCells, List.map_cons, List.sum_cons] at hle2 hlt2 ⊢
      refine ⟨by omega, ?_⟩
      rintro ⟨y, x, v1, h0, h1, hne⟩
      have hy : 0 ≤ y ∧ 0 ≤ x := by
        unfold getCell at h0
        split_ifs at h0 with hneg
        omega
      obtain ⟨k, rfl⟩ : ∃ k : Nat, y = (k : Int) := ⟨y.toNat, by omega⟩
      obtain ⟨j, rfl⟩ : ∃ j : Nat, x = (j : Int) := ⟨x.toNat, by omega⟩
      cases k with
      | zero =>
        simp only [Nat.cast_zero] at h0 h1
        rw [getCell_cons_zero] at h0 h1
        have := hlt1 ⟨j, v1, h0, h1, hne⟩
        omega
      | succ k =>
        have e : (((k + 1 : Nat) : Int)) = (k : Int) + 1 := by push_cast; ring
        rw [e, getCell_cons_succ] at h0 h1
        have := hlt2 ⟨(k : Int), (j : Int), v1, h0, h1, hne⟩
        omega

theorem collectAnswers_total {ai : Policy} {next : String} {g : Game} {first : Bool}
    {round : Int} (hids : ContiguousIds g.Players) :
    ∀ is : List Nat, (∀ j ∈ is, j < g.Players.length) →
      ∃ answers, collectAnswers ai next g first round is = some answers := by
  intro is
  induction is with
  | nil => intro _; exact ⟨[], rfl⟩
  | cons j rest ih =>
    intro hall
    obtain ⟨as, has⟩ := ih (fun k hk => hall k (List.mem_cons_of_mem _ hk))
    have hj := hids.2 j (List.mem_range.mpr (hall j (List.mem_cons_self _ _)))
    obtain ⟨p, hp⟩ := Option.isSome_iff_exists.mp hj
    have ha : ∃ a, answerFor ai next g first round j = some a := by
      unfold answerFor
      split_ifs
      · exact ⟨_, rfl⟩
      · rw [hp]
        simp only
        split_ifs <;> exact ⟨_, rfl⟩
    obtain ⟨a, ha⟩ := ha
    refine ⟨a :: as, ?_⟩
    unfold collectAnswers
    rw [ha]
    simp only
    rw [has]

theorem processActions_total {answers : List String} :
    ∀ ps : List (Int × Player), (∀ kp ∈ ps, 1 ≤ kp.1 ∧ kp.1 ≤ answers.length) →
      ∃ ps1, processActions answers ps = some ps1 := by
  intro ps
  induction ps with
  | nil => intro _; exact ⟨[], rfl⟩
  | cons kp rest ih =>
    obtain ⟨k, r⟩ := kp
    intro hall
    obtain ⟨rest1, hr⟩ := ih (fun kp hkp => hall kp (List.mem_cons_of_mem _ hkp))
    have hk := hall (k, r) (List.mem_cons_self _ _)
    simp only at hk
    have ha : ∃ a, getAnswer answers k = some a := by
      unfold getAnswer
      have hneg : ¬ (k - 1 < 0) := by omega
      rw [if_neg hneg]
      have hlt : (k - 1).toNat < answers.length := by omega
      exact ⟨answers[(k - 1).toNat], List.getElem?_eq_getElem hlt⟩
    obtain ⟨a, ha⟩ := ha
    refine ⟨(k, processAction a r) :: rest1, ?_⟩
    unfold processActions
    rw [ha]
    simp only
    rw [hr]

theorem dirVec_turnLeft {d : String} (h : (dirVec d).isSome = true) :
    (dirVec (turnLeft d)).isSome = true := by
  unfold dirVec at h
  split_ifs at h with h1 h2 h3 h4
  · subst h1; decide
  · subst h2; decide
  · subst h3; decide
  · subst h4; decide
  · simp at h

theorem dirVec_turnRight {d : String} (h : (dirVec d).isSome = true) :
    (dirVec (turnRight d)).isSome = true := by
  unfold dirVec at h
  split_ifs at h with h1 h2 h3 h4
  · subst h1; decide
  · subst h2; decide
  · subst h3; decide
  · subst h4; decide
  · simp at h

theorem processAction_direction (a : String) {p : Player}
    (h : (dirVec p.Direction).isSome = true) :
    (dirVec (processAction a p).Direction).isSome = true := by
  unfold processAction invalidatePlayer
  split_ifs <;> (try dsimp only) <;> (try split_ifs) <;>
    first
    | exact h
    | exact dirVec_turnLeft h
    | exact dirVec_turnRight h

theorem processActions_ready {answers : List String} {ps ps1 : List (Int × Player)}
    (h : processActions answers ps = some ps1) (hr : PlayersReady ps) : PlayersReady ps1 := by
  rintro ⟨i, p1⟩ hp1 hact
  obtain ⟨a, p, hp, rfl⟩ := processActions_trace h hp1
  simp only at hact ⊢
  obtain ⟨hpact, hsp⟩ := processAction_active hact
  obtain ⟨hd, hs⟩ := hr (i, p) hp hpact
  exact ⟨processAction_direction a hd, hsp hs⟩

theorem movePlayer_total {w h i : Int} {cs : List (List Int)} {p : Player}
    (hsz : CellsSized w h cs) (hd : p.Active = true → (dirVec p.Direction).isSome = true) :
    ∃ cs1 p1, movePlayer w h i cs p = some (cs1, p1) ∧ CellsSized w h cs1 := by
  unfold movePlayer
  by_cases hina : p.Active = false
  · rw [if_pos hina]
    exact ⟨cs, p, rfl, hsz⟩
  · rw [if_neg hina]
    have hact : p.Active = true := by
      cases hp : p.Active
      · exact absurd hp hina
      · rfl
    obtain ⟨d, hd1⟩ := Option.isSome_iff_exists.mp (hd hact)
    obtain ⟨dx, dy⟩ := d
    have hd2 : dirVec ({ p with stepCounter := p.stepCounter + 1 } : Player).Direction
        = some (dx, dy) := hd1
    obtain ⟨cs1, p1, hm⟩ := moveLoop_total p.Speed.toNat 0 cs
      { p with stepCounter := p.stepCounter + 1 } hd2 hsz
    refine ⟨cs1, p1, hm, hsz.1, hsz.2.1, ?_⟩
    rw [moveLoop_shape _ _ _ _ _ _ hm]
    exact hsz.2.2

theorem doMovement_total {w h : Int} :
    ∀ (ps : List (Int × Player)) (cs : List (List Int)), CellsSized w h cs →
      (∀ kp ∈ ps, kp.2.Active = true → (dirVec kp.2.Direction).isSome = true) →
      ∃ cs2 ps2, doMovement w h cs ps = some (cs2, ps2) ∧ CellsSized w h cs2 := by
  intro ps
  induction ps with
  | nil => intro cs hsz _; exact ⟨cs, [], rfl, hsz⟩
  | cons kp rest ih =>
    obtain ⟨k, r⟩ := kp
    intro cs hsz hall
    obtain ⟨cs1, r1, hmp, hsz1⟩ := movePlayer_total (i := k) hsz
      (hall (k, r) (List.mem_cons_self _ _))
    obtain ⟨cs2, rest1, hr, hsz2⟩ := ih cs1 hsz1
      (fun kp hkp => hall kp (List.mem_cons_of_mem _ hkp))
    refine ⟨cs2, (k, r1) :: rest1, ?_, hsz2⟩
    unfold doMovement
    rw [hmp]
    simp only
    rw [hr]

/-- A player that is active after its move: the cells of the walk back of the crash
check are on the board. -/
theorem movePlayer_active_walk {w h i : Int} {c0 c1 : List (List Int)} {p p1 : Player}
    (hm : movePlayer w h i c0 p = some (c1, p1)) (hact1 : p1.Active = true)
    (hsp : 1 ≤ p.Speed) :
    p.Active = true ∧ p1.Direction = p.Direction ∧ p1.Speed = p.Speed ∧
      ∃ dx dy, dirVec p1.Direction = some (dx, dy) ∧
        ∀ s : Nat, s < p1.Speed.toNat →
          InBoard w h (p1.X - (s : Int) * dx) (p1.Y - (s : Int) * dy) := by
  have hact : p.Active = true := by
    cases hpa : p.Active
    · unfold movePlayer at hm
      rw [if_pos hpa] at hm
      simp only [Option.some.injEq, Prod.mk.injEq] at hm
      rw [← hm.2, hpa] at hact1
      exact Bool.noConfusion hact1
    · rfl
  have hne : ¬ (p.Active = false) := by rw [hact]; simp
  unfold movePlayer at hm
  rw [if_neg hne] at hm
  simp only at hm
  obtain ⟨n, hn⟩ : ∃ n, p.Speed.toNat = n + 1 := ⟨p.Speed.toNat - 1, by omega⟩
  rw [hn] at hm
  obtain ⟨dx, dy, hd⟩ := dirVec_of_moveLoop hm
  have hall : ∀ t : Nat, t < n + 1 →
      InBoard w h (p.X + ((t : Int) + 1) * dx) (p.Y + ((t : Int) + 1) * dy) := by
    intro t ht
    by_contra hout
    have := moveLoop_leaves_inactive _ _ _ _ _ _ t hd hm ht hout
    rw [hact1] at this
    exact Bool.noConfusion this
  have hp1 := moveLoop_all_in _ _ _ _ _ _ hd hm hall
  simp only at hp1
  refine ⟨hact, by rw [hp1], by rw [hp1], dx, dy, by rw [hp1]; exact hd, ?_⟩
  intro s hs
  have hs1 : s < n + 1 := by
    have : p1.Speed = p.Speed := by rw [hp1]
    rw [this, hn] at hs
    exact hs
  have := hall (n - s) (by omega)
  have e1 : p1.X - (s : Int) * dx = p.X + (((n - s : Nat) : Int) + 1) * dx := by
    rw [hp1]
    have : ((n - s : Nat) : Int) = (n : Int) - (s : Int) := by omega
    rw [this]; push_cast; ring
  have e2 : p1.Y - (s : Int) * dy = p.Y + (((n - s : Nat) : Int) + 1) * dy := by
    rw [hp1]
    have : ((n - s : Nat) : Int) = (n : Int) - (s : Int) := by omega
    rw [this]; push_cast; ring
  rw [e1, e2]
  exact this

theorem crashPlayer_total {w h : Int} {cells : List (List Int)} {p1 : Player}
    (hsz : CellsSized w h cells)
    (hwalk : p1.Active = true → ∃ dx dy, dirVec p1.Direction = some (dx, dy) ∧
      ∀ s : Nat, s < p1.Speed.toNat →
        InBoard w h (p1.X - (s : Int) * dx) (p1.Y - (s : Int) * dy)) :
    ∃ p2, crashPlayer cells p1 = some p2 := by
  unfold crashPlayer
  by_cases hina : p1.Active = false
  · rw [if_pos hina]; exact ⟨p1, rfl⟩
  · rw [if_neg hina]
    have hact : p1.Active = true := by
      cases hp : p1.Active
      · exact absurd hp hina
      · rfl
    obtain ⟨dx, dy, hd, hin⟩ := hwalk hact
    exact crashLoop_total hd _ _ _ _ (fun t ht => getCell_some_of_sized hsz (hin t ht))

theorem checkCrash_total {w h : Int} {cells : List (List Int)} (hsz : CellsSized w h cells) :
    ∀ ps : List (Int × Player),
      (∀ kp ∈ ps, kp.2.Active = true → ∃ dx dy, dirVec kp.2.Direction = some (dx, dy) ∧
        ∀ s : Nat, s < kp.2.Speed.toNat →
          InBoard w h (kp.2.X - (s : Int) * dx) (kp.2.Y - (s : Int) * dy)) →
      ∃ ps3, checkCrash cells ps = some ps3 := by
  intro ps
  induction ps with
  | nil => intro _; exact ⟨[], rfl⟩
  | cons kp rest ih =>
    obtain ⟨k, r⟩ := kp
    intro hall
    obtain ⟨r2, hr2⟩ := crashPlayer_total hsz (hall (k, r) (List.mem_cons_self _ _))
    obtain ⟨rest3, hr3⟩ := ih (fun kp hkp => hall kp (List.mem_cons_of_mem _ hkp))
    refine ⟨(k, r2) :: rest3, ?_⟩
    unfold checkCrash
    rw [hr2]
    simp only
    rw [hr3]

theorem doMovement_shape {w h : Int} :
    ∀ (ps : List (Int × Player)) (c c2 : List (List Int)) (ps2 : List (Int × Player)),
      doMovement w h c ps = some (c2, ps2) → shape c2 = shape c := by
  intro ps
  induction ps with
  | nil =>
    intro c c2 ps2 hm
    simp only [doMovement, Option.some.injEq, Prod.mk.injEq] at hm
    rw [← hm.1]
  | cons kp rest ih =>
    obtain ⟨k, r⟩ := kp
    intro c c2 ps2 hm
    obtain ⟨c1, r1, rest1, hmp, hr, rfl⟩ := doMovement_cons hm
    rw [ih c1 c2 rest1 hr]
    unfold movePlayer at hmp
    split_ifs at hmp
    · simp only [Option.some.injEq, Prod.mk.injEq] at hmp
      rw [hmp.1]
    · exact moveLoop_shape _ _ _ _ _ _ hmp

/-- Every record after the movement comes from the record with the same key; the
cells on which this player moves are kept from the cells before the movement, and the
cells that its move leaves are kept by the moves after it. -/
theorem doMovement_trace_both {w h : Int} :
    ∀ (ps : List (Int × Player)) (c c2 : List (List Int)) (ps2 : List (Int × Player))
      (i : Int) (p1 : Player),
      doMovement w h c ps = some (c2, ps2) → (i, p1) ∈ ps2 →
      ∃ p c0 c1, (i, p) ∈ ps ∧ movePlayer w h i c0 p = some (c1, p1) ∧
        shape c0 = shape c ∧ CellsKept c c0 ∧ CellsKept c1 c2 := by
  intro ps
  induction ps with
  | nil =>
    intro c c2 ps2 i p1 hm hmem
    simp only [doMovement, Option.some.injEq, Prod.mk.injEq] at hm
    rw [← hm.2] at hmem
    simp at hmem
  | cons kp rest ih =>
    obtain ⟨k, r⟩ := kp
    intro c c2 ps2 i p1 hm hmem
    obtain ⟨c1, r1, rest1, hmp, hr, rfl⟩ := doMovement_cons hm
    rcases List.mem_cons.mp hmem with heq | hin
    · simp only [Prod.mk.injEq] at heq
      obtain ⟨rfl, rfl⟩ := heq
      exact ⟨r, c, c1, List.mem_cons_self _ _, hmp, rfl, CellsKept.refl c,
        doMovement_kept _ _ _ _ hr⟩
    · obtain ⟨p, c0, c1', hp, hmp', hsh, hk0, hk⟩ := ih c1 c2 rest1 i p1 hr hin
      refine ⟨p, c0, c1', List.mem_cons_of_mem _ hp, hmp', ?_,
        CellsKept.trans (movePlayer_kept hmp) hk0, hk⟩
      rw [hsh]
      unfold movePlayer at hmp
      split_ifs at hmp
      · simp only [Option.some.injEq, Prod.mk.injEq] at hmp
        rw [hmp.1]
      · exact moveLoop_shape _ _ _ _ _ _ hmp

/-- A player with speed at least 1 that is active after the crash check does not stand
on a collision mark. -/
theorem crashPlayer_active_cell {cells : List (List Int)} {p1 p2 : Player}
    (h : crashPlayer cells p1 = some p2) (hact : p2.Active = true) (hsp : 1 ≤ p1.Speed) :
    getCell cells p1.Y p1.X ≠ some (-1) := by
  intro hcell
  unfold crashPlayer at h
  split_ifs at h with hina
  · simp only [Option.some.injEq] at h
    rw [← h, hina] at hact
    exact Bool.noConfusion hact
  · obtain ⟨n, hn⟩ : ∃ n, p1.Speed.toNat = n + 1 := ⟨p1.Speed.toNat - 1, by omega⟩
    rw [hn] at h
    unfold crashLoop at h
    rw [hcell] at h
    simp only at h
    have hh : isHole p1 0 = false := by
      unfold isHole
      simp
    rw [if_pos ⟨trivial, hh⟩] at h
    simp only [Option.some.injEq] at h
    rw [← h] at hact
    simp [invalidatePlayer] at hact

theorem playerAlive_exists {ps : List (Int × Player)} (h : playerAlive ps = true) :
    ∃ kp ∈ ps, kp.2.Active = true := by
  induction ps with
  | nil => simp [playerAlive] at h
  | cons kp rest ih =>
    obtain ⟨k, r⟩ := kp
    simp only [playerAlive, Bool.or_eq_true] at h
    rcases h with h | h
    · exact ⟨(k, r), List.mem_cons_self _ _, h⟩
    · obtain ⟨kp, hkp, hact⟩ := ih h
      exact ⟨kp, List.mem_cons_of_mem _ hkp, hact⟩

/-- The empty cells of a round: their number does not grow, and it falls in a round at
whose end a player is active (that player has stamped an empty cell). -/
theorem round_emptyCells {ai : Policy} {next : String} {st st1 : LoopState}
    (hb : roundBody ai next st = some st1) (hfit : st.g.Players.length ≤ 127)
    (hready : PlayersReady st.g.Players) :
    emptyCells st1.g.Cells ≤ emptyCells st.g.Cells ∧
      (playerAlive st1.g.Players = true → emptyCells st1.g.Cells < emptyCells st.g.Cells) := by
  have hfr := roundBody_frame hb
  obtain ⟨you, g1, g2, _, ha, hmc, rfl⟩ := roundBody_some hb
  obtain ⟨answers, ps, _, hpa, rfl⟩ := afterActions_some ha
  obtain ⟨cells, ps2, ps3, hd, hcr, rfl⟩ := moveAndCrash_some hmc
  simp only at hd ⊢
  have hshape := doMovement_shape _ _ _ _ hd
  have hkept := doMovement_kept _ _ _ _ hd
  have hnz : ∀ (y x v v1 : Int), getCell st.g.Cells y x = some v →
      getCell cells y x = some v1 → v ≠ 0 → v1 ≠ 0 := by
    intro y x v v1 h1 h2 hv
    obtain ⟨v2, hv2, hcase⟩ := hkept y x v h1
    rw [h2] at hv2
    simp only [Option.some.injEq] at hv2
    subst hv2
    rcases hcase hv with h | h <;> omega
  obtain ⟨hle, hlt⟩ := emptyCells_le st.g.Cells cells hshape hnz
  refine ⟨hle, fun halive => hlt ?_⟩
  obtain ⟨⟨i, q⟩, hq, hact⟩ := playerAlive_exists halive
  simp only at hact
  obtain ⟨p1, hp1, hcp⟩ := checkCrash_trace ps2 ps3 i q hcr hq
  have hqp := crashPlayer_active hcp hact
  subst hqp
  obtain ⟨p0, c0, c1, hp0, hmp, hsh0, hk0, hk1⟩ := doMovement_trace_both ps _ _ _ i q hd hp1
  have hready1 := processActions_ready hpa hready
  have hq0 : p0.Active = true := by
    cases hpa0 : p0.Active
    · unfold movePlayer at hmp
      rw [if_pos hpa0] at hmp
      simp only [Option.some.injEq, Prod.mk.injEq] at hmp
      rw [← hmp.2, hpa0] at hact
      exact Bool.noConfusion hact
    · rfl
  have hsp0 := (hready1 (i, p0) hp0 hq0).2.1
  simp only at hsp0
  have hi : 1 ≤ i ∧ i ≤ 127 := by
    have h1 : i ∈ ps.map Prod.fst := List.mem_map.mpr ⟨(i, p0), hp0, rfl⟩
    rw [processActions_keys hpa] at h1
    obtain ⟨kq, hkq, he⟩ := List.mem_map.mp h1
    have h2 := hfr.2.2.2.2.2.2 kq hkq
    rw [← he]
    omega
  obtain ⟨_, _, hspq, v0, hv0, hv1⟩ := movePlayer_active_end hmp hact hsp0
  rw [stampValue_small (by omega) hi.2] at hv1
  obtain ⟨v2, hv2, hcase⟩ := hk1 _ _ _ hv1
  have hnot := crashPlayer_active_cell hcp hact (by rw [hspq]; exact hsp0)
  have hstart : ∃ v, getCell st.g.Cells q.Y q.X = some v := by
    rw [getCell_isSome_iff, ← hsh0, ← getCell_isSome_iff]
    exact ⟨v0, hv0⟩
  obtain ⟨v, hv⟩ := hstart
  obtain ⟨v0', hv0', hcase0⟩ := hk0 _ _ _ hv
  rw [hv0] at hv0'
  simp only [Option.some.injEq] at hv0'
  subst hv0'
  by_cases hz : v0 = 0
  · simp only [hz, if_true] at hcase
    have hvz : v = 0 := by
      by_contra hvne
      rcases hcase0 hvne with h | h <;> omega
    subst hvz
    refine ⟨q.Y, q.X, v2, hv, hv2, ?_⟩
    rcases hcase (by omega) with h | h <;> omega
  · exfalso
    simp only [hz, if_false] at hcase
    apply hnot
    rw [hv2]
    rcases hcase (by omega) with h | h <;> rw [h]

theorem contiguousIds_congr {ps qs : List (Int × Player)}
    (h : qs.map Prod.fst = ps.map Prod.fst) (hc : ContiguousIds ps) : ContiguousIds qs := by
  have hlen : qs.length = ps.length := by
    have := congrArg List.length h
    simpa using this
  refine ⟨?_, ?_⟩
  · intro kp hkp
    have h1 : kp.1 ∈ qs.map Prod.fst := List.mem_map.mpr ⟨kp, hkp, rfl⟩
    rw [h] at h1
    obtain ⟨kq, hkq, he⟩ := List.mem_map.mp h1
    rw [hlen, ← he]
    exact hc.1 kq hkq
  · intro j hj
    rw [hlen] at hj
    obtain ⟨p, hp⟩ := Option.isSome_iff_exists.mp (hc.2 j hj)
    have hkey : ((j : Int) + 1) ∈ qs.map Prod.fst := by
      rw [h]
      exact List.mem_map.mpr ⟨(_, p), getPlayer_mem hp, rfl⟩
    obtain ⟨q, hq⟩ := getPlayer_of_key hkey
    rw [hq]
    rfl

theorem getPlayer_isSome_congr {ps qs : List (Int × Player)}
    (h : qs.map Prod.fst = ps.map Prod.fst) {k : Int}
    (hk : (getPlayer ps k).isSome = true) : (getPlayer qs k).isSome = true := by
  obtain ⟨p, hp⟩ := Option.isSome_iff_exists.mp hk
  have hkey : k ∈ qs.map Prod.fst := by
    rw [h]
    exact List.mem_map.mpr ⟨(_, p), getPlayer_mem hp, rfl⟩
  obtain ⟨q, hq⟩ := getPlayer_of_key hkey
  rw [hq]
  rfl

theorem movePlayer_was_active {w h i : Int} {c0 c1 : List (List Int)} {p0 p1 : Player}
    (hmp : movePlayer w h i c0 p0 = some (c1, p1)) (hact : p1.Active = true) :
    p0.Active = true := by
  cases hpa0 : p0.Active
  · unfold movePlayer at hmp
    rw [if_pos hpa0] at hmp
    simp only [Option.some.injEq, Prod.mk.injEq] at hmp
    rw [← hmp.2, hpa0] at hact
    exact Bool.noConfusion hact
  · rfl

/-- On a valid board the body of the loop does not fail. -/
theorem round_defined (ai : Policy) (next : String) {st : LoopState}
    (hv : ValidBoard st.g) : ∃ st1, roundBody ai next st = some st1 := by
  obtain ⟨hsz, hids, hfit, hyou, hready⟩ := hv
  obtain ⟨you, hy⟩ := Option.isSome_iff_exists.mp hyou
  have hex : ∃ answers, collectAnswers ai next st.g st.first (st.round + 1)
      (List.range st.g.Players.length) = some answers :=
    collectAnswers_total hids (List.range st.g.Players.length)
      (fun j hj => List.mem_range.mp hj)
  obtain ⟨answers, hca⟩ := hex
  have hlen : answers.length = st.g.Players.length := by
    rw [collectAnswers_length hca, List.length_range]
  have hex2 : ∃ ps, processActions answers st.g.Players = some ps :=
    processActions_total st.g.Players (fun kp hkp => by rw [hlen]; exact hids.1 kp hkp)
  obtain ⟨ps, hpa⟩ := hex2
  have hready1 := processActions_ready hpa hready
  have hex3 : ∃ cells ps2, doMovement st.g.Width st.g.Height st.g.Cells ps = some (cells, ps2) ∧
      CellsSized st.g.Width st.g.Height cells :=
    doMovement_total ps st.g.Cells hsz (fun kp hkp hact => (hready1 kp hkp hact).1)
  obtain ⟨cells, ps2, hd, hsz2⟩ := hex3
  have hwalk : ∀ kp ∈ ps2, kp.2.Active = true →
      ∃ dx dy, dirVec kp.2.Direction = some (dx, dy) ∧
        ∀ s : Nat, s < kp.2.Speed.toNat →
          InBoard st.g.Width st.g.Height (kp.2.X - (s : Int) * dx)
            (kp.2.Y - (s : Int) * dy) := by
    rintro ⟨i, p1⟩ hp1 hact
    simp only at hact ⊢
    obtain ⟨p0, c0, c1, hp0, hmp⟩ := doMovement_trace ps _ _ _ i p1 hd hp1
    have hq0 := movePlayer_was_active hmp hact
    exact (movePlayer_active_walk hmp hact (hready1 (i, p0) hp0 hq0).2.1).2.2.2
  obtain ⟨ps3, hcr⟩ := checkCrash_total hsz2 ps2 hwalk
  unfold roundBody
  rw [hy]
  simp only
  unfold afterActions
  rw [hca]
  simp only
  rw [hpa]
  simp only
  unfold moveAndCrash
  simp only
  rw [hd]
  simp only
  rw [hcr]
  exact ⟨_, rfl⟩

/-- The board at the end of a round on a valid board is valid. -/
theorem round_valid {ai : Policy} {next : String} {st st1 : LoopState}
    (hb : roundBody ai next st = some st1) (hv : ValidBoard st.g) : ValidBoard st1.g := by
  obtain ⟨hsz, hids, hfit, hyou, hready⟩ := hv
  have hfr := roundBody_frame hb
  obtain ⟨you, g1, g2, _, ha, hmc, rfl⟩ := roundBody_some hb
  obtain ⟨answers, ps, _, hpa, rfl⟩ := afterActions_some ha
  obtain ⟨cells, ps2, ps3, hd, hcr, rfl⟩ := moveAndCrash_some hmc
  simp only at hd hfr ⊢
  have hready1 := processActions_ready hpa hready
  have hkeys : ps3.map Prod.fst = st.g.Players.map Prod.fst := by
    rw [checkCrash_keys hcr, doMovement_keys hd, processActions_keys hpa]
  have hready3 : PlayersReady ps3 := by
    rintro ⟨i, q⟩ hq hact
    simp only at hact ⊢
    obtain ⟨p1, hp1, hcp⟩ := checkCrash_trace ps2 ps3 i q hcr hq
    have hqp := crashPlayer_active hcp hact
    subst hqp
    obtain ⟨p0, c0, c1, hp0, hmp⟩ := doMovement_trace ps _ _ _ i q hd hp1
    have hq0 := movePlayer_was_active hmp hact
    obtain ⟨hd0, hs0⟩ := hready1 (i, p0) hp0 hq0
    obtain ⟨_, hdir, hspd, _⟩ := movePlayer_active_walk hmp hact hs0.1
    rw [hdir, hspd]
    exact ⟨hd0, hs0⟩
  refine ⟨⟨hsz.1, hsz.2.1, ?_⟩, contiguousIds_congr hkeys hids, ?_,
    getPlayer_isSome_congr hkeys hyou, hready3⟩
  · rw [doMovement_shape _ _ _ _ hd]
    exact hsz.2.2
  · have := congrArg List.length hkeys
    simp only [List.length_map] at this
    rw [this]
    exact hfit

/-- On a valid board the loop ends: with fuel for `e + 1` rounds, where `e` bounds the
number of empty cells, it ends after at most `e + 1` rounds. -/
theorem mainGame_terminates (ai : Policy) (next : String) :
    ∀ (e : Nat) (st : LoopState) (fuel : Nat), ValidBoard st.g →
      emptyCells st.g.Cells ≤ e → e + 1 ≤ fuel →
      ∃ fin, mainGame ai next fuel st = Outcome.done fin ∧
        fin.round ≤ st.round + (e : Int) + 1 := by
  intro e
  induction e with
  | zero =>
    intro st fuel hv he hfuel
    obtain ⟨f, rfl⟩ : ∃ f, fuel = f + 1 := ⟨fuel - 1, by omega⟩
    obtain ⟨st1, hb⟩ := round_defined ai next hv
    have hv1 := round_valid hb hv
    have hem := round_emptyCells hb hv.2.2.1 hv.2.2.2.2
    have hdead : playerAlive st1.g.Players = false := by
      cases hal : playerAlive st1.g.Players
      · rfl
      · have := hem.2 hal
        omega
    refine ⟨st1, ?_, ?_⟩
    · rw [mainGame, hb]
      simp only [hdead, Bool.false_eq_true, if_false]
    · rw [(roundBody_frame hb).1]
      simp
  | succ e ih =>
    intro st fuel hv he hfuel
    obtain ⟨f, rfl⟩ : ∃ f, fuel = f + 1 := ⟨fuel - 1, by omega⟩
    obtain ⟨st1, hb⟩ := round_defined ai next hv
    have hv1 := round_valid hb hv
    have hem := round_emptyCells hb hv.2.2.1 hv.2.2.2.2
    have hround := (roundBody_frame hb).1
    cases hal : playerAlive st1.g.Players
    · refine ⟨st1, ?_, ?_⟩
      · rw [mainGame, hb]
        simp only [hal, Bool.false_eq_true, if_false]
      · rw [hround]
        push_cast
        omega
    · have hlt := hem.2 hal
      obtain ⟨fin, hfin, hr⟩ := ih st1 f hv1 (by omega) (by omega)
      refine ⟨fin, ?_, ?_⟩
      · rw [mainGame, hb]
        simp only [hal, if_true]
        exact hfin
      · rw [hround] at hr
        push_cast
        omega

theorem SimulateGame_of_you {fuel : Nat} {ai : Policy} {g : Game} {next : String}
    (hy : (getPlayer g.Players g.You).isSome = true) :
    SimulateGame fuel ai g next = Outcome.done (cutoffResult next, g) ∨
      SimulateGame fuel ai g next = playRounds fuel ai g next := by
  obtain ⟨you, hyou⟩ := Option.isSome_iff_exists.mp hy
  cases hc : cutsOff g next
  · right
    exact SimulateGame_of_not_cutsOff hyou hc
  · left
    have hsf : ActionFaster ≠ ActionSlower := by decide
    simp only [cutsOff, hyou, Bool.or_eq_true, Bool.and_eq_true, beq_iff_eq] at hc
    unfold SimulateGame youSpeedIs
    rw [hyou]
    rcases hc with ⟨hn, hs⟩ | ⟨hn, hs⟩
    · rw [if_pos hn]
      simp [hs]
    · have hn1 : next ≠ ActionSlower := by rw [hn]; exact hsf
      rw [if_neg hn1, if_pos hn]
      simp [hs]

/-- On a valid board `SimulateGame` sends a record: it neither fails nor runs for more
than `emptyCells + 1` rounds. -/
theorem SimulateGame_total (ai : Policy) (g : Game) (next : String) (hv : ValidBoard g)
    (fuel : Nat) (hfuel : emptyCells g.Cells + 1 ≤ fuel) :
    ∃ r gf, SimulateGame fuel ai g next = Outcome.done (r, gf) ∧
      r.round ≤ (emptyCells g.Cells : Int) + 1 := by
  have hcases : SimulateGame fuel ai g next = Outcome.done (cutoffResult next, g) ∨
      SimulateGame fuel ai g next = playRounds fuel ai g next := SimulateGame_of_you hv.2.2.2.1
  rcases hcases with h | h
  · refine ⟨_, _, h, ?_⟩
    simp only [cutoffResult]
    omega
  · obtain ⟨fin, hfin, hr⟩ := mainGame_terminates ai next (emptyCells g.Cells) (initState g)
      fuel hv (le_refl _) hfuel
    refine ⟨(finish next fin).1, (finish next fin).2, ?_, ?_⟩
    · rw [h]
      unfold playRounds
      rw [hfin]
    · simp only [finish]
      simp only [initState] at hr
      omega

/-! ## A rollout that does not end -/

/-- A round on `wrapOwnBoard` after the speed of player 1 has wrapped around to `-2^63`:
the player answers change_nothing, does not move and stays active. -/
theorem wrapOwnBoard_round (c r s so : Int) (pa : List String) :
    roundBody aiNoop ActionFaster
        { g := { wrapOwnBoard with
                 Players := [(1, mkPlayer 0 0 DirectionRight (-9223372036854775808) c)],
                 playerAnswer := pa },
          first := false, round := r, survived := s, survivedOpponent := so, winner := 1 }
      = some
        { g := { wrapOwnBoard with
                 Players := [(1, mkPlayer 0 0 DirectionRight (-9223372036854775808) (c + 1))],
                 playerAnswer := [ActionNOOP] },
          first := false, round := r + 1, survived := s + 1, survivedOpponent := so,
          winner := 1 } := by
  rfl

/-- The loop `mainGame` does not end in that state, whatever the fuel. -/
theorem wrapOwnBoard_loops (fuel : Nat) :
    ∀ (c r s so : Int) (pa : List String),
      mainGame aiNoop ActionFaster fuel
        { g := { wrapOwnBoard with
                 Players := [(1, mkPlayer 0 0 DirectionRight (-9223372036854775808) c)],
                 playerAnswer := pa },
          first := false, round := r, survived := s, survivedOpponent := so, winner := 1 }
        = Outcome.outOfFuel := by
  induction fuel with
  | zero => intro c r s so pa; rfl
  | succ fuel ih =>
    intro c r s so pa
    unfold mainGame
    rw [wrapOwnBoard_round]
    exact ih (c + 1) (r + 1) (s + 1) so [ActionNOOP]

/-- On `wrapOwnBoard` with the seed speed_up the loop `mainGame` does not end: round 1
wraps the speed of player 1 around to `-2^63`. -/
theorem wrapOwnBoard_mainGame (fuel : Nat) :
    mainGame aiNoop ActionFaster fuel (initState wrapOwnBoard) = Outcome.outOfFuel := by
  cases fuel with
  | zero => rfl
  | succ fuel =>
    have h1 : roundBody aiNoop ActionFaster (initState wrapOwnBoard)
        = some
          { g := { wrapOwnBoard with
                   Players := [(1, mkPlayer 0 0 DirectionRight (-9223372036854775808) 1)],
                   playerAnswer := [ActionFaster] },
            first := false, round := 0 + 1, survived := -1 + 1, survivedOpponent := -1,
            winner := 1 } := by
      rfl
    unfold mainGame
    rw [h1]
    exact wrapOwnBoard_loops fuel 1 (0 + 1) (-1 + 1) (-1) [ActionFaster]

theorem wrapOwnBoard_SimulateGame (fuel : Nat) :
    SimulateGame fuel aiNoop wrapOwnBoard ActionFaster = Outcome.outOfFuel := by
  have h : SimulateGame fuel aiNoop wrapOwnBoard ActionFaster
      = playRounds fuel aiNoop wrapOwnBoard ActionFaster := by
    rfl
  rw [h]
  unfold playRounds
  rw [wrapOwnBoard_mainGame]

/-- Every round of that rollout is played and ends with player 1 active. -/
theorem wrapOwnBoard_rounds (k : Nat) :
    ∃ (c r s so : Int) (pa : List String),
      stateAfter aiNoop ActionFaster wrapOwnBoard (k + 1) = some
        { g := { wrapOwnBoard with
                 Players := [(1, mkPlayer 0 0 DirectionRight (-9223372036854775808) c)],
                 playerAnswer := pa },
          first := false, round := r, survived := s, survivedOpponent := so, winner := 1 } := by
  induction k with
  | zero => exact ⟨1, 0 + 1, -1 + 1, -1, [ActionFaster], rfl⟩
  | succ k ih =>
    obtain ⟨c, r, s, so, pa, h⟩ := ih
    refine ⟨c + 1, r + 1, s + 1, so, [ActionNOOP], ?_⟩
    unfold stateAfter at h ⊢
    rw [roundsFrom, h]
    exact wrapOwnBoard_round c r s so pa

/-! ## C18: when `SimulateGame` sends a record -/

/-- C18, as stated, fails for the player ids {1, 3} and for a speed that `Speed++` wraps
around. (1) The board `gapBoard` has its cells in `{-1, 0, 1..6}`, its active players in
bounds on their own cells and `You` among its keys, yet the rollout with seed
`change_nothing` fails in round 1 under every policy (`g.Players[2]` is nil in the loop
over `g.playerAnswer`), so no record is sent. (2) The board `wrapOwnBoard` has these
properties as well, and player 1 has the speed `maxInt`: with the seed speed_up and
change_nothing answered in every round the player stays active with the speed `-2^63`
and does not move, so the loop does not end and no record is sent. -/
theorem SimulateGame_sends_no_record :
    (CellsInRange 6 gapBoard.Cells ∧
      (∀ kp ∈ gapBoard.Players, kp.2.Active = true →
        (0 ≤ kp.2.X ∧ kp.2.X < gapBoard.Width ∧ 0 ≤ kp.2.Y ∧ kp.2.Y < gapBoard.Height) ∧
        getCell gapBoard.Cells kp.2.Y kp.2.X = some kp.1) ∧
      (getPlayer gapBoard.Players gapBoard.You).isSome = true ∧
      (∀ (fuel : Nat) (ai : Policy),
        SimulateGame (fuel + 1) ai gapBoard ActionNOOP = Outcome.panicked) ∧
      ¬ ∃ (fuel : Nat) (ai : Policy) (r : Result) (gf : Game),
        SimulateGame fuel ai gapBoard ActionNOOP = Outcome.done (r, gf)) ∧
    (CellsInRange 6 wrapOwnBoard.Cells ∧
      (∀ kp ∈ wrapOwnBoard.Players, kp.2.Active = true →
        (0 ≤ kp.2.X ∧ kp.2.X < wrapOwnBoard.Width ∧ 0 ≤ kp.2.Y ∧
          kp.2.Y < wrapOwnBoard.Height) ∧
        getCell wrapOwnBoard.Cells kp.2.Y kp.2.X = some kp.1) ∧
      (getPlayer wrapOwnBoard.Players wrapOwnBoard.You).isSome = true ∧
      (∀ k : Nat, ∃ s, stateAfter aiNoop ActionFaster wrapOwnBoard (k + 1) = some s ∧
        playerAlive s.g.Players = true) ∧
      ¬ ∃ (fuel : Nat) (r : Result) (gf : Game),
        SimulateGame fuel aiNoop wrapOwnBoard ActionFaster = Outcome.done (r, gf)) := by
  refine ⟨⟨by unfold CellsInRange; decide, by decide, by decide, fun fuel ai => rfl, ?_⟩,
    by unfold CellsInRange; decide, by decide, by decide, ?_, ?_⟩
  · rintro ⟨fuel, ai, r, gf, h⟩
    cases fuel with
    | zero => exact Outcome.noConfusion h
    | succ fuel =>
      have hp : SimulateGame (fuel + 1) ai gapBoard ActionNOOP = Outcome.panicked := rfl
      rw [hp] at h
      exact Outcome.noConfusion h
  · intro k
    obtain ⟨c, r, s, so, pa, h⟩ := wrapOwnBoard_rounds k
    exact ⟨_, h, rfl⟩
  · rintro ⟨fuel, r, gf, h⟩
    rw [wrapOwnBoard_SimulateGame] at h
    exact Outcome.noConfusion h

/-- C18, amended: on a board whose cells are `Height` rows of `Width` cells, whose
player ids are exactly `1..n` with `n ≤ 127`, on which `You` is one of them and every
active player has one of the four directions and a speed of at least 1 and below
`maxInt = 2^63 - 1`, `SimulateGame` sends a record under every policy and every seed
action: no access fails, and the loop ends within `emptyCells + 1` rounds. -/
theorem SimulateGame_sends_record (ai : Policy) (g : Game) (next : String)
    (hv : ValidBoard g) (fuel : Nat) (hfuel : emptyCells g.Cells + 1 ≤ fuel) :
    ∃ r gf, SimulateGame fuel ai g next = Outcome.done (r, gf) := by
  obtain ⟨r, gf, h, _⟩ := SimulateGame_total ai g next hv fuel hfuel
  exact ⟨r, gf, h⟩

/-- C18, amended, on the head-on board (three empty cells, fuel for four rounds). -/
theorem SimulateGame_sends_record_witness :
    ∃ r gf, SimulateGame 4 aiNoop headOnBoard ActionNOOP = Outcome.done (r, gf) :=
  SimulateGame_sends_record aiNoop headOnBoard ActionNOOP
    ⟨⟨by decide, by decide, by decide⟩, ⟨by decide, by decide⟩, by decide, by decide,
      by unfold PlayersReady; decide⟩ 4 (by decide)

theorem idx_bound {w h x y : Int} (hin : InBoard w h x y) :
    0 ≤ y * w + x ∧ y * w + x < h * w := by
  obtain ⟨h1, h2, h3, h4⟩ := hin
  have hw : 0 ≤ w := by omega
  constructor
  · have := mul_nonneg h3 hw
    omega
  · have h5 : (y + 1) * w ≤ h * w := mul_le_mul_of_nonneg_right (by omega) hw
    have h6 : (y + 1) * w = y * w + w := by ring
    omega

theorem idx_inj {w h x y x1 y1 : Int} (hin : InBoard w h x y) (hin1 : InBoard w h x1 y1)
    (he : y * w + x = y1 * w + x1) : x = x1 ∧ y = y1 := by
  obtain ⟨h1, h2, h3, h4⟩ := hin
  obtain ⟨k1, k2, k3, k4⟩ := hin1
  have hw : 0 ≤ w := by omega
  have hy : y = y1 := by
    rcases lt_trichotomy y y1 with hlt | heq | hgt
    · exfalso
      have h5 : (y + 1) * w ≤ y1 * w := mul_le_mul_of_nonneg_right (by omega) hw
      have h6 : (y + 1) * w = y * w + w := by ring
      omega
    · exact heq
    · exfalso
      have h5 : (y1 + 1) * w ≤ y * w := mul_le_mul_of_nonneg_right (by omega) hw
      have h6 : (y1 + 1) * w = y1 * w + w := by ring
      omega
  subst hy
  exact ⟨by omega, rfl⟩

theorem getFlag_set_same {vis : List Bool} {k : Int} {b : Bool}
    (h : getFlag vis k = some b) (v : Bool) : getFlag (vis.set k.toNat v) k = some v := by
  unfold getFlag at h ⊢
  split_ifs at h ⊢ with hk
  have hlt : k.toNat < vis.length := by
    by_contra hge
    rw [List.getElem?_eq_none (by omega)] at h
    exact Option.noConfusion h
  simp [List.getElem?_set, hlt]

theorem getFlag_set_other {vis : List Bool} {k j : Int} (hk : 0 ≤ k) (hj : 0 ≤ j)
    (hne : j ≠ k) (v : Bool) : getFlag (vis.set k.toNat v) j = getFlag vis j := by
  unfold getFlag
  have : ¬ j < 0 := by omega
  simp only [if_neg this]
  apply List.getElem?_set_ne
  intro he
  apply hne
  omega

/-- Setting the flag of an unmarked cell of the board marks that cell and no other. -/
theorem marked_set {g : Game} {vis : List Bool} {x y : Int}
    (hin : InBoard g.Width g.Height x y)
    (hf : getFlag vis (y * g.Width + x) = some false) (c : Int × Int) :
    Marked g (vis.set (y * g.Width + x).toNat true) c ↔ Marked g vis c ∨ c = (x, y) := by
  have hb := idx_bound hin
  constructor
  · rintro ⟨hc, hm⟩
    by_cases he : c.2 * g.Width + c.1 = y * g.Width + x
    · right
      obtain ⟨e1, e2⟩ := idx_inj hc hin he
      exact Prod.ext e1 e2
    · left
      rw [getFlag_set_other hb.1 (idx_bound hc).1 he] at hm
      exact ⟨hc, hm⟩
  · rintro (⟨hc, hm⟩ | rfl)
    · refine ⟨hc, ?_⟩
      by_cases he : c.2 * g.Width + c.1 = y * g.Width + x
      · rw [he]
        exact getFlag_set_same hf true
      · rw [getFlag_set_other hb.1 (idx_bound hc).1 he]
        exact hm
    · exact ⟨hin, getFlag_set_same hf true⟩

theorem not_marked_of_false {g : Game} {vis : List Bool} {x y : Int}
    (hf : getFlag vis (y * g.Width + x) = some false) : ¬ Marked g vis (x, y) := by
  rintro ⟨_, hm⟩
  simp only at hm
  rw [hf] at hm
  exact Bool.noConfusion (Option.some.inj hm)

/-- The set of marked empty cells after the flag of an unmarked cell is set. -/
theorem markedFree_set {g : Game} {vis : List Bool} {x y : Int}
    (hin : InBoard g.Width g.Height x y)
    (hf : getFlag vis (y * g.Width + x) = some false) :
    ((markedFree g (vis.set (y * g.Width + x).toNat true)).card : Int)
      = (markedFree g vis).card + (if getCell g.Cells y x = some 0 then 1 else 0) := by
  have hnot : (x, y) ∉ markedFree g vis := by
    intro hmem
    simp only [markedFree, Finset.mem_filter] at hmem
    exact not_marked_of_false hf hmem.2.1
  by_cases hfree : getCell g.Cells y x = some 0
  · have hset : markedFree g (vis.set (y * g.Width + x).toNat true)
        = insert (x, y) (markedFree g vis) := by
      ext c
      simp only [markedFree, Finset.mem_filter, Finset.mem_insert, Finset.mem_product,
        Finset.mem_Ico, marked_set hin hf]
      constructor
      · rintro ⟨hb, hm | hm, hfc⟩
        · right; exact ⟨hb, hm, hfc⟩
        · left; exact hm
      · rintro (rfl | ⟨hb, hm, hfc⟩)
        · exact ⟨⟨⟨hin.1, hin.2.1⟩, hin.2.2.1, hin.2.2.2⟩, Or.inr rfl, hin, hfree⟩
        · exact ⟨hb, Or.inl hm, hfc⟩
    rw [hset, Finset.card_insert_of_not_mem hnot, if_pos hfree]
    push_cast
    ring
  · have hset : markedFree g (vis.set (y * g.Width + x).toNat true) = markedFree g vis := by
      ext c
      simp only [markedFree, Finset.mem_filter, Finset.mem_product, Finset.mem_Ico,
        marked_set hin hf]
      constructor
      · rintro ⟨hb, hm | hm, hfc⟩
        · exact ⟨hb, hm, hfc⟩
        · exfalso
          subst hm
          exact hfree hfc.2
      · rintro ⟨hb, hm, hfc⟩
        exact ⟨hb, Or.inl hm, hfc⟩
    rw [hset, if_neg hfree]
    simp

theorem runCalls_cons {g : Game} {fuel : Nat} {cutoff : Int} {c : Int × Int}
    {rest : List (Int × Int)} {s r : Int × List Bool}
    (h : runCalls g fuel cutoff (c :: rest) s = Outcome.done r) :
    ∃ r1, freeSpaceConnectedInternal g fuel s.2 c.1 c.2 cutoff s.1 = Outcome.done r1 ∧
      runCalls g fuel cutoff rest r1 = Outcome.done r := by
  unfold runCalls at h
  cases h1 : freeSpaceConnectedInternal g fuel s.2 c.1 c.2 cutoff s.1 with
  | done r1 => rw [h1] at h; exact ⟨r1, rfl, h⟩
  | panicked => rw [h1] at h; exact Outcome.noConfusion h
  | outOfFuel => rw [h1] at h; exact Outcome.noConfusion h

theorem runCalls_cons_done {g : Game} {fuel : Nat} {cutoff : Int} {c : Int × Int}
    {rest : List (Int × Int)} {s r1 : Int × List Bool}
    (h1 : freeSpaceConnectedInternal g fuel s.2 c.1 c.2 cutoff s.1 = Outcome.done r1) :
    runCalls g fuel cutoff (c :: rest) s = runCalls g fuel cutoff rest r1 := by
  rw [runCalls, h1]

/-- The recursive calls of `freeSpaceConnectedInternal` are the calls on the four
neighbours. -/
theorem internal_succ (g : Game) (fuel : Nat) (vis : List Bool) (x y cutoff current : Int) :
    freeSpaceConnectedInternal g (fuel + 1) vis x y cutoff current =
      if cutoff ≠ -1 ∧ current > cutoff then Outcome.done (current, vis)
      else if x < 0 ∨ x ≥ g.Width ∨ y < 0 ∨ y ≥ g.Height then Outcome.done (current, vis)
      else
        match getFlag vis (y * g.Width + x) with
        | none => Outcome.panicked
        | some true => Outcome.done (current, vis)
        | some false =>
          match getCell g.Cells y x with
          | none => Outcome.panicked
          | some v =>
            if v ≠ 0 then Outcome.done (current, vis.set (y * g.Width + x).toNat true)
            else runCalls g fuel cutoff (neighbourCells x y)
              (current + 1, vis.set (y * g.Width + x).toNat true) := by
  rw [freeSpaceConnectedInternal]
  split_ifs with h1 h2
  · rfl
  · rfl
  · cases hf : getFlag vis (y * g.Width + x) with
    | none => rfl
    | some b =>
      cases b with
      | true => rfl
      | false =>
        simp only
        cases hc : getCell g.Cells y x with
        | none => rfl
        | some v =>
          simp only
          split_ifs with hv
          · rfl
          · simp only [neighbourCells, runCalls]
            cases freeSpaceConnectedInternal g fuel (vis.set (y * g.Width + x).toNat true)
                (x - 1) y cutoff (current + 1) with
            | panicked => rfl
            | outOfFuel => rfl
            | done r1 =>
              simp only
              cases freeSpaceConnectedInternal g fuel r1.2 (x + 1) y cutoff r1.1 with
              | panicked => rfl
              | outOfFuel => rfl
              | done r2 =>
                simp only
                cases freeSpaceConnectedInternal g fuel r2.2 x (y - 1) cutoff r2.1 with
                | panicked => rfl
                | outOfFuel => rfl
                | done r3 =>
                  simp only
                  cases freeSpaceConnectedInternal g fuel r3.2 x (y + 1) cutoff r3.1 <;> rfl

theorem freeSpaceConnected_eq (fuel : Nat) (g : Game) (slice : Option (List Bool))
    (x y cutoff : Int) :
    freeSpaceConnected fuel g slice x y cutoff =
      match clearedSlice g slice with
      | none => Outcome.panicked
      | some vis0 => runCalls g fuel cutoff (seedCells x y) (0, vis0) := by
  unfold freeSpaceConnected
  cases clearedSlice g slice with
  | none => rfl
  | some vis0 =>
    simp only [seedCells, runCalls]
    cases freeSpaceConnectedInternal g fuel vis0 x y cutoff 0 with
    | panicked => rfl
    | outOfFuel => rfl
    | done r0 =>
      simp only
      cases freeSpaceConnectedInternal g fuel r0.2 (x - 1) y cutoff r0.1 with
      | panicked => rfl
      | outOfFuel => rfl
      | done r1 =>
        simp only
        cases freeSpaceConnectedInternal g fuel r1.2 (x + 1) y cutoff r1.1 with
        | panicked => rfl
        | outOfFuel => rfl
        | done r2 =>
          simp only
          cases freeSpaceConnectedInternal g fuel r2.2 x (y - 1) cutoff r2.1 with
          | panicked => rfl
          | outOfFuel => rfl
          | done r3 =>
            simp only
            cases freeSpaceConnectedInternal g fuel r3.2 x (y + 1) cutoff r3.1 <;> rfl

/-- What a call that returns has done, case by case. -/
theorem internal_cases {g : Game} {fuel : Nat} {vis : List Bool} {x y cutoff current : Int}
    {r : Int × List Bool}
    (h : freeSpaceConnectedInternal g (fuel + 1) vis x y cutoff current = Outcome.done r) :
    (r = (current, vis) ∧
      ((cutoff ≠ -1 ∧ current > cutoff) ∨ ¬ InBoard g.Width g.Height x y ∨
        (InBoard g.Width g.Height x y ∧ getFlag vis (y * g.Width + x) = some true))) ∨
    (¬ (cutoff ≠ -1 ∧ current > cutoff) ∧ InBoard g.Width g.Height x y ∧
      getFlag vis (y * g.Width + x) = some false ∧
      ((∃ v, getCell g.Cells y x = some v ∧ v ≠ 0 ∧
          r = (current, vis.set (y * g.Width + x).toNat true)) ∨
        (getCell g.Cells y x = some 0 ∧
          runCalls g fuel cutoff (neighbourCells x y)
            (current + 1, vis.set (y * g.Width + x).toNat true) = Outcome.done r))) := by
  rw [internal_succ] at h
  split_ifs at h with h1 h2
  · left
    simp only [Outcome.done.injEq] at h
    exact ⟨h.symm, Or.inl h1⟩
  · left
    simp only [Outcome.done.injEq] at h
    refine ⟨h.symm, Or.inr (Or.inl ?_)⟩
    unfold InBoard
    omega
  · have hin : InBoard g.Width g.Height x y := by
      unfold InBoard
      omega
    cases hf : getFlag vis (y * g.Width + x) with
    | none => rw [hf] at h; exact Outcome.noConfusion h
    | some b =>
      rw [hf] at h
      cases b with
      | true =>
        left
        simp only [Outcome.done.injEq] at h
        exact ⟨h.symm, Or.inr (Or.inr ⟨hin, rfl⟩)⟩
      | false =>
        right
        simp only at h
        refine ⟨h1, hin, rfl, ?_⟩
        cases hc : getCell g.Cells y x with
        | none => rw [hc] at h; exact Outcome.noConfusion h
        | some v =>
          rw [hc] at h
          simp only at h
          split_ifs at h with hv
          · left
            simp only [Outcome.done.injEq] at h
            exact ⟨v, rfl, hv, h.symm⟩
          · right
            have hv0 : v = 0 := by
              by_contra hne
              exact hv hne
            subst hv0
            exact ⟨rfl, h⟩

theorem callPost_seq {g : Game} {fuel : Nat}
    (hcall : ∀ (vis : List Bool) (x y cur : Int) (r : Int × List Bool),
      freeSpaceConnectedInternal g fuel vis x y (-1) cur = Outcome.done r →
      CallPost g [(x, y)] (cur, vis) r) :
    ∀ (seeds : List (Int × Int)) (s r : Int × List Bool),
      runCalls g fuel (-1) seeds s = Outcome.done r → CallPost g seeds s r := by
  intro seeds
  induction seeds with
  | nil =>
    intro s r h
    simp only [runCalls, Outcome.done.injEq] at h
    subst h
    refine ⟨rfl, fun c hc => hc, ?_, ?_, ?_, by ring⟩
    · intro a ha; simp at ha
    · intro c hc hn; exact absurd hc hn
    · intro u hu hn; exact absurd hu hn
  | cons a rest ih =>
    intro s r h
    obtain ⟨r1, h1, h2⟩ := runCalls_cons h
    obtain ⟨l1, m1, s1, n1, c1, k1⟩ := hcall s.2 a.1 a.2 s.1 r1 h1
    obtain ⟨l2, m2, s2, n2, c2, k2⟩ := ih r1 r h2
    simp only at l1 m1 s1 n1 c1 k1
    refine ⟨by rw [l2, l1], fun c hc => m2 c (m1 c hc), ?_, ?_, ?_, by rw [k2, k1]; ring⟩
    · intro b hb hin
      rcases List.mem_cons.mp hb with rfl | hb
      · exact m2 _ (s1 (b.1, b.2) (List.mem_singleton.mpr rfl) hin)
      · exact s2 b hb hin
    · intro c hc hn
      by_cases hm : Marked g r1.2 c
      · obtain ⟨b, hb, hconn⟩ := n1 c hm hn
        rw [List.mem_singleton] at hb
        subst hb
        exact ⟨a, List.mem_cons_self _ _, hconn⟩
      · obtain ⟨b, hb, hconn⟩ := n2 c hc hm
        exact ⟨b, List.mem_cons_of_mem _ hb, hconn⟩
    · intro u hu hn hfree v hadj hin
      by_cases hm : Marked g r1.2 u
      · exact m2 v (c1 u hm hn hfree v hadj hin)
      · exact c2 u hu hm hfree v hadj hin

theorem adjacent_mem_neighbours {x y : Int} {v : Int × Int} (h : Adjacent (x, y) v) :
    v ∈ neighbourCells x y := by
  obtain ⟨v1, v2⟩ := v
  simp only [Adjacent] at h
  simp only [neighbourCells, List.mem_cons, Prod.mk.injEq, List.mem_singleton]
  rcases h with ⟨h1, h2 | h2⟩ | ⟨h1, h2 | h2⟩
  · left; exact ⟨h2, h1⟩
  · right; left; exact ⟨h2, h1⟩
  · right; right; left; exact ⟨h1, h2⟩
  · right; right; right
    simp only [List.not_mem_nil, or_false]
    exact ⟨h1, h2⟩

theorem neighbours_adjacent {x y : Int} {v : Int × Int} (h : v ∈ neighbourCells x y) :
    Adjacent (x, y) v := by
  obtain ⟨v1, v2⟩ := v
  simp only [neighbourCells, List.mem_cons, Prod.mk.injEq, List.mem_singleton,
    List.not_mem_nil, or_false] at h
  simp only [Adjacent]
  rcases h with ⟨h1, h2⟩ | ⟨h1, h2⟩ | ⟨h1, h2⟩ | ⟨h1, h2⟩
  · left; exact ⟨h2, Or.inl h1⟩
  · left; exact ⟨h2, Or.inr h1⟩
  · right; exact ⟨h1, Or.inl h2⟩
  · right; exact ⟨h1, Or.inr h2⟩

/-- What a call of `freeSpaceConnectedInternal` without cutoff has done when it returns. -/
theorem internal_post (g : Game) :
    ∀ (fuel : Nat) (vis : List Bool) (x y cur : Int) (r : Int × List Bool),
      freeSpaceConnectedInternal g fuel vis x y (-1) cur = Outcome.done r →
      CallPost g [(x, y)] (cur, vis) r := by
  intro fuel
  induction fuel with
  | zero =>
    intro vis x y cur r h
    simp only [freeSpaceConnectedInternal] at h
    exact Outcome.noConfusion h
  | succ fuel ih =>
    intro vis x y cur r h
    rcases internal_cases h with ⟨rfl, hcase⟩ | ⟨_, hin, hf, hcase⟩
    · refine ⟨rfl, fun c hc => hc, ?_, fun c hc hn => absurd hc hn,
        fun u hu hn => absurd hu hn, by simp⟩
      intro a ha hina
      rw [List.mem_singleton] at ha
      subst ha
      rcases hcase with ⟨hne, _⟩ | hout | ⟨_, hm⟩
      · exact absurd rfl hne
      · exact absurd hina hout
      · exact ⟨hina, hm⟩
    · have hms := marked_set hin hf
      have hcard := markedFree_set hin hf
      have hnm := not_marked_of_false (g := g) hf
      rcases hcase with ⟨v, hv, hv0, rfl⟩ | ⟨hfree, hrun⟩
      · refine ⟨by simp, fun c hc => (hms c).mpr (Or.inl hc), ?_, ?_, ?_, ?_⟩
        · intro a ha _
          rw [List.mem_singleton] at ha
          subst ha
          exact (hms _).mpr (Or.inr rfl)
        · intro c hc hn
          rcases (hms c).mp hc with h1 | rfl
          · exact absurd h1 hn
          · exact ⟨(x, y), List.mem_singleton.mpr rfl, Relation.ReflTransGen.refl⟩
        · intro u hu hn hfu
          rcases (hms u).mp hu with h1 | rfl
          · exact absurd h1 hn
          · exfalso
            have := hfu.2
            simp only at this
            rw [hv] at this
            exact hv0 (Option.some.inj this)
        · simp only
          rw [hcard, hv]
          have : ¬ (some v = some (0 : Int)) := fun he => hv0 (Option.some.inj he)
          rw [if_neg this]
          ring
      · obtain ⟨l2, m2, s2, n2, c2, k2⟩ := callPost_seq ih _ _ _ hrun
        simp only at l2 m2 s2 n2 c2 k2
        have hfc : FreeCell g (x, y) := ⟨hin, hfree⟩
        refine ⟨by rw [l2]; simp, fun c hc => m2 c ((hms c).mpr (Or.inl hc)), ?_, ?_, ?_, ?_⟩
        · intro a ha _
          rw [List.mem_singleton] at ha
          subst ha
          exact m2 _ ((hms _).mpr (Or.inr rfl))
        · intro c hc hn
          refine ⟨(x, y), List.mem_singleton.mpr rfl, ?_⟩
          by_cases hm : Marked g (vis.set (y * g.Width + x).toNat true) c
          · rcases (hms c).mp hm with h1 | rfl
            · exact absurd h1 hn
            · exact Relation.ReflTransGen.refl
          · obtain ⟨b, hb, hconn⟩ := n2 c hc hm
            exact Relation.ReflTransGen.head ⟨hfc, neighbours_adjacent hb⟩ hconn
        · intro u hu hn hfu v hadj hinv
          by_cases hm : Marked g (vis.set (y * g.Width + x).toNat true) u
          · rcases (hms u).mp hm with h1 | rfl
            · exact absurd h1 hn
            · exact s2 v (adjacent_mem_neighbours hadj) hinv
          · exact c2 u hu hm hfu v hadj hinv
        · simp only
          rw [k2, hcard, if_pos hfree]
          ring

theorem count_false_set :
    ∀ (vis : List Bool) (k : Nat), vis[k]? = some false →
      (vis.set k true).count false + 1 = vis.count false := by
  intro vis
  induction vis with
  | nil => intro k h; simp at h
  | cons b rest ih =>
    intro k h
    cases k with
    | zero =>
      simp only [List.getElem?_cons_zero, Option.some.injEq] at h
      subst h
      simp [List.count_cons]
    | succ k =>
      simp only [List.getElem?_cons_succ] at h
      have := ih k h
      simp only [List.set_cons_succ, List.count_cons]
      omega

theorem getFlag_some_of_lt {vis : List Bool} {k : Int} (h0 : 0 ≤ k)
    (h1 : k < (vis.length : Int)) : ∃ b, getFlag vis k = some b := by
  unfold getFlag
  have : ¬ k < 0 := by omega
  rw [if_neg this]
  have hlt : k.toNat < vis.length := by omega
  exact ⟨vis[k.toNat], List.getElem?_eq_getElem hlt⟩

theorem totality_seq {g : Game} {fuel : Nat}
    (hcall : ∀ (vis : List Bool) (x y cur : Int),
      vis.length = (g.Height * g.Width).toNat → vis.count false < fuel →
      ∃ r, freeSpaceConnectedInternal g fuel vis x y (-1) cur = Outcome.done r ∧
        r.2.length = vis.length ∧ r.2.count false ≤ vis.count false) :
    ∀ (seeds : List (Int × Int)) (s : Int × List Bool),
      s.2.length = (g.Height * g.Width).toNat → s.2.count false < fuel →
      ∃ r, runCalls g fuel (-1) seeds s = Outcome.done r ∧
        r.2.length = s.2.length ∧ r.2.count false ≤ s.2.count false := by
  intro seeds
  induction seeds with
  | nil => intro s _ _; exact ⟨s, rfl, rfl, le_refl _⟩
  | cons a rest ih =>
    intro s hlen hcount
    obtain ⟨r1, h1, l1, k1⟩ := hcall s.2 a.1 a.2 s.1 hlen hcount
    obtain ⟨r, h2, l2, k2⟩ := ih r1 (by rw [l1, hlen]) (by omega)
    refine ⟨r, ?_, by rw [l2, l1], by omega⟩
    rw [runCalls_cons_done h1]
    exact h2

/-- On a board of `Height` rows of `Width` cells, with a slice of `Height*Width` flags,
a call without cutoff returns when the fuel exceeds the number of clear flags. -/
theorem internal_total (g : Game) (hsz : CellsSized g.Width g.Height g.Cells) :
    ∀ (fuel : Nat) (vis : List Bool) (x y cur : Int),
      vis.length = (g.Height * g.Width).toNat → vis.count false < fuel →
      ∃ r, freeSpaceConnectedInternal g fuel vis x y (-1) cur = Outcome.done r ∧
        r.2.length = vis.length ∧ r.2.count false ≤ vis.count false := by
  intro fuel
  induction fuel with
  | zero => intro vis x y cur _ h; omega
  | succ fuel ih =>
    intro vis x y cur hlen hcount
    rw [internal_succ]
    have hc : ¬ ((-1 : Int) ≠ -1 ∧ cur > -1) := fun h => h.1 rfl
    rw [if_neg hc]
    by_cases hout : x < 0 ∨ x ≥ g.Width ∨ y < 0 ∨ y ≥ g.Height
    · rw [if_pos hout]
      exact ⟨_, rfl, rfl, le_refl _⟩
    · rw [if_neg hout]
      have hin : InBoard g.Width g.Height x y := by
        unfold InBoard
        omega
      have hb := idx_bound hin
      have hnn : 0 ≤ g.Height * g.Width := by omega
      have hflag : ∃ b, getFlag vis (y * g.Width + x) = some b :=
        getFlag_some_of_lt hb.1 (by rw [hlen]; omega)
      obtain ⟨b, hf⟩ := hflag
      rw [hf]
      cases b with
      | true => exact ⟨_, rfl, rfl, le_refl _⟩
      | false =>
        simp only
        obtain ⟨v, hv⟩ := getCell_some_of_sized hsz hin
        rw [hv]
        simp only
        have hfk : vis[(y * g.Width + x).toNat]? = some false := by
          unfold getFlag at hf
          have : ¬ (y * g.Width + x < 0) := by omega
          rw [if_neg this] at hf
          exact hf
        have hcnt := count_false_set vis _ hfk
        by_cases hv0 : v ≠ 0
        · rw [if_pos hv0]
          exact ⟨_, rfl, by simp, by simp only; omega⟩
        · rw [if_neg hv0]
          have hseq : ∃ r, runCalls g fuel (-1) (neighbourCells x y)
              (cur + 1, vis.set (y * g.Width + x).toNat true) = Outcome.done r ∧
              r.2.length = (vis.set (y * g.Width + x).toNat true).length ∧
              r.2.count false ≤ (vis.set (y * g.Width + x).toNat true).count false :=
            totality_seq ih (neighbourCells x y)
              (cur + 1, vis.set (y * g.Width + x).toNat true) (by simp [hlen])
              (by simp only; omega)
          obtain ⟨r, hr, l, k⟩ := hseq
          exact ⟨r, hr, by rw [l]; simp, by omega⟩

/-- The states of the run without cutoff (`sf`) and of the run with cutoff `c` (`sc`)
go together: they are equal as long as the count is at most `c`, and from then on the
count with cutoff is `c + 1` and the count without cutoff is at least that. -/
theorem sim_seq {g : Game} {fuel : Nat} {c : Int}
    (hcall : ∀ (vis : List Bool) (x y cur : Int) (rf sc : Int × List Bool),
      freeSpaceConnectedInternal g fuel vis x y (-1) cur = Outcome.done rf →
      ((sc = (cur, vis) ∧ cur ≤ c) ∨ (sc.1 = c + 1 ∧ c + 1 ≤ cur)) →
      ∃ rc, freeSpaceConnectedInternal g fuel sc.2 x y c sc.1 = Outcome.done rc ∧
        ((rc = rf ∧ rf.1 ≤ c) ∨ (rc.1 = c + 1 ∧ c + 1 ≤ rf.1))) :
    ∀ (seeds : List (Int × Int)) (sf sc rf : Int × List Bool),
      runCalls g fuel (-1) seeds sf = Outcome.done rf →
      ((sc = sf ∧ sf.1 ≤ c) ∨ (sc.1 = c + 1 ∧ c + 1 ≤ sf.1)) →
      ∃ rc, runCalls g fuel c seeds sc = Outcome.done rc ∧
        ((rc = rf ∧ rf.1 ≤ c) ∨ (rc.1 = c + 1 ∧ c + 1 ≤ rf.1)) := by
  intro seeds
  induction seeds with
  | nil =>
    intro sf sc rf h hrel
    simp only [runCalls, Outcome.done.injEq] at h
    subst h
    exact ⟨sc, rfl, hrel⟩
  | cons a rest ih =>
    intro sf sc rf h hrel
    obtain ⟨r1, h1, h2⟩ := runCalls_cons h
    obtain ⟨rc1, hc1, hrel1⟩ := hcall sf.2 a.1 a.2 sf.1 r1 sc h1 hrel
    obtain ⟨rc, hc, hrel2⟩ := ih r1 rc1 rf h2 hrel1
    refine ⟨rc, ?_, hrel2⟩
    rw [runCalls_cons_done hc1]
    exact hc

theorem markedFree_mono {g : Game} {vis vis1 : List Bool}
    (h : ∀ c, Marked g vis c → Marked g vis1 c) :
    (markedFree g vis).card ≤ (markedFree g vis1).card := by
  apply Finset.card_le_card
  intro c hc
  simp only [markedFree, Finset.mem_filter] at hc ⊢
  exact ⟨hc.1, h c hc.2.1, hc.2.2⟩

theorem internal_mono {g : Game} {fuel : Nat} {vis : List Bool} {x y cur : Int}
    {r : Int × List Bool}
    (h : freeSpaceConnectedInternal g fuel vis x y (-1) cur = Outcome.done r) : cur ≤ r.1 := by
  obtain ⟨_, m, _, _, _, k⟩ := internal_post g fuel vis x y cur r h
  have := markedFree_mono m
  simp only at k this
  omega

theorem sim_call (g : Game) (c : Int) (hc : 0 ≤ c) :
    ∀ (fuel : Nat) (vis : List Bool) (x y cur : Int) (rf sc : Int × List Bool),
      freeSpaceConnectedInternal g fuel vis x y (-1) cur = Outcome.done rf →
      ((sc = (cur, vis) ∧ cur ≤ c) ∨ (sc.1 = c + 1 ∧ c + 1 ≤ cur)) →
      ∃ rc, freeSpaceConnectedInternal g fuel sc.2 x y c sc.1 = Outcome.done rc ∧
        ((rc = rf ∧ rf.1 ≤ c) ∨ (rc.1 = c + 1 ∧ c + 1 ≤ rf.1)) := by
  intro fuel
  induction fuel with
  | zero =>
    intro vis x y cur rf sc h
    simp only [freeSpaceConnectedInternal] at h
    exact Outcome.noConfusion h
  | succ fuel ih =>
    intro vis x y cur rf sc h hrel
    have hmono := internal_mono h
    rcases hrel with ⟨rfl, hle⟩ | ⟨hsc, hge⟩
    · simp only
      have hnc : ¬ (c ≠ -1 ∧ cur > c) := by omega
      rw [internal_succ, if_neg hnc]
      rcases internal_cases h with ⟨rfl, hcase⟩ | ⟨_, hin, hf, hcase⟩
      · rcases hcase with ⟨hne, _⟩ | hout | ⟨hin, hm⟩
        · exact absurd rfl hne
        · have : x < 0 ∨ x ≥ g.Width ∨ y < 0 ∨ y ≥ g.Height := by
            unfold InBoard at hout
            omega
          rw [if_pos this]
          exact ⟨_, rfl, Or.inl ⟨rfl, hle⟩⟩
        · have : ¬ (x < 0 ∨ x ≥ g.Width ∨ y < 0 ∨ y ≥ g.Height) := by
            unfold InBoard at hin
            omega
          rw [if_neg this, hm]
          exact ⟨_, rfl, Or.inl ⟨rfl, hle⟩⟩
      · have : ¬ (x < 0 ∨ x ≥ g.Width ∨ y < 0 ∨ y ≥ g.Height) := by
          unfold InBoard at hin
          omega
        rw [if_neg this, hf]
        simp only
        rcases hcase with ⟨v, hv, hv0, rfl⟩ | ⟨hfree, hrun⟩
        · rw [hv]
          simp only
          rw [if_pos hv0]
          exact ⟨_, rfl, Or.inl ⟨rfl, hle⟩⟩
        · rw [hfree]
          simp only
          have hz : ¬ ((0 : Int) ≠ 0) := fun h0 => h0 rfl
          rw [if_neg hz]
          apply sim_seq ih (neighbourCells x y) _ _ rf hrun
          by_cases hlt : cur + 1 ≤ c
          · exact Or.inl ⟨rfl, hlt⟩
          · right
            simp only
            omega
    · have hcut : c ≠ -1 ∧ sc.1 > c := by omega
      rw [internal_succ, if_pos hcut]
      exact ⟨_, rfl, Or.inr ⟨hsc, by omega⟩⟩

theorem clearedSlice_some {g : Game} {slice : Option (List Bool)}
    (hnn : 0 ≤ g.Height * g.Width)
    (hslice : ∀ s, slice = some s → s.length = (g.Height * g.Width).toNat) :
    clearedSlice g slice = some (List.replicate (g.Height * g.Width).toNat false) := by
  unfold clearedSlice
  cases slice with
  | none =>
    simp only
    have : ¬ (g.Height * g.Width < 0) := by omega
    rw [if_neg this]
  | some s =>
    simp only
    rw [hslice s rfl]

theorem not_marked_cleared (g : Game) (n : Nat) (c : Int × Int) :
    ¬ Marked g (List.replicate n false) c := by
  rintro ⟨_, hm⟩
  unfold getFlag at hm
  split_ifs at hm
  rw [List.getElem?_replicate] at hm
  split_ifs at hm
  exact Bool.noConfusion (Option.some.inj hm)

theorem conn_counted {g : Game} {a c : Int × Int} (h : Conn g a c) (hc : FreeCell g c) :
    FreeCell g a ∧ Relation.ReflTransGen (fun u v => Adjacent u v ∧ FreeCell g v) a c := by
  induction h using Relation.ReflTransGen.head_induction_on with
  | refl => exact ⟨hc, Relation.ReflTransGen.refl⟩
  | head hstep _ ih =>
    exact ⟨hstep.1, Relation.ReflTransGen.head ⟨hstep.2, ih.1⟩ ih.2⟩

/-- The run without cutoff on a board of `Height` rows of `Width` cells: it returns,
and the count is the number of the empty cells that are marked, which are the cells
that the specification counts. -/
theorem freeSpaceConnected_full (g : Game) (slice : Option (List Bool)) (x y : Int)
    (fuel : Nat) (hsz : CellsSized g.Width g.Height g.Cells)
    (hslice : ∀ s, slice = some s → s.length = (g.Height * g.Width).toNat)
    (hfuel : (g.Height * g.Width).toNat + 1 ≤ fuel) :
    ∃ r, clearedSlice g slice = some (List.replicate (g.Height * g.Width).toNat false) ∧
      runCalls g fuel (-1) (seedCells x y)
        (0, List.replicate (g.Height * g.Width).toNat false) = Outcome.done r ∧
      freeSpaceConnected fuel g slice x y (-1) = Outcome.done r ∧
      r.1 = ((markedFree g r.2).card : Int) ∧
      ∀ c, c ∈ markedFree g r.2 ↔ Counted g x y c := by
  have hnn : 0 ≤ g.Height * g.Width := mul_nonneg hsz.2.1 hsz.1
  have hcl := clearedSlice_some hnn hslice
  have hex : ∃ r, runCalls g fuel (-1) (seedCells x y)
      (0, List.replicate (g.Height * g.Width).toNat false) = Outcome.done r ∧
      r.2.length = (List.replicate (g.Height * g.Width).toNat false).length ∧
      r.2.count false ≤ (List.replicate (g.Height * g.Width).toNat false).count false :=
    totality_seq (internal_total g hsz fuel) (seedCells x y)
      (0, List.replicate (g.Height * g.Width).toNat false) (by simp)
      (by simp only [List.count_replicate_self]; omega)
  obtain ⟨r, hrun, _, _⟩ := hex
  obtain ⟨_, _, hseed, hnew, hclosed, hcount⟩ :=
    callPost_seq (internal_post g fuel) _ _ _ hrun
  simp only at hseed hnew hclosed hcount
  have hnone := not_marked_cleared g (g.Height * g.Width).toNat
  have hempty : markedFree g (List.replicate (g.Height * g.Width).toNat false) = ∅ := by
    ext c
    simp only [markedFree, Finset.mem_filter, Finset.not_mem_empty, iff_false]
    rintro ⟨_, hm, _⟩
    exact hnone c hm
  refine ⟨r, hcl, hrun, ?_, ?_, ?_⟩
  · rw [freeSpaceConnected_eq, hcl]
    exact hrun
  · rw [hcount, hempty]
    simp
  · intro c
    constructor
    · intro hc
      simp only [markedFree, Finset.mem_filter] at hc
      obtain ⟨_, hm, hfree⟩ := hc
      obtain ⟨a, ha, hconn⟩ := hnew c hm (hnone c)
      obtain ⟨hfa, hpath⟩ := conn_counted hconn hfree
      exact ⟨a, ha, hfa, hpath⟩
    · rintro ⟨a, ha, hfa, hpath⟩
      have hinv : Marked g r.2 c ∧ FreeCell g c := by
        induction hpath with
        | refl => exact ⟨hseed a ha hfa.1, hfa⟩
        | tail _ hstep ih =>
          exact ⟨hclosed _ ih.1 (hnone _) ih.2 _ hstep.1 hstep.2.1, hstep.2⟩
      simp only [markedFree, Finset.mem_filter, Finset.mem_product, Finset.mem_Ico]
      obtain ⟨h1, h2, h3, h4⟩ := hinv.2.1
      exact ⟨⟨⟨h1, h2⟩, h3, h4⟩, hinv⟩

/-! ## C16 and C17: the flood fill -/

/-- C17: on a board of `Height` rows of `Width` cells (the slice `freeCountingSlice` is
nil or has `Height*Width` flags), `freeSpaceConnected(x, y, -1)` returns, and its value
is the number of the cells that are empty, on the board, and are the start cell or one
of its four neighbours or joined to such an empty cell by a path of 4-adjacent empty
cells; each such cell is counted once (the value is the size of their set), and the
start cell is among them iff it is empty. -/
theorem freeSpaceConnected_counts (g : Game) (slice : Option (List Bool)) (x y : Int)
    (fuel : Nat) (hsz : CellsSized g.Width g.Height g.Cells)
    (hslice : ∀ s, slice = some s → s.length = (g.Height * g.Width).toNat)
    (hfuel : (g.Height * g.Width).toNat + 1 ≤ fuel) :
    ∃ (n : Int) (vis : List Bool) (S : Finset (Int × Int)),
      freeSpaceConnected fuel g slice x y (-1) = Outcome.done (n, vis) ∧
      (∀ c, c ∈ S ↔ Counted g x y c) ∧ n = (S.card : Int) ∧
      ((x, y) ∈ S ↔ FreeCell g (x, y)) := by
  obtain ⟨r, _, _, hrun, hcount, hset⟩ := freeSpaceConnected_full g slice x y fuel hsz hslice hfuel
  refine ⟨r.1, r.2, markedFree g r.2, hrun, hset, hcount, ?_⟩
  rw [hset]
  constructor
  · rintro ⟨a, _, hfa, hpath⟩
    cases hpath with
    | refl => exact hfa
    | tail _ hstep => exact hstep.2
  · intro hf
    exact ⟨(x, y), by simp [seedCells], hf, Relation.ReflTransGen.refl⟩

/-- C17 on `wallBoard`, started on the occupied cell (0,0): the value is 3. -/
theorem freeSpaceConnected_counts_witness :
    ∃ (n : Int) (vis : List Bool) (S : Finset (Int × Int)),
      freeSpaceConnected 13 wallBoard none 0 0 (-1) = Outcome.done (n, vis) ∧
      (∀ c, c ∈ S ↔ Counted wallBoard 0 0 c) ∧ n = (S.card : Int) ∧
      ((0, 0) ∈ S ↔ FreeCell wallBoard (0, 0)) :=
  freeSpaceConnected_counts wallBoard none 0 0 13 ⟨by decide, by decide, by decide⟩
    (fun s hs => Option.noConfusion hs) (by decide)

/-- C16: on a board of `Height` rows of `Width` cells and for a cutoff `≥ 0`, both
`freeSpaceConnected(x, y, -1)` and `freeSpaceConnected(x, y, cutoff)` return; with `T`
the value without cutoff (the number of the cells that the specification counts), the
value with cutoff is `min(T, cutoff+1)`, so it is at least `min(T, cutoff+1)` and at
most `T`. -/
theorem freeSpaceConnected_cutoff (g : Game) (slice : Option (List Bool)) (x y cutoff : Int)
    (fuel : Nat) (hsz : CellsSized g.Width g.Height g.Cells)
    (hslice : ∀ s, slice = some s → s.length = (g.Height * g.Width).toNat)
    (hcut : 0 ≤ cutoff) (hfuel : (g.Height * g.Width).toNat + 1 ≤ fuel) :
    ∃ (T R : Int) (visT visR : List Bool) (S : Finset (Int × Int)),
      freeSpaceConnected fuel g slice x y (-1) = Outcome.done (T, visT) ∧
      freeSpaceConnected fuel g slice x y cutoff = Outcome.done (R, visR) ∧
      (∀ c, c ∈ S ↔ Counted g x y c) ∧ T = (S.card : Int) ∧
      min T (cutoff + 1) ≤ R ∧ R ≤ T ∧ R = min T (cutoff + 1) := by
  obtain ⟨r, hcl, hruns, hrun, hcount, hset⟩ :=
    freeSpaceConnected_full g slice x y fuel hsz hslice hfuel
  have hsim : ∃ rc, runCalls g fuel cutoff (seedCells x y)
      (0, List.replicate (g.Height * g.Width).toNat false) = Outcome.done rc ∧
      ((rc = r ∧ r.1 ≤ cutoff) ∨ (rc.1 = cutoff + 1 ∧ cutoff + 1 ≤ r.1)) :=
    sim_seq (sim_call g cutoff hcut fuel) (seedCells x y) _ _ r hruns (Or.inl ⟨rfl, hcut⟩)
  obtain ⟨rc, hrc, hrel⟩ := hsim
  refine ⟨r.1, rc.1, r.2, rc.2, markedFree g r.2, hrun, ?_, hset, hcount, ?_⟩
  · rw [freeSpaceConnected_eq, hcl]
    exact hrc
  · rcases hrel with ⟨rfl, hle⟩ | ⟨he, hle⟩
    · have : min rc.1 (cutoff + 1) = rc.1 := min_eq_left (by omega)
      rw [this]
      exact ⟨le_refl _, le_refl _, rfl⟩
    · have : min r.1 (cutoff + 1) = cutoff + 1 := min_eq_right hle
      rw [this, he]
      exact ⟨le_refl _, hle, rfl⟩

/-- C16 on `wallBoard`, started on the wall cell (2,1) with cutoff 3: the value with
cutoff is 4 and the value without cutoff is 6. -/
theorem freeSpaceConnected_cutoff_witness :
    freeSpaceConnected 13 wallBoard none 2 1 3
        = Outcome.done (4, [true, true, true, false, true, true, true, true, true, true,
            false, false]) ∧
    ∃ (T R : Int) (visT visR : List Bool) (S : Finset (Int × Int)),
      freeSpaceConnected 13 wallBoard none 2 1 (-1) = Outcome.done (T, visT) ∧
      freeSpaceConnected 13 wallBoard none 2 1 3 = Outcome.done (R, visR) ∧
      (∀ c, c ∈ S ↔ Counted wallBoard 2 1 c) ∧ T = (S.card : Int) ∧
      min T (3 + 1) ≤ R ∧ R ≤ T ∧ R = min T (3 + 1) :=
  ⟨by decide, freeSpaceConnected_cutoff wallBoard none 2 1 3 13
    ⟨by decide, by decide, by decide⟩ (fun s hs => Option.noConfusion hs) (by decide)
    (by decide)⟩

theorem getPlayer_perm {ps qs : List (Int × Player)} (h : ps.Perm qs)
    (hnd : (ps.map Prod.fst).Nodup) (k : Int) : getPlayer ps k = getPlayer qs k := by
  induction h with
  | nil => rfl
  | cons a _ ih =>
    obtain ⟨i, p⟩ := a
    simp only [List.map_cons, List.nodup_cons] at hnd
    simp only [getPlayer]
    rw [ih hnd.2]
  | swap a b l =>
    obtain ⟨i, p⟩ := a
    obtain ⟨j, q⟩ := b
    simp only [List.map_cons, List.nodup_cons, List.mem_cons, not_or] at hnd
    simp only [getPlayer]
    by_cases h1 : j = k
    · have h2 : ¬ i = k := by
        rintro rfl
        exact hnd.1.1 h1
      simp [h1, h2]
    · simp [h1]
  | trans h1 _ ih1 ih2 =>
    rw [ih1 hnd, ih2 ((h1.map Prod.fst).nodup_iff.mp hnd)]

theorem countOpponent_perm {you : Int} {act : Bool} {ps qs : List (Int × Player)}
    (h : ps.Perm qs) (opp : Int) :
    countOpponent you act ps opp = countOpponent you act qs opp := by
  induction h with
  | nil => rfl
  | cons a _ ih =>
    obtain ⟨i, p⟩ := a
    simp only [countOpponent]
    rw [ih]
  | swap a b l =>
    obtain ⟨i, p⟩ := a
    obtain ⟨j, q⟩ := b
    simp only [countOpponent]
    split_ifs <;> rfl
  | trans _ _ ih1 ih2 => rw [ih1, ih2]

theorem playerAlive_perm {ps qs : List (Int × Player)} (h : ps.Perm qs) :
    playerAlive ps = playerAlive qs := by
  induction h with
  | nil => rfl
  | cons a _ ih =>
    obtain ⟨i, p⟩ := a
    simp only [playerAlive]
    rw [ih]
  | swap a b l =>
    obtain ⟨i, p⟩ := a
    obtain ⟨j, q⟩ := b
    simp only [playerAlive]
    cases p.Active <;> cases q.Active <;> rfl
  | trans _ _ ih1 ih2 => rw [ih1, ih2]

theorem findWinner_perm {ps qs : List (Int × Player)} (h : ps.Perm qs)
    (hkeys : ∀ kp ∈ ps, kp.1 ≠ -1) (w : Int) : findWinner ps w = findWinner qs w := by
  induction h generalizing w with
  | nil => rfl
  | cons a _ ih =>
    obtain ⟨i, p⟩ := a
    simp only [findWinner]
    rw [ih (fun kp hkp => hkeys kp (List.mem_cons_of_mem _ hkp)),
      ih (fun kp hkp => hkeys kp (List.mem_cons_of_mem _ hkp))]
  | swap a b l =>
    obtain ⟨i, p⟩ := a
    obtain ⟨j, q⟩ := b
    have hi : i ≠ -1 := hkeys (i, p) (by simp)
    have hj : j ≠ -1 := hkeys (j, q) (by simp)
    simp only [findWinner]
    split_ifs <;> rfl
  | trans h1 _ ih1 ih2 =>
    rw [ih1 hkeys, ih2 (fun kp hkp => hkeys kp (h1.mem_iff.mpr hkp))]

theorem processActions_perm (answers : List String) {ps qs : List (Int × Player)}
    (h : ps.Perm qs) :
    (processActions answers ps = none ∧ processActions answers qs = none) ∨
      ∃ ps1 qs1, processActions answers ps = some ps1 ∧ processActions answers qs = some qs1 ∧
        ps1.Perm qs1 := by
  induction h with
  | nil => right; exact ⟨[], [], rfl, rfl, List.Perm.nil⟩
  | cons a _ ih =>
    obtain ⟨i, p⟩ := a
    simp only [processActions]
    cases getAnswer answers i with
    | none => left; exact ⟨rfl, rfl⟩
    | some x =>
      simp only
      rcases ih with ⟨h1, h2⟩ | ⟨ps1, qs1, h1, h2, hp⟩
      · left; rw [h1, h2]; exact ⟨rfl, rfl⟩
      · right; rw [h1, h2]; exact ⟨_, _, rfl, rfl, hp.cons _⟩
  | swap a b l =>
    obtain ⟨i, p⟩ := a
    obtain ⟨j, q⟩ := b
    simp only [processActions]
    cases getAnswer answers i <;> cases getAnswer answers j <;>
      cases processActions answers l <;> simp only <;>
      first
      | (left; exact ⟨trivial, trivial⟩)
      | (right; exact ⟨_, _, rfl, rfl, List.Perm.swap _ _ _⟩)
  | trans _ _ ih1 ih2 =>
    rcases ih1 with ⟨h1, h2⟩ | ⟨ps1, qs1, h1, h2, hp⟩
    · rcases ih2 with ⟨h3, h4⟩ | ⟨ps2, qs2, h3, _, _⟩
      · left; exact ⟨h1, h4⟩
      · rw [h2] at h3; exact Option.noConfusion h3
    · rcases ih2 with ⟨h3, _⟩ | ⟨ps2, qs2, h3, h4, hp2⟩
      · rw [h2] at h3; exact Option.noConfusion h3
      · rw [h2] at h3
        simp only [Option.some.injEq] at h3
        subst h3
        right; exact ⟨ps1, qs2, h1, h4, hp.trans hp2⟩

theorem checkCrash_perm (cells : List (List Int)) {ps qs : List (Int × Player)}
    (h : ps.Perm qs) :
    (checkCrash cells ps = none ∧ checkCrash cells qs = none) ∨
      ∃ ps1 qs1, checkCrash cells ps = some ps1 ∧ checkCrash cells qs = some qs1 ∧
        ps1.Perm qs1 := by
  induction h with
  | nil => right; exact ⟨[], [], rfl, rfl, List.Perm.nil⟩
  | cons a _ ih =>
    obtain ⟨i, p⟩ := a
    simp only [checkCrash]
    cases crashPlayer cells p with
    | none => left; exact ⟨rfl, rfl⟩
    | some x =>
      simp only
      rcases ih with ⟨h1, h2⟩ | ⟨ps1, qs1, h1, h2, hp⟩
      · left; rw [h1, h2]; exact ⟨rfl, rfl⟩
      · right; rw [h1, h2]; exact ⟨_, _, rfl, rfl, hp.cons _⟩
  | swap a b l =>
    obtain ⟨i, p⟩ := a
    obtain ⟨j, q⟩ := b
    simp only [checkCrash]
    cases crashPlayer cells p <;> cases crashPlayer cells q <;>
      cases checkCrash cells l <;> simp only <;>
      first
      | (left; exact ⟨trivial, trivial⟩)
      | (right; exact ⟨_, _, rfl, rfl, List.Perm.swap _ _ _⟩)
  | trans _ _ ih1 ih2 =>
    rcases ih1 with ⟨h1, h2⟩ | ⟨ps1, qs1, h1, h2, hp⟩
    · rcases ih2 with ⟨h3, h4⟩ | ⟨ps2, qs2, h3, _, _⟩
      · left; exact ⟨h1, h4⟩
      · rw [h2] at h3; exact Option.noConfusion h3
    · rcases ih2 with ⟨h3, _⟩ | ⟨ps2, qs2, h3, h4, hp2⟩
      · rw [h2] at h3; exact Option.noConfusion h3
      · rw [h2] at h3
        simp only [Option.some.injEq] at h3
        subst h3
        right; exact ⟨ps1, qs2, h1, h4, hp.trans hp2⟩

theorem movePlayer_shape {w h i : Int} {c c1 : List (List Int)} {p p1 : Player}
    (hm : movePlayer w h i c p = some (c1, p1)) : shape c1 = shape c := by
  unfold movePlayer at hm
  split_ifs at hm
  · simp only [Option.some.injEq, Prod.mk.injEq] at hm
    rw [hm.1]
  · exact moveLoop_shape _ _ _ _ _ _ hm

/-- The player that comes out of a move does not depend on the cells or on the id, and
the move fails on cells iff it fails on all cells of the same shape. -/
theorem movePlayer_transfer {w h i j : Int} {c c1 d : List (List Int)} {p p1 : Player}
    (hm : movePlayer w h i c p = some (c1, p1)) (hsh : shape d = shape c) :
    ∃ d1, movePlayer w h j d p = some (d1, p1) := by
  unfold movePlayer at hm ⊢
  split_ifs at hm ⊢
  · simp only [Option.some.injEq, Prod.mk.injEq] at hm
    exact ⟨d, by rw [hm.2]⟩
  · exact moveLoop_transfer _ _ _ _ _ _ _ hm hsh

/-- What a move does to the cells: a cell that it stamps, and that cell only, gets the
stamp on the value it held. -/
theorem movePlayer_pointwise {w h i : Int} {c c1 : List (List Int)} {p p1 : Player}
    (hm : movePlayer w h i c p = some (c1, p1)) (x y : Int) :
    (MoveStamps w h p x y → ∀ v, getCell c y x = some v →
        getCell c1 y x = some (stampValue i v)) ∧
      (¬ MoveStamps w h p x y → getCell c1 y x = getCell c y x) := by
  unfold movePlayer at hm
  split_ifs at hm with hina
  · simp only [Option.some.injEq, Prod.mk.injEq] at hm
    rw [← hm.1]
    refine ⟨?_, fun _ => rfl⟩
    rintro ⟨hact, _⟩
    rw [hina] at hact
    exact Bool.noConfusion hact
  · have hact : p.Active = true := by
      cases hp : p.Active
      · exact absurd hp hina
      · rfl
    cases hn : p.Speed.toNat with
    | zero =>
      simp only at hm
      rw [hn] at hm
      simp only [moveLoop, Option.some.injEq, Prod.mk.injEq] at hm
      rw [← hm.1]
      refine ⟨?_, fun _ => rfl⟩
      rintro ⟨_, dx, dy, _, t, ht, _⟩
      omega
    | succ n =>
      simp only at hm
      rw [hn] at hm
      obtain ⟨dx, dy, hd⟩ := dirVec_of_moveLoop hm
      have hpt := moveLoop_pointwise _ _ _ _ _ _ hd hm x y
      have hiff : MoveStamps w h p x y ↔
          StampsCell w h { p with stepCounter := p.stepCounter + 1 } dx dy 0 (n + 1) x y := by
        constructor
        · rintro ⟨_, dx1, dy1, hd1, hst⟩
          have hd2 : dirVec p.Direction = some (dx, dy) := hd
          rw [hd2] at hd1
          simp only [Option.some.injEq, Prod.mk.injEq] at hd1
          rw [← hd1.1, ← hd1.2, hn] at hst
          exact hst
        · intro hst
          refine ⟨hact, dx, dy, hd, ?_⟩
          rw [hn]
          exact hst
      rw [hiff]
      exact hpt

theorem getCell_none_of_shape {c d : List (List Int)} (hsh : shape d = shape c) {y x : Int}
    (h : getCell c y x = none) : getCell d y x = none := by
  cases hd : getCell d y x with
  | none => rfl
  | some v =>
    exfalso
    have : ∃ v0, getCell c y x = some v0 := by
      rw [getCell_isSome_iff, ← hsh, ← getCell_isSome_iff]
      exact ⟨v, hd⟩
    obtain ⟨v0, hv0⟩ := this
    rw [h] at hv0
    exact Option.noConfusion hv0

theorem stampValue_ne_zero {i : Int} (hi : toInt8 i ≠ 0) (v : Int) : stampValue i v ≠ 0 := by
  unfold stampValue
  split_ifs
  · omega
  · exact hi

theorem stampValue_of_ne_zero (i : Int) {v : Int} (hv : v ≠ 0) : stampValue i v = -1 := by
  unfold stampValue
  rw [if_pos hv]

/-- The moves of two players with ids that are not zero as `int8` can be made in either
order. -/
theorem movePlayer_comm {w h i j : Int} {c ci cij : List (List Int)} {p p1 q q1 : Player}
    (hi : toInt8 i ≠ 0) (hj : toInt8 j ≠ 0)
    (h1 : movePlayer w h i c p = some (ci, p1)) (h2 : movePlayer w h j ci q = some (cij, q1)) :
    ∃ cj, movePlayer w h j c q = some (cj, q1) ∧ movePlayer w h i cj p = some (cij, p1) := by
  have hsi := movePlayer_shape h1
  have hsij := movePlayer_shape h2
  obtain ⟨cj, h3⟩ : ∃ cj, movePlayer w h j c q = some (cj, q1) :=
    movePlayer_transfer h2 hsi.symm
  have hsj := movePlayer_shape h3
  obtain ⟨cji, h4⟩ : ∃ cji, movePlayer w h i cj p = some (cji, p1) :=
    movePlayer_transfer h1 hsj
  have hsji := movePlayer_shape h4
  refine ⟨cj, h3, ?_⟩
  have heq : cji = cij := by
    apply cells_ext
    · rw [hsji, hsj, hsij, hsi]
    · intro y x
      cases hv : getCell c y x with
      | none =>
        rw [getCell_none_of_shape (by rw [hsji, hsj]) hv,
          getCell_none_of_shape (by rw [hsij, hsi]) hv]
      | some v =>
        have p_i := movePlayer_pointwise h1 x y
        have p_ij := movePlayer_pointwise h2 x y
        have p_j := movePlayer_pointwise h3 x y
        have p_ji := movePlayer_pointwise h4 x y
        by_cases hsp : MoveStamps w h p x y <;> by_cases hsq : MoveStamps w h q x y
        · have e1 := p_i.1 hsp v hv
          have e2 := p_ij.1 hsq _ e1
          have e3 := p_j.1 hsq v hv
          have e4 := p_ji.1 hsp _ e3
          rw [e2, e4, stampValue_of_ne_zero j (stampValue_ne_zero hi v),
            stampValue_of_ne_zero i (stampValue_ne_zero hj v)]
        · have e1 := p_i.1 hsp v hv
          have e2 := p_ij.2 hsq
          have e3 := p_j.2 hsq
          rw [hv] at e3
          have e4 := p_ji.1 hsp v e3
          rw [e2, e1, e4]
        · have e1 := p_i.2 hsp
          rw [hv] at e1
          have e2 := p_ij.1 hsq v e1
          have e3 := p_j.1 hsq v hv
          have e4 := p_ji.2 hsp
          rw [e2, e4, e3]
        · have e1 := p_i.2 hsp
          have e2 := p_ij.2 hsq
          have e3 := p_j.2 hsq
          have e4 := p_ji.2 hsp
          rw [e2, e1, e4, e3]
  rw [← heq]
  exact h4

theorem doMovement_cons_some {w h : Int} {i : Int} {p p1 : Player}
    {rest : List (Int × Player)} {c c1 : List (List Int)}
    (hm : movePlayer w h i c p = some (c1, p1)) :
    doMovement w h c ((i, p) :: rest) =
      (doMovement w h c1 rest).map (fun r => (r.1, (i, p1) :: r.2)) := by
  rw [doMovement, hm]
  dsimp only
  cases doMovement w h c1 rest <;> rfl

theorem doMovement_cons_none {w h : Int} {i : Int} {p : Player}
    {rest : List (Int × Player)} {c : List (List Int)}
    (hm : movePlayer w h i c p = none) : doMovement w h c ((i, p) :: rest) = none := by
  rw [doMovement, hm]

/-- The movement phase gives the same cells and the same player records in whatever
order the players are moved (the ids are not zero as `int8`). -/
theorem doMovement_perm {w h : Int} {ps qs : List (Int × Player)} (hp : ps.Perm qs)
    (hids : ∀ kp ∈ ps, toInt8 kp.1 ≠ 0) :
    ∀ c : List (List Int),
      (doMovement w h c ps = none ∧ doMovement w h c qs = none) ∨
        ∃ c2 ps2 qs2, doMovement w h c ps = some (c2, ps2) ∧
          doMovement w h c qs = some (c2, qs2) ∧ ps2.Perm qs2 := by
  induction hp with
  | nil => intro c; right; exact ⟨c, [], [], rfl, rfl, List.Perm.nil⟩
  | cons a _ ih =>
    obtain ⟨i, p⟩ := a
    intro c
    cases hm : movePlayer w h i c p with
    | none =>
      left
      exact ⟨doMovement_cons_none hm, doMovement_cons_none hm⟩
    | some r =>
      obtain ⟨c1, p1⟩ := r
      rw [doMovement_cons_some hm, doMovement_cons_some hm]
      rcases ih (fun kp hkp => hids kp (List.mem_cons_of_mem _ hkp)) c1 with
        ⟨e1, e2⟩ | ⟨c2, ps2, qs2, e1, e2, hperm⟩
      · left; rw [e1, e2]; exact ⟨rfl, rfl⟩
      · right; rw [e1, e2]; exact ⟨c2, _, _, rfl, rfl, hperm.cons _⟩
  | swap a b l =>
    obtain ⟨i, p⟩ := a
    obtain ⟨j, q⟩ := b
    intro c
    have hi : toInt8 i ≠ 0 := hids (i, p) (by simp)
    have hj : toInt8 j ≠ 0 := hids (j, q) (by simp)
    cases hq : movePlayer w h j c q with
    | none =>
      left
      refine ⟨doMovement_cons_none hq, ?_⟩
      cases hp1 : movePlayer w h i c p with
      | none => exact doMovement_cons_none hp1
      | some r =>
        obtain ⟨ci, p1⟩ := r
        rw [doMovement_cons_some hp1]
        cases hq2 : movePlayer w h j ci q with
        | none => rw [doMovement_cons_none hq2]; rfl
        | some r2 =>
          exfalso
          obtain ⟨cij, q1⟩ := r2
          obtain ⟨cj, h3⟩ : ∃ cj, movePlayer w h j c q = some (cj, q1) :=
            movePlayer_transfer hq2 (movePlayer_shape hp1).symm
          rw [hq] at h3
          exact Option.noConfusion h3
    | some r =>
      obtain ⟨cj, q1⟩ := r
      rw [doMovement_cons_some hq]
      cases hp2 : movePlayer w h i cj p with
      | none =>
        left
        rw [doMovement_cons_none hp2]
        refine ⟨rfl, ?_⟩
        cases hp1 : movePlayer w h i c p with
        | none => exact doMovement_cons_none hp1
        | some r1 =>
          exfalso
          obtain ⟨ci, p1⟩ := r1
          obtain ⟨d1, h3⟩ : ∃ d1, movePlayer w h i cj p = some (d1, p1) :=
            movePlayer_transfer hp1 (movePlayer_shape hq)
          rw [hp2] at h3
          exact Option.noConfusion h3
      | some r2 =>
        obtain ⟨cji, p1⟩ := r2
        rw [doMovement_cons_some hp2]
        obtain ⟨ci, h3, h4⟩ := movePlayer_comm hj hi hq hp2
        rw [doMovement_cons_some h3, doMovement_cons_some h4]
        cases hrest : doMovement w h cji l with
        | none => left; exact ⟨rfl, rfl⟩
        | some r3 =>
          obtain ⟨c3, l3⟩ := r3
          right
          exact ⟨c3, _, _, rfl, rfl, List.Perm.swap _ _ _⟩
  | trans hp1 _ ih1 ih2 =>
    intro c
    have hids2 := fun kp hkp => hids kp (hp1.mem_iff.mpr hkp)
    rcases ih1 hids c with ⟨e1, e2⟩ | ⟨c2, ps2, qs2, e1, e2, hperm⟩
    · rcases ih2 hids2 c with ⟨_, e4⟩ | ⟨c3, ps3, qs3, e3, _, _⟩
      · left; exact ⟨e1, e4⟩
      · rw [e2] at e3; exact Option.noConfusion e3
    · rcases ih2 hids2 c with ⟨e3, _⟩ | ⟨c3, ps3, qs3, e3, e4, hperm2⟩
      · rw [e2] at e3; exact Option.noConfusion e3
      · rw [e2] at e3
        simp only [Option.some.injEq, Prod.mk.injEq] at e3
        obtain ⟨rfl, rfl⟩ := e3
        right
        exact ⟨c2, ps2, qs3, e1, e4, hperm.trans hperm2⟩

theorem key_range_of_perm {ps qs : List (Int × Player)}
    (h : (qs.map Prod.fst).Perm (ps.map Prod.fst))
    (hids : ∀ kp ∈ ps, 1 ≤ kp.1 ∧ kp.1 ≤ 127) : ∀ kp ∈ qs, 1 ≤ kp.1 ∧ kp.1 ≤ 127 := by
  intro kp hkp
  have h1 : kp.1 ∈ qs.map Prod.fst := List.mem_map.mpr ⟨kp, hkp, rfl⟩
  obtain ⟨kq, hkq, he⟩ := List.mem_map.mp (h.mem_iff.mp h1)
  rw [← he]
  exact hids kq hkq

theorem toInt8_ne_zero {k : Int} (h : 1 ≤ k ∧ k ≤ 127) : toInt8 k ≠ 0 := by
  unfold toInt8
  omega

theorem sameBoard_publicCopy {g g1 : Game} (h : SameBoard g g1) (i : Int) :
    SameBoard { g.PublicCopy with You := i } { g1.PublicCopy with You := i } := by
  obtain ⟨he, hp⟩ := h
  refine ⟨?_, ?_⟩
  · rw [he]
    rfl
  · exact hp.map _

theorem collectAnswers_same {ai : Policy} (hai : PolicyOrderFree ai) (next : String)
    {g g1 : Game} (h : SameBoard g g1) (hnd : (g.Players.map Prod.fst).Nodup)
    (first : Bool) (round : Int) :
    ∀ is : List Nat,
      collectAnswers ai next g1 first round is = collectAnswers ai next g first round is := by
  have hyou : g1.You = g.You := by
    have := congrArg Game.You h.1
    exact this
  intro is
  induction is with
  | nil => rfl
  | cons i rest ih =>
    have ha : answerFor ai next g1 first round i = answerFor ai next g first round i := by
      unfold answerFor
      rw [hyou, ← getPlayer_perm h.2 hnd, hai round ((i : Int) + 1) _ _
        (sameBoard_publicCopy h ((i : Int) + 1))]
    simp only [collectAnswers]
    rw [ha, ih]

/-- One round under two schedules, started in the same state: both fail, or both
complete and end in the same state. -/
theorem roundBodyOrd_same {σ τ : Schedule} (hσ : FairSchedule σ) (hτ : FairSchedule τ)
    {ai : Policy} (hai : PolicyOrderFree ai) (next : String) {st st1 : LoopState}
    (hs : SameState st st1) (hnd : (st.g.Players.map Prod.fst).Nodup)
    (hids : ∀ kp ∈ st.g.Players, 1 ≤ kp.1 ∧ kp.1 ≤ 127) :
    (roundBodyOrd σ ai next st = none ∧ roundBodyOrd τ ai next st1 = none) ∨
      ∃ s s1, roundBodyOrd σ ai next st = some s ∧ roundBodyOrd τ ai next st1 = some s1 ∧
        SameState s s1 ∧ (s.g.Players.map Prod.fst).Perm (st.g.Players.map Prod.fst) := by
  obtain ⟨hst, hboard⟩ := hs
  have hperm := hboard.2
  have hg1 := hboard.1
  have hfirst : st1.first = st.first := by rw [hst]
  have hround : st1.round = st.round := by rw [hst]
  have hsurv : st1.survived = st.survived := by rw [hst]
  have hso : st1.survivedOpponent = st.survivedOpponent := by rw [hst]
  have hwin : st1.winner = st.winner := by rw [hst]
  have hyou : st1.g.You = st.g.You := by
    have := congrArg Game.You hg1
    exact this
  have hW : st1.g.Width = st.g.Width := by
    have := congrArg Game.Width hg1
    exact this
  have hH : st1.g.Height = st.g.Height := by
    have := congrArg Game.Height hg1
    exact this
  have hC : st1.g.Cells = st.g.Cells := by
    have := congrArg Game.Cells hg1
    exact this
  have hlen : st1.g.Players.length = st.g.Players.length := hperm.length_eq.symm
  unfold roundBodyOrd
  rw [hyou, ← getPlayer_perm hperm hnd]
  cases hy : getPlayer st.g.Players st.g.You with
  | none => left; exact ⟨rfl, rfl⟩
  | some you =>
    simp only
    unfold afterActionsOrd
    rw [hfirst, hround, hlen, collectAnswers_same hai next hboard hnd]
    cases hca : collectAnswers ai next st.g st.first (st.round + 1)
        (List.range st.g.Players.length) with
    | none => left; exact ⟨rfl, rfl⟩
    | some answers =>
      simp only
      have hp1 : (σ (st.round + 1) 1 st.g.Players).Perm (τ (st.round + 1) 1 st1.g.Players) :=
        (hσ _ _ _).trans (hperm.trans (hτ _ _ _).symm)
      rcases processActions_perm answers hp1 with
        ⟨e1, e2⟩ | ⟨A, B, e1, e2, hAB⟩
      · left; rw [e1, e2]; exact ⟨rfl, rfl⟩
      · rw [e1, e2]
        simp only
        unfold moveAndCrashOrd
        simp only
        rw [hW, hH, hC]
        have hkA : (A.map Prod.fst).Perm (st.g.Players.map Prod.fst) := by
          rw [processActions_keys e1]
          exact (hσ _ _ _).map _
        have hp2 : (σ (st.round + 1) 2 A).Perm (τ (st.round + 1) 2 B) :=
          (hσ _ _ _).trans (hAB.trans (hτ _ _ _).symm)
        have hidsA : ∀ kp ∈ σ (st.round + 1) 2 A, toInt8 kp.1 ≠ 0 := by
          intro kp hkp
          exact toInt8_ne_zero
            (key_range_of_perm hkA hids kp ((hσ _ _ _).mem_iff.mp hkp))
        rcases doMovement_perm (w := st.g.Width) (h := st.g.Height) hp2 hidsA st.g.Cells with
          ⟨e3, e4⟩ | ⟨c2, A2, B2, e3, e4, hAB2⟩
        · left; rw [e3, e4]; exact ⟨rfl, rfl⟩
        · rw [e3, e4]
          simp only
          have hkA2 : (A2.map Prod.fst).Perm (st.g.Players.map Prod.fst) := by
            rw [doMovement_keys e3]
            exact ((hσ _ _ _).map _).trans hkA
          have hp3 : (σ (st.round + 1) 3 A2).Perm (τ (st.round + 1) 3 B2) :=
            (hσ _ _ _).trans (hAB2.trans (hτ _ _ _).symm)
          rcases checkCrash_perm c2 hp3 with ⟨e5, e6⟩ | ⟨A3, B3, e5, e6, hAB3⟩
          · left; rw [e5, e6]; exact ⟨rfl, rfl⟩
          · rw [e5, e6]
            simp only
            have hkA3 : (A3.map Prod.fst).Perm (st.g.Players.map Prod.fst) := by
              rw [checkCrash_keys e5]
              exact ((hσ _ _ _).map _).trans hkA2
            have hp4 : (σ (st.round + 1) 4 A3).Perm (τ (st.round + 1) 4 B3) :=
              (hσ _ _ _).trans (hAB3.trans (hτ _ _ _).symm)
            have hp0 : (σ (st.round + 1) 0 st.g.Players).Perm
                (τ (st.round + 1) 0 st1.g.Players) :=
              (hσ _ _ _).trans (hperm.trans (hτ _ _ _).symm)
            have hkeys4 : ∀ kp ∈ σ (st.round + 1) 4 A3, kp.1 ≠ -1 := by
              intro kp hkp
              have := key_range_of_perm hkA3 hids kp ((hσ _ _ _).mem_iff.mp hkp)
              omega
            right
            refine ⟨_, _, rfl, rfl, ⟨?_, ?_, hAB3⟩, hkA3⟩
            · simp only [LoopState.mk.injEq, true_and]
              rw [hsurv, hso, hwin, countOpponent_perm hp0, findWinner_perm hp4 hkeys4]
              exact ⟨rfl, rfl, rfl⟩
            · simp only
              rw [hg1]

theorem mainGameOrd_same {σ τ : Schedule} (hσ : FairSchedule σ) (hτ : FairSchedule τ)
    {ai : Policy} (hai : PolicyOrderFree ai) (next : String) :
    ∀ (fuel : Nat) (st st1 : LoopState), SameState st st1 →
      (st.g.Players.map Prod.fst).Nodup → (∀ kp ∈ st.g.Players, 1 ≤ kp.1 ∧ kp.1 ≤ 127) →
      (mainGameOrd σ ai next fuel st = Outcome.panicked ∧
        mainGameOrd τ ai next fuel st1 = Outcome.panicked) ∨
      (mainGameOrd σ ai next fuel st = Outcome.outOfFuel ∧
        mainGameOrd τ ai next fuel st1 = Outcome.outOfFuel) ∨
      ∃ s s1, mainGameOrd σ ai next fuel st = Outcome.done s ∧
        mainGameOrd τ ai next fuel st1 = Outcome.done s1 ∧ SameState s s1 ∧
        (s.g.Players.map Prod.fst).Perm (st.g.Players.map Prod.fst) := by
  intro fuel
  induction fuel with
  | zero => intro st st1 _ _ _; right; left; exact ⟨rfl, rfl⟩
  | succ fuel ih =>
    intro st st1 hs hnd hids
    rw [mainGameOrd, mainGameOrd]
    rcases roundBodyOrd_same hσ hτ hai next hs hnd hids with
      ⟨e1, e2⟩ | ⟨s, s1, e1, e2, hss, hkeys⟩
    · left; rw [e1, e2]; exact ⟨rfl, rfl⟩
    · rw [e1, e2]
      simp only
      have hround : s1.round = s.round := by rw [hss.1]
      have halive : playerAlive (τ s1.round 5 s1.g.Players)
          = playerAlive (σ s.round 5 s.g.Players) := by
        apply playerAlive_perm
        exact (hτ _ _ _).trans (hss.2.2.symm.trans (hσ _ _ _).symm)
      rw [halive]
      cases hal : playerAlive (σ s.round 5 s.g.Players)
      · right; right
        exact ⟨s, s1, by simp, by simp, hss, hkeys⟩
      · simp only [if_true]
        rcases ih s s1 hss (hkeys.nodup_iff.mpr hnd) (key_range_of_perm hkeys hids) with
          h1 | h1 | ⟨t, t1, h1, h2, h3, h4⟩
        · exact Or.inl h1
        · exact Or.inr (Or.inl h1)
        · exact Or.inr (Or.inr ⟨t, t1, h1, h2, h3, h4.trans hkeys⟩)

theorem mainGameOrd_id (ai : Policy) (next : String) :
    ∀ (fuel : Nat) (st : LoopState),
      mainGameOrd (fun _ _ ps => ps) ai next fuel st = mainGame ai next fuel st := by
  intro fuel
  induction fuel with
  | zero => intro st; rfl
  | succ fuel ih =>
    intro st
    rw [mainGameOrd, mainGame]
    have hrb : roundBodyOrd (fun _ _ ps => ps) ai next st = roundBody ai next st := rfl
    rw [hrb]
    cases roundBody ai next st with
    | none => rfl
    | some st1 =>
      simp only
      rw [ih]

theorem SimulateGameOrd_id (fuel : Nat) (ai : Policy) (g : Game) (next : String) :
    SimulateGameOrd (fun _ _ ps => ps) fuel ai g next = SimulateGame fuel ai g next := by
  unfold SimulateGameOrd SimulateGame playRoundsOrd playRounds
  rw [mainGameOrd_id]

theorem sameBoard_refl (g : Game) : SameBoard g g := ⟨rfl, List.Perm.refl _⟩

/-- Two runs of the rollout on the same board under two schedules end in the same way. -/
theorem SimulateGameOrd_same {σ τ : Schedule} (hσ : FairSchedule σ) (hτ : FairSchedule τ)
    {ai : Policy} (hai : PolicyOrderFree ai) (next : String) (fuel : Nat) {g g1 : Game}
    (hb : SameBoard g g1) (hnd : (g.Players.map Prod.fst).Nodup)
    (hids : ∀ kp ∈ g.Players, 1 ≤ kp.1 ∧ kp.1 ≤ 127) :
    SameOutcome (SimulateGameOrd σ fuel ai g next) (SimulateGameOrd τ fuel ai g1 next) := by
  have hyou : g1.You = g.You := by
    have := congrArg Game.You hb.1
    exact this
  have hspeed : ∀ v, youSpeedIs g1 v = youSpeedIs g v := by
    intro v
    unfold youSpeedIs
    rw [hyou, ← getPlayer_perm hb.2 hnd]
  have hplay : SameOutcome (playRoundsOrd σ fuel ai g next) (playRoundsOrd τ fuel ai g1 next) := by
    unfold playRoundsOrd
    have hinit : SameState (initState g) (initState g1) := ⟨rfl, hb⟩
    rcases mainGameOrd_same hσ hτ hai next fuel (initState g) (initState g1) hinit hnd hids with
      ⟨e1, e2⟩ | ⟨e1, e2⟩ | ⟨s, s1, e1, e2, hss, _⟩
    · rw [e1, e2]; trivial
    · rw [e1, e2]; trivial
    · rw [e1, e2]
      have hyou2 : s1.g.You = s.g.You := by
        have := congrArg Game.You hss.2.1
        exact this
      refine ⟨?_, ?_, hss.2.2⟩
      · simp only [finish]
        rw [hss.1, hyou2]
      · simp only [finish]
        rw [hss.2.1]
  unfold SimulateGameOrd
  rw [hspeed, hspeed]
  cases (if next = ActionSlower then youSpeedIs g 1 else some false) with
  | none => trivial
  | some b =>
    cases b with
    | true => exact ⟨rfl, hb⟩
    | false =>
      simp only
      cases (if next = ActionFaster then youSpeedIs g MaxSpeed else some false) with
      | none => trivial
      | some b1 =>
        cases b1 with
        | true => exact ⟨rfl, hb⟩
        | false => exact hplay

/-- The keys of the player map on the board that a run leaves are the keys of the input
board. -/
theorem SimulateGameOrd_keys {σ : Schedule} (hσ : FairSchedule σ) {ai : Policy}
    (hai : PolicyOrderFree ai) {next : String} {fuel : Nat} {g : Game}
    (hnd : (g.Players.map Prod.fst).Nodup) (hids : ∀ kp ∈ g.Players, 1 ≤ kp.1 ∧ kp.1 ≤ 127)
    {r : Result} {gf : Game} (h : SimulateGameOrd σ fuel ai g next = Outcome.done (r, gf)) :
    (gf.Players.map Prod.fst).Perm (g.Players.map Prod.fst) := by
  unfold SimulateGameOrd at h
  cases h1 : (if next = ActionSlower then youSpeedIs g 1 else some false) with
  | none => rw [h1] at h; exact Outcome.noConfusion h
  | some b =>
    rw [h1] at h
    cases b with
    | true =>
      simp only [Outcome.done.injEq, Prod.mk.injEq] at h
      rw [← h.2]
    | false =>
      simp only at h
      cases h2 : (if next = ActionFaster then youSpeedIs g MaxSpeed else some false) with
      | none => rw [h2] at h; exact Outcome.noConfusion h
      | some b1 =>
        rw [h2] at h
        cases b1 with
        | true =>
          simp only [Outcome.done.injEq, Prod.mk.injEq] at h
          rw [← h.2]
        | false =>
          simp only at h
          unfold playRoundsOrd at h
          rcases mainGameOrd_same hσ hσ hai next fuel (initState g) (initState g)
              ⟨rfl, sameBoard_refl g⟩ hnd hids with ⟨e1, _⟩ | ⟨e1, _⟩ | ⟨s, s1, e1, _, _, hk⟩
          · rw [e1] at h; exact Outcome.noConfusion h
          · rw [e1] at h; exact Outcome.noConfusion h
          · rw [e1] at h
            simp only [Outcome.done.injEq, finish, Prod.mk.injEq] at h
            rw [← h.2]
            exact hk

/-! ## C19: the rollout does not depend on the order of the loops over the map -/

/-- C19: let the keys of the player map be distinct ids of `1..127`, and let the answers
of the policy not depend on the order in which the map of a board is stored. Then two
runs of the rollout on the same board with the same seed action, each loop over the
player map visiting the map in an arbitrary order (the schedules `σ` and `τ` give the
order of every loop of every round), end in the same way: both fail, both run out of
fuel, or both send the same record and leave the same cells and the same player
records. `SimulateGame` is the run in which every loop visits the map in the order of
the list. -/
theorem rollout_order_independent (σ τ : Schedule) (hσ : FairSchedule σ)
    (hτ : FairSchedule τ) (ai : Policy) (hai : PolicyOrderFree ai) (next : String)
    (fuel : Nat) (g g1 : Game) (hb : SameBoard g g1)
    (hnd : (g.Players.map Prod.fst).Nodup)
    (hids : ∀ kp ∈ g.Players, 1 ≤ kp.1 ∧ kp.1 ≤ 127) :
    SameOutcome (SimulateGameOrd σ fuel ai g next) (SimulateGameOrd τ fuel ai g1 next) ∧
    (∀ r gf r1 gf1, SimulateGameOrd σ fuel ai g next = Outcome.done (r, gf) →
      SimulateGameOrd τ fuel ai g1 next = Outcome.done (r1, gf1) →
      r = r1 ∧ gf.Cells = gf1.Cells ∧ ∀ k, getPlayer gf.Players k = getPlayer gf1.Players k) ∧
    SimulateGameOrd (fun _ _ ps => ps) fuel ai g next = SimulateGame fuel ai g next := by
  have hsame := SimulateGameOrd_same hσ hτ hai next fuel hb hnd hids
  refine ⟨hsame, ?_, SimulateGameOrd_id fuel ai g next⟩
  intro r gf r1 gf1 h1 h2
  have hkeys := SimulateGameOrd_keys hσ hai hnd hids h1
  rw [h1, h2] at hsame
  obtain ⟨hr, hboard⟩ := hsame
  simp only at hr hboard
  refine ⟨hr, ?_, fun k => getPlayer_perm hboard.2 (hkeys.nodup_iff.mpr hnd) k⟩
  have := congrArg Game.Cells hboard.1
  exact this.symm

/-- C19 on the head-on board: the run in list order and the run in which every loop
visits the map in reverse order end in the same way. -/
theorem rollout_order_independent_witness :
    SameOutcome (SimulateGameOrd (fun _ _ ps => ps) 10 aiNoop headOnBoard ActionNOOP)
      (SimulateGameOrd reverseSchedule 10 aiNoop headOnBoard ActionNOOP) :=
  (rollout_order_independent (fun _ _ ps => ps) reverseSchedule
    (fun _ _ ps => List.Perm.refl ps) (fun _ _ ps => List.reverse_perm ps) aiNoop
    (fun _ _ _ _ _ => rfl) ActionNOOP 10 headOnBoard headOnBoard
    ⟨rfl, List.Perm.refl _⟩ (by decide) (by decide)).1

theorem getElem?_append_some {α : Type} {l : List α} {i : Nat} {a : α} (t : List α)
    (h : l[i]? = some a) : (l ++ t)[i]? = some a := by
  have hlt : i < l.length := by
    by_contra hge
    rw [List.getElem?_eq_none (by omega)] at h
    exact Option.noConfusion h
  rw [List.getElem?_append_left hlt]
  exact h

theorem readSlice_extends {s s1 : Store} (h : ∃ t, s1.arrays = s.arrays ++ t) {r : SliceRef}
    {row : List Int} (hr : readSlice s r = some row) : readSlice s1 r = some row := by
  obtain ⟨t, ht⟩ := h
  unfold readSlice at hr ⊢
  cases ha : s.arrays[r.arr]? with
  | none => rw [ha] at hr; exact Option.noConfusion hr
  | some a =>
    rw [ha] at hr
    rw [ht, getElem?_append_some t ha]
    exact hr

theorem loadRows_extends {s s1 : Store} (h : ∃ t, s1.arrays = s.arrays ++ t) :
    ∀ {refs : List SliceRef} {rows : List (List Int)},
      loadRows s refs = some rows → loadRows s1 refs = some rows := by
  intro refs
  induction refs with
  | nil => intro rows hr; exact hr
  | cons r rest ih =>
    intro rows hr
    unfold loadRows at hr ⊢
    cases h1 : readSlice s r with
    | none => rw [h1] at hr; exact Option.noConfusion hr
    | some row =>
      rw [h1] at hr
      rw [readSlice_extends h h1]
      simp only at hr ⊢
      cases h2 : loadRows s rest with
      | none => rw [h2] at hr; exact Option.noConfusion hr
      | some rows1 =>
        rw [h2] at hr
        rw [ih h2]
        exact hr

theorem loadPlayers_extends {s s1 : Store} (h : ∃ u, s1.players = s.players ++ u) :
    ∀ {ptrs : List (Int × Nat)} {ps : List (Int × Player)},
      loadPlayers s ptrs = some ps → loadPlayers s1 ptrs = some ps := by
  obtain ⟨u, hu⟩ := h
  intro ptrs
  induction ptrs with
  | nil => intro ps hp; exact hp
  | cons kp rest ih =>
    obtain ⟨k, ptr⟩ := kp
    intro ps hp
    unfold loadPlayers at hp ⊢
    cases h1 : s.players[ptr]? with
    | none => rw [h1] at hp; exact Option.noConfusion hp
    | some r =>
      rw [h1] at hp
      rw [hu, getElem?_append_some u h1]
      simp only at hp ⊢
      cases h2 : loadPlayers s rest with
      | none => rw [h2] at hp; exact Option.noConfusion hp
      | some ps1 =>
        rw [h2] at hp
        rw [ih h2]
        exact hp

theorem loadGame_some {s : Store} {g : GameRef} {G : Game} (h : loadGame s g = some G) :
    ∃ rows ps, loadRows s g.Cells = some rows ∧ loadPlayers s g.Players = some ps ∧
      G = { Width := g.Width, Height := g.Height, Cells := rows, Players := ps, You := g.You,
            Running := g.Running, Deadline := g.Deadline, playerAnswer := g.playerAnswer } := by
  unfold loadGame at h
  cases h1 : loadRows s g.Cells with
  | none => rw [h1] at h; exact Option.noConfusion h
  | some rows =>
    rw [h1] at h
    simp only at h
    cases h2 : loadPlayers s g.Players with
    | none => rw [h2] at h; exact Option.noConfusion h
    | some ps =>
      rw [h2] at h
      simp only [Option.some.injEq] at h
      exact ⟨rows, ps, rfl, rfl, h.symm⟩

/-- A struct that shows a board in a store shows the same board in every store that
extends it. -/
theorem loadGame_extends {s s1 : Store} (h : Extends s s1) {g : GameRef} {G : Game}
    (hg : loadGame s g = some G) : loadGame s1 g = some G := by
  obtain ⟨rows, ps, h1, h2, rfl⟩ := loadGame_some hg
  unfold loadGame
  rw [loadRows_extends h.1 h1, loadPlayers_extends h.2 h2]

theorem extends_refl (s : Store) : Extends s s := ⟨⟨[], by simp⟩, ⟨[], by simp⟩⟩

theorem extends_trans {s s1 s2 : Store} (h1 : Extends s s1) (h2 : Extends s1 s2) :
    Extends s s2 := by
  obtain ⟨⟨t1, ht1⟩, ⟨u1, hu1⟩⟩ := h1
  obtain ⟨⟨t2, ht2⟩, ⟨u2, hu2⟩⟩ := h2
  exact ⟨⟨t1 ++ t2, by rw [ht2, ht1, List.append_assoc]⟩,
    ⟨u1 ++ u2, by rw [hu2, hu1, List.append_assoc]⟩⟩

/-- The copy of the rows: every row gets a new array, and the new slices show the same
rows. -/
theorem copyRows_spec :
    ∀ (refs : List SliceRef) (s : Store) (rows : List (List Int)),
      loadRows s refs = some rows →
      ∃ s1 refs1, copyRows s refs = some (s1, refs1) ∧ Extends s s1 ∧
        s1.players = s.players ∧ loadRows s1 refs1 = some rows ∧
        ∀ r ∈ refs1, s.arrays.length ≤ r.arr := by
  intro refs
  induction refs with
  | nil =>
    intro s rows h
    simp only [loadRows, Option.some.injEq] at h
    subst h
    exact ⟨s, [], rfl, extends_refl s, rfl, rfl, by simp⟩
  | cons r rest ih =>
    intro s rows h
    unfold loadRows at h
    cases h1 : readSlice s r with
    | none => rw [h1] at h; exact Option.noConfusion h
    | some row =>
      rw [h1] at h
      simp only at h
      cases h2 : loadRows s rest with
      | none => rw [h2] at h; exact Option.noConfusion h
      | some rows1 =>
        rw [h2] at h
        simp only [Option.some.injEq] at h
        subst h
        have hext : ∃ t, ({ s with arrays := s.arrays ++ [row] } : Store).arrays = s.arrays ++ t :=
          ⟨[row], rfl⟩
        obtain ⟨s1, refs1, hc, hx, hp, hl, hf⟩ :=
          ih { s with arrays := s.arrays ++ [row] } rows1 (loadRows_extends hext h2)
        obtain ⟨⟨t, ht⟩, _⟩ := hx
        simp only at ht hp hf
        refine ⟨s1, { arr := s.arrays.length, off := 0, len := row.length } :: refs1, ?_,
          ⟨⟨[row] ++ t, ?_⟩, ⟨[], ?_⟩⟩, hp, ?_, ?_⟩
        · unfold copyRows
          rw [h1]
          simp only
          rw [hc]
        · rw [ht, List.append_assoc]
        · rw [hp]; simp
        · unfold loadRows
          have hread : readSlice s1 { arr := s.arrays.length, off := 0, len := row.length }
              = some row := by
            unfold readSlice
            simp only
            rw [ht, List.append_assoc, List.getElem?_append_right (le_refl _)]
            simp
          rw [hread]
          simp only
          rw [hl]
        · intro r1 hr1
          rcases List.mem_cons.mp hr1 with rfl | hr1
          · exact le_refl _
          · have := hf r1 hr1
            simp only [List.length_append, List.length_singleton] at this
            omega

/-- The copy of the players: every player gets a new struct with the same seven fields
and no policy. -/
theorem copyPlayers_spec :
    ∀ (ptrs : List (Int × Nat)) (s : Store) (ps : List (Int × Player)),
      loadPlayers s ptrs = some ps →
      ∃ s1 ptrs1, copyPlayers s ptrs = some (s1, ptrs1) ∧ Extends s s1 ∧
        s1.arrays = s.arrays ∧ loadPlayers s1 ptrs1 = some ps ∧
        (∀ kp ∈ ptrs1, s.players.length ≤ kp.2) ∧
        ∀ kp ∈ ptrs1, ∃ r, s1.players[kp.2]? = some r ∧ r.ai = none := by
  intro ptrs
  induction ptrs with
  | nil =>
    intro s ps h
    simp only [loadPlayers, Option.some.injEq] at h
    subst h
    exact ⟨s, [], rfl, extends_refl s, rfl, rfl, by simp, by simp⟩
  | cons kp rest ih =>
    obtain ⟨k, ptr⟩ := kp
    intro s ps h
    unfold loadPlayers at h
    cases h1 : s.players[ptr]? with
    | none => rw [h1] at h; exact Option.noConfusion h
    | some r =>
      rw [h1] at h
      simp only at h
      cases h2 : loadPlayers s rest with
      | none => rw [h2] at h; exact Option.noConfusion h
      | some ps1 =>
        rw [h2] at h
        simp only [Option.some.injEq] at h
        subst h
        have hext : ∃ u, ({ s with players := s.players ++
            [{ fields := { X := r.fields.X, Y := r.fields.Y, Direction := r.fields.Direction,
                           Speed := r.fields.Speed, Active := r.fields.Active,
                           Name := r.fields.Name, stepCounter := r.fields.stepCounter },
               ai := none }] } : Store).players = s.players ++ u := ⟨_, rfl⟩
        obtain ⟨s1, ptrs1, hc, hx, ha, hl, hf, hai⟩ := ih _ ps1 (loadPlayers_extends hext h2)
        obtain ⟨_, ⟨u, hu⟩⟩ := hx
        simp only at hu ha hf
        have hnew : s1.players[s.players.length]? = some
            { fields := { X := r.fields.X, Y := r.fields.Y, Direction := r.fields.Direction,
                          Speed := r.fields.Speed, Active := r.fields.Active,
                          Name := r.fields.Name, stepCounter := r.fields.stepCounter },
              ai := none } := by
          rw [hu, List.append_assoc, List.getElem?_append_right (le_refl _)]
          simp
        refine ⟨s1, (k, s.players.length) :: ptrs1, ?_,
          ⟨⟨[], ?_⟩, ⟨[{ fields := { X := r.fields.X, Y := r.fields.Y,
                                      Direction := r.fields.Direction, Speed := r.fields.Speed,
                                      Active := r.fields.Active, Name := r.fields.Name,
                                      stepCounter := r.fields.stepCounter },
                         ai := none }] ++ u, ?_⟩⟩, ha, ?_, ?_, ?_⟩
        · unfold copyPlayers
          rw [h1]
          simp only
          rw [hc]
        · rw [ha]; simp
        · rw [hu, List.append_assoc]
        · unfold loadPlayers
          rw [hnew]
          simp only
          rw [hl]
        · intro kp hkp
          rcases List.mem_cons.mp hkp with rfl | hkp
          · exact le_refl _
          · have := hf kp hkp
            simp only [List.length_append, List.length_singleton] at this
            omega
        · intro kp hkp
          rcases List.mem_cons.mp hkp with rfl | hkp
          · exact ⟨_, hnew, rfl⟩
          · exact hai kp hkp

theorem publicCopy_eq (G : Game) : G.PublicCopy = { G with playerAnswer := [] } := by
  unfold Game.PublicCopy
  have : G.Players.map (fun kp =>
      (kp.1, ({ X := kp.2.X, Y := kp.2.Y, Direction := kp.2.Direction, Speed := kp.2.Speed,
                Active := kp.2.Active, Name := kp.2.Name,
                stepCounter := kp.2.stepCounter } : Player))) = G.Players := by
    induction G.Players with
    | nil => rfl
    | cons a rest ih => rw [List.map_cons, ih]
  rw [this]

theorem viewRows_retarget {f n : Nat} {w : Int} (f1 : Nat) :
    ∀ (k y : Nat) (refs : List SliceRef), viewRows f n w y k = some refs →
      viewRows f1 n w y k = some (refs.map (fun r => { r with arr := f1 })) ∧
        refs.length = k ∧ ∀ r ∈ refs, r.arr = f := by
  intro k
  induction k with
  | zero =>
    intro y refs h
    simp only [viewRows, Option.some.injEq] at h
    subst h
    exact ⟨rfl, rfl, by simp⟩
  | succ k ih =>
    intro y refs h
    unfold viewRows at h ⊢
    unfold sliceRow at h ⊢
    split_ifs at h ⊢ with hc
    simp only at h ⊢
    cases hv : viewRows f n w (y + 1) k with
    | none => rw [hv] at h; exact Option.noConfusion h
    | some rest =>
      rw [hv] at h
      simp only [Option.some.injEq] at h
      subst h
      obtain ⟨h1, h2, h3⟩ := ih (y + 1) rest hv
      rw [h1]
      refine ⟨rfl, by simp [h2], ?_⟩
      intro r hr
      rcases List.mem_cons.mp hr with rfl | hr
      · rfl
      · exact h3 r hr

theorem loadRows_retarget {s s1 : Store} {f f1 : Nat} {a : List Int}
    (ha : s.arrays[f]? = some a) (ha1 : s1.arrays[f1]? = some a) :
    ∀ (refs : List SliceRef) (rows : List (List Int)), (∀ r ∈ refs, r.arr = f) →
      loadRows s refs = some rows →
      loadRows s1 (refs.map (fun r => { r with arr := f1 })) = some rows := by
  intro refs
  induction refs with
  | nil => intro rows _ h; exact h
  | cons r rest ih =>
    intro rows harr h
    have hr := harr r (List.mem_cons_self _ _)
    unfold loadRows at h
    simp only [List.map_cons]
    unfold loadRows
    have hread : readSlice s1 { r with arr := f1 } = readSlice s r := by
      unfold readSlice
      simp only
      rw [ha1, hr, ha]
    rw [hread]
    cases h1 : readSlice s r with
    | none => rw [h1] at h; exact Option.noConfusion h
    | some row =>
      rw [h1] at h
      simp only at h ⊢
      cases h2 : loadRows s rest with
      | none => rw [h2] at h; exact Option.noConfusion h
      | some rows1 =>
        rw [h2] at h
        rw [ih rows1 (fun r1 hr1 => harr r1 (List.mem_cons_of_mem _ hr1)) h2]
        exact h

/-- The method `PublicCopy` on a struct that shows the board `G`: the call does not
fail, the old store is kept, the new struct is built on new storage and shows the
board `G.PublicCopy`, and no policy is attached to the new players. -/
theorem publicCopyRef_spec {s : Store} {g : GameRef} {G : Game}
    (hg : loadGame s g = some G) (hflat : FlatOk s g) :
    ∃ s1 g1, PublicCopyRef s g = some (s1, g1) ∧ Extends s s1 ∧ Fresh s g1 ∧
      loadGame s1 g1 = some G.PublicCopy ∧
      (∀ kp ∈ g1.Players, ∃ r, s1.players[kp.2]? = some r ∧ r.ai = none) ∧
      (g1.internalCellsFlat = none ↔ g.internalCellsFlat = none) := by
  obtain ⟨rows, ps, hrows, hps, rfl⟩ := loadGame_some hg
  rw [publicCopy_eq]
  have hcells : ∃ s1 refs flat1, copyCells s g = some (s1, refs, flat1) ∧
      Extends s s1 ∧ s1.players = s.players ∧ loadRows s1 refs = some rows ∧
      (∀ r ∈ refs, s.arrays.length ≤ r.arr) ∧
      (∀ f, flat1 = some f → s.arrays.length ≤ f) ∧
      (flat1 = none ↔ g.internalCellsFlat = none) := by
    unfold copyCells
    cases hf : g.internalCellsFlat with
    | none =>
      obtain ⟨s1, refs, hc, hx, hp, hl, hfr⟩ := copyRows_spec g.Cells s rows hrows
      refine ⟨s1, refs, none, ?_, hx, hp, hl, hfr, ?_, by simp⟩
      · simp only
        rw [hc]
      · intro f hf1
        exact Option.noConfusion hf1
    | some flat =>
      obtain ⟨a, ha, hview⟩ := hflat flat hf
      obtain ⟨hv1, _, harr⟩ := viewRows_retarget s.arrays.length _ _ _ hview
      have hnew : ({ s with arrays := s.arrays ++ [a] } : Store).arrays[s.arrays.length]?
          = some a := by
        simp only
        rw [List.getElem?_append_right (le_refl _)]
        simp
      refine ⟨{ s with arrays := s.arrays ++ [a] }, _, some s.arrays.length, ?_,
        ⟨⟨[a], rfl⟩, ⟨[], by simp⟩⟩, rfl, loadRows_retarget ha hnew g.Cells rows harr hrows,
        ?_, ?_, by simp⟩
      · simp only
        rw [ha]
        simp only
        rw [hv1]
      · intro r hr
        obtain ⟨r0, _, rfl⟩ := List.mem_map.mp hr
        exact le_refl _
      · intro f hf1
        simp only [Option.some.injEq] at hf1
        omega
  obtain ⟨s1, refs, flat1, hc, hx1, hp1, hl1, hfr1, hff1, hnone⟩ := hcells
  have hps1 : loadPlayers s1 g.Players = some ps := loadPlayers_extends hx1.2 hps
  obtain ⟨s2, ptrs, hcp, hx2, ha2, hl2, hfr2, hai⟩ := copyPlayers_spec g.Players s1 ps hps1
  refine ⟨s2, { Width := g.Width, Height := g.Height, Cells := refs, Players := ptrs,
                You := g.You, Running := g.Running, Deadline := g.Deadline,
                playerAnswer := [], internalCellsFlat := flat1 }, ?_,
    extends_trans hx1 hx2, ⟨hfr1, hff1, ?_⟩, ?_, hai, hnone⟩
  · unfold PublicCopyRef
    rw [hc]
    simp only
    rw [hcp]
  · intro kp hkp
    have := hfr2 kp hkp
    rw [hp1] at this
    exact this
  · unfold loadGame
    simp only
    have hx2a : ∃ t, s2.arrays = s1.arrays ++ t := ⟨[], by rw [ha2]; simp⟩
    rw [loadRows_extends hx2a hl1, hl2]

theorem writeRow_spec {w : Int} {y : Nat} :
    ∀ (row front old post : List Int) (x : Nat),
      (front.length : Int) = (y : Int) * w + (x : Int) → old.length = row.length →
      writeRow w y (front ++ old ++ post) x row = some (front ++ row ++ post) := by
  intro row
  induction row with
  | nil =>
    intro front old post x _ hlen
    have : old = [] := List.length_eq_zero.mp hlen
    subst this
    rfl
  | cons v rest ih =>
    intro front old post x hfront hlen
    cases old with
    | nil => simp at hlen
    | cons o old1 =>
      have hlen1 : old1.length = rest.length := by simpa using hlen
      unfold writeRow
      have hw : writeAt (front ++ o :: old1 ++ post) ((y : Int) * w + (x : Int)) v
          = some ((front ++ [v]) ++ old1 ++ post) := by
        unfold writeAt
        rw [← hfront]
        have h0 : ¬ ((front.length : Int) < 0) := by omega
        rw [if_neg h0]
        have hlt : ((front.length : Int)).toNat < (front ++ o :: old1 ++ post).length := by
          simp only [Int.toNat_ofNat, List.length_append, List.length_cons]
          omega
        rw [if_pos hlt]
        simp only [Int.toNat_ofNat, List.append_assoc]
        rw [List.set_append_right _ _ (le_refl _)]
        simp
      rw [hw]
      simp only
      have := ih (front ++ [v]) old1 post (x + 1) (by
        simp only [List.length_append, List.length_singleton]
        push_cast
        omega) hlen1
      rw [this]
      simp

theorem loadRows_length {s : Store} :
    ∀ {refs : List SliceRef} {rows : List (List Int)},
      loadRows s refs = some rows → rows.length = refs.length := by
  intro refs
  induction refs with
  | nil =>
    intro rows h
    simp only [loadRows, Option.some.injEq] at h
    subst h
    rfl
  | cons r rest ih =>
    intro rows h
    unfold loadRows at h
    cases h1 : readSlice s r with
    | none => rw [h1] at h; exact Option.noConfusion h
    | some row =>
      rw [h1] at h
      simp only at h
      cases h2 : loadRows s rest with
      | none => rw [h2] at h; exact Option.noConfusion h
      | some rows1 =>
        rw [h2] at h
        simp only [Option.some.injEq] at h
        subst h
        simp [ih h2]

/-- The two loops of lines 412-416 write the rows one after the other into the flat
array. -/
theorem writeRows_spec {s : Store} {W : Nat} :
    ∀ (refs : List SliceRef) (rows : List (List Int)) (front old : List Int) (y : Nat),
      loadRows s refs = some rows → (∀ row ∈ rows, row.length = W) →
      front.length = y * W → old.length = rows.length * W →
      writeRows s (W : Int) (front ++ old) y refs = some (front ++ rows.flatten) := by
  intro refs
  induction refs with
  | nil =>
    intro rows front old y h _ _ hold
    simp only [loadRows, Option.some.injEq] at h
    subst h
    have : old = [] := by
      apply List.length_eq_zero.mp
      simpa using hold
    subst this
    rfl
  | cons r rest ih =>
    intro rows front old y h hall hfront hold
    unfold loadRows at h
    cases h1 : readSlice s r with
    | none => rw [h1] at h; exact Option.noConfusion h
    | some row =>
      rw [h1] at h
      simp only at h
      cases h2 : loadRows s rest with
      | none => rw [h2] at h; exact Option.noConfusion h
      | some rows1 =>
        rw [h2] at h
        simp only [Option.some.injEq] at h
        subst h
        have hrow : row.length = W := hall row (List.mem_cons_self _ _)
        have hold1 : old.length = W + rows1.length * W := by
          rw [hold]
          simp only [List.length_cons]
          ring
        have hsplit : old = old.take W ++ old.drop W := (List.take_append_drop W old).symm
        have htake : (old.take W).length = row.length := by
          rw [List.length_take, hrow]
          omega
        unfold writeRows
        rw [h1]
        simp only
        have hwr : writeRow (W : Int) y (front ++ old) 0 row
            = some (front ++ row ++ old.drop W) := by
          have := writeRow_spec (w := (W : Int)) (y := y) row front (old.take W) (old.drop W) 0
            (by rw [hfront]; push_cast; ring) htake
          rw [List.append_assoc, ← hsplit] at this
          exact this
        rw [hwr]
        simp only
        have := ih rows1 (front ++ row) (old.drop W) (y + 1) h2
          (fun row1 hr1 => hall row1 (List.mem_cons_of_mem _ hr1))
          (by rw [List.length_append, hfront, hrow]; ring)
          (by rw [List.length_drop, hold1]; omega)
        rw [this]
        simp

/-- The windows `flat[y*W : (y+1)*W]` of an array that holds the rows one after the
other show the rows. -/
theorem viewRows_load {s1 : Store} {f : Nat} {W : Nat} {a : List Int}
    (ha : s1.arrays[f]? = some a) :
    ∀ (rows : List (List Int)) (front : List Int) (y : Nat),
      (∀ row ∈ rows, row.length = W) → front.length = y * W → a = front ++ rows.flatten →
      ∃ refs, viewRows f a.length (W : Int) y rows.length = some refs ∧
        loadRows s1 refs = some rows := by
  intro rows
  induction rows with
  | nil => intro front y _ _ _; exact ⟨[], rfl, rfl⟩
  | cons row rest ih =>
    intro front y hall hfront hcat
    have hrow : row.length = W := hall row (List.mem_cons_self _ _)
    have hcat1 : a = (front ++ row) ++ rest.flatten := by
      rw [hcat, List.flatten_cons, List.append_assoc]
    obtain ⟨refs, hv, hl⟩ := ih (front ++ row) (y + 1)
      (fun row1 hr1 => hall row1 (List.mem_cons_of_mem _ hr1))
      (by rw [List.length_append, hfront, hrow]; ring) hcat1
    have hlen : a.length = y * W + W + rest.flatten.length := by
      rw [hcat1]
      simp only [List.length_append]
      omega
    have hslice : sliceRow f a.length (W : Int) y
        = some { arr := f, off := front.length, len := W } := by
      unfold sliceRow
      have hc : 0 ≤ (y : Int) * (W : Int) ∧ (y : Int) * (W : Int) ≤ ((y : Int) + 1) * (W : Int) ∧
          ((y : Int) + 1) * (W : Int) ≤ (a.length : Int) := by
        refine ⟨by positivity, ?_, ?_⟩
        · have : ((y : Int) + 1) * (W : Int) = (y : Int) * (W : Int) + (W : Int) := by ring
          rw [this]
          omega
        · rw [hlen]
          push_cast
          have : ((y : Int) + 1) * (W : Int) = (y : Int) * (W : Int) + (W : Int) := by ring
          rw [this]
          omega
      rw [if_pos hc]
      have e1 : ((y : Int) * (W : Int)).toNat = front.length := by
        rw [hfront]
        have : (y : Int) * (W : Int) = ((y * W : Nat) : Int) := by push_cast; ring
        rw [this, Int.toNat_ofNat]
      rw [e1, Int.toNat_ofNat]
    have hread : readSlice s1 { arr := f, off := front.length, len := W } = some row := by
      unfold readSlice
      simp only
      rw [ha]
      simp only
      have hle : front.length + W ≤ a.length := by omega
      rw [if_pos hle, hcat, List.flatten_cons, List.drop_left, ← hrow, List.take_left]
    refine ⟨{ arr := f, off := front.length, len := W } :: refs, ?_, ?_⟩
    · simp only [List.length_cons]
      unfold viewRows
      rw [hslice]
      simp only
      rw [hv]
    · unfold loadRows
      rw [hread]
      simp only
      rw [hl]

theorem rows_of_sized {w h : Int} {rows : List (List Int)} (hsz : CellsSized w h rows) :
    rows.length = h.toNat ∧ ∀ row ∈ rows, row.length = w.toNat := by
  obtain ⟨_, _, hshape⟩ := hsz
  unfold shape at hshape
  constructor
  · have := congrArg List.length hshape
    simpa using this
  · intro row hrow
    have hmem : row.length ∈ rows.map List.length := List.mem_map.mpr ⟨row, hrow, rfl⟩
    rw [hshape] at hmem
    exact (List.mem_replicate.mp hmem).2

/-- The method `PopulateInternalCellsFlat` on a struct that shows a board of `Height`
rows of `Width` cells: the call does not fail, the old store is kept, the struct shows
the same board, and its rows are the windows of the new flat array. -/
theorem populateRef_spec {s : Store} {g : GameRef} {G : Game}
    (hg : loadGame s g = some G) (hsz : CellsSized G.Width G.Height G.Cells) :
    ∃ s1 g1, PopulateInternalCellsFlatRef s g = some (s1, g1) ∧ Extends s s1 ∧
      loadGame s1 g1 = some G ∧ FlatOk s1 g1 ∧ g1.internalCellsFlat = some s.arrays.length := by
  obtain ⟨rows, ps, hrows, hps, rfl⟩ := loadGame_some hg
  simp only at hsz
  obtain ⟨hlenr, hall⟩ := rows_of_sized hsz
  obtain ⟨hw0, hh0, _⟩ := hsz
  obtain ⟨W, hW⟩ : ∃ W : Nat, g.Width = (W : Int) := ⟨g.Width.toNat, by omega⟩
  obtain ⟨H, hH⟩ : ∃ H : Nat, g.Height = (H : Int) := ⟨g.Height.toNat, by omega⟩
  rw [hW] at hall
  rw [hH] at hlenr
  simp only [Int.toNat_ofNat] at hall hlenr
  have hmul : (g.Height * g.Width).toNat = H * W := by
    rw [hH, hW]
    have : (H : Int) * (W : Int) = ((H * W : Nat) : Int) := by push_cast; ring
    rw [this, Int.toNat_ofNat]
  have hnn : ¬ (g.Height * g.Width < 0) := by
    rw [hH, hW]
    have : (0 : Int) ≤ (H : Int) * (W : Int) := by positivity
    omega
  have hwrite : writeRows s g.Width (List.replicate (g.Height * g.Width).toNat 0) 0 g.Cells
      = some rows.flatten := by
    have := writeRows_spec (s := s) (W := W) g.Cells rows [] (List.replicate (H * W) 0) 0 hrows
      hall (by simp) (by simp [hlenr])
    rw [hmul, hW]
    simpa using this
  have hcells : g.Cells.length = rows.length := (loadRows_length hrows).symm
  have hnew : ({ s with arrays := s.arrays ++ [rows.flatten] } : Store).arrays[s.arrays.length]?
      = some rows.flatten := by
    simp only
    rw [List.getElem?_append_right (le_refl _)]
    simp
  obtain ⟨refs, hv, hl⟩ := viewRows_load hnew rows [] 0 hall (by simp) (by simp)
  have hv1 : viewRows s.arrays.length rows.flatten.length g.Width 0 g.Cells.length
      = some refs := by
    rw [hW, hcells]
    exact hv
  have hreflen := (viewRows_retarget s.arrays.length _ _ _ hv1).2.1
  refine ⟨{ s with arrays := s.arrays ++ [rows.flatten] },
    { g with Cells := refs, internalCellsFlat := some s.arrays.length }, ?_,
    ⟨⟨[rows.flatten], rfl⟩, ⟨[], by simp⟩⟩, ?_, ?_, rfl⟩
  · unfold PopulateInternalCellsFlatRef
    rw [if_neg hnn, hwrite]
    simp only
    rw [hv1]
  · unfold loadGame
    simp only
    rw [hl]
    simp only
    have hx : ∃ u, ({ s with arrays := s.arrays ++ [rows.flatten] } : Store).players
        = s.players ++ u := ⟨[], by simp⟩
    rw [loadPlayers_extends hx hps]
  · intro f hf
    simp only [Option.some.injEq] at hf
    subst hf
    refine ⟨rows.flatten, hnew, ?_⟩
    simp only
    rw [hreflen]
    exact hv1

theorem storeSlice_fresh {s s1 : Store} {r : SliceRef} {row : List Int}
    (h : storeSlice s r row = some s1) {A t : List (List Int)} (hs : s.arrays = A ++ t)
    (hf : A.length ≤ r.arr) : (∃ t1, s1.arrays = A ++ t1) ∧ s1.players = s.players := by
  unfold storeSlice at h
  cases ha : s.arrays[r.arr]? with
  | none => rw [ha] at h; exact Option.noConfusion h
  | some a =>
    rw [ha] at h
    simp only at h
    split_ifs at h
    simp only [Option.some.injEq] at h
    subst h
    refine ⟨⟨t.set (r.arr - A.length) (a.take r.off ++ row ++ a.drop (r.off + r.len)), ?_⟩, rfl⟩
    show s.arrays.set r.arr (a.take r.off ++ row ++ a.drop (r.off + r.len)) = _
    rw [hs, List.set_append_right _ _ hf]

theorem storeRows_fresh :
    ∀ (refs : List SliceRef) (rows : List (List Int)) (s s1 : Store) (A t : List (List Int)),
      storeRows s refs rows = some s1 → s.arrays = A ++ t → (∀ r ∈ refs, A.length ≤ r.arr) →
      (∃ t1, s1.arrays = A ++ t1) ∧ s1.players = s.players := by
  intro refs
  induction refs with
  | nil =>
    intro rows s s1 A t h hs _
    cases rows with
    | nil =>
      simp only [storeRows, Option.some.injEq] at h
      subst h
      exact ⟨⟨t, hs⟩, rfl⟩
    | cons row rows1 => simp [storeRows] at h
  | cons r rest ih =>
    intro rows s s1 A t h hs hf
    cases rows with
    | nil => simp [storeRows] at h
    | cons row rows1 =>
      unfold storeRows at h
      cases h1 : storeSlice s r row with
      | none => rw [h1] at h; exact Option.noConfusion h
      | some s0 =>
        rw [h1] at h
        simp only at h
        obtain ⟨⟨t0, ht0⟩, hp0⟩ := storeSlice_fresh h1 hs (hf r (List.mem_cons_self _ _))
        obtain ⟨ht1, hp1⟩ := ih rows1 s0 s1 A t0 h ht0
          (fun r1 hr1 => hf r1 (List.mem_cons_of_mem _ hr1))
        exact ⟨ht1, by rw [hp1, hp0]⟩

theorem storePlayers_fresh {ai : Option String} :
    ∀ (ptrs : List (Int × Nat)) (ps : List (Int × Player)) (s s1 : Store)
      (P u : List PlayerRec),
      storePlayers s ai ptrs ps = some s1 → s.players = P ++ u →
      (∀ kp ∈ ptrs, P.length ≤ kp.2) →
      (∃ u1, s1.players = P ++ u1) ∧ s1.arrays = s.arrays := by
  intro ptrs
  induction ptrs with
  | nil =>
    intro ps s s1 P u h hs _
    cases ps with
    | nil =>
      simp only [storePlayers, Option.some.injEq] at h
      subst h
      exact ⟨⟨u, hs⟩, rfl⟩
    | cons p ps1 => simp [storePlayers] at h
  | cons kp rest ih =>
    obtain ⟨k, ptr⟩ := kp
    intro ps s s1 P u h hs hf
    cases ps with
    | nil => simp [storePlayers] at h
    | cons kq ps1 =>
      obtain ⟨k1, p⟩ := kq
      unfold storePlayers at h
      split_ifs at h with hlt
      have hptr := hf (k, ptr) (List.mem_cons_self _ _)
      simp only at hptr
      obtain ⟨hu1, ha1⟩ := ih ps1 _ s1 P (u.set (ptr - P.length) { fields := p, ai := ai }) h
        (by simp only; rw [hs, List.set_append_right _ _ hptr])
        (fun kp1 hkp1 => hf kp1 (List.mem_cons_of_mem _ hkp1))
      exact ⟨hu1, ha1⟩

/-- A rollout on a struct that is built on storage which the store `s` does not hold
keeps everything that `s` holds. -/
theorem simulateRef_frame {s s1 s2 : Store} {g1 g2 : GameRef} {fuel : Nat} {ai : Policy}
    {next : String} {r : Result} (hx : Extends s s1) (hfresh : Fresh s g1)
    (h : SimulateGameRef fuel ai s1 g1 next = Outcome.done (r, s2, g2)) : Extends s s2 := by
  unfold SimulateGameRef at h
  cases hl : loadGame s1 g1 with
  | none => rw [hl] at h; exact Outcome.noConfusion h
  | some board =>
    rw [hl] at h
    simp only at h
    cases hsim : SimulateGame fuel ai board next with
    | panicked => rw [hsim] at h; exact Outcome.noConfusion h
    | outOfFuel => rw [hsim] at h; exact Outcome.noConfusion h
    | done rg =>
      obtain ⟨r0, gf⟩ := rg
      rw [hsim] at h
      simp only at h
      split_ifs at h with hcut
      · simp only [Outcome.done.injEq, Prod.mk.injEq] at h
        rw [← h.2.1]
        exact hx
      · cases hsr : storeRows s1 g1.Cells gf.Cells with
        | none => rw [hsr] at h; exact Outcome.noConfusion h
        | some sa =>
          rw [hsr] at h
          simp only at h
          cases hsp : storePlayers sa (some "SuperRandomAI") g1.Players gf.Players with
          | none => rw [hsp] at h; exact Outcome.noConfusion h
          | some sb =>
            rw [hsp] at h
            simp only [Outcome.done.injEq, Prod.mk.injEq] at h
            rw [← h.2.1]
            obtain ⟨⟨t, ht⟩, ⟨u, hu⟩⟩ := hx
            obtain ⟨⟨ta, hta⟩, hpa⟩ := storeRows_fresh _ _ _ _ _ _ hsr ht hfresh.1
            obtain ⟨⟨ub, hub⟩, hab⟩ := storePlayers_fresh _ _ _ _ _ _ hsp
              (by rw [hpa]; exact hu) hfresh.2.2
            exact ⟨⟨ta, by rw [hab, hta]⟩, ⟨ub, hub⟩⟩

/-! ## C20: `PublicCopy` -/

/-- C20: let the struct `g` show the board `G` in the store, its field
`internalCellsFlat` being nil or as `PopulateInternalCellsFlat` leaves it. Then
`PublicCopy` does not fail, and the new struct shows a board with the same width,
height, cells, `You`, `Running`, `Deadline` and player records (x, y, direction, speed,
active, name and step counter of every player); no policy is attached to a new player;
every array and every struct `Player` of the new struct is new storage, and the old
store is kept; and after a rollout on the new struct the old store is still kept, so
that `g` shows the board `G` as before. `PopulateInternalCellsFlat`, called on a board
of `Height` rows of `Width` cells, does not fail, keeps the board that the struct
shows, and leaves the field `internalCellsFlat` set with the rows as its windows. -/
theorem PublicCopy_equal_and_fresh :
    (∀ (s : Store) (g : GameRef) (G : Game), loadGame s g = some G → FlatOk s g →
      ∃ s1 g1 Gc, PublicCopyRef s g = some (s1, g1) ∧ loadGame s1 g1 = some Gc ∧
        Gc = G.PublicCopy ∧
        Gc.Width = G.Width ∧ Gc.Height = G.Height ∧ Gc.Cells = G.Cells ∧ Gc.You = G.You ∧
        Gc.Running = G.Running ∧ Gc.Deadline = G.Deadline ∧ Gc.Players = G.Players ∧
        (∀ kp ∈ g1.Players, ∃ r, s1.players[kp.2]? = some r ∧ r.ai = none) ∧
        Fresh s g1 ∧ Extends s s1 ∧ loadGame s1 g = some G ∧
        ∀ (fuel : Nat) (ai : Policy) (next : String) (r : Result) (s2 : Store) (g2 : GameRef),
          SimulateGameRef fuel ai s1 g1 next = Outcome.done (r, s2, g2) →
          Extends s s2 ∧ loadGame s2 g = some G) ∧
    (∀ (s : Store) (g : GameRef) (G : Game), loadGame s g = some G →
      CellsSized G.Width G.Height G.Cells →
      ∃ s1 g1, PopulateInternalCellsFlatRef s g = some (s1, g1) ∧ loadGame s1 g1 = some G ∧
        FlatOk s1 g1 ∧ g1.internalCellsFlat ≠ none ∧ Extends s s1) := by
  refine ⟨?_, ?_⟩
  · intro s g G hg hflat
    obtain ⟨s1, g1, hpc, hx, hfresh, hl, hai, _⟩ := publicCopyRef_spec hg hflat
    have heq := publicCopy_eq G
    refine ⟨s1, g1, G.PublicCopy, hpc, hl, rfl, ?_, ?_, ?_, ?_, ?_, ?_, ?_, hai, hfresh, hx,
      loadGame_extends hx hg, ?_⟩
    all_goals first
      | (rw [heq])
      | skip
    intro fuel ai next r s2 g2 hsim
    have hx2 := simulateRef_frame hx hfresh hsim
    exact ⟨hx2, loadGame_extends hx2 hg⟩
  · intro s g G hg hsz
    obtain ⟨s1, g1, hp, hx, hl, hflat, hset⟩ := populateRef_spec hg hsz
    refine ⟨s1, g1, hp, hl, hflat, ?_, hx⟩
    rw [hset]
    exact fun h => Option.noConfusion h

/-- C20 on the head-on board: the copy is played to its end (the row of the copy ends
as `[1,1,-1,2,2]`), and the struct of the original still shows the head-on board. -/
theorem PublicCopy_equal_and_fresh_witness :
    PublicCopyRef headOnStore headOnRef = some (headOnCopyStore, headOnCopyRef) ∧
    loadGame headOnCopyStore headOnCopyRef = some headOnBoard.PublicCopy ∧
    ∃ r s2 g2, SimulateGameRef 10 aiNoop headOnCopyStore headOnCopyRef ActionNOOP
        = Outcome.done (r, s2, g2) ∧
      readSlice s2 { arr := 1, off := 0, len := 5 } = some [1, 1, -1, 2, 2] ∧
      Extends headOnStore s2 ∧ loadGame s2 headOnRef = some headOnBoard := by
  obtain ⟨s1, g1, Gc, hpc, hl, hGc, _, _, _, _, _, _, _, _, _, _, _, hsim⟩ :=
    PublicCopy_equal_and_fresh.1 headOnStore headOnRef headOnBoard rfl
      (fun f hf => Option.noConfusion hf)
  have hval : PublicCopyRef headOnStore headOnRef = some (headOnCopyStore, headOnCopyRef) := rfl
  rw [hval] at hpc
  simp only [Option.some.injEq, Prod.mk.injEq] at hpc
  obtain ⟨rfl, rfl⟩ := hpc
  subst hGc
  refine ⟨hval, hl, _, _, _, rfl, rfl, ?_⟩
  exact hsim 10 aiNoop ActionNOOP _ _ _ rfl

/-- C20 for `PopulateInternalCellsFlat` on the head-on board. -/
theorem populate_keeps_board_example :
    ∃ s1 g1, PopulateInternalCellsFlatRef headOnStore headOnRef = some (s1, g1) ∧
      loadGame s1 g1 = some headOnBoard ∧ g1.internalCellsFlat = some 1 :=
  ⟨_, _, rfl, rfl, rfl⟩

/-! ## C21: a move at speed 3 in a hole round -/

/-- C21, as stated, fails: a three-cell move has one interior cell only. For a player
of speed 3 whose step counter is 6 no two different move indices of `0..2` pass the hole
test, and on the 5x1 board the round leaves exactly the middle one of the three entered
cells unstamped. -/
theorem speedThree_one_hole :
    (¬ ∃ s1 s2 : Int, s1 ≠ s2 ∧ 0 ≤ s1 ∧ s1 < 3 ∧ 0 ≤ s2 ∧ s2 < 3 ∧
        isHole (mkPlayer 0 0 DirectionRight 3 6) s1 = true ∧
        isHole (mkPlayer 0 0 DirectionRight 3 6) s2 = true) ∧
    (∃ st1, stateAfter aiNoop ActionNOOP speedThreeBoard 1 = some st1 ∧
      st1.g.Cells = [[1, 1, 0, 1, 0]] ∧
      getPlayer st1.g.Players 1 = some (mkPlayer 3 0 DirectionRight 3 6)) := by
  refine ⟨?_, ⟨_, rfl, rfl, rfl⟩⟩
  rintro ⟨s1, s2, hne, h1, h2, h3, h4, hs1, hs2⟩
  have e1 := (isHole_iff _ s1 h1 h2).mp hs1
  have e2 := (isHole_iff _ s2 h3 h4).mp hs2
  simp only [HoleIndex, mkPlayer] at e1 e2
  omega

/-- C21, amended: for an active player that moves at speed 3 in a round in which its
step counter, after the increment, is divisible by 6, and whose three steps stay on the
board: of the move indices 0, 1, 2 exactly index 1 passes the hole test; the cell of
step 1 (the single interior cell) is left as it was, the cells of step 0 and of step 2
are stamped (the id if the cell was empty, `-1` if not), and no other cell is written. -/
theorem speed_three_single_hole (w h i : Int) (cs : List (List Int)) (p : Player)
    (dx dy : Int) (hsz : CellsSized w h cs) (hlo : -128 ≤ i) (hhi : i ≤ 127)
    (hact : p.Active = true) (hspeed : p.Speed = 3)
    (hcnt : Int.tmod (p.stepCounter + 1) HolesEachStep = 0)
    (hd : dirVec p.Direction = some (dx, dy))
    (hin : ∀ t : Nat, (t : Int) < 3 →
      InBoard w h (p.X + ((t : Int) + 1) * dx) (p.Y + ((t : Int) + 1) * dy)) :
    (∀ s : Int, 0 ≤ s → s < 3 →
      (isHole { p with stepCounter := p.stepCounter + 1 } s = true ↔ s = 1)) ∧
    ∃ cs1 p1, movePlayer w h i cs p = some (cs1, p1) ∧ p1.Active = true ∧
      getCell cs1 (p.Y + 2 * dy) (p.X + 2 * dx) = getCell cs (p.Y + 2 * dy) (p.X + 2 * dx) ∧
      (∀ v, getCell cs (p.Y + dy) (p.X + dx) = some v →
        getCell cs1 (p.Y + dy) (p.X + dx) = some (if v = 0 then i else -1)) ∧
      (∀ v, getCell cs (p.Y + 3 * dy) (p.X + 3 * dx) = some v →
        getCell cs1 (p.Y + 3 * dy) (p.X + 3 * dx) = some (if v = 0 then i else -1)) ∧
      (∀ x y : Int, (¬ ∃ t : Nat, (t : Int) < 3 ∧ x = p.X + ((t : Int) + 1) * dx ∧
        y = p.Y + ((t : Int) + 1) * dy) → getCell cs1 y x = getCell cs y x) := by
  have hc6 : (p.stepCounter + 1) % 6 = 0 := (tmod_six _).mp hcnt
  have hin3 : ∀ t : Nat, (t : Int) < p.Speed →
      InBoard w h (p.X + ((t : Int) + 1) * dx) (p.Y + ((t : Int) + 1) * dy) := by
    intro t ht; exact hin t (by omega)
  refine ⟨?_, ?_⟩
  · intro s h0 h1
    rw [isHole_iff { p with stepCounter := p.stepCounter + 1 } s h0 (by show s < p.Speed; omega)]
    show HoleIndex p.Speed (p.stepCounter + 1) s ↔ s = 1
    unfold HoleIndex
    constructor
    · rintro ⟨_, _, h3, h4⟩; omega
    · rintro rfl; exact ⟨by omega, hc6, by omega, by omega⟩
  · obtain ⟨cs1, p1, hm, _, hp1, hstamp, hhole, hoff⟩ :=
      movePlayer_on_board (i := i) hsz hact hd hin3
    refine ⟨cs1, p1, hm, by rw [hp1]; exact hact, ?_, ?_, ?_, ?_⟩
    · have := hhole 1 (by omega) ⟨by omega, hc6, by norm_num, by omega⟩
      norm_num at this
      exact this
    · intro v hv
      have := hstamp 0 v (by omega) (by unfold HoleIndex; norm_num)
        (by norm_num; exact hv)
      norm_num at this
      rw [this, stampValue_small hlo hhi]
    · intro v hv
      have := hstamp 2 v (by omega) (by unfold HoleIndex; rw [hspeed]; norm_num)
        (by norm_num; exact hv)
      norm_num at this
      rw [this, stampValue_small hlo hhi]
    · intro x y hxy
      apply hoff
      rintro ⟨t, ht, hx, hy⟩
      exact hxy ⟨t, by omega, hx, hy⟩

/-- C21 on the 5x1 board: the player of speed 3 with step counter 5 stamps the cells
(1,0) and (3,0) and leaves (2,0) empty. -/
theorem speed_three_single_hole_witness :
    ∃ cs1 p1, movePlayer 5 1 1 [[1, 0, 0, 0, 0]] (mkPlayer 0 0 DirectionRight 3 5)
        = some (cs1, p1) ∧ p1.Active = true ∧
      getCell cs1 0 2 = some 0 ∧ getCell cs1 0 1 = some 1 ∧ getCell cs1 0 3 = some 1 := by
  obtain ⟨cs1, p1, hm, hact, h1, h0, h2, _⟩ :=
    (speed_three_single_hole 5 1 1 [[1, 0, 0, 0, 0]] (mkPlayer 0 0 DirectionRight 3 5) 1 0
      ⟨by decide, by decide, by decide⟩ (by decide) (by decide) rfl rfl (by decide) rfl
      (by
        intro t ht
        simp only [mkPlayer, InBoard]
        omega)).2
  exact ⟨cs1, p1, hm, hact, h1, h0 0 rfl, h2 0 rfl⟩

/-! ## C22: stamped cells stay stamped -/

/-- A round that completes re-opens no cell and re-stamps no cell with an id. -/
theorem roundBody_kept {ai : Policy} {next : String} {st st1 : LoopState}
    (hb : roundBody ai next st = some st1) : CellsKept st.g.Cells st1.g.Cells := by
  obtain ⟨you, g1, g2, _, ha, hm, hs⟩ := roundBody_some hb
  obtain ⟨answers, ps, _, _, hg1⟩ := afterActions_some ha
  obtain ⟨cells, ps1, ps2, hmv, _, hg2⟩ := moveAndCrash_some hm
  have hk := doMovement_kept _ _ _ _ hmv
  rw [hs, hg2]
  rw [hg1] at hk
  exact hk

/-- The rounds `k + 1 .. k + n` of a rollout re-open no cell. -/
theorem stateAfter_kept (ai : Policy) (next : String) (g : Game) (k : Nat) (s : LoopState)
    (hs : stateAfter ai next g k = some s) :
    ∀ (n : Nat) (s1 : LoopState), stateAfter ai next g (k + n) = some s1 →
      CellsKept s.g.Cells s1.g.Cells := by
  intro n
  induction n with
  | zero =>
    intro s1 h1
    rw [Nat.add_zero, hs] at h1
    cases h1
    exact CellsKept.refl _
  | succ n ih =>
    intro s1 h1
    obtain ⟨s0, h0, hb⟩ := stateAfter_succ (k := k + n) h1
    exact (ih s0 h0).trans (roundBody_kept hb)

/-- What `CellsKept` says about a cell that is not empty. -/
theorem cellsKept_stamped {c c1 : List (List Int)} (hk : CellsKept c c1) {y x v : Int}
    (hg : getCell c y x = some v) (hv : v ≠ 0) :
    ∃ v1, getCell c1 y x = some v1 ∧ v1 ≠ 0 ∧ (v1 = v ∨ v1 = -1) ∧ (v = -1 → v1 = -1) := by
  obtain ⟨v1, h1, h2⟩ := hk y x v hg
  refine ⟨v1, h1, ?_, h2 hv, ?_⟩
  · rcases h2 hv with h | h <;> omega
  · intro h; rcases h2 hv with h3 | h3 <;> omega

/-- C22: in every round of the loop of `SimulateGame` that completes (from any state
`st`, under any policy), a cell that is not empty before the round is not empty after
it: it holds the same value or `-1`, and a cell that holds `-1` holds `-1` afterwards.
The same holds from the end of round `k` of a rollout to the end of every later round
`k + n`. -/
theorem stamped_cells_stay_stamped (ai : Policy) (next : String) :
    (∀ (st st1 : LoopState), roundBody ai next st = some st1 →
      ∀ (y x v : Int), getCell st.g.Cells y x = some v → v ≠ 0 →
        ∃ v1, getCell st1.g.Cells y x = some v1 ∧ v1 ≠ 0 ∧ (v1 = v ∨ v1 = -1) ∧
          (v = -1 → v1 = -1)) ∧
    (∀ (g : Game) (k n : Nat) (s s1 : LoopState), stateAfter ai next g k = some s →
      stateAfter ai next g (k + n) = some s1 →
      ∀ (y x v : Int), getCell s.g.Cells y x = some v → v ≠ 0 →
        ∃ v1, getCell s1.g.Cells y x = some v1 ∧ v1 ≠ 0 ∧ (v1 = v ∨ v1 = -1) ∧
          (v = -1 → v1 = -1)) := by
  refine ⟨?_, ?_⟩
  · intro st st1 hb y x v hg hv
    exact cellsKept_stamped (roundBody_kept hb) hg hv
  · intro g k n s s1 hs hs1 y x v hg hv
    exact cellsKept_stamped (stateAfter_kept ai next g k s hs n s1 hs1) hg hv

/-- C22 on the head-on board: the cell (2,0), which holds `-1` at the end of round 2
(both players entered it), holds `-1` at the end of round 3. -/
theorem stamped_cells_stay_stamped_witness :
    ∃ s s1, stateAfter aiNoop ActionNOOP headOnBoard 2 = some s ∧
      stateAfter aiNoop ActionNOOP headOnBoard 3 = some s1 ∧
      getCell s.g.Cells 0 2 = some (-1) ∧ getCell s1.g.Cells 0 2 = some (-1) := by
  obtain ⟨s, hs⟩ : ∃ s, stateAfter aiNoop ActionNOOP headOnBoard 2 = some s := ⟨_, rfl⟩
  obtain ⟨s1, hs1⟩ : ∃ s1, stateAfter aiNoop ActionNOOP headOnBoard (2 + 1) = some s1 :=
    ⟨_, rfl⟩
  have hg : getCell s.g.Cells 0 2 = some (-1) := by
    have : s = _ := (Option.some.inj hs).symm
    rw [this]; rfl
  obtain ⟨v1, h1, _, _, h2⟩ :=
    (stamped_cells_stay_stamped aiNoop ActionNOOP).2 headOnBoard 2 1 s s1 hs hs1 0 2 (-1) hg
      (by decide)
  rw [h2 rfl] at h1
  exact ⟨s, s1, hs, hs1, hg, h1⟩

/-! ## C23: the order in which the records arrive -/

theorem jumpLoop_spec {g : Game} {d : String} {dx dy : Int} (speed x0 y0 : Int)
    (hsz : CellsSized g.Width g.Height g.Cells) (hd : dirVec d = some (dx, dy)) :
    ∀ (n s : Nat) (jf : Bool),
      (∃ b, jumpLoop g d speed n s (x0 + (s : Int) * dx) (y0 + (s : Int) * dy) jf = some b) ∧
      (jumpLoop g d speed n s (x0 + (s : Int) * dx) (y0 + (s : Int) * dy) jf = some true ↔
        (∀ k : Nat, s ≤ k → k < s + n →
          InBoard g.Width g.Height (x0 + ((k : Int) + 1) * dx) (y0 + ((k : Int) + 1) * dy)) ∧
        (∀ k : Nat, s ≤ k → k < s + n → ((k : Int) = 0 ∨ (k : Int) = speed - 1) →
          getCell g.Cells (y0 + ((k : Int) + 1) * dy) (x0 + ((k : Int) + 1) * dx) = some 0) ∧
        (jf = true ∨ ∃ k : Nat, s ≤ k ∧ k < s + n ∧ (k : Int) ≠ 0 ∧ (k : Int) ≠ speed - 1 ∧
          ∃ v, getCell g.Cells (y0 + ((k : Int) + 1) * dy) (x0 + ((k : Int) + 1) * dx) = some v ∧
            v ≠ 0)) := by
  intro n
  induction n with
  | zero =>
    intro s jf
    refine ⟨⟨jf, rfl⟩, ?_⟩
    simp only [jumpLoop, Option.some.injEq, Nat.add_zero]
    constructor
    · intro h
      exact ⟨fun k h1 h2 => absurd h2 (by omega), fun k h1 h2 => absurd h2 (by omega), Or.inl h⟩
    · rintro ⟨_, _, h | ⟨k, h1, h2, _⟩⟩
      · exact h
      · omega
  | succ n ih =>
    intro s jf
    have hx : x0 + (s : Int) * dx + dx = x0 + ((s + 1 : Nat) : Int) * dx := by
      push_cast; ring
    have hy : y0 + (s : Int) * dy + dy = y0 + ((s + 1 : Nat) : Int) * dy := by
      push_cast; ring
    have hx1 : x0 + ((s : Int) + 1) * dx = x0 + ((s + 1 : Nat) : Int) * dx := by
      push_cast; ring
    have hy1 : y0 + ((s : Int) + 1) * dy = y0 + ((s + 1 : Nat) : Int) * dy := by
      push_cast; ring
    have hs1 : (s : Int) + 1 = ((s + 1 : Nat) : Int) := by push_cast; ring
    rw [jumpLoop, dostep_of_dirVec hd]
    dsimp only
    rw [hx, hy, hs1]
    by_cases hout : x0 + ((s + 1 : Nat) : Int) * dx < 0 ∨ x0 + ((s + 1 : Nat) : Int) * dx ≥ g.Width ∨
        y0 + ((s + 1 : Nat) : Int) * dy < 0 ∨ y0 + ((s + 1 : Nat) : Int) * dy ≥ g.Height
    · rw [if_pos hout]
      refine ⟨⟨false, rfl⟩, ?_⟩
      constructor
      · intro h; cases h
      · rintro ⟨h, _⟩
        have := h s (le_refl _) (by omega)
        rw [hx1, hy1] at this
        unfold InBoard at this
        omega
    · rw [if_neg hout]
      have hin : InBoard g.Width g.Height (x0 + ((s + 1 : Nat) : Int) * dx)
          (y0 + ((s + 1 : Nat) : Int) * dy) := by
        unfold InBoard; omega
      obtain ⟨v, hv⟩ := getCell_some_of_sized hsz hin
      rw [hv]
      dsimp only
      have hin0 : InBoard g.Width g.Height (x0 + ((s : Int) + 1) * dx)
          (y0 + ((s : Int) + 1) * dy) := by rw [hx1, hy1]; exact hin
      have hv0 : getCell g.Cells (y0 + ((s : Int) + 1) * dy) (x0 + ((s : Int) + 1) * dx)
          = some v := by rw [hx1, hy1]; exact hv
      by_cases hint : (s : Int) ≠ 0 ∧ (s : Int) ≠ speed - 1
      · rw [if_pos hint]
        obtain ⟨htot, hiff⟩ := ih (s + 1) (if v ≠ 0 then true else jf)
        refine ⟨htot, ?_⟩
        rw [hiff]
        constructor
        · rintro ⟨h1, h2, h3⟩
          refine ⟨?_, ?_, ?_⟩
          · intro k hk1 hk2
            rcases Nat.eq_or_lt_of_le hk1 with e | e
            · rw [← e]; exact hin0
            · exact h1 k e (by omega)
          · intro k hk1 hk2 hk3
            rcases Nat.eq_or_lt_of_le hk1 with e | e
            · rw [← e] at hk3; omega
            · exact h2 k e (by omega) hk3
          · rcases h3 with h3 | ⟨k, k1, k2, k3⟩
            · by_cases hvz : v ≠ 0
              · right
                exact ⟨s, le_refl _, by omega, hint.1, hint.2, v, hv0, hvz⟩
              · rw [if_neg hvz] at h3
                exact Or.inl h3
            · right
              exact ⟨k, by omega, by omega, k3⟩
        · rintro ⟨h1, h2, h3⟩
          refine ⟨fun k hk1 hk2 => h1 k (by omega) (by omega),
            fun k hk1 hk2 => h2 k (by omega) (by omega), ?_⟩
          rcases h3 with h3 | ⟨k, k1, k2, k3, k4, w, hw, hwz⟩
          · left
            rw [h3]
            split_ifs <;> rfl
          · rcases Nat.eq_or_lt_of_le k1 with e | e
            · left
              rw [← e, hv0] at hw
              cases hw
              rw [if_pos hwz]
            · right
              exact ⟨k, e, by omega, k3, k4, w, hw, hwz⟩
      · rw [if_neg hint]
        by_cases hvz : v ≠ 0
        · rw [if_pos hvz]
          refine ⟨⟨false, rfl⟩, ?_⟩
          constructor
          · intro h; cases h
          · rintro ⟨_, h2, _⟩
            have := h2 s (le_refl _) (by omega) (by omega)
            rw [hv0] at this
            cases this
            exact absurd rfl hvz
        · rw [if_neg hvz]
          have hvz0 : v = 0 := not_not.mp hvz
          obtain ⟨htot, hiff⟩ := ih (s + 1) jf
          refine ⟨htot, ?_⟩
          rw [hiff]
          constructor
          · rintro ⟨h1, h2, h3⟩
            refine ⟨?_, ?_, ?_⟩
            · intro k hk1 hk2
              rcases Nat.eq_or_lt_of_le hk1 with e | e
              · rw [← e]; exact hin0
              · exact h1 k e (by omega)
            · intro k hk1 hk2 hk3
              rcases Nat.eq_or_lt_of_le hk1 with e | e
              · rw [← e, hv0, hvz0]
              · exact h2 k e (by omega) hk3
            · rcases h3 with h3 | ⟨k, k1, k2, k3⟩
              · exact Or.inl h3
              · right
                exact ⟨k, by omega, by omega, k3⟩
          · rintro ⟨h1, h2, h3⟩
            refine ⟨fun k hk1 hk2 => h1 k (by omega) (by omega),
              fun k hk1 hk2 => h2 k (by omega) (by omega), ?_⟩
            rcases h3 with h3 | ⟨k, k1, k2, k3, k4, w, hw, hwz⟩
            · exact Or.inl h3
            · rcases Nat.eq_or_lt_of_le k1 with e | e
              · exfalso
                rw [← e] at k3 k4
                exact hint ⟨k3, k4⟩
              · right
                exact ⟨k, e, by omega, k3, k4, w, hw, hwz⟩

/-- For one of the five actions the switch of `isJump` returns early for a `speed_up`
beyond the maximum speed and for a `slow_down` below speed 1, and otherwise applies the
action as the specification says. -/
theorem jumpAction_valid {action : String} (hval : IsValidAction action = true) (p : Player) :
    jumpAction action p =
      if (action = ActionFaster ∧ p.Speed + 1 > MaxSpeed) ∨
          (action = ActionSlower ∧ p.Speed - 1 < 1) then none
      else some (applyActionSpec action p) := by
  have h5 : action = ActionTurnLeft ∨ action = ActionTurnRight ∨ action = ActionSlower ∨
      action = ActionFaster ∨ action = ActionNOOP := by
    unfold IsValidAction at hval
    simp only [Bool.or_eq_true, beq_iff_eq] at hval
    tauto
  rcases h5 with h | h | h | h | h <;> subst h
  · simp [jumpAction, applyActionSpec, ActionTurnLeft, ActionTurnRight, ActionSlower,
      ActionFaster, ActionNOOP]
  · simp [jumpAction, applyActionSpec, ActionTurnLeft, ActionTurnRight, ActionSlower,
      ActionFaster, ActionNOOP]
  · by_cases hs : p.Speed - 1 < 1 <;>
      simp [jumpAction, applyActionSpec, ActionTurnLeft, ActionTurnRight, ActionSlower,
        ActionFaster, ActionNOOP, hs]
  · by_cases hs : p.Speed + 1 > MaxSpeed <;>
      simp [jumpAction, applyActionSpec, ActionTurnLeft, ActionTurnRight, ActionSlower,
        ActionFaster, ActionNOOP, hs]
  · simp [jumpAction, applyActionSpec, ActionTurnLeft, ActionTurnRight, ActionSlower,
      ActionFaster, ActionNOOP]

theorem dostep_none_of_dirVec {d : String} (hd : dirVec d = none) (x y : Int) :
    dostep d x y = none := by
  unfold dirVec at hd
  unfold dostep
  split_ifs at hd ⊢
  rfl

theorem applyActionSpec_fields (action : String) (p : Player) :
    (applyActionSpec action p).stepCounter = p.stepCounter ∧
      (applyActionSpec action p).X = p.X ∧ (applyActionSpec action p).Y = p.Y ∧
      ((dirVec p.Direction).isSome = true →
        (dirVec (applyActionSpec action p).Direction).isSome = true) := by
  unfold applyActionSpec
  split_ifs
  · exact ⟨rfl, rfl, rfl, dirVec_turnLeft⟩
  · exact ⟨rfl, rfl, rfl, dirVec_turnRight⟩
  · exact ⟨rfl, rfl, rfl, id⟩
  · exact ⟨rfl, rfl, rfl, id⟩
  · exact ⟨rfl, rfl, rfl, id⟩

/-- The loop "Check Jump" for a player `q` of speed at least 3: it returns when `q` has
one of the four directions, and it returns true iff the `Speed` cells ahead are on the
board, the first and the last of them are empty and a cell between them is not. -/
theorem jumpCheck_iff {g : Game} (hsz : CellsSized g.Width g.Height g.Cells) (q : Player)
    (h3 : 3 ≤ q.Speed) :
    (jumpLoop g q.Direction q.Speed q.Speed.toNat 0 q.X q.Y false = some true ↔
      ∃ dx dy, dirVec q.Direction = some (dx, dy) ∧
        (∀ k : Nat, (k : Int) < q.Speed →
          InBoard g.Width g.Height (q.X + ((k : Int) + 1) * dx) (q.Y + ((k : Int) + 1) * dy)) ∧
        getCell g.Cells (q.Y + dy) (q.X + dx) = some 0 ∧
        getCell g.Cells (q.Y + q.Speed * dy) (q.X + q.Speed * dx) = some 0 ∧
        ∃ k : Nat, 1 ≤ k ∧ (k : Int) ≤ q.Speed - 2 ∧
          ∃ v, getCell g.Cells (q.Y + ((k : Int) + 1) * dy) (q.X + ((k : Int) + 1) * dx)
            = some v ∧ v ≠ 0) ∧
    ((dirVec q.Direction).isSome = true →
      ∃ b, jumpLoop g q.Direction q.Speed q.Speed.toNat 0 q.X q.Y false = some b) := by
  cases hd : dirVec q.Direction with
  | none =>
    refine ⟨?_, fun h => by simp at h⟩
    obtain ⟨m, hm⟩ : ∃ m, q.Speed.toNat = m + 1 := ⟨q.Speed.toNat - 1, by omega⟩
    rw [hm, jumpLoop, dostep_none_of_dirVec hd]
    constructor
    · intro h; cases h
    · rintro ⟨dx, dy, h, _⟩; cases h
  | some v =>
    obtain ⟨dx, dy⟩ := v
    obtain ⟨htot, hiff⟩ := jumpLoop_spec q.Speed q.X q.Y hsz hd q.Speed.toNat 0 false
    simp only [Nat.cast_zero, zero_mul, add_zero, Nat.zero_le, true_implies, zero_add,
      Bool.false_eq_true, false_or] at htot hiff
    refine ⟨?_, fun _ => htot⟩
    rw [hiff]
    constructor
    · rintro ⟨h1, h2, k, _, k1, k2, k3, hk⟩
      refine ⟨dx, dy, rfl, fun k hk => h1 k (by omega), ?_, ?_, k, by omega, by omega, hk⟩
      · have := h2 0 (by omega) (Or.inl rfl)
        simpa using this
      · have := h2 (q.Speed.toNat - 1) (by omega) (Or.inr (by omega))
        have e : ((q.Speed.toNat - 1 : Nat) : Int) + 1 = q.Speed := by omega
        rw [e] at this
        exact this
    · rintro ⟨dx1, dy1, h0, h1, h2, h3, k, k1, k2, hk⟩
      cases h0
      refine ⟨fun k hk => h1 k (by omega), ?_, k, trivial, by omega, by omega, by omega, hk⟩
      intro j hj hj2
      rcases hj2 with e | e
      · have e0 : j = 0 := by omega
        subst e0
        simpa using h2
      · have e1 : (j : Int) + 1 = q.Speed := by omega
        rw [e1]
        exact h3

/-- C24, as stated, fails for `speed_up` at the maximum speed: on the 12x1 board the
self-player has speed 10 and step counter 5; after `speed_up` its speed is 11, the 11
cells ahead are on the board, the first and the last of them are empty and the cell
(2,0) between them is occupied, yet `isJump` returns false (line 493: the speed exceeds
`MaxSpeed`). -/
theorem maxSpeedBoard_no_jump :
    getPlayer maxSpeedBoard.Players maxSpeedBoard.You = some (mkPlayer 0 0 DirectionRight 10 5) ∧
    isJump maxSpeedBoard ActionFaster = some false ∧
    JumpAhead maxSpeedBoard (applyActionSpec ActionFaster (mkPlayer 0 0 DirectionRight 10 5)) := by
  refine ⟨rfl, rfl, by decide, by decide, 1, 0, rfl, ?_, rfl, rfl, 1, le_refl _, by decide,
    2, rfl, by decide⟩
  intro k hk
  have hk2 : (k : Int) < 11 := hk
  unfold InBoard
  show 0 ≤ (0 : Int) + ((k : Int) + 1) * 1 ∧ (0 : Int) + ((k : Int) + 1) * 1 < 12 ∧
    0 ≤ (0 : Int) + ((k : Int) + 1) * 0 ∧ (0 : Int) + ((k : Int) + 1) * 0 < 1
  omega

/-- C24, amended: on a board of `Height` rows of `Width` cells, for each of the five
actions and the record `p` of the self-player, `isJump` returns true if and only if the
action is not a `speed_up` beyond the maximum speed 10 and, after applying the action
(turning, or changing the speed by one), the speed is at least 3, the step counter plus
one is divisible by 6, the `Speed` cells ahead are all on the board, the first and the
last of them are empty and at least one cell strictly between them is not empty. When
`p` has one of the four directions, `isJump` returns (true or false). -/
theorem isJump_iff (g : Game) (action : String) (p : Player)
    (hsz : CellsSized g.Width g.Height g.Cells) (hval : IsValidAction action = true)
    (hp : getPlayer g.Players g.You = some p) :
    (isJump g action = some true ↔
      JumpAhead g (applyActionSpec action p) ∧
        (action = ActionFaster → p.Speed + 1 ≤ MaxSpeed)) ∧
    ((dirVec p.Direction).isSome = true → ∃ b, isJump g action = some b) := by
  obtain ⟨hsc, _, _, hdir⟩ := applyActionSpec_fields action p
  unfold isJump
  rw [hp]
  dsimp only
  by_cases hc : Int.tmod (p.stepCounter + 1) HolesEachStep ≠ 0
  · rw [if_pos hc]
    refine ⟨?_, fun _ => ⟨false, rfl⟩⟩
    constructor
    · intro h; cases h
    · rintro ⟨⟨_, h6, _⟩, _⟩
      rw [hsc] at h6
      exact absurd ((tmod_six _).mpr h6) hc
  · rw [if_neg hc]
    have h6 : (p.stepCounter + 1) % 6 = 0 := (tmod_six _).mp (not_not.mp hc)
    rw [jumpAction_valid hval]
    by_cases hearly : (action = ActionFaster ∧ p.Speed + 1 > MaxSpeed) ∨
        (action = ActionSlower ∧ p.Speed - 1 < 1)
    · rw [if_pos hearly]
      refine ⟨?_, fun _ => ⟨false, rfl⟩⟩
      constructor
      · intro h; cases h
      · rintro ⟨⟨hs3, _⟩, hmax⟩
        rcases hearly with ⟨ha, hs⟩ | ⟨ha, hs⟩
        · have := hmax ha
          omega
        · subst ha
          have e : (applyActionSpec ActionSlower p).Speed = p.Speed - 1 := rfl
          rw [e] at hs3
          omega
    · rw [if_neg hearly]
      dsimp only
      by_cases hslow : (applyActionSpec action p).Speed < HoleSpeed
      · rw [if_pos hslow]
        refine ⟨?_, fun _ => ⟨false, rfl⟩⟩
        constructor
        · intro h; cases h
        · rintro ⟨⟨hs3, _⟩, _⟩
          unfold HoleSpeed at hslow
          omega
      · rw [if_neg hslow]
        have hs3 : 3 ≤ (applyActionSpec action p).Speed := by
          unfold HoleSpeed at hslow; omega
        obtain ⟨hiff, htot⟩ := jumpCheck_iff hsz (applyActionSpec action p) hs3
        refine ⟨?_, fun h => htot (hdir h)⟩
        rw [hiff]
        unfold JumpAhead
        rw [hsc]
        constructor
        · intro h
          refine ⟨⟨hs3, h6, h⟩, fun ha => ?_⟩
          by_contra hgt
          exact hearly (Or.inl ⟨ha, by omega⟩)
        · rintro ⟨⟨_, _, h⟩, _⟩
          exact h

/-- C24, amended, on the 5x1 jump board: with speed 3 and step counter 5 the action
`change_nothing` jumps over the occupied cell (2,0). -/
theorem isJump_iff_witness : isJump jumpBoard ActionNOOP = some true :=
  (isJump_iff jumpBoard ActionNOOP (mkPlayer 0 0 DirectionRight 3 5)
    ⟨by decide, by decide, by decide⟩ rfl rfl).1.mpr
    ⟨⟨by decide, by decide, 1, 0, rfl,
      (by
        intro k hk
        have hk2 : (k : Int) < 3 := hk
        unfold InBoard
        show 0 ≤ (0 : Int) + ((k : Int) + 1) * 1 ∧ (0 : Int) + ((k : Int) + 1) * 1 < 5 ∧
          0 ≤ (0 : Int) + ((k : Int) + 1) * 0 ∧ (0 : Int) + ((k : Int) + 1) * 0 < 1
        omega),
      rfl, rfl, 1, le_refl _, by decide, 2, rfl, by decide⟩,
     fun h => absurd h (by decide)⟩

/-! ## C25 and C26: the policy `JumpingSnailAI` -/

/-- The test loop along the unit step `(dx, dy)` on a board of `Height` rows of `Width`
cells: it returns, and it returns true iff the `n` cells ahead are on the board and
empty. -/
theorem pathFree_spec {g : Game} {step : Int → Int → Option (Int × Int)} {dx dy : Int}
    (hsz : CellsSized g.Width g.Height g.Cells)
    (hstep : ∀ x y, step x y = some (x + dx, y + dy)) :
    ∀ (n : Nat) (x y : Int),
      (∃ b, pathFree g step n x y = some b) ∧
      (pathFree g step n x y = some true ↔
        ∀ k : Nat, k < n → FreeCell g (x + ((k : Int) + 1) * dx, y + ((k : Int) + 1) * dy)) := by
  intro n
  induction n with
  | zero =>
    intro x y
    exact ⟨⟨true, rfl⟩, fun _ k hk => absurd hk (by omega), fun _ => rfl⟩
  | succ n ih =>
    intro x y
    rw [pathFree, hstep]
    dsimp only
    have h0 : ∀ P : Int × Int → Prop, P (x + dx, y + dy) →
        P (x + (((0 : Nat) : Int) + 1) * dx, y + (((0 : Nat) : Int) + 1) * dy) := by
      intro P hP
      have e1 : x + (((0 : Nat) : Int) + 1) * dx = x + dx := by push_cast; ring
      have e2 : y + (((0 : Nat) : Int) + 1) * dy = y + dy := by push_cast; ring
      rw [e1, e2]; exact hP
    have h0r : ∀ P : Int × Int → Prop,
        P (x + (((0 : Nat) : Int) + 1) * dx, y + (((0 : Nat) : Int) + 1) * dy) →
        P (x + dx, y + dy) := by
      intro P hP
      have e1 : x + (((0 : Nat) : Int) + 1) * dx = x + dx := by push_cast; ring
      have e2 : y + (((0 : Nat) : Int) + 1) * dy = y + dy := by push_cast; ring
      rw [e1, e2] at hP; exact hP
    by_cases hout : x + dx < 0 ∨ x + dx ≥ g.Width ∨ y + dy < 0 ∨ y + dy ≥ g.Height
    · rw [if_pos hout]
      refine ⟨⟨false, rfl⟩, ?_⟩
      constructor
      · intro h; cases h
      · intro h
        have := h0r (FreeCell g) (h 0 (by omega))
        unfold FreeCell InBoard at this
        dsimp only at this
        omega
    · rw [if_neg hout]
      have hin : InBoard g.Width g.Height (x + dx) (y + dy) := by unfold InBoard; omega
      obtain ⟨v, hv⟩ := getCell_some_of_sized hsz hin
      rw [hv]
      dsimp only
      by_cases hvz : v ≠ 0
      · rw [if_pos hvz]
        refine ⟨⟨false, rfl⟩, ?_⟩
        constructor
        · intro h; cases h
        · intro h
          have := (h0r (FreeCell g) (h 0 (by omega))).2
          dsimp only at this
          rw [hv] at this
          cases this
          exact absurd rfl hvz
      · rw [if_neg hvz]
        have hvz0 : v = 0 := not_not.mp hvz
        obtain ⟨htot, hiff⟩ := ih (x + dx) (y + dy)
        refine ⟨htot, ?_⟩
        rw [hiff]
        have e : ∀ k : Nat, (x + dx + ((k : Int) + 1) * dx, y + dy + ((k : Int) + 1) * dy)
            = (x + (((k + 1 : Nat) : Int) + 1) * dx, y + (((k + 1 : Nat) : Int) + 1) * dy) := by
          intro k
          have e1 : x + dx + ((k : Int) + 1) * dx = x + (((k + 1 : Nat) : Int) + 1) * dx := by
            push_cast; ring
          have e2 : y + dy + ((k : Int) + 1) * dy = y + (((k + 1 : Nat) : Int) + 1) * dy := by
            push_cast; ring
          rw [e1, e2]
        constructor
        · intro h k hk
          cases k with
          | zero =>
            apply h0 (FreeCell g)
            exact ⟨hin, by rw [← hvz0]; exact hv⟩
          | succ k =>
            rw [← e k]
            exact h k (by omega)
        · intro h k hk
          rw [e k]
          exact h (k + 1) (by omega)

theorem jsClearedSlice_some {g : Game} (slice : Option (List Bool))
    (hnn : 0 ≤ g.Height * g.Width) :
    jsClearedSlice g slice = some (List.replicate (g.Height * g.Width).toNat false) := by
  unfold jsClearedSlice
  dsimp only
  split_ifs with h1 h2
  · omega
  · rfl
  · have h3 := not_not.mp h1
    congr 2
    omega

/-- The flood fill of the policy on a board of `Height` rows of `Width` cells, with a
cutoff `c ≥ 0`: it returns the smaller one of `c + 1` and the number of the cells that
the flood fill counts. -/
theorem jsFreeSpaceConnected_spec (g : Game) (slice : Option (List Bool)) (x y c : Int)
    (fuel : Nat) (hsz : CellsSized g.Width g.Height g.Cells) (hc : 0 ≤ c)
    (hfuel : (g.Height * g.Width).toNat + 1 ≤ fuel) :
    ∃ (r : Int × List Bool) (S : Finset (Int × Int)),
      jsFreeSpaceConnected fuel g slice x y c = Outcome.done r ∧
      (∀ cell, cell ∈ S ↔ Counted g x y cell) ∧ r.1 = min (S.card : Int) (c + 1) := by
  obtain ⟨r, _, hruns, _, hcount, hset⟩ :=
    freeSpaceConnected_full g none x y fuel hsz (fun s hs => Option.noConfusion hs) hfuel
  obtain ⟨rc, hrc, hrel⟩ : ∃ rc, runCalls g fuel c (seedCells x y)
      (0, List.replicate (g.Height * g.Width).toNat false) = Outcome.done rc ∧
      ((rc = r ∧ r.1 ≤ c) ∨ (rc.1 = c + 1 ∧ c + 1 ≤ r.1)) :=
    sim_seq (sim_call g c hc fuel) (seedCells x y) _ _ r hruns (Or.inl ⟨rfl, hc⟩)
  have hnn : 0 ≤ g.Height * g.Width := mul_nonneg hsz.2.1 hsz.1
  refine ⟨rc, markedFree g r.2, ?_, hset, ?_⟩
  · unfold jsFreeSpaceConnected
    rw [jsClearedSlice_some slice hnn]
    exact hrc
  · rw [← hcount]
    rcases hrel with ⟨rfl, hle⟩ | ⟨he, hle⟩
    · exact (min_eq_left (by omega)).symm
    · rw [he]; exact (min_eq_right hle).symm

/-- The test "Check turn_left" walks in the direction that `turn_right` gives in the
simulator. -/
theorem stepLeftCheck_eq (d : String) (x y : Int) :
    stepLeftCheck d x y = dostep (turnRight d) x y := by
  by_cases h1 : d = DirectionLeft
  · subst h1; rfl
  · by_cases h2 : d = DirectionRight
    · subst h2; rfl
    · by_cases h3 : d = DirectionDown
      · subst h3; rfl
      · by_cases h4 : d = DirectionUp
        · subst h4; rfl
        · simp only [stepLeftCheck, turnRight, dostep, h1, h2, h3, h4, if_false]

/-- The test "Check turn_right" walks in the direction that `turn_left` gives in the
simulator. -/
theorem stepRightCheck_eq (d : String) (x y : Int) :
    stepRightCheck d x y = dostep (turnLeft d) x y := by
  by_cases h1 : d = DirectionLeft
  · subst h1; rfl
  · by_cases h2 : d = DirectionRight
    · subst h2; rfl
    · by_cases h3 : d = DirectionDown
      · subst h3; rfl
      · by_cases h4 : d = DirectionUp
        · subst h4; rfl
        · simp only [stepRightCheck, turnLeft, dostep, h1, h2, h3, h4, if_false]

/-- The branch for a speed above 1 on a board of `Height` rows of `Width` cells, for a
player with one of the four directions: an action is offered, one of `slow_down`,
`turn_left` and `turn_right`; it is `slow_down` when the `Speed - 1` cells ahead are on
the board and empty. -/
theorem slowOrTurn_spec {g : Game} {you : Player} {dx dy : Int}
    (hsz : CellsSized g.Width g.Height g.Cells) (hdir : dirVec you.Direction = some (dx, dy)) :
    (slowOrTurn g you = Outcome.done (Decision.answer ActionSlower) ∨
      slowOrTurn g you = Outcome.done (Decision.answer ActionTurnLeft) ∨
      slowOrTurn g you = Outcome.done (Decision.answer ActionTurnRight)) ∧
    ((∀ k : Nat, (k : Int) < you.Speed - 1 →
        FreeCell g (you.X + ((k : Int) + 1) * dx, you.Y + ((k : Int) + 1) * dy)) →
      slowOrTurn g you = Outcome.done (Decision.answer ActionSlower)) := by
  have hsome : (dirVec you.Direction).isSome = true := by rw [hdir]; rfl
  obtain ⟨vl, hvl⟩ := Option.isSome_iff_exists.mp (dirVec_turnRight hsome)
  obtain ⟨vr, hvr⟩ := Option.isSome_iff_exists.mp (dirVec_turnLeft hsome)
  have hl : ∀ x y, stepLeftCheck you.Direction x y = some (x + vl.1, y + vl.2) := by
    intro x y
    rw [stepLeftCheck_eq]
    exact dostep_of_dirVec hvl x y
  have hr : ∀ x y, stepRightCheck you.Direction x y = some (x + vr.1, y + vr.2) := by
    intro x y
    rw [stepRightCheck_eq]
    exact dostep_of_dirVec hvr x y
  obtain ⟨⟨b1, hb1⟩, hiff1⟩ :=
    pathFree_spec hsz (dostep_of_dirVec hdir) (you.Speed - 1).toNat you.X you.Y
  obtain ⟨⟨b2, hb2⟩, _⟩ := pathFree_spec hsz hl you.Speed.toNat you.X you.Y
  obtain ⟨⟨b3, hb3⟩, _⟩ := pathFree_spec hsz hr you.Speed.toNat you.X you.Y
  unfold slowOrTurn
  rw [hb1, hb2, hb3]
  refine ⟨?_, ?_⟩
  · cases b1 <;> cases b2 <;> cases b3 <;> simp
  · intro hfree
    have : b1 = true := by
      have := hiff1.mpr (fun k hk => hfree k (by omega))
      rw [hb1] at this
      exact Option.some.inj this
    rw [this]

set_option maxRecDepth 100000 in
/-- C25, as stated, fails for a speed above 1: on the open 8x8 board the acting player
is active with speed 2, the flood fill from its position (cutoff 51) returns 52, which
is not below 50, and the two cells ahead are on the board and empty; yet the policy
answers `slow_down` (its test "Check slow_down" comes first), not `change_nothing`. -/
theorem openBoard_slows_down :
    openBoard.Running = true ∧
    getPlayer openBoard.Players openBoard.You = some (mkPlayer 0 0 DirectionRight 2 0) ∧
    (∃ vis, jsFreeSpaceConnected 65 openBoard none 0 0 (JumpingSnailAIJumpAtLessThanFree + 1)
      = Outcome.done (52, vis)) ∧
    FreeCell openBoard (1, 0) ∧ FreeCell openBoard (2, 0) ∧
    JumpingSnailAI_GetState 65 true none openBoard
      = Outcome.done (Decision.answer ActionSlower) ∧
    ActionSlower ≠ ActionNOOP := by
  refine ⟨rfl, rfl, ⟨_, rfl⟩, ⟨⟨by decide, by decide, by decide, by decide⟩, rfl⟩,
    ⟨⟨by decide, by decide, by decide, by decide⟩, rfl⟩, by decide, by decide⟩

/-- C25, amended: on a running board of `Height` rows of `Width` cells whose acting
player is active and has one of the four directions, `JumpingSnailAI` (with its answer
channel set) hands the decision to the jump policy exactly when the number of the cells
that the flood fill from the player's position counts (the empty cells among the
position and its four neighbours, and the empty cells joined to them) is below 50. In
every other case, at a speed of at most 1 it hands the decision to the snail policy, and
at a speed above 1 it offers `slow_down`, `turn_left` or `turn_right`, never
`change_nothing`: `slow_down` when the `Speed - 1` cells ahead are on the board and
empty. -/
theorem JumpingSnailAI_decision (g : Game) (slice : Option (List Bool)) (you : Player)
    (dx dy : Int) (fuel : Nat) (hsz : CellsSized g.Width g.Height g.Cells)
    (hrun : g.Running = true) (hyou : getPlayer g.Players g.You = some you)
    (hact : you.Active = true) (hdir : dirVec you.Direction = some (dx, dy))
    (hfuel : (g.Height * g.Width).toNat + 1 ≤ fuel) :
    ∃ S : Finset (Int × Int), (∀ c, c ∈ S ↔ Counted g you.X you.Y c) ∧
      (JumpingSnailAI_GetState fuel true slice g = Outcome.done Decision.toJump ↔
        S.card < 50) ∧
      (50 ≤ S.card → you.Speed ≤ 1 →
        JumpingSnailAI_GetState fuel true slice g = Outcome.done Decision.toSnail) ∧
      (50 ≤ S.card → 1 < you.Speed →
        (JumpingSnailAI_GetState fuel true slice g
            = Outcome.done (Decision.answer ActionSlower) ∨
          JumpingSnailAI_GetState fuel true slice g
            = Outcome.done (Decision.answer ActionTurnLeft) ∨
          JumpingSnailAI_GetState fuel true slice g
            = Outcome.done (Decision.answer ActionTurnRight)) ∧
        JumpingSnailAI_GetState fuel true slice g
          ≠ Outcome.done (Decision.answer ActionNOOP) ∧
        ((∀ k : Nat, (k : Int) < you.Speed - 1 →
            FreeCell g (you.X + ((k : Int) + 1) * dx, you.Y + ((k : Int) + 1) * dy)) →
          JumpingSnailAI_GetState fuel true slice g
            = Outcome.done (Decision.answer ActionSlower))) := by
  obtain ⟨r, S, hr, hS, hmin⟩ := jsFreeSpaceConnected_spec g slice you.X you.Y
    (JumpingSnailAIJumpAtLessThanFree + 1) fuel hsz (by decide) hfuel
  obtain ⟨hthree, hslow⟩ := slowOrTurn_spec hsz hdir
  have hval : JumpingSnailAI_GetState fuel true slice g =
      if r.1 < JumpingSnailAIJumpAtLessThanFree then Outcome.done Decision.toJump
      else if you.Speed > 1 then slowOrTurn g you
      else Outcome.done Decision.toSnail := by
    unfold JumpingSnailAI_GetState
    simp only [hrun, hyou, hact, hr, if_false, Bool.true_eq_false]
  have hr1 : r.1 < JumpingSnailAIJumpAtLessThanFree ↔ S.card < 50 := by
    rw [hmin]
    unfold JumpingSnailAIJumpAtLessThanFree
    constructor
    · intro h
      rcases min_lt_iff.mp h with h1 | h1
      · exact_mod_cast h1
      · omega
    · intro h
      exact min_lt_iff.mpr (Or.inl (by exact_mod_cast h))
  refine ⟨S, hS, ?_, ?_, ?_⟩
  · rw [hval]
    constructor
    · intro h
      by_contra hn
      rw [if_neg (fun e => hn (hr1.mp e))] at h
      by_cases hs : you.Speed > 1
      · rw [if_pos hs] at h
        rcases hthree with e | e | e <;> rw [e] at h <;> cases h
      · rw [if_neg hs] at h
        cases h
    · intro h
      rw [if_pos (hr1.mpr h)]
  · intro h50 hs
    rw [hval, if_neg (fun e => by have := hr1.mp e; omega), if_neg (by omega)]
  · intro h50 hs
    rw [hval, if_neg (fun e => by have := hr1.mp e; omega), if_pos (by omega)]
    refine ⟨hthree, ?_, hslow⟩
    intro h
    rcases hthree with e | e | e <;> rw [e] at h <;> revert h <;> decide

set_option maxRecDepth 100000 in
/-- C25, amended, on the open 8x8 board (63 empty cells around the player, speed 2, the
cell ahead empty): the policy offers `slow_down`. -/
theorem JumpingSnailAI_decision_witness :
    JumpingSnailAI_GetState 65 true none openBoard
      = Outcome.done (Decision.answer ActionSlower) := by
  obtain ⟨S, hS, hjump, _, hfast⟩ :=
    JumpingSnailAI_decision openBoard none (mkPlayer 0 0 DirectionRight 2 0) 1 0 65
      ⟨by decide, by decide, by decide⟩ rfl rfl rfl rfl (by decide)
  have h50 : 50 ≤ S.card := by
    by_contra hlt
    have := hjump.mpr (by omega)
    revert this
    decide
  refine (hfast h50 (by decide)).2.2 ?_
  intro k hk
  have hk1 : k = 0 := by
    have : (k : Int) < 2 - 1 := hk
    omega
  subst hk1
  exact ⟨⟨by decide, by decide, by decide, by decide⟩, rfl⟩

set_option maxRecDepth 100000 in
/-- C26 at the right edge of the 8x8 board: the acting player stands at (7,0), faces
right with speed 2, and 63 empty cells are joined to its position. "Check slow_down"
fails (the cell ahead is off the board), "Check turn_left" walks down the cells (7,1)
and (7,2), finds them empty, and the policy answers `turn_left`. In the simulator
`turn_left` turns a player that faces right to up; the first cell in that direction,
(7,-1), is off the board, and the player is inactive at the end of the round. For every
direction the steps of "Check turn_left" are those of the simulator after `turn_right`,
and the steps of "Check turn_right" are those of the simulator after `turn_left`. -/
theorem jumpingSnail_checks_mirrored :
    JumpingSnailAI_GetState 65 true none edgeBoard
      = Outcome.done (Decision.answer ActionTurnLeft) ∧
    pathFree edgeBoard (dostep DirectionRight) 1 7 0 = some false ∧
    pathFree edgeBoard (stepLeftCheck DirectionRight) 2 7 0 = some true ∧
    (processAction ActionTurnLeft (mkPlayer 7 0 DirectionRight 2 0)).Direction = DirectionUp ∧
    dostep DirectionUp 7 0 = some (7, -1) ∧ ¬ InBoard edgeBoard.Width edgeBoard.Height 7 (-1) ∧
    (∃ st1 p1, stateAfter aiNoop ActionTurnLeft edgeBoard 1 = some st1 ∧
      getPlayer st1.g.Players 1 = some p1 ∧ p1.Active = false) ∧
    (∀ (d : String) (x y : Int), stepLeftCheck d x y = dostep (turnRight d) x y ∧
      stepRightCheck d x y = dostep (turnLeft d) x y) := by
  refine ⟨by rfl, rfl, rfl, rfl, rfl, by decide, ⟨_, _, rfl, rfl, rfl⟩, ?_⟩
  intro d x y
  exact ⟨stepLeftCheck_eq d x y, stepRightCheck_eq d x y⟩

/-! ## C27: termination of a rollout -/

/-- C27, as stated, fails for a speed that `Speed++` wraps around: on `wrapOwnBoard` (5x1,
player ids 1..1, player 1 on its own cell with the speed `maxInt`, which is at least 1)
with the seed speed_up, round 1 leaves player 1 active with the speed `-2^63`; with
change_nothing answered in every round the player never moves, every round ends with
player 1 active, and the loop `mainGame` does not end, whatever the fuel. -/
theorem wrapOwnBoard_never_ends :
    CellsSized wrapOwnBoard.Width wrapOwnBoard.Height wrapOwnBoard.Cells ∧
    ContiguousIds wrapOwnBoard.Players ∧
    (getPlayer wrapOwnBoard.Players wrapOwnBoard.You).isSome = true ∧
    (∀ kp ∈ wrapOwnBoard.Players, kp.2.Active = true →
      (dirVec kp.2.Direction).isSome = true ∧ 1 ≤ kp.2.Speed) ∧
    (∀ k : Nat, ∃ s, stateAfter aiNoop ActionFaster wrapOwnBoard (k + 1) = some s ∧
      playerAlive s.g.Players = true ∧ emptyCells s.g.Cells = 4) ∧
    (∀ fuel : Nat,
      mainGame aiNoop ActionFaster fuel (initState wrapOwnBoard) = Outcome.outOfFuel) ∧
    (∀ fuel : Nat, SimulateGame fuel aiNoop wrapOwnBoard ActionFaster = Outcome.outOfFuel) := by
  refine ⟨⟨by decide, by decide, by decide⟩, ⟨by decide, by decide⟩, by decide, by decide,
    ?_, wrapOwnBoard_mainGame, wrapOwnBoard_SimulateGame⟩
  intro k
  obtain ⟨c, r, s, so, pa, h⟩ := wrapOwnBoard_rounds k
  exact ⟨_, h, rfl, rfl⟩

/-- C27 (amended): on a board of the data model (cells of `Height` rows of `Width` cells,
player ids exactly `1..n` with `n ≤ 127`, `You` one of them, every active player with
one of the four directions and a speed of at least 1 and below `maxInt = 2^63 - 1`),
under every policy and every seed action, the loop `mainGame` ends (fuel for `emptyCells + 1` rounds is enough) after at
most `emptyCells + 1` rounds, and `SimulateGame` sends a record whose `round` is at most
the number of empty cells of the input board plus one. In every round on such a board
the number of empty cells does not grow, and it falls when a player is active at the
end of the round. -/
theorem rollout_terminates (ai : Policy) (g : Game) (next : String) (hv : ValidBoard g)
    (fuel : Nat) (hfuel : emptyCells g.Cells + 1 ≤ fuel) :
    (∃ fin, mainGame ai next fuel (initState g) = Outcome.done fin ∧
      fin.round ≤ (emptyCells g.Cells : Int) + 1) ∧
    (∃ r gf, SimulateGame fuel ai g next = Outcome.done (r, gf) ∧
      r.round ≤ (emptyCells g.Cells : Int) + 1) ∧
    (∀ st st1 : LoopState, ValidBoard st.g → roundBody ai next st = some st1 →
      emptyCells st1.g.Cells ≤ emptyCells st.g.Cells ∧
        (playerAlive st1.g.Players = true →
          emptyCells st1.g.Cells < emptyCells st.g.Cells)) := by
  refine ⟨?_, SimulateGame_total ai g next hv fuel hfuel, ?_⟩
  · obtain ⟨fin, hfin, hr⟩ := mainGame_terminates ai next (emptyCells g.Cells) (initState g)
      fuel hv (le_refl _) hfuel
    refine ⟨fin, hfin, ?_⟩
    simp only [initState] at hr
    omega
  · intro st st1 hvs hb
    exact round_emptyCells hb hvs.2.2.1 hvs.2.2.2.2

/-- C27 (amended) on the trivial board (five empty cells, fuel for six rounds): the
rollout sends a record with at most six rounds. -/
theorem rollout_terminates_witness :
    ∃ r gf, SimulateGame 6 aiNoop trivialBoard ActionNOOP = Outcome.done (r, gf) ∧
      r.round ≤ 6 :=
  (rollout_terminates aiNoop trivialBoard ActionNOOP
    ⟨⟨by decide, by decide, by decide⟩, ⟨by decide, by decide⟩, by decide, by decide,
      by unfold PlayersReady; decide⟩ 6 (by decide)).2.1

end SlOw
